import Mathlib

/-!
# deeb: a shallow embedding of the B-tree engine, the pager's free list, the row codec, the
query operators and the expression parser

The embedding follows `src/engine.c`, `src/pager.c`, `src/runner.c`, `src/parser.c` and
`src/typer.c` function by function.

* A page buffer (`u8 *buf`) is a natural number read as a little-endian byte string:
  byte `i` of the buffer is `(buf / 256 ^ i) % 256`.  `rd` reads a little-endian field,
  `wr` overwrites one (`memcpy` of `len` bytes).
* C pointers into a page are offsets into that page's buffer.  `Node *` values are page ids:
  every node operation loads the node from the engine state and stores it back, so two names
  of the same node (for instance a stale local variable) see each other's writes as in C.
* `ASSERT` failures (`panic`) and accesses outside a page buffer are results of their own
  (`Res.assertFail`, `Res.fault`), as is an exhausted iteration budget (`Res.outOfFuel`).
* `u16` / `u32` arithmetic is arithmetic on `Nat` with explicit `% 2 ^ 16` / `% 2 ^ 32`.
* The build that is modelled is the default one: `ASSERT` and the integrity `CHECK` are active.
* Each case of `next` in `runner.c` is a function over its operand, an `Input`: a state with the
  `next` and `reset` of the operand on it.  `s64` arithmetic is arithmetic on `Int` with
  `wrap64`.
* The parser takes the tokens of the lexer; errors of the parser and the type checker are
  results of `Front`.
-/

namespace Deeb

/-! ## Results -/

/-- Result of running engine code: a value, a failed `ASSERT` (the process panics), a memory
access outside the page buffer (undefined behaviour in C), or an exhausted iteration budget. -/
inductive Res (α : Type) where
  | ok (a : α)
  | assertFail
  | fault
  | outOfFuel
  deriving Repr, DecidableEq

namespace Res

/-- Sequencing of engine code: the first failure ends the run. -/
@[inline] def bind {α β : Type} (x : Res α) (f : α → Res β) : Res β :=
  match x with
  | ok a => f a
  | assertFail => assertFail
  | fault => fault
  | outOfFuel => outOfFuel

instance : Monad Res where
  pure := ok
  bind := bind

/-- Whether the run produced a value. -/
def isOk {α : Type} : Res α → Bool
  | ok _ => true
  | _ => false

/-- The value produced, if any. -/
def toOption {α : Type} : Res α → Option α
  | ok a => some a
  | _ => none

end Res

/-- The macro `ASSERT(cond)`. -/
@[inline] def ASSERT (c : Bool) : Res Unit := if c then .ok () else .assertFail

/-- A memory access that must stay inside a buffer. -/
@[inline] def inBounds (c : Bool) : Res Unit := if c then .ok () else .fault

/-! ## Bytes (common.h) -/

/-- The `len` bytes at offset `off` of `buf`, as a little-endian number. -/
def rd (buf off len : Nat) : Nat := (buf / 256 ^ off) % 256 ^ len

/-- The buffer `buf` with the `len` bytes at offset `off` replaced by the low `len` bytes of `v`. -/
def wr (buf off len v : Nat) : Nat :=
  buf - rd buf off len * 256 ^ off + (v % 256 ^ len) * 256 ^ off

/-- Truncation to `u16`. -/
def u16 (x : Nat) : Nat := x % 65536

/-- Truncation to `u32`. -/
def u32 (x : Nat) : Nat := x % 4294967296

/-- The `u16` value of `a - b` for `a`, `b` already reduced or not. -/
def sub16 (a b : Nat) : Nat := (a % 65536 + 65536 - b % 65536) % 65536

/-- The signed value of a 64-bit pattern (`(s64)`). -/
def toS64 (x : Nat) : Int :=
  if x % 2 ^ 64 < 2 ^ 63 then ((x % 2 ^ 64 : Nat) : Int) else ((x % 2 ^ 64 : Nat) : Int) - 2 ^ 64

/-- The 64-bit pattern of a signed value (`(u64)`). -/
def ofS64 (x : Int) : Nat := (x % 2 ^ 64).toNat

/-- A byte string as the little-endian number it denotes. -/
def bytesToNat : List Nat → Nat
  | [] => 0
  | b :: bs => b % 256 + 256 * bytesToNat bs

/-- The first `len` bytes of the little-endian number `v`. -/
def natToBytes : Nat → Nat → List Nat
  | 0, _ => []
  | len + 1, v => v % 256 :: natToBytes len (v / 256)

/-! ## Pager (pager.c): page table, reference flags and the free list

The cache is modelled without eviction (the engine keeps fewer than `CACHE_SIZE` pages), so the
cached `Node` header in the page's user buffer is the authoritative one and a page released by
`pager_delete_page` keeps the flag `F_PAGE_HAS_MUTABLE_REF` that the function does not clear. -/

/-- The struct `Node` (the parsed header kept in the page's user buffer) with its page buffer. -/
structure Node where
  flags : Nat
  cell_count : Nat
  cell_area : Nat
  cell_area_logical : Nat
  rightmost_child : Nat
  buf : Nat
  deriving Repr, DecidableEq

/-- A cache slot: the node stored in the page and the pager's bookkeeping for it. -/
structure Page where
  node : Node
  ref_count : Nat
  mutable_ref : Bool
  deriving Repr, DecidableEq

/-- The structs `BEngine` and `Pager`: page sizes, page count, free-list head and pages.
`pages[id]` is page `id`; entry 0 stands for the file header page. -/
structure BEngine where
  full_page_size : Nat
  page_count : Nat
  free_page : Nat
  pages : List Page
  deriving Repr, DecidableEq

def NODE_HEADER_SIZE : Nat := 12
def MAX_BTREE_HEIGHT : Nat := 32
def F_NODE_IS_LEAF : Nat := 1
def F_NODE_IS_FREE : Nat := 2
def F_CURSOR_SKIP_NEXT : Nat := 1
def F_CURSOR_DELETE_NODE_ON_EXIT : Nat := 2
def PAGE_SIZE : Nat := 8192

/-- Test of a flag bit (`flags & F`) for a one-bit mask `F`. -/
def hasFlag (flags F : Nat) : Bool := (flags / F) % 2 == 1

/-- Setting a flag bit (`flags |= F`). -/
def setFlag (flags F : Nat) : Nat := if hasFlag flags F then flags else flags + F

/-- Clearing a flag bit (`flags &= ~F`). -/
def clearFlag (flags F : Nat) : Nat := if hasFlag flags F then flags - F else flags

/-- The field `engine->page_size`: the page without the node header. -/
def BEngine.page_size (E : BEngine) : Nat := sub16 E.full_page_size NODE_HEADER_SIZE

def emptyNode : Node := ⟨0, 0, 0, 0, 0, 0⟩

/-- The engine right after `bengine_new` on an uninitialised file: only the header page. -/
def bengine_new (full_page_size : Nat) : BEngine :=
  { full_page_size := full_page_size, page_count := 1, free_page := 0,
    pages := [⟨emptyNode, 0, false⟩] }

/-- The cache slot of page `id`. -/
def BEngine.page (E : BEngine) (id : Nat) : Res Page :=
  match E.pages.get? id with
  | some p => .ok p
  | none => .fault

/-- The node behind a `Node *` that points into page `id`. -/
def BEngine.node (E : BEngine) (id : Nat) : Res Node := do
  let p ← E.page id
  pure p.node

def BEngine.setPage (E : BEngine) (id : Nat) (p : Page) : BEngine :=
  { E with pages := E.pages.set id p }

/-- A write through a `Node *` that points into page `id`. -/
def BEngine.setNode (E : BEngine) (id : Nat) (n : Node) : Res BEngine := do
  let p ← E.page id
  pure (E.setPage id { p with node := n })

/-- `pager_alloc_page`: reuse the head of the free list or extend the file. The page comes back
with one mutable reference. -/
def pager_alloc_page (E : BEngine) : Res (BEngine × Nat) :=
  if E.free_page ≠ 0 then do
    let p ← E.page E.free_page
    let next := rd p.node.buf (E.full_page_size - 4) 4
    let E1 := E.setPage E.free_page ⟨{ emptyNode with buf := p.node.buf }, 1, true⟩
    pure ({ E1 with free_page := next }, E.free_page)
  else
    let id := E.page_count
    pure ({ E with page_count := u32 (E.page_count + 1),
                   pages := E.pages ++ [⟨emptyNode, 1, true⟩] }, id)

/-- `pager_get_page_mutable`: `none` stands for the `NULL` result. -/
def pager_get_page_mutable (E : BEngine) (id : Nat) : Res (Option BEngine) := do
  ASSERT (id != 0)
  ASSERT (id < E.page_count)
  let p ← E.page id
  if p.mutable_ref then pure none
  else if p.ref_count + 1 != 1 then pure none
  else pure (some (E.setPage id { p with ref_count := 1, mutable_ref := true }))

/-- `pager_unref_page`. -/
def pager_unref_page (E : BEngine) (id : Nat) : Res BEngine := do
  let p ← E.page id
  ASSERT (p.ref_count > 0)
  pure (E.setPage id { p with ref_count := p.ref_count - 1, mutable_ref := false })

/-- `pager_delete_page`: push the page on the free list; `false` when it has other references.
The mutable flag of the page is left as it is. -/
def pager_delete_page (E : BEngine) (id : Nat) : Res (BEngine × Bool) := do
  let p ← E.page id
  if p.ref_count != 1 then pure (E, false)
  else
    let buf := wr p.node.buf (E.full_page_size - 4) 4 E.free_page
    let E1 := E.setPage id { p with node := { p.node with buf := buf }, ref_count := 0 }
    pure ({ E1 with free_page := id }, true)

/-! ## Key types (engine.c, "Engine specific type functions") -/

/-- The three key types `btype_int`, `btype_bool`, `btype_str`. -/
inductive BType where
  | int
  | bool
  | str
  deriving Repr, DecidableEq

/-- The struct `BTree`. -/
structure BTree where
  type : BType
  root : Nat
  deriving Repr, DecidableEq

/-- An unresolved key (`UKey`): the `s64`, the `u8` or the `String` the pointer refers to. -/
inductive UKey where
  | int (v : Int)
  | bool (b : Nat)
  | str (s : List Nat)
  deriving Repr, DecidableEq

/-- A `Key` pointer: into the buffer of page `id` at offset `off`, or to a copy of the key bytes
made by `mem_copy` into the key saver (`len` bytes, little-endian in `bytes`). -/
inductive Key where
  | page (id off : Nat)
  | mem (bytes len : Nat)
  deriving Repr, DecidableEq

/-- A `Val` pointer handed to the engine: the memory it points to, as a little-endian number. -/
abbrev Val := Nat

/-- Read `len` bytes at offset `off` of the buffer of node `n`. -/
def Node.read (E : BEngine) (n : Node) (off len : Nat) : Res Nat := do
  inBounds (off + len ≤ E.full_page_size)
  pure (rd n.buf off len)

/-- Write the low `len` bytes of `v` at offset `off` of the buffer of node `n`. -/
def Node.write (E : BEngine) (n : Node) (off len v : Nat) : Res Node := do
  inBounds (off + len ≤ E.full_page_size)
  pure { n with buf := wr n.buf off len v }

/-- Read `len` bytes at offset `off` from where the key pointer points. -/
def Key.read (E : BEngine) (k : Key) (off len : Nat) : Res Nat :=
  match k with
  | .page id o => do
    let n ← E.node id
    n.read E (o + off) len
  | .mem bytes l => do
    inBounds (off + len ≤ l)
    pure (rd bytes off len)

/-- The function `sizeof_val`: 4 plus the little-endian `u32` at the pointer. -/
def sizeof_val (v : Val) : Nat := u32 (4 + rd v 0 4)

/-- The functions `int_sizeof_key`, `bool_sizeof_key`, `str_sizeof_key`. -/
def sizeof_key (E : BEngine) (t : BType) (k : Key) : Res Nat :=
  match t with
  | .int => pure 8
  | .bool => pure 1
  | .str => do
    let c ← k.read E 0 4
    pure (u32 (4 + c))

/-- The functions `int_sizeof_ukey`, `bool_sizeof_ukey`, `str_sizeof_ukey`. -/
def sizeof_ukey (t : BType) (k : UKey) : Nat :=
  match t, k with
  | .int, _ => 8
  | .bool, _ => 1
  | .str, .str s => u32 (4 + s.length)
  | .str, _ => 4

/-- The bytes that `serialize_key` writes for an unresolved key (`sizeof_ukey` of them). -/
def serialize_key (t : BType) (k : UKey) : Nat :=
  match t, k with
  | .int, .int v => ofS64 v
  | .bool, .bool b => b % 256
  | .str, .str s => u32 s.length + 4294967296 * bytesToNat s
  | _, _ => 0

/-- The three-way comparison written out in `int_key_cmp` and `bool_key_cmp`. -/
def cmp3 (a b : Int) : Int := if a < b then -1 else if a = b then 0 else 1

/-- The function `strncmp` on two byte strings, for at most `n` bytes. The C standard fixes the
sign of the result only; the value is the one glibc returns, the difference of the first two
bytes that differ, taken as `unsigned char`. -/
def strncmp : List Nat → List Nat → Nat → Int
  | _, _, 0 => 0
  | a :: as, b :: bs, n + 1 =>
    if a ≠ b then (a : Int) - (b : Int)
    else if a = 0 then 0
    else strncmp as bs n
  | _, _, _ + 1 => 0

/-- The functions `int_key_cmp`, `bool_key_cmp`, `str_key_cmp`: unresolved key against a key
stored in a cell. -/
def key_cmp (E : BEngine) (t : BType) (u : UKey) (k : Key) : Res Int :=
  match t, u with
  | .int, .int v => do
    let x ← k.read E 0 8
    pure (cmp3 v (toS64 x))
  | .bool, .bool b => do
    let x ← k.read E 0 1
    pure (cmp3 (b % 256 : Nat) (x : Nat))
  | .str, .str s => do
    let c ← k.read E 0 4
    let m := min (u32 s.length) c
    let d ← k.read E 4 m
    pure (strncmp s (natToBytes m d) m)
  | _, _ => .fault

/-- The functions `int_key_cmp2`, `bool_key_cmp2`, `str_key_cmp2`: two stored keys. -/
def key_cmp2 (E : BEngine) (t : BType) (k1 k2 : Key) : Res Int :=
  match t with
  | .int => do
    let x ← k1.read E 0 8
    let y ← k2.read E 0 8
    pure (cmp3 (toS64 x) (toS64 y))
  | .bool => do
    let x ← k1.read E 0 1
    let y ← k2.read E 0 1
    pure (cmp3 (x : Nat) (y : Nat))
  | .str => do
    let c1 ← k1.read E 0 4
    let c2 ← k2.read E 0 4
    let m := min c1 c2
    let d1 ← k1.read E 4 m
    let d2 ← k2.read E 4 m
    pure (strncmp (natToBytes m d1) (natToBytes m d2) m)

/-! ## Nodes (engine.c): the slotted page -/

def node_is_leaf (n : Node) : Bool := hasFlag n.flags F_NODE_IS_LEAF

def node_is_inner (n : Node) : Bool := !hasFlag n.flags F_NODE_IS_LEAF

/-- `cell_get_child`: the page id in the first four bytes of an inner cell. -/
def cell_get_child (E : BEngine) (n : Node) (cell : Nat) : Res Nat := n.read E cell 4

/-- `cell_get_key`: offset of the key inside the page of the node. -/
def cell_get_key (cell : Nat) (n : Node) : Nat := if node_is_inner n then cell + 4 else cell

/-- `cell_get_val`: offset of the value of a leaf cell. -/
def cell_get_val (E : BEngine) (tree : BTree) (id cell : Nat) : Res Nat := do
  let n ← E.node id
  ASSERT (node_is_leaf n)
  let ks ← sizeof_key E tree.type (.page id cell)
  pure (cell + ks)

/-- `cell_get_size`: key size plus the child pointer (inner) or the value size (leaf), as `u16`. -/
def cell_get_size (E : BEngine) (tree : BTree) (id cell : Nat) : Res Nat := do
  let n ← E.node id
  let ks ← sizeof_key E tree.type (.page id (cell_get_key cell n))
  let key_size := u16 ks
  if node_is_inner n then pure (u16 (key_size + 4))
  else do
    let l ← n.read E (cell + key_size) 4
    pure (u16 (key_size + u32 (4 + l)))

/-- `node_reset`. -/
def node_reset (E : BEngine) (n : Node) : Node :=
  { n with flags := 0, cell_count := 0, cell_area := E.full_page_size,
           cell_area_logical := E.full_page_size, rightmost_child := 0 }

/-- `node_serialize_header`. -/
def node_serialize_header (n : Node) : Node :=
  { n with buf := wr (wr (wr (wr (wr n.buf 0 2 n.flags) 2 2 n.cell_count) 4 2 n.cell_area)
                    6 2 n.cell_area_logical) 8 4 n.rightmost_child }

/-- `node_from_page_id`: take a mutable reference to the page; the node is the cached header. -/
def node_from_page_id (E : BEngine) (id : Nat) : Res BEngine := do
  let r ← pager_get_page_mutable E id
  match r with
  | none => .assertFail
  | some E1 => do
    let n ← E1.node id
    ASSERT (!hasFlag n.flags F_NODE_IS_FREE)
    pure E1

/-- `node_new`: a fresh page holding an empty node with the given flags. -/
def node_new (E : BEngine) (flags : Nat) : Res (BEngine × Nat) := do
  let (E1, id) ← pager_alloc_page E
  let n ← E1.node id
  let n1 := node_serialize_header { node_reset E1 n with flags := flags }
  let E2 ← E1.setNode id n1
  pure (E2, id)

/-- `node_unref`: `pager_is_page_mutable` is `flags | F`, which is never zero, so the header is
always serialised before the reference is dropped. -/
def node_unref (E : BEngine) (id : Nat) : Res BEngine := do
  let n ← E.node id
  let E1 ← E.setNode id (node_serialize_header n)
  pager_unref_page E1 id

/-- `node_delete`. -/
def node_delete (E : BEngine) (id : Nat) : Res BEngine := do
  let n ← E.node id
  let E1 ← E.setNode id { n with flags := setFlag n.flags F_NODE_IS_FREE }
  let (E2, success) ← pager_delete_page E1 id
  ASSERT success
  pure E2

def node_get_cell_idx_ptr (idx : Nat) : Nat := NODE_HEADER_SIZE + 2 * idx

/-- `node_get_cell`: the offset stored in slot `idx`. -/
def node_get_cell (E : BEngine) (n : Node) (idx : Nat) : Res Nat := do
  ASSERT (idx < n.cell_count)
  n.read E (node_get_cell_idx_ptr idx) 2

/-- `node_get_child`: reference the child behind slot `idx` (`cell_count` is the rightmost). -/
def node_get_child (E : BEngine) (id idx : Nat) : Res (BEngine × Nat) := do
  let n ← E.node id
  ASSERT (idx ≤ n.cell_count)
  ASSERT (node_is_inner n)
  if idx < n.cell_count then do
    let cell ← node_get_cell E n idx
    let child ← cell_get_child E n cell
    let E1 ← node_from_page_id E child
    pure (E1, child)
  else do
    let E1 ← node_from_page_id E n.rightmost_child
    pure (E1, n.rightmost_child)

/-- `node_copy`: header and page bytes of `src` into `dst`. -/
def node_copy (E : BEngine) (dst src : Nat) : Res BEngine := do
  let f ← E.node src
  let t ← E.node dst
  E.setNode dst { f with buf := wr t.buf 0 E.full_page_size f.buf }

def node_get_free_space (n : Node) : Nat :=
  sub16 (sub16 n.cell_area NODE_HEADER_SIZE) (2 * n.cell_count)

def node_get_logical_free_space (n : Node) : Nat :=
  sub16 (sub16 n.cell_area_logical NODE_HEADER_SIZE) (2 * n.cell_count)

def node_can_fit_cell (n : Node) (cell_size : Nat) : Bool :=
  cell_size + 2 ≤ node_get_logical_free_space n

/-- The loop of `CHECK`: subtract the size of every cell from the running offset. -/
def CHECK_loop (E : BEngine) (tree : BTree) (id : Nat) : Nat → Nat → Nat → Res Nat
  | 0, _, offset => pure offset
  | k + 1, idx, offset => do
    let n ← E.node id
    let cell ← node_get_cell E n idx
    let sz ← cell_get_size E tree id cell
    CHECK_loop E tree id k (idx + 1) (sub16 offset sz)

/-- The integrity check `CHECK` (active unless `RELEASE_BUILD`): the cell sizes add up to the
logical cell area. -/
def CHECK (E : BEngine) (tree : BTree) (id : Nat) : Res Unit := do
  let n ← E.node id
  let offset ← CHECK_loop E tree id n.cell_count 0 (u16 E.full_page_size)
  ASSERT (offset == n.cell_area_logical)

/-- The loop of `node_defragment`: copy each cell to the scratch page, rewrite its slot. -/
def node_defragment_loop (tree : BTree) (id : Nat) :
    Nat → Nat → BEngine → Nat → Nat → Res (BEngine × Nat × Nat)
  | 0, _, E, offset, scratch => pure (E, offset, scratch)
  | k + 1, idx, E, offset, scratch => do
    let n ← E.node id
    let cell ← node_get_cell E n idx
    let cell_size ← cell_get_size E tree id cell
    let offset1 := sub16 offset cell_size
    let bytes ← n.read E cell cell_size
    inBounds (offset1 + cell_size ≤ E.full_page_size)
    let scratch1 := wr scratch offset1 cell_size bytes
    let n1 ← n.write E (node_get_cell_idx_ptr idx) 2 offset1
    let E1 ← E.setNode id n1
    node_defragment_loop tree id k (idx + 1) E1 offset1 scratch1

/-- `node_defragment`. A node without cells is returned as it is. -/
def node_defragment (E : BEngine) (tree : BTree) (id : Nat) : Res BEngine := do
  let n ← E.node id
  if n.cell_count == 0 then pure E
  else do
    let (E1, offset, scratch) ←
      node_defragment_loop tree id n.cell_count 0 E (u16 E.full_page_size) 0
    let n1 ← E1.node id
    let n2 ← n1.write E1 offset (E1.full_page_size - offset)
               (rd scratch offset (E1.full_page_size - offset))
    ASSERT (offset == n2.cell_area_logical)
    let E2 ← E1.setNode id { n2 with cell_area := offset }
    CHECK E2 tree id
    pure E2

/-- `node_alloc_cell`: reserve `size` bytes below the cell area; the result is the offset of
the new cell. -/
def node_alloc_cell (E : BEngine) (tree : BTree) (id size : Nat) : Res (BEngine × Nat) := do
  let size := u16 size
  let n ← E.node id
  ASSERT (node_can_fit_cell n size)
  let E1 ← if size + 2 > node_get_free_space n then node_defragment E tree id else pure E
  let n1 ← E1.node id
  let n2 := { n1 with cell_area := sub16 n1.cell_area size,
                      cell_area_logical := sub16 n1.cell_area_logical size }
  let E2 ← E1.setNode id n2
  pure (E2, n2.cell_area)

/-- `node_add_cell_pointer`: insert `offset` at slot `idx`, shifting the later slots. -/
def node_add_cell_pointer (E : BEngine) (id idx offset : Nat) : Res BEngine := do
  let n ← E.node id
  let idx_ptr := node_get_cell_idx_ptr idx
  inBounds (idx ≤ n.cell_count)
  let len := 2 * (n.cell_count - idx)
  inBounds (idx_ptr + 2 + len ≤ E.full_page_size)
  let n1 := { n with buf := wr n.buf (idx_ptr + 2) len (rd n.buf idx_ptr len) }
  let n2 ← n1.write E idx_ptr 2 offset
  E.setNode id { n2 with cell_count := u16 (n2.cell_count + 1) }

/-- `node_add_cell`. -/
def node_add_cell (E : BEngine) (tree : BTree) (id idx size : Nat) : Res (BEngine × Nat) := do
  let (E1, cell) ← node_alloc_cell E tree id size
  let E2 ← node_add_cell_pointer E1 id (u16 idx) (u16 cell)
  pure (E2, cell)

/-- `node_free_cell`: give `size` bytes back; the cell area moves only for the topmost cell. -/
def node_free_cell (n : Node) (cell size : Nat) : Node :=
  let n1 := { n with cell_area_logical := u16 (n.cell_area_logical + size) }
  if cell == n1.cell_area then { n1 with cell_area := u16 (n1.cell_area + size) } else n1

/-- `node_delete_cell`. -/
def node_delete_cell (E : BEngine) (tree : BTree) (id idx : Nat) : Res BEngine := do
  let idx := u16 idx
  let n ← E.node id
  let cell ← node_get_cell E n idx
  let size ← cell_get_size E tree id cell
  let n1 := node_free_cell n cell size
  let idx_ptr := node_get_cell_idx_ptr idx
  let len := 2 * (n1.cell_count - idx - 1)
  inBounds (idx_ptr + 2 + len ≤ E.full_page_size)
  let n2 := { n1 with buf := wr n1.buf idx_ptr len (rd n1.buf (idx_ptr + 2) len) }
  let E1 ← E.setNode id { n2 with cell_count := sub16 n2.cell_count 1 }
  CHECK E1 tree id
  pure E1

/-- `node_add_inner_cell`: a cell `(child, key)` at slot `idx` of an inner node. -/
def node_add_inner_cell (E : BEngine) (tree : BTree) (id idx : Nat) (key : Key) (child : Nat) :
    Res BEngine := do
  let n ← E.node id
  ASSERT (node_is_inner n)
  let ks ← sizeof_key E tree.type key
  let key_size := u16 ks
  let (E1, new_cell) ← node_alloc_cell E tree id (4 + key_size)
  let n1 ← E1.node id
  let n2 ← n1.write E1 new_cell 4 child
  let E2 ← E1.setNode id n2
  let kb ← key.read E2 0 key_size
  let n3 ← n2.write E2 (new_cell + 4) key_size kb
  let E3 ← E2.setNode id n3
  let E4 ← node_add_cell_pointer E3 id (u16 idx) (u16 new_cell)
  CHECK E4 tree id
  pure E4

/-- The loop of `node_move_cells_left` over the cells of `right` (`cnt` cells remain to be
visited, `left_idx_array` is where the next slot of `left` is written). -/
def node_move_cells_left_loop (tree : BTree) (left right n : Nat) :
    Nat → Nat → BEngine → Nat → Res BEngine
  | 0, _, E, _ => pure E
  | k + 1, idx, E, left_idx_array => do
    let r ← E.node right
    let cell ← node_get_cell E r idx
    if idx == n then pure E
    else do
      let cell_size ← cell_get_size E tree right cell
      let (E1, left_cell) ← node_alloc_cell E tree left cell_size
      let r1 ← E1.node right
      let bytes ← r1.read E1 cell cell_size
      let l1 ← E1.node left
      let l2 ← l1.write E1 left_cell cell_size bytes
      let l3 ← l2.write E1 left_idx_array 2 left_cell
      let E2 ← E1.setNode left l3
      let r2 ← E2.node right
      let E3 ← E2.setNode right (node_free_cell r2 cell cell_size)
      node_move_cells_left_loop tree left right n k (idx + 1) E3 (left_idx_array + 2)

/-- `node_move_cells_left`: the first `n` cells of `right` go to the end of `left`. -/
def node_move_cells_left (E : BEngine) (tree : BTree) (left right n : Nat) : Res BEngine := do
  let n := u16 n
  let r ← E.node right
  let l ← E.node left
  ASSERT (n ≤ r.cell_count)
  if n == 0 then pure E
  else do
    let E1 ← node_move_cells_left_loop tree left right n r.cell_count 0 E
               (node_get_cell_idx_ptr l.cell_count)
    let r1 ← E1.node right
    let len := 2 * (r1.cell_count - n)
    inBounds (n ≤ r1.cell_count)
    inBounds (node_get_cell_idx_ptr 0 + 2 * n + len ≤ E1.full_page_size)
    let r2 := { r1 with buf := wr r1.buf (node_get_cell_idx_ptr 0) len
                                 (rd r1.buf (node_get_cell_idx_ptr 0 + 2 * n) len) }
    let E2 ← E1.setNode right r2
    let l1 ← E2.node left
    let E3 ← E2.setNode left { l1 with cell_count := u16 (l1.cell_count + n) }
    let r3 ← E3.node right
    let E4 ← E3.setNode right { r3 with cell_count := sub16 r3.cell_count n }
    CHECK E4 tree left
    CHECK E4 tree right
    pure E4

/-- The loop of `node_move_cells_right` over the last cells of `left`. -/
def node_move_cells_right_loop (tree : BTree) (left right : Nat) :
    Nat → Nat → BEngine → Nat → Res BEngine
  | 0, _, E, _ => pure E
  | k + 1, idx, E, right_idx => do
    let l ← E.node left
    let cell ← node_get_cell E l idx
    let cell_size ← cell_get_size E tree left cell
    let (E1, right_cell) ← node_alloc_cell E tree right cell_size
    let l1 ← E1.node left
    let bytes ← l1.read E1 cell cell_size
    let r1 ← E1.node right
    let r2 ← r1.write E1 right_cell cell_size bytes
    let r3 ← r2.write E1 right_idx 2 right_cell
    let E2 ← E1.setNode right { r3 with cell_count := u16 (r3.cell_count + 1) }
    let l2 ← E2.node left
    let E3 ← E2.setNode left (node_free_cell l2 cell cell_size)
    node_move_cells_right_loop tree left right k (idx + 1) E3 (right_idx + 2)

/-- `node_move_cells_right`: the last `n` cells of `left` go to the front of `right`
(appended first, then the two halves of the slot array are swapped). -/
def node_move_cells_right (E : BEngine) (tree : BTree) (left right n : Nat) : Res BEngine := do
  let n := u16 n
  let l ← E.node left
  let r ← E.node right
  ASSERT (n ≤ l.cell_count)
  if n == 0 then pure E
  else do
    let old_right_cell_count := r.cell_count
    let E1 ← node_move_cells_right_loop tree left right n (l.cell_count - n) E
               (node_get_cell_idx_ptr r.cell_count)
    let l1 ← E1.node left
    let E2 ← E1.setNode left { l1 with cell_count := sub16 l1.cell_count n }
    let l2 ← E2.node left
    let r2 ← E2.node right
    let L := node_get_cell_idx_ptr l2.cell_count
    let R := node_get_cell_idx_ptr 0
    let moved ← r2.read E2 (R + 2 * old_right_cell_count) (2 * n)
    let l3 ← l2.write E2 L (2 * n) moved
    let old ← r2.read E2 R (2 * old_right_cell_count)
    let r3 ← r2.write E2 (R + 2 * n) (2 * old_right_cell_count) old
    let tmp ← l3.read E2 L (2 * n)
    let r4 ← r3.write E2 R (2 * n) tmp
    let E3 ← E2.setNode left l3
    let E4 ← E3.setNode right r4
    CHECK E4 tree left
    CHECK E4 tree right
    pure E4

/-! ## Cursors (engine.c) -/

/-- The struct `BCursor`: flags and the path from the root; the head of `path` is the entry
`path_len - 1`, a pair of the node (its page id) and the cell index. -/
structure BCursor where
  flags : Nat
  path : List (Nat × Nat)
  deriving Repr, DecidableEq

/-- `bcursor_new`. -/
def bcursor_new : BCursor := ⟨0, []⟩

/-- `cursor_node`: `none` stands for `NULL`. -/
def cursor_node (C : BCursor) : Option Nat := C.path.head?.map Prod.fst

/-- The node a cursor with a non-empty path is in; dereferencing `NULL` is a fault. -/
def cursor_node_deref (C : BCursor) : Res Nat :=
  match C.path with
  | (id, _) :: _ => pure id
  | [] => .fault

/-- `cursor_idx`. -/
def cursor_idx (C : BCursor) : Res Nat :=
  match C.path with
  | (_, idx) :: _ => pure idx
  | [] => .assertFail

/-- `cursor_prev_cell`. -/
def cursor_prev_cell (C : BCursor) : Res BCursor :=
  match C.path with
  | (id, idx) :: rest => pure { C with path := (id, sub16 idx 1) :: rest }
  | [] => .assertFail

/-- `cursor_next_cell`. -/
def cursor_next_cell (C : BCursor) : Res BCursor :=
  match C.path with
  | (id, idx) :: rest => pure { C with path := (id, u16 (idx + 1)) :: rest }
  | [] => .fault

/-- The assignment `cursor->path_cells[cursor->path_len - 1] = idx`. -/
def cursor_set_idx (C : BCursor) (idx : Nat) : Res BCursor :=
  match C.path with
  | (id, _) :: rest => pure { C with path := (id, u16 idx) :: rest }
  | [] => .fault

/-- `cursor_try_get_left_sibling`: `none` stands for `NULL`. -/
def cursor_try_get_left_sibling (E : BEngine) (C : BCursor) : Res (BEngine × Option Nat) :=
  match C.path with
  | _ :: (parent, cell_idx) :: _ =>
    if cell_idx == 0 then pure (E, none)
    else do
      let (E1, c) ← node_get_child E parent (sub16 cell_idx 1)
      pure (E1, some c)
  | _ => pure (E, none)

/-- `cursor_try_get_right_sibling`: `none` stands for `NULL`. -/
def cursor_try_get_right_sibling (E : BEngine) (C : BCursor) : Res (BEngine × Option Nat) :=
  match C.path with
  | _ :: (parent, cell_idx) :: _ => do
    let p ← E.node parent
    if cell_idx == p.cell_count then pure (E, none)
    else do
      let (E1, c) ← node_get_child E parent (u16 (cell_idx + 1))
      pure (E1, some c)
  | _ => pure (E, none)

/-- `cursor_pop_get`: the popped node and its cell index. -/
def cursor_pop_get (C : BCursor) : Res (BCursor × Nat × Nat) :=
  match C.path with
  | (id, idx) :: rest => pure ({ C with path := rest }, id, idx)
  | [] => .assertFail

/-- `cursor_pop`. -/
def cursor_pop (C : BCursor) : BCursor := { C with path := C.path.tail }

/-- `cursor_pop_unref`. -/
def cursor_pop_unref (E : BEngine) (C : BCursor) : Res (BEngine × BCursor) :=
  match C.path with
  | (id, _) :: rest => do
    let E1 ← node_unref E id
    pure (E1, { C with path := rest })
  | [] => pure (E, C)

/-- The loop of `bcursor_reset`. -/
def bcursor_reset_loop (E : BEngine) (flags : Nat) : List (Nat × Nat) → Res (BEngine × BCursor)
  | [] => pure (E, ⟨flags, []⟩)
  | (id, _) :: rest => do
    let E1 ← node_unref E id
    bcursor_reset_loop E1 flags rest

/-- `bcursor_reset`: clear the flags and drop every node of the path. -/
def bcursor_reset (E : BEngine) (C : BCursor) : Res (BEngine × BCursor) :=
  bcursor_reset_loop E 0 C.path

/-- `cursor_push`. -/
def cursor_push (C : BCursor) (node cell_idx : Nat) : Res BCursor := do
  ASSERT (C.path.length < MAX_BTREE_HEIGHT)
  pure { C with path := (node, u16 cell_idx) :: C.path }

/-- The loop `while (1)` of `cursor_goto_leftmost_leaf`; every round pushes a node, so 33
rounds cannot pass the assertion of `cursor_push`. -/
def cursor_goto_leftmost_leaf_loop : Nat → BEngine → BCursor → Res (BEngine × BCursor)
  | 0, _, _ => .assertFail
  | k + 1, E, C => do
    let id ← cursor_node_deref C
    let n ← E.node id
    if node_is_leaf n then pure (E, C)
    else do
      let idx ← cursor_idx C
      let (E1, child) ← node_get_child E id idx
      let C1 ← cursor_push C child 0
      cursor_goto_leftmost_leaf_loop k E1 C1

/-- `cursor_goto_leftmost_leaf`. -/
def cursor_goto_leftmost_leaf (E : BEngine) (C : BCursor) : Res (BEngine × BCursor) :=
  cursor_goto_leftmost_leaf_loop (MAX_BTREE_HEIGHT + 1) E C

/-- The loop `while (1)` in the last branch of `bcursor_goto_next`. -/
def bcursor_goto_next_loop : Nat → BEngine → BCursor → Res (BEngine × BCursor × Bool)
  | 0, _, _ => .outOfFuel
  | k + 1, E, C => do
    let (E1, C1) ← cursor_pop_unref E C
    if C1.path.length == 0 then pure (E1, C1, false)
    else do
      let idx ← cursor_idx C1
      let id ← cursor_node_deref C1
      let n ← E1.node id
      if idx < n.cell_count then do
        let C2 ← cursor_next_cell C1
        let (E2, C3) ← cursor_goto_leftmost_leaf E1 C2
        let id3 ← cursor_node_deref C3
        let n3 ← E2.node id3
        if n3.cell_count != 0 then pure (E2, C3, true)
        else bcursor_goto_next_loop k E2 C3
      else bcursor_goto_next_loop k E1 C1

/-- `bcursor_goto_next`. The budget of the loop is `fuel`. -/
def bcursor_goto_next (fuel : Nat) (E : BEngine) (C : BCursor) : Res (BEngine × BCursor × Bool) :=
  if hasFlag C.flags F_CURSOR_SKIP_NEXT then do
    let id ← (match cursor_node C with | some id => pure id | none => Res.assertFail)
    let n ← E.node id
    ASSERT (node_is_leaf n)
    let idx ← cursor_idx C
    ASSERT (idx < n.cell_count)
    pure (E, { C with flags := clearFlag C.flags F_CURSOR_SKIP_NEXT }, true)
  else
    match cursor_node C with
    | none => pure (E, C, false)
    | some id => do
      let n ← E.node id
      if node_is_inner n then pure (E, C, false)
      else do
        let idx ← cursor_idx C
        if idx + 1 < n.cell_count then do
          let C1 ← cursor_next_cell C
          pure (E, C1, true)
        else bcursor_goto_next_loop fuel E C

/-- The loop of `bcursor_goto_first`: push the leftmost spine. -/
def bcursor_goto_first_loop : Nat → BEngine → BCursor → Nat → Res (BEngine × BCursor × Bool)
  | 0, _, _, _ => .assertFail
  | k + 1, E, C, node => do
    let C1 ← cursor_push C node 0
    let n ← E.node node
    if node_is_leaf n then pure (E, C1, decide (n.cell_count > 0))
    else do
      let (E1, child) ← node_get_child E node 0
      bcursor_goto_first_loop k E1 C1 child

/-- `bcursor_goto_first`. -/
def bcursor_goto_first (E : BEngine) (tree : BTree) (C : BCursor) :
    Res (BEngine × BCursor × Bool) := do
  let (E1, C1) ← bcursor_reset E C
  let E2 ← node_from_page_id E1 tree.root
  bcursor_goto_first_loop (MAX_BTREE_HEIGHT + 1) E2 C1 tree.root

/-- The `cell_iter` of `cursor_goto_key`: the first cell at index `idx` or later whose key is
not below the searched key (`cmp < 1`), with the result of the comparison. -/
def cursor_goto_key_scan (E : BEngine) (cmp : BEngine → Key → Res Int) (id : Nat) :
    Nat → Nat → Res (Option (Nat × Nat × Int))
  | 0, _ => pure none
  | k + 1, idx => do
    let n ← E.node id
    let cell ← node_get_cell E n idx
    let c ← cmp E (.page id (cell_get_key cell n))
    if c < 1 then pure (some (idx, cell, c))
    else cursor_goto_key_scan E cmp id k (idx + 1)

/-- The label `repeat:` of `cursor_goto_key`; every round pushes a node. -/
def cursor_goto_key_loop (cmp : BEngine → Key → Res Int) :
    Nat → BEngine → BCursor → Nat → Res (BEngine × BCursor × Bool)
  | 0, _, _, _ => .assertFail
  | k + 1, E, C, node => do
    let n ← E.node node
    let hit ← cursor_goto_key_scan E cmp node n.cell_count 0
    if node_is_inner n then
      match hit with
      | some (idx, cell, _) => do
        let C1 ← cursor_push C node idx
        let child ← cell_get_child E n cell
        let E1 ← node_from_page_id E child
        cursor_goto_key_loop cmp k E1 C1 child
      | none => do
        let C1 ← cursor_push C node n.cell_count
        let E1 ← node_from_page_id E n.rightmost_child
        cursor_goto_key_loop cmp k E1 C1 n.rightmost_child
    else
      match hit with
      | some (idx, _, c) => do
        let C1 ← cursor_push C node idx
        pure (E, C1, decide (c = 0))
      | none => do
        let C1 ← cursor_push C node n.cell_count
        pure (E, C1, false)

/-- The macro `cursor_goto_key`. -/
def cursor_goto_key (E : BEngine) (tree : BTree) (C : BCursor) (cmp : BEngine → Key → Res Int) :
    Res (BEngine × BCursor × Bool) := do
  let (E1, C1) ← bcursor_reset E C
  let E2 ← node_from_page_id E1 tree.root
  cursor_goto_key_loop cmp (MAX_BTREE_HEIGHT + 1) E2 C1 tree.root

/-- `bcursor_goto_ukey`. -/
def bcursor_goto_ukey (E : BEngine) (tree : BTree) (C : BCursor) (key : UKey) :
    Res (BEngine × BCursor × Bool) :=
  cursor_goto_key E tree C (fun E1 k => key_cmp E1 tree.type key k)

/-- `bcursor_goto_key`. -/
def bcursor_goto_key (E : BEngine) (tree : BTree) (C : BCursor) (key : Key) :
    Res (BEngine × BCursor × Bool) :=
  cursor_goto_key E tree C (fun E1 k => key_cmp2 E1 tree.type key k)

/-- `bcursor_read`: the memory from the value pointer to the end of the page. -/
def bcursor_read (E : BEngine) (tree : BTree) (C : BCursor) : Res Val := do
  let id ← cursor_node_deref C
  let n ← E.node id
  let idx ← cursor_idx C
  let cell ← node_get_cell E n idx
  let v ← cell_get_val E tree id cell
  inBounds (v ≤ E.full_page_size)
  pure (rd n.buf v (E.full_page_size - v))

/-! ## Rotation, `node_ensure_cell_space` and `split_node` (engine.c)

These functions call each other; the first argument is the budget of nested calls and loop
rounds. -/

/-- The `cell_iter` of `node_try_rotate_bytes_left`: count cells and bytes from the front of
the node until `min_bytes_to_rotate` is reached. -/
def rotate_scan_left (E : BEngine) (tree : BTree) (id min_bytes_to_rotate : Nat) :
    Nat → Nat → Nat → Nat → Res (Nat × Nat)
  | 0, _, cells, bytes => pure (cells, bytes)
  | k + 1, idx, cells, bytes => do
    let n ← E.node id
    let cell ← node_get_cell E n idx
    let size ← cell_get_size E tree id cell
    let cells1 := u16 (cells + 1)
    let bytes1 := u16 (bytes + (2 + size))
    if bytes1 ≥ min_bytes_to_rotate then pure (cells1, bytes1)
    else rotate_scan_left E tree id min_bytes_to_rotate k (idx + 1) cells1 bytes1

/-- The `cell_iter_reverse` of `node_try_rotate_bytes_right`: the same count from the back;
the first argument is the number of cells not yet visited, the cell visited is the last of
them. -/
def rotate_scan_right (E : BEngine) (tree : BTree) (id min_bytes_to_rotate : Nat) :
    Nat → Nat → Nat → Res (Nat × Nat)
  | 0, cells, bytes => pure (cells, bytes)
  | k + 1, cells, bytes => do
    let n ← E.node id
    let cell ← node_get_cell E n k
    let size ← cell_get_size E tree id cell
    let cells1 := u16 (cells + 1)
    let bytes1 := u16 (bytes + (2 + size))
    if bytes1 ≥ min_bytes_to_rotate then pure (cells1, bytes1)
    else rotate_scan_right E tree id min_bytes_to_rotate k cells1 bytes1

/-- The `cell_iter` of `split_node`: the number of leading cells whose accumulated sizes stay
below half a page. -/
def split_scan (E : BEngine) (tree : BTree) (id half : Nat) : Nat → Nat → Nat → Nat → Res Nat
  | 0, _, _, n_cells_to_move => pure n_cells_to_move
  | k + 1, idx, total, n_cells_to_move => do
    let n ← E.node id
    let cell ← node_get_cell E n idx
    let size ← cell_get_size E tree id cell
    let total1 := u16 (total + size)
    if total1 ≥ half then pure n_cells_to_move
    else split_scan E tree id half k (idx + 1) total1 (u16 (n_cells_to_move + 1))

/-- The assignment `cursor->path_nodes[cursor->path_len - 1] = node`. -/
def cursor_set_node (C : BCursor) (node : Nat) : Res BCursor :=
  match C.path with
  | (_, idx) :: rest => pure { C with path := (node, idx) :: rest }
  | [] => .fault

/-- The statement `if (p) node_unref(engine, p)`. -/
def node_unref_opt (E : BEngine) (p : Option Nat) : Res BEngine :=
  match p with
  | some id => node_unref E id
  | none => pure E

mutual

/-- `copy_key_into_inner_cell`: replace the key of the parent cell the cursor points at. -/
def copy_key_into_inner_cell : Nat → BEngine → BTree → BCursor → Key → Res (BEngine × BCursor)
  | 0, _, _, _, _ => .outOfFuel
  | k + 1, E, tree, C, key => do
    let idx ← cursor_idx C
    let id ← cursor_node_deref C
    let n ← E.node id
    let cell ← node_get_cell E n idx
    let cell_size ← cell_get_size E tree id cell
    let ks ← sizeof_key E tree.type key
    let key_size := u16 ks
    let new_cell_size := u16 (4 + key_size)
    ASSERT (node_is_inner n)
    if cell_size < new_cell_size then do
      let child ← cell_get_child E n cell
      let E1 ← node_delete_cell E tree id idx
      let (E2, C2) ← node_ensure_cell_space k E1 tree C new_cell_size
      let id2 ← cursor_node_deref C2
      let idx2 ← cursor_idx C2
      let E3 ← node_add_inner_cell E2 tree id2 idx2 key child
      pure (E3, C2)
    else do
      let kb ← key.read E 0 key_size
      let n1 ← n.write E (cell_get_key cell n) key_size kb
      let n2 := if cell_size > new_cell_size
        then { n1 with cell_area_logical := u16 (n1.cell_area_logical + (cell_size - new_cell_size)) }
        else n1
      let E1 ← E.setNode id n2
      CHECK E1 tree id
      pure (E1, C)

/-- `node_rotate_cells_left`: move the first `n` cells of `right` to `left`; the cursor points
at the parent cell of `left`. -/
def node_rotate_cells_left :
    Nat → BEngine → BTree → BCursor → Nat → Nat → Nat → Res (BEngine × BCursor)
  | 0, _, _, _, _, _, _ => .outOfFuel
  | k + 1, E, tree, C, left, right, n => do
    let n := u16 n
    ASSERT (n != 0)
    let r ← E.node right
    ASSERT (n < r.cell_count)
    let l ← E.node left
    let (E9, C9) ←
      if node_is_inner l then do
        let idx ← cursor_idx C
        let parent ← cursor_node_deref C
        let p ← E.node parent
        let parent_cell ← node_get_cell E p idx
        let parent_key := Key.page parent (cell_get_key parent_cell p)
        let E1 ← node_add_inner_cell E tree left l.cell_count parent_key l.rightmost_child
        let E2 ← node_move_cells_left E1 tree left right (sub16 n 1)
        let r2 ← E2.node right
        let child_cell ← node_get_cell E2 r2 0
        let child_key := Key.page right (cell_get_key child_cell r2)
        let (E3, C3) ← copy_key_into_inner_cell k E2 tree C child_key
        let r3 ← E3.node right
        let child ← cell_get_child E3 r3 child_cell
        let l3 ← E3.node left
        let E4 ← E3.setNode left { l3 with rightmost_child := child }
        let E5 ← node_delete_cell E4 tree right 0
        pure (E5, C3)
      else do
        let E1 ← node_move_cells_left E tree left right n
        let l1 ← E1.node left
        let child_cell ← node_get_cell E1 l1 (sub16 l1.cell_count 1)
        let child_key := Key.page left (cell_get_key child_cell l1)
        copy_key_into_inner_cell k E1 tree C child_key
    CHECK E9 tree left
    CHECK E9 tree right
    pure (E9, C9)

/-- `node_rotate_cells_right`: move the last `n` cells of `left` to `right`; the cursor points
at the parent cell of `left`. -/
def node_rotate_cells_right :
    Nat → BEngine → BTree → BCursor → Nat → Nat → Nat → Res (BEngine × BCursor)
  | 0, _, _, _, _, _, _ => .outOfFuel
  | k + 1, E, tree, C, left, right, n => do
    let n := u16 n
    ASSERT (n != 0)
    let l ← E.node left
    ASSERT (n < l.cell_count)
    let (E9, C9) ←
      if node_is_inner l then do
        let idx ← cursor_idx C
        let parent ← cursor_node_deref C
        let p ← E.node parent
        let parent_cell ← node_get_cell E p idx
        let parent_key := Key.page parent (cell_get_key parent_cell p)
        let E1 ← node_add_inner_cell E tree right 0 parent_key l.rightmost_child
        let E2 ← node_move_cells_right E1 tree left right (sub16 n 1)
        let l2 ← E2.node left
        let child_cell ← node_get_cell E2 l2 (sub16 l2.cell_count 1)
        let child_key := Key.page left (cell_get_key child_cell l2)
        let (E3, C3) ← copy_key_into_inner_cell k E2 tree C child_key
        let l3 ← E3.node left
        let child ← cell_get_child E3 l3 child_cell
        let E4 ← E3.setNode left { l3 with rightmost_child := child }
        let E5 ← node_delete_cell E4 tree left (sub16 l3.cell_count 1)
        pure (E5, C3)
      else do
        let E1 ← node_move_cells_right E tree left right n
        let l1 ← E1.node left
        let child_cell ← node_get_cell E1 l1 (if l1.cell_count != 0 then l1.cell_count - 1 else 0)
        let child_key := Key.page left (cell_get_key child_cell l1)
        copy_key_into_inner_cell k E1 tree C child_key
    CHECK E9 tree left
    CHECK E9 tree right
    pure (E9, C9)

/-- `node_try_rotate_bytes_left`: rotate cells from the front of `right` into `left` when the
byte budget allows it. -/
def node_try_rotate_bytes_left :
    Nat → BEngine → BTree → BCursor → Nat → Nat → Nat → Nat → Nat →
      Res (BEngine × BCursor × Bool)
  | 0, _, _, _, _, _, _, _, _ => .outOfFuel
  | k + 1, E, tree, C, left, right, min_bytes_to_rotate, min_bytes_to_remain,
      min_cells_to_remain => do
    ASSERT (min_bytes_to_rotate != 0)
    let l ← E.node left
    let r ← E.node right
    let left_free_space := node_get_logical_free_space l
    let right_free_space := node_get_logical_free_space r
    let (cells_to_rotate, bytes_to_rotate) ←
      rotate_scan_left E tree right min_bytes_to_rotate r.cell_count 0 0 0
    if bytes_to_rotate > left_free_space then pure (E, C, false)
    else if bytes_to_rotate < min_bytes_to_rotate then pure (E, C, false)
    else if r.cell_count - cells_to_rotate < min_cells_to_remain then pure (E, C, false)
    else
      let bytes_to_remain := sub16 (sub16 E.page_size right_free_space) bytes_to_rotate
      if bytes_to_remain < min_bytes_to_remain then pure (E, C, false)
      else do
        let (E1, C1) ← node_rotate_cells_left k E tree C left right cells_to_rotate
        pure (E1, C1, true)

/-- `node_try_rotate_bytes_right`: rotate cells from the back of `left` into `right` when the
byte budget allows it. -/
def node_try_rotate_bytes_right :
    Nat → BEngine → BTree → BCursor → Nat → Nat → Nat → Nat → Nat →
      Res (BEngine × BCursor × Bool)
  | 0, _, _, _, _, _, _, _, _ => .outOfFuel
  | k + 1, E, tree, C, left, right, min_bytes_to_rotate, min_bytes_to_remain,
      min_cells_to_remain => do
    ASSERT (min_bytes_to_rotate != 0)
    let l ← E.node left
    let r ← E.node right
    let left_free_space := node_get_logical_free_space l
    let right_free_space := node_get_logical_free_space r
    let (cells_to_rotate, bytes_to_rotate) ←
      rotate_scan_right E tree left min_bytes_to_rotate l.cell_count 0 0
    if bytes_to_rotate > right_free_space then pure (E, C, false)
    else if bytes_to_rotate < min_bytes_to_rotate then pure (E, C, false)
    else if l.cell_count - cells_to_rotate < min_cells_to_remain then pure (E, C, false)
    else
      let bytes_to_remain := sub16 (sub16 E.page_size left_free_space) bytes_to_rotate
      if bytes_to_remain < min_bytes_to_remain then pure (E, C, false)
      else do
        let (E1, C1) ← node_rotate_cells_right k E tree C left right cells_to_rotate
        pure (E1, C1, true)

/-- `node_ensure_cell_space`: rotate into a sibling or split until the node of the cursor can
take a cell of `cell_size` bytes. -/
def node_ensure_cell_space : Nat → BEngine → BTree → BCursor → Nat → Res (BEngine × BCursor)
  | 0, _, _, _, _ => .outOfFuel
  | k + 1, E, tree, C, cell_size => do
    let cell_size := u16 cell_size
    let id ← cursor_node_deref C
    let n ← E.node id
    if node_can_fit_cell n cell_size then pure (E, C)
    else do
      let (E1, left) ← cursor_try_get_left_sibling E C
      let (E2, right) ← cursor_try_get_right_sibling E1 C
      let min_bytes_to_rotate := u16 (2 + cell_size)
      let min_bytes_to_remain := sub16 (E2.page_size / 2) min_bytes_to_rotate
      let (C1, node, idx) ← cursor_pop_get C
      let (E3, C3, rotated1) ←
        match right with
        | some r =>
          node_try_rotate_bytes_right k E2 tree C1 node r min_bytes_to_rotate
            min_bytes_to_remain (u16 (idx + 1))
        | none => pure (E2, C1, false)
      let (E4, C4, rotated, idx1) ←
        match left with
        | some l =>
          if !rotated1 then do
            let nd ← E3.node node
            let prev_cell_count := nd.cell_count
            let Ca ← cursor_prev_cell C3
            let (Eb, Cb, rot) ←
              node_try_rotate_bytes_left k E3 tree Ca l node min_bytes_to_rotate
                min_bytes_to_remain (sub16 nd.cell_count idx)
            let Cc ← cursor_next_cell Cb
            let nd1 ← Eb.node node
            let idx1 := if rot then sub16 (u16 (idx + nd1.cell_count)) prev_cell_count else idx
            pure (Eb, Cc, rot, idx1)
          else pure (E3, C3, rotated1, idx)
        | none => pure (E3, C3, rotated1, idx)
      let E5 ← node_unref_opt E4 left
      let E6 ← node_unref_opt E5 right
      let C5 ← cursor_push C4 node idx1
      let (E7, C7) ← if !rotated then split_node k E6 tree C5 else pure (E6, C5)
      node_ensure_cell_space k E7 tree C7 cell_size

/-- `split_node`: split the node of the cursor; a root is first copied into a fresh page so
that the root page id stays. -/
def split_node : Nat → BEngine → BTree → BCursor → Res (BEngine × BCursor)
  | 0, _, _, _ => .outOfFuel
  | k + 1, E, tree, C => do
    let right0 ← cursor_node_deref C
    let r0 ← E.node right0
    let (E1, left) ← node_new E (if node_is_leaf r0 then F_NODE_IS_LEAF else 0)
    let (E2, C2, right) ←
      if C.path.length == 1 then do
        let new_root := right0
        let (Ea, right) ← node_new E1 0
        let Eb ← node_copy Ea right new_root
        let nr ← Eb.node new_root
        let Ec ← Eb.setNode new_root { node_reset Eb nr with rightmost_child := right }
        let idx ← cursor_idx C
        let Cb ← cursor_push (cursor_pop C) new_root 0
        let Cc ← cursor_push Cb right idx
        CHECK Ec tree right
        CHECK Ec tree new_root
        pure (Ec, Cc, right)
      else pure (E1, C, right0)
    ASSERT (C2.path.length > 1)
    let r ← E2.node right
    let n_cells_to_move ← split_scan E2 tree right (E2.page_size / 2) r.cell_count 0 0 0
    ASSERT (n_cells_to_move != 0)
    ASSERT (n_cells_to_move < r.cell_count)
    let (C3, node, idx) ← cursor_pop_get C2
    let cell ← node_get_cell E2 r (n_cells_to_move - 1)
    let key := Key.page right (cell_get_key cell r)
    let ks ← sizeof_key E2 tree.type key
    let (E3, C4) ← node_ensure_cell_space k E2 tree C3 (u32 (4 + ks))
    let pid ← cursor_node_deref C4
    let pidx ← cursor_idx C4
    let E4 ← node_add_inner_cell E3 tree pid pidx key left
    let C5 ← cursor_push C4 node idx
    let E5 ← node_move_cells_left E4 tree left right n_cells_to_move
    let l ← E5.node left
    let E6 ←
      if node_is_inner l then do
        let lcell ← node_get_cell E5 l (sub16 l.cell_count 1)
        let child ← cell_get_child E5 l lcell
        let Ea ← E5.setNode left { l with rightmost_child := child }
        node_delete_cell Ea tree left (sub16 l.cell_count 1)
      else pure E5
    CHECK E6 tree left
    let cidx ← cursor_idx C5
    if cidx < n_cells_to_move then do
      let C6 ← cursor_set_node C5 left
      let E7 ← node_unref E6 right
      pure (E7, C6)
    else do
      let C6 ← cursor_set_idx C5 (sub16 cidx n_cells_to_move)
      let E7 ← node_unref E6 left
      pure (E7, C6)

end

/-! ## Insert, remove, update (engine.c) -/

/-- `check_cell_size`: the cell with its slot must be smaller than half a page. -/
def check_cell_size (E : BEngine) (key_size val_size : Nat) : Res Unit :=
  ASSERT (u32 (key_size + max val_size 4 + 2) < E.page_size / 2)

/-- `bcursor_insert`: insert the entry right before the entry the cursor points at. -/
def bcursor_insert (fuel : Nat) (E : BEngine) (tree : BTree) (C : BCursor) (key : UKey)
    (val : Val) : Res (BEngine × BCursor) := do
  let key_size := sizeof_ukey tree.type key
  let val_size := sizeof_val val
  check_cell_size E key_size val_size
  let (E1, C1) ← node_ensure_cell_space fuel E tree C (u32 (key_size + val_size))
  let node ← cursor_node_deref C1
  let idx ← cursor_idx C1
  let (E2, cell) ← node_add_cell E1 tree node idx (u16 (u32 (key_size + val_size)))
  let n ← E2.node node
  let n1 ← n.write E2 (cell_get_key cell n) key_size (serialize_key tree.type key)
  let E3 ← E2.setNode node n1
  let v ← cell_get_val E3 tree node cell
  let n2 ← n1.write E3 v val_size val
  let E4 ← E3.setNode node n2
  CHECK E4 tree node
  pure (E4, C1)

mutual

/-- `try_merge_right`: move every cell of `left` into `right` and free `left`. The result
tells whether the merge happened and whether the second pointer was set to `NULL` (the first
one always is when the merge happened). -/
def try_merge_right :
    Nat → BEngine → BTree → BCursor → Nat → Nat → Res (BEngine × BCursor × Bool × Bool)
  | 0, _, _, _, _, _ => .outOfFuel
  | k + 1, E, tree, C, left, right => do
    let idx ← cursor_idx C
    let parent ← cursor_node_deref C
    let p ← E.node parent
    let parent_cell ← node_get_cell E p idx
    let l ← E.node left
    let r ← E.node right
    let bytes0 := (E.page_size + 2 ^ 64 - node_get_logical_free_space l) % 2 ^ 64
    let bytes_to_move ←
      if node_is_inner l then do
        let size ← cell_get_size E tree parent parent_cell
        pure ((bytes0 + (2 + size)) % 2 ^ 64)
      else pure bytes0
    if bytes_to_move > node_get_logical_free_space r then pure (E, C, false, false)
    else do
      let parent_key := Key.page parent (cell_get_key parent_cell p)
      let E1 ←
        if node_is_inner l then node_add_inner_cell E tree right 0 parent_key l.rightmost_child
        else pure E
      let l1 ← E1.node left
      let E2 ← node_move_cells_right E1 tree left right l1.cell_count
      let E3 ← node_delete E2 left
      CHECK E3 tree right
      CHECK E3 tree parent
      let p3 ← E3.node parent
      if C.path.length == 1 && p3.cell_count == 1 then do
        let E4 ← node_copy E3 parent right
        let E5 ← node_delete E4 right
        let (E6, C6) ← cursor_pop_unref E5 C
        pure (E6, C6, true, true)
      else do
        let (E4, C4) ← cursor_remove k E3 tree C
        pure (E4, C4, true, false)

/-- `cursor_remove`: delete the cell the cursor points at and rebalance the node. -/
def cursor_remove : Nat → BEngine → BTree → BCursor → Res (BEngine × BCursor)
  | 0, _, _, _ => .outOfFuel
  | k + 1, E, tree, C => do
    let node ← cursor_node_deref C
    let n ← E.node node
    let half_page := E.page_size / 2
    let free_space := node_get_logical_free_space n
    let idx ← cursor_idx C
    let E1 ← node_delete_cell E tree node idx
    if free_space ≤ half_page then pure (E1, C)
    else do
      let (E2, left) ← cursor_try_get_left_sibling E1 C
      let (E3, right) ← cursor_try_get_right_sibling E2 C
      let C1 := cursor_pop C
      let min_bytes_to_remain := half_page
      let min_bytes_to_rotate := sub16 free_space half_page
      let (E4, C4, rotated1) ←
        match right with
        | some r =>
          node_try_rotate_bytes_left (k + 1) E3 tree C1 node r min_bytes_to_rotate
            min_bytes_to_remain 1
        | none => pure (E3, C1, false)
      let (E5, C5, rotated) ←
        match left with
        | some l =>
          if !rotated1 then do
            let Ca ← cursor_prev_cell C4
            let (Eb, Cb, rot) ←
              node_try_rotate_bytes_right (k + 1) E4 tree Ca l node min_bytes_to_rotate
                min_bytes_to_remain 1
            let Cc ← cursor_next_cell Cb
            pure (Eb, Cc, rot)
          else pure (E4, C4, rotated1)
        | none => pure (E4, C4, rotated1)
      if rotated then do
        let E6 ← node_unref E5 node
        let E7 ← node_unref_opt E6 left
        let E8 ← node_unref_opt E7 right
        pure (E8, C5)
      else do
        let (E6, C6, merged, right_null) ←
          match right with
          | some r => try_merge_right k E5 tree C5 node r
          | none => pure (E5, C5, false, false)
        if merged then do
          let E7 ← node_unref_opt E6 left
          let E8 ← node_unref_opt E7 (if right_null then none else right)
          pure (E8, C6)
        else
          match left with
          | some l => do
            let Ca ← cursor_prev_cell C6
            let (Eb, Cb, merged2, node_null) ← try_merge_right k E6 tree Ca l node
            let Ec ← node_unref_opt Eb (if node_null then none else some node)
            let Ed ← node_unref_opt Ec (if merged2 then none else some l)
            let Ee ← node_unref_opt Ed right
            pure (Ee, Cb)
          | none => do
            let E7 ← node_unref E6 node
            let E8 ← node_unref_opt E7 right
            pure (E8, C6)

end

/-- `bcursor_remove`: remove the entry the cursor points at; a following `bcursor_goto_next`
moves to the entry after the removed one. -/
def bcursor_remove (fuel : Nat) (E : BEngine) (tree : BTree) (C : BCursor) :
    Res (BEngine × BCursor) := do
  let idx ← cursor_idx C
  let node ← cursor_node_deref C
  let n ← E.node node
  let cell ← node_get_cell E n idx
  let size ← cell_get_size E tree node cell
  let free_space := u32 (node_get_logical_free_space n + size + 2)
  let (E2, C2) ←
    if free_space ≤ E.page_size / 2 then do
      let E1 ← node_delete_cell E tree node idx
      pure (E1, C)
    else do
      let key := Key.page node (cell_get_key cell n)
      let ks ← sizeof_key E tree.type key
      let kb ← key.read E 0 ks
      let saved := Key.mem kb ks
      let (E1, C1) ← cursor_remove fuel E tree C
      let (Ea, Ca, _) ← bcursor_goto_key E1 tree C1 saved
      pure (Ea, Ca)
  let idx2 ← cursor_idx C2
  let node2 ← cursor_node_deref C2
  let n2 ← E2.node node2
  if idx2 < n2.cell_count then pure (E2, { C2 with flags := setFlag C2.flags F_CURSOR_SKIP_NEXT })
  else pure (E2, C2)

/-- `bcursor_update`: replace the value of the entry the cursor points at. -/
def bcursor_update (fuel : Nat) (E : BEngine) (tree : BTree) (C : BCursor) (new_val : Val) :
    Res (BEngine × BCursor) := do
  let idx ← cursor_idx C
  let node ← cursor_node_deref C
  let n ← E.node node
  let cell ← node_get_cell E n idx
  let old_val_size ← cell_get_size E tree node cell
  let new_val_size := sizeof_val new_val
  if new_val_size == old_val_size then do
    let old_val ← cell_get_val E tree node cell
    let n1 ← n.write E old_val new_val_size new_val
    let E1 ← E.setNode node n1
    pure (E1, C)
  else do
    let key := Key.page node (cell_get_key cell n)
    let key_size ← sizeof_key E tree.type key
    let kb ← key.read E 0 key_size
    let saved := Key.mem kb key_size
    check_cell_size E key_size new_val_size
    let E1 ← node_delete_cell E tree node idx
    let new_cell_size := u32 (key_size + new_val_size)
    let (E2, C2) ← node_ensure_cell_space fuel E1 tree C new_cell_size
    let idx2 ← cursor_idx C2
    let (E3, new_cell) ← node_add_cell E2 tree node idx2 (u16 new_cell_size)
    let n3 ← E3.node node
    let skb ← saved.read E3 0 key_size
    let n4 ← n3.write E3 (cell_get_key new_cell n3) key_size skb
    let E4 ← E3.setNode node n4
    let v ← cell_get_val E4 tree node new_cell
    let n5 ← n4.write E4 v new_val_size new_val
    let E5 ← E4.setNode node n5
    CHECK E5 tree node
    pure (E5, C2)

/-- `bcursor_close`. -/
def bcursor_close (E : BEngine) (C : BCursor) : Res BEngine := do
  let (E1, _) ← bcursor_reset E C
  pure E1

/-- `btree_new`: a tree whose root is a fresh empty leaf. -/
def btree_new (E : BEngine) (type : BType) : Res (BEngine × BTree) := do
  let (E1, root) ← node_new E F_NODE_IS_LEAF
  let E2 ← node_unref E1 root
  pure (E2, ⟨type, root⟩)

/-- The loop `while (1)` in the leaf branch of `cursor_goto_next_node`. -/
def cursor_goto_next_node_loop : Nat → BEngine → BCursor → Nat → Res (BEngine × BCursor × Bool)
  | 0, _, _, _ => .outOfFuel
  | k + 1, E, C, node => do
    let (E1, C1) ←
      if hasFlag C.flags F_CURSOR_DELETE_NODE_ON_EXIT then do
        let Ea ← node_delete E node
        pure (Ea, cursor_pop C)
      else cursor_pop_unref E C
    if C1.path.length == 0 then pure (E1, C1, false)
    else do
      let node1 ← cursor_node_deref C1
      let n1 ← E1.node node1
      let idx ← cursor_idx C1
      let cell_idx := u16 (idx + 1)
      if cell_idx ≤ n1.cell_count then do
        let C2 ← cursor_set_idx C1 cell_idx
        let (E2, child) ← node_get_child E1 node1 cell_idx
        let C3 ← cursor_push C2 child 0
        pure (E2, C3, true)
      else cursor_goto_next_node_loop k E1 C1 node1

/-- `cursor_goto_next_node`: the next node in the order children first, parent last. -/
def cursor_goto_next_node (E : BEngine) (tree : BTree) (C : BCursor) :
    Res (BEngine × BCursor × Bool) :=
  match cursor_node C with
  | none => do
    let E1 ← node_from_page_id E tree.root
    let C1 ← cursor_push C tree.root 0
    pure (E1, C1, true)
  | some node => do
    let n ← E.node node
    if node_is_inner n then do
      let idx ← cursor_idx C
      ASSERT (idx < n.cell_count)
      let (E1, child) ← node_get_child E node idx
      let C1 ← cursor_push C child 0
      pure (E1, C1, true)
    else cursor_goto_next_node_loop (MAX_BTREE_HEIGHT + 1) E C node

/-- The loop `while (cursor_goto_next_node(cursor));` of `btree_delete`. -/
def btree_delete_loop (tree : BTree) : Nat → BEngine → BCursor → Res (BEngine × BCursor)
  | 0, _, _ => .outOfFuel
  | k + 1, E, C => do
    let (E1, C1, more) ← cursor_goto_next_node E tree C
    if more then btree_delete_loop tree k E1 C1 else pure (E1, C1)

/-- `btree_delete`: free every page of the tree. -/
def btree_delete (fuel : Nat) (E : BEngine) (tree : BTree) : Res BEngine := do
  let C : BCursor := ⟨F_CURSOR_DELETE_NODE_ON_EXIT, []⟩
  let (E1, C1) ← btree_delete_loop tree fuel E C
  bcursor_close E1 C1

/-! ## Values, rows and the row codec (db.h, typer.h, runner.c) -/

/-- The enum `Type_Tag`. -/
inductive Type_Tag where
  | TYPE_INT
  | TYPE_BOOL
  | TYPE_TEXT
  | TYPE_VOID
  | TYPE_ROW
  | TYPE_COLUMN
  | TYPE_TABLE
  deriving Repr, DecidableEq

/-- The struct `Type_Column`: the `NOT NULL` flag and the tag of the field type (the name is
not used by the runner). -/
structure Type_Column where
  not_null : Bool
  field : Type_Tag
  deriving Repr, DecidableEq

/-- The union inside `Db_Value`, with the member that was written last; a `String *` is the
byte string it points to. -/
inductive Payload where
  | integer (v : Int)
  | boolean (b : Bool)
  | string (s : List Nat)
  deriving Repr, DecidableEq

/-- The struct `Db_Value`. A null value keeps whatever its union holds. -/
structure Db_Value where
  is_null : Bool
  val : Payload
  deriving Repr, DecidableEq

/-- The member `integer` of the union; type-checked plans read only the member written. -/
def Db_Value.integer (v : Db_Value) : Int :=
  match v.val with
  | .integer i => i
  | .boolean b => if b then 1 else 0
  | .string _ => 0

/-- The member `boolean` of the union. -/
def Db_Value.boolean (v : Db_Value) : Bool :=
  match v.val with
  | .boolean b => b
  | .integer i => i % 256 != 0
  | .string _ => false

/-- The member `string` of the union. -/
def Db_Value.string (v : Db_Value) : List Nat :=
  match v.val with
  | .string s => s
  | _ => []

/-- The value `(Db_Value){ .is_null = true }`. -/
def Db_Value.null : Db_Value := ⟨true, .integer 0⟩

/-- `typer_get_col_type` on a row type with one scope; `none` stands for `NULL`. -/
def typer_get_col_type (cols : List Type_Column) (idx : Nat) : Option Type_Column := cols.get? idx

/-- The first loop of `serialize_row`: the `u32` length of the serialised row, starting from
`length`, for the values from index `idx` on. -/
def serialize_row_length (cols : List Type_Column) : Nat → Nat → List Db_Value → Res Nat
  | _, length, [] => pure length
  | idx, length, value :: rest =>
    let length1 := u32 (length + 1)
    if value.is_null then serialize_row_length cols (idx + 1) length1 rest
    else
      match typer_get_col_type cols idx with
      | none => .fault
      | some col_type =>
        match col_type.field with
        | .TYPE_INT => serialize_row_length cols (idx + 1) (u32 (length1 + 8)) rest
        | .TYPE_BOOL => serialize_row_length cols (idx + 1) (u32 (length1 + 1)) rest
        | .TYPE_TEXT =>
          serialize_row_length cols (idx + 1) (u32 (length1 + u32 (4 + u32 value.string.length)))
            rest
        | _ => .assertFail

/-- The second loop of `serialize_row`: the bytes written after the length field. -/
def serialize_row_body (cols : List Type_Column) : Nat → List Db_Value → Res (List Nat)
  | _, [] => pure []
  | idx, value :: rest =>
    if value.is_null then do
      let tail ← serialize_row_body cols (idx + 1) rest
      pure (1 :: tail)
    else
      match typer_get_col_type cols idx with
      | none => .fault
      | some col_type =>
        match col_type.field with
        | .TYPE_BOOL => do
          let tail ← serialize_row_body cols (idx + 1) rest
          pure (0 :: (if value.boolean then 1 else 0) :: tail)
        | .TYPE_INT => do
          let tail ← serialize_row_body cols (idx + 1) rest
          pure (0 :: natToBytes 8 (ofS64 value.integer) ++ tail)
        | .TYPE_TEXT => do
          let tail ← serialize_row_body cols (idx + 1) rest
          pure (0 :: natToBytes 4 (u32 value.string.length) ++ value.string ++ tail)
        | _ => .assertFail

/-- `MEM_ALLOC(mem, size)`: every allocator of memory.c starts with
`if (size == 0) error(mem)`, which panics ("OOM"). The memory of the machine is not modelled, so
a request of one byte or more is granted. -/
def MEM_ALLOC (size : Nat) : Res Unit := if size = 0 then .assertFail else .ok ()

/-- `serialize_row`: the bytes of the buffer it returns. The buffer has `length` bytes, so
writing more than that is a write outside the allocation. -/
def serialize_row (cols : List Type_Column) (row : List Db_Value) : Res (List Nat) := do
  let length ← serialize_row_length cols 0 4 row
  MEM_ALLOC length
  let body ← serialize_row_body cols 0 row
  let bytes := natToBytes 4 length ++ body
  inBounds (bytes.length ≤ length)
  pure bytes

/-- Read `n` bytes, little-endian, from the front of a buffer. -/
def read_le : Nat → List Nat → Res (Nat × List Nat)
  | 0, buf => pure (0, buf)
  | _ + 1, [] => .fault
  | n + 1, b :: buf => do
    let (x, rest) ← read_le n buf
    pure (b % 256 + 256 * x, rest)

/-- Take `n` bytes from the front of a buffer (`mem_copy`). -/
def take_bytes : Nat → List Nat → Res (List Nat × List Nat)
  | 0, buf => pure ([], buf)
  | _ + 1, [] => .fault
  | n + 1, b :: buf => do
    let (bs, rest) ← take_bytes n buf
    pure (b :: bs, rest)

/-- The loop of `deserialize_row` over the columns of the table. -/
def deserialize_row_loop : List Type_Column → List Nat → Res (List Db_Value)
  | [], _ => pure []
  | _ :: _, [] => .fault
  | col_type :: cols, b :: buf =>
    if b % 256 != 0 then do
      let rest ← deserialize_row_loop cols buf
      pure (Db_Value.null :: rest)
    else
      match col_type.field with
      | .TYPE_INT => do
        let (x, buf1) ← read_le 8 buf
        let rest ← deserialize_row_loop cols buf1
        pure (⟨false, .integer (toS64 x)⟩ :: rest)
      | .TYPE_BOOL => do
        let (x, buf1) ← read_le 1 buf
        let rest ← deserialize_row_loop cols buf1
        pure (⟨false, .boolean (x != 0)⟩ :: rest)
      | .TYPE_TEXT => do
        let (count, buf1) ← read_le 4 buf
        let (str, buf2) ← take_bytes count buf1
        let rest ← deserialize_row_loop cols buf2
        pure (⟨false, .string str⟩ :: rest)
      | _ => .assertFail

/-- `deserialize_row`: the row stored in the memory `buf` points to. -/
def deserialize_row (cols : List Type_Column) (buf : List Nat) : Res (List Db_Value) :=
  deserialize_row_loop cols (buf.drop 4)

/-! ## Expressions and statements (plan.h, runner.c) -/

/-- The expression nodes of `Plan` that `eval_expr` handles. `PLAN_EQUAL` and
`PLAN_NOT_EQUAL` carry the type tag of their first operand (`op1->type`). -/
inductive Plan where
  | PLAN_AS (op : Plan)
  | PLAN_COLUMN_REF (idx : Nat)
  | PLAN_LITERAL_INT (val : Int)
  | PLAN_LITERAL_BOOL (val : Bool)
  | PLAN_LITERAL_NULL
  | PLAN_LITERAL_STRING (val : List Nat)
  | PLAN_NOT (op : Plan)
  | PLAN_NEG (op : Plan)
  | PLAN_ADD (op1 op2 : Plan)
  | PLAN_SUB (op1 op2 : Plan)
  | PLAN_MUL (op1 op2 : Plan)
  | PLAN_DIV (op1 op2 : Plan)
  | PLAN_LESS (op1 op2 : Plan)
  | PLAN_GREATER (op1 op2 : Plan)
  | PLAN_LESS_EQUAL (op1 op2 : Plan)
  | PLAN_GREATER_EQUAL (op1 op2 : Plan)
  | PLAN_IS_NULL (op : Plan)
  | PLAN_OR (op1 op2 : Plan)
  | PLAN_AND (op1 op2 : Plan)
  | PLAN_EQUAL (type : Type_Tag) (op1 op2 : Plan)
  | PLAN_NOT_EQUAL (type : Type_Tag) (op1 op2 : Plan)
  deriving Repr, DecidableEq

/-- The `s64` result of an arithmetic operation (two's complement wrap-around). -/
def wrap64 (x : Int) : Int := toS64 (ofS64 x)

/-- `str_match`: equal counts and `strncmp` over that count gives 0. -/
def str_match (s1 s2 : List Nat) : Bool :=
  s1.length == s2.length && strncmp s1 s2 s1.length == 0

/-- `value_match`. -/
def value_match (type : Type_Tag) (v1 v2 : Db_Value) : Res Bool :=
  match type with
  | .TYPE_INT => pure (v1.integer == v2.integer)
  | .TYPE_BOOL => pure (v1.boolean == v2.boolean)
  | .TYPE_TEXT => pure (str_match v1.string v2.string)
  | _ => .assertFail

/-- The macro `EVAL2` once both operands are evaluated: the first null operand is the result,
else `f` of the two values. -/
def eval2 (v1 v2 : Db_Value) (f : Db_Value → Db_Value → Res Payload) : Res Db_Value :=
  if v1.is_null then pure v1
  else if v2.is_null then pure v2
  else do
    let p ← f v1 v2
    pure { v1 with val := p }

/-- `eval_expr`: the value of an expression on a row (`none` stands for the `NULL` row that
`PLAN_INSERT` passes). An index outside an array ends in the panic of `ARRAY_BOUNDS_CHECK`. -/
def eval_expr (row : Option (List Db_Value)) : Plan → Res Db_Value
  | .PLAN_AS op => eval_expr row op
  | .PLAN_COLUMN_REF idx =>
    match row with
    | none => .fault
    | some values =>
      match values.get? idx with
      | some v => pure v
      | none => .assertFail
  | .PLAN_LITERAL_INT val => pure ⟨false, .integer val⟩
  | .PLAN_LITERAL_BOOL val => pure ⟨false, .boolean val⟩
  | .PLAN_LITERAL_NULL => pure Db_Value.null
  | .PLAN_LITERAL_STRING val => pure ⟨false, .string val⟩
  | .PLAN_NOT op => do
    let v ← eval_expr row op
    if v.is_null then pure v else pure { v with val := .boolean (!v.boolean) }
  | .PLAN_NEG op => do
    let v ← eval_expr row op
    if v.is_null then pure v else pure { v with val := .integer (wrap64 (-v.integer)) }
  | .PLAN_ADD op1 op2 => do
    let v1 ← eval_expr row op1
    let v2 ← eval_expr row op2
    eval2 v1 v2 (fun a b => pure (.integer (wrap64 (a.integer + b.integer))))
  | .PLAN_SUB op1 op2 => do
    let v1 ← eval_expr row op1
    let v2 ← eval_expr row op2
    eval2 v1 v2 (fun a b => pure (.integer (wrap64 (a.integer - b.integer))))
  | .PLAN_MUL op1 op2 => do
    let v1 ← eval_expr row op1
    let v2 ← eval_expr row op2
    eval2 v1 v2 (fun a b => pure (.integer (wrap64 (a.integer * b.integer))))
  | .PLAN_DIV op1 op2 => do
    let v1 ← eval_expr row op1
    let v2 ← eval_expr row op2
    eval2 v1 v2 (fun a b =>
      if b.integer == 0 then .fault
      else if a.integer == -9223372036854775808 && b.integer == -1 then .fault
      else pure (.integer (Int.tdiv a.integer b.integer)))
  | .PLAN_LESS op1 op2 => do
    let v1 ← eval_expr row op1
    let v2 ← eval_expr row op2
    eval2 v1 v2 (fun a b => pure (.boolean (decide (a.integer < b.integer))))
  | .PLAN_GREATER op1 op2 => do
    let v1 ← eval_expr row op1
    let v2 ← eval_expr row op2
    eval2 v1 v2 (fun a b => pure (.boolean (decide (a.integer > b.integer))))
  | .PLAN_LESS_EQUAL op1 op2 => do
    let v1 ← eval_expr row op1
    let v2 ← eval_expr row op2
    eval2 v1 v2 (fun a b => pure (.boolean (decide (a.integer ≤ b.integer))))
  | .PLAN_GREATER_EQUAL op1 op2 => do
    let v1 ← eval_expr row op1
    let v2 ← eval_expr row op2
    eval2 v1 v2 (fun a b => pure (.boolean (decide (a.integer ≥ b.integer))))
  | .PLAN_IS_NULL op => do
    let v ← eval_expr row op
    pure ⟨false, .boolean v.is_null⟩
  | .PLAN_OR op1 op2 => do
    let v1 ← eval_expr row op1
    let v2 ← eval_expr row op2
    if v1.is_null then pure (if !v2.is_null && v2.boolean then v2 else v1)
    else if v2.is_null then pure (if v1.boolean then v1 else v2)
    else pure { v1 with val := .boolean (v1.boolean || v2.boolean) }
  | .PLAN_AND op1 op2 => do
    let v1 ← eval_expr row op1
    let v2 ← eval_expr row op2
    if v1.is_null then pure (if !v2.is_null && !v2.boolean then v2 else v1)
    else if v2.is_null then pure (if !v1.boolean then v1 else v2)
    else pure { v1 with val := .boolean (v1.boolean && v2.boolean) }
  | .PLAN_EQUAL type op1 op2 => do
    let v1 ← eval_expr row op1
    let v2 ← eval_expr row op2
    eval2 v1 v2 (fun a b => do
      let m ← value_match type a b
      pure (.boolean m))
  | .PLAN_NOT_EQUAL type op1 op2 => do
    let v1 ← eval_expr row op1
    let v2 ← eval_expr row op2
    eval2 v1 v2 (fun a b => do
      let m ← value_match type a b
      pure (.boolean (!m)))

/-- `passes_filter`. -/
def passes_filter (filter : Plan) (row : List Db_Value) : Res Bool := do
  let result ← eval_expr (some row) filter
  pure (!result.is_null && result.boolean)

/-- The struct `Type_Table`: the columns of the row type, the index of the primary-key column
and the B-tree (`engine_specific_info`). -/
structure Type_Table where
  cols : List Type_Column
  prim_key_col : Nat
  tree : BTree
  deriving Repr, DecidableEq

/-- What a statement leaves behind: the engine, and whether `error()` aborted the statement. -/
structure Ran where
  engine : BEngine
  error : Bool
  deriving Repr, DecidableEq

/-- The memory a `Val` made from `serialize_row` points to: the serialised bytes followed by
`junk`, the content of the arena after the allocation. -/
def row_val (bytes : List Nat) (junk : Nat) : Val :=
  bytesToNat bytes + 256 ^ bytes.length * junk

/-- The memory `bcursor_read` points to, up to the end of the page, as bytes. -/
def bcursor_read_bytes (E : BEngine) (tree : BTree) (C : BCursor) : Res (List Nat) := do
  let id ← cursor_node_deref C
  let n ← E.node id
  let idx ← cursor_idx C
  let cell ← node_get_cell E n idx
  let v ← cell_get_val E tree id cell
  let m ← bcursor_read E tree C
  pure (natToBytes (E.full_page_size - v) m)

/-- The loop of `PLAN_INSERT` over the value expressions: the row, the unresolved key taken
from the primary-key column, and whether a `NOT NULL` column received null. -/
def plan_insert_values (table : Type_Table) :
    Nat → List Plan → List Db_Value → Option UKey → Res (List Db_Value × Option UKey × Bool)
  | _, [], row, ukey => pure (row, ukey, false)
  | idx, expr :: rest, row, ukey => do
    let value ← eval_expr none expr
    match table.cols.get? idx with
    | none => .assertFail
    | some col_type =>
      if col_type.not_null && value.is_null then pure (row, ukey, true)
      else do
        let ukey1 ←
          if idx == table.prim_key_col then
            match col_type.field with
            | .TYPE_INT => pure (some (UKey.int value.integer))
            | .TYPE_BOOL => pure (some (UKey.bool (if value.boolean then 1 else 0)))
            | .TYPE_TEXT => pure (some (UKey.str value.string))
            | _ => Res.assertFail
          else pure ukey
        plan_insert_values table (idx + 1) rest (row ++ [value]) ukey1

/-- The case `PLAN_INSERT` of `next`. -/
def plan_insert (fuel : Nat) (E : BEngine) (table : Type_Table) (values : List Plan)
    (junk : Nat) : Res Ran := do
  let (row, ukey, err) ← plan_insert_values table 0 values [] none
  if err then pure ⟨E, true⟩
  else
    match ukey with
    | none => .fault
    | some key => do
      let (E1, C1, _) ← bcursor_goto_ukey E table.tree bcursor_new key
      let bytes ← serialize_row table.cols row
      let (E2, C2) ← bcursor_insert fuel E1 table.tree C1 key (row_val bytes junk)
      let E3 ← bcursor_close E2 C2
      pure ⟨E3, false⟩

/-- The loop `while (1)` of `PLAN_DELETE`. -/
def plan_delete_loop (fuel : Nat) (table : Type_Table) (filter : Plan) :
    Nat → BEngine → BCursor → Res (BEngine × BCursor)
  | 0, _, _ => .outOfFuel
  | k + 1, E, C => do
    let buf ← bcursor_read_bytes E table.tree C
    let row ← deserialize_row table.cols buf
    let pass ← passes_filter filter row
    let (E1, C1) ← if pass then bcursor_remove fuel E table.tree C else pure (E, C)
    let (E2, C2, more) ← bcursor_goto_next fuel E1 C1
    if more then plan_delete_loop fuel table filter k E2 C2 else pure (E2, C2)

/-- The case `PLAN_DELETE` of `next`. On an empty table it returns without closing the
cursor. -/
def plan_delete (fuel : Nat) (E : BEngine) (table : Type_Table) (filter : Plan) : Res Ran := do
  let (E1, C1, found) ← bcursor_goto_first E table.tree bcursor_new
  if !found then pure ⟨E1, false⟩
  else do
    let (E2, C2) ← plan_delete_loop fuel table filter fuel E1 C1
    let E3 ← bcursor_close E2 C2
    pure ⟨E3, false⟩

/-- The first `array_iter` over `P->cols` in `PLAN_UPDATE`: evaluate the new values into
`tmp_row`; the flag tells that a `NOT NULL` column received null. -/
def plan_update_eval (table : Type_Table) (row : List Db_Value) :
    List Nat → List Plan → List Db_Value → Res (List Db_Value × Bool)
  | [], _, tmp_row => pure (tmp_row, false)
  | _ :: _, [], _ => .assertFail
  | col :: cols, expr :: vals, tmp_row =>
    match table.cols.get? col with
    | none => .assertFail
    | some col_type => do
      let value ← eval_expr (some row) expr
      if col_type.not_null && value.is_null then pure (tmp_row, true)
      else if col < tmp_row.length then
        plan_update_eval table row cols vals (tmp_row.set col value)
      else .assertFail

/-- The second `array_iter` over `P->cols` in `PLAN_UPDATE`: copy the new values into the
row. -/
def plan_update_assign (tmp_row : List Db_Value) : List Nat → List Db_Value → Res (List Db_Value)
  | [], row => pure row
  | col :: cols, row =>
    match tmp_row.get? col with
    | none => .assertFail
    | some new_val =>
      if col < row.length then plan_update_assign tmp_row cols (row.set col new_val)
      else .assertFail

/-- The loop `while (1)` of `PLAN_UPDATE`; the flag of the result tells that `error()` ended
the statement. -/
def plan_update_loop (fuel : Nat) (table : Type_Table) (filter : Plan) (cols : List Nat)
    (vals : List Plan) (junk : Nat) :
    Nat → BEngine → BCursor → List Db_Value → Res (BEngine × BCursor × Bool)
  | 0, _, _, _ => .outOfFuel
  | k + 1, E, C, tmp_row => do
    let buf ← bcursor_read_bytes E table.tree C
    let row ← deserialize_row table.cols buf
    let pass ← passes_filter filter row
    if pass then do
      let (tmp_row1, err) ← plan_update_eval table row cols vals tmp_row
      if err then pure (E, C, true)
      else do
        let row1 ← plan_update_assign tmp_row1 cols row
        let bytes ← serialize_row table.cols row1
        let (E1, C1) ← bcursor_update fuel E table.tree C (row_val bytes junk)
        let (E2, C2, more) ← bcursor_goto_next fuel E1 C1
        if more then plan_update_loop fuel table filter cols vals junk k E2 C2 tmp_row1
        else pure (E2, C2, false)
    else do
      let (E2, C2, more) ← bcursor_goto_next fuel E C
      if more then plan_update_loop fuel table filter cols vals junk k E2 C2 tmp_row
      else pure (E2, C2, false)

/-- The case `PLAN_UPDATE` of `next`: `cols` are the indices of the assigned columns, `vals`
their expressions. The cursor is never closed. -/
def plan_update (fuel : Nat) (E : BEngine) (table : Type_Table) (filter : Plan)
    (cols : List Nat) (vals : List Plan) (junk : Nat) : Res Ran := do
  let (E1, C1, found) ← bcursor_goto_first E table.tree bcursor_new
  if !found then pure ⟨E1, false⟩
  else do
    let tmp_row := List.replicate table.cols.length Db_Value.null
    let (E2, _, err) ← plan_update_loop fuel table filter cols vals junk fuel E1 C1 tmp_row
    pure ⟨E2, err⟩

/-- The calls of `next` on a `PLAN_SCAN` after the first one, until it returns `NULL`. -/
def plan_scan_loop (fuel : Nat) (table : Type_Table) :
    Nat → BEngine → BCursor → Res (BEngine × BCursor × List (List Db_Value))
  | 0, _, _ => .outOfFuel
  | k + 1, E, C => do
    let buf ← bcursor_read_bytes E table.tree C
    let row ← deserialize_row table.cols buf
    let (E1, C1, more) ← bcursor_goto_next fuel E C
    if more then do
      let (E2, C2, rows) ← plan_scan_loop fuel table k E1 C1
      pure (E2, C2, row :: rows)
    else pure (E1, C1, [row])

/-- A `PLAN_SCAN` run to the end (`run_next` until `NULL`) and closed (`run_close`): the rows
it yields. -/
def plan_scan (fuel : Nat) (E : BEngine) (table : Type_Table) :
    Res (BEngine × List (List Db_Value)) := do
  let (E1, C1, found) ← bcursor_goto_first E table.tree bcursor_new
  if !found then do
    let E2 ← bcursor_close E1 C1
    pure (E2, [])
  else do
    let (E2, C2, rows) ← plan_scan_loop fuel table fuel E1 C1
    let E3 ← bcursor_close E2 C2
    pure (E3, rows)

/-! ## The cursor protocols the properties are stated about -/

/-- A value with `len` payload bytes: the little-endian `u32` length field, then the payload
(the low `len` bytes of `payload`). -/
def mk_val (len payload : Nat) : Val := len % 4294967296 + 4294967296 * (payload % 256 ^ len)

/-- The bytes of a value as the engine sees them: the `sizeof_val` bytes at the pointer. -/
def val_bytes (v : Val) : Nat := v % 256 ^ sizeof_val v

/-- A database file that was just created (default page size), with one B-tree in it. -/
def new_tree (type : BType) : Res (BEngine × BTree) := btree_new (bengine_new PAGE_SIZE) type

/-- For each pair in turn `bcursor_goto_ukey(k)` followed by `bcursor_insert(k, v)`, on one
cursor. -/
def insert_pairs (fuel : Nat) (tree : BTree) :
    List (UKey × Val) → BEngine → BCursor → Res (BEngine × BCursor)
  | [], E, C => pure (E, C)
  | (k, v) :: rest, E, C => do
    let (E1, C1, _) ← bcursor_goto_ukey E tree C k
    let (E2, C2) ← bcursor_insert fuel E1 tree C1 k v
    insert_pairs fuel tree rest E2 C2

/-- The key bytes of the entry the cursor points at. -/
def bcursor_key (E : BEngine) (tree : BTree) (C : BCursor) : Res Nat := do
  let id ← cursor_node_deref C
  let n ← E.node id
  let idx ← cursor_idx C
  let cell ← node_get_cell E n idx
  let key := Key.page id (cell_get_key cell n)
  let ks ← sizeof_key E tree.type key
  key.read E 0 ks

/-- The entry the cursor points at, then `bcursor_goto_next` repeatedly: the key bytes and
value bytes of the entries visited. -/
def scan_loop (fuel : Nat) (tree : BTree) : Nat → BEngine → BCursor → Res (List (Nat × Nat))
  | 0, _, _ => .outOfFuel
  | k + 1, E, C => do
    let key ← bcursor_key E tree C
    let v ← bcursor_read E tree C
    let (E1, C1, more) ← bcursor_goto_next fuel E C
    if more then do
      let rest ← scan_loop fuel tree k E1 C1
      pure ((key, val_bytes v) :: rest)
    else pure [(key, val_bytes v)]

/-- A full scan: `bcursor_goto_first`, then `bcursor_goto_next` until it returns false. -/
def scan (fuel : Nat) (E : BEngine) (tree : BTree) (C : BCursor) : Res (List (Nat × Nat)) := do
  let (E1, C1, found) ← bcursor_goto_first E tree C
  if found then scan_loop fuel tree fuel E1 C1 else pure []

/-- The stored form of a 64-bit integer key. -/
def int_key (k : Int) : Nat := serialize_key .int (.int k)

/-- A tree of integer keys built from an empty one by inserting the pairs in turn. -/
def build (fuel : Nat) (pairs : List (Int × Val)) : Res (BEngine × BTree × BCursor) := do
  let (E, tree) ← new_tree .int
  let (E1, C1) ← insert_pairs fuel tree (pairs.map (fun p => (UKey.int p.1, p.2))) E bcursor_new
  pure (E1, tree, C1)

/-- The scan of the tree built from the pairs. -/
def build_scan (fuel : Nat) (pairs : List (Int × Val)) : Res (List (Nat × Nat)) := do
  let (E, tree, C) ← build fuel pairs
  scan fuel E tree C

/-- Whether `check_cell_size` accepts a value for an integer key on the default page size. -/
def passes_check_cell_size (v : Val) : Bool :=
  (check_cell_size (bengine_new PAGE_SIZE) (sizeof_ukey .int (.int 0)) (sizeof_val v)).isOk

/-- What the update protocol observes. -/
structure Updated where
  found_before : Bool
  found_after : Bool
  value_after : Nat
  all : List (Nat × Nat)
  deriving Repr, DecidableEq

/-- On the tree built from `pairs`: `bcursor_goto_key(k)`, `bcursor_update(v)`, then
`bcursor_goto_key(k)` and `bcursor_read`, then a full scan. -/
def update_protocol (fuel : Nat) (pairs : List (Int × Val)) (k : Int) (v : Val) : Res Updated := do
  let (E, tree, C) ← build fuel pairs
  let (E1, C1, found) ← bcursor_goto_key E tree C (.mem (int_key k) 8)
  let (E2, C2) ← bcursor_update fuel E1 tree C1 v
  let (E3, C3, found2) ← bcursor_goto_key E2 tree C2 (.mem (int_key k) 8)
  let r ← bcursor_read E3 tree C3
  let all ← scan fuel E3 tree C3
  pure ⟨found, found2, val_bytes r, all⟩

/-- On the tree built from `pairs`: whether `bcursor_goto_key(k)` finds the key. -/
def lookup (fuel : Nat) (pairs : List (Int × Val)) (k : Int) : Res Bool := do
  let (E, tree, C) ← build fuel pairs
  let (_, _, found) ← bcursor_goto_key E tree C (.mem (int_key k) 8)
  pure found

/-- On the tree built from `pairs`: `bcursor_goto_key(k)` followed by `bcursor_remove`. -/
def remove_protocol (fuel : Nat) (pairs : List (Int × Val)) (k : Int) :
    Res (BEngine × BTree × BCursor) := do
  let (E, tree, C) ← build fuel pairs
  let (E1, C1, _) ← bcursor_goto_key E tree C (.mem (int_key k) 8)
  let (E2, C2) ← bcursor_remove fuel E1 tree C1
  pure (E2, tree, C2)

/-- On the tree built from `pairs`: `bcursor_goto_ukey(k)` followed by `bcursor_insert(k, v)`. -/
def insert_protocol (fuel : Nat) (pairs : List (Int × Val)) (k : Int) (v : Val) :
    Res (BEngine × BTree × BCursor) := do
  let (E, tree, C) ← build fuel pairs
  let (E1, C1, _) ← bcursor_goto_ukey E tree C (.int k)
  let (E2, C2) ← bcursor_insert fuel E1 tree C1 (.int k) v
  pure (E2, tree, C2)

/-! ## Statement sequences on one table -/

/-- A database file that was just created, holding one table with the given columns. -/
def new_table (cols : List Type_Column) (prim_key_col : Nat) : Res (BEngine × Type_Table) := do
  let key_type ←
    match cols.get? prim_key_col with
    | some ⟨_, .TYPE_INT⟩ => pure BType.int
    | some ⟨_, .TYPE_TEXT⟩ => pure BType.str
    | some ⟨_, .TYPE_BOOL⟩ => pure BType.bool
    | _ => Res.assertFail
  let (E, tree) ← new_tree key_type
  pure (E, ⟨cols, prim_key_col, tree⟩)

/-- A sequence of `INSERT` statements, each given by its value expressions; a statement that
ends in `error()` leaves the engine as it is and the sequence goes on. -/
def run_inserts (fuel : Nat) (table : Type_Table) (junk : Nat) :
    List (List Plan) → BEngine → Res BEngine
  | [], E => pure E
  | values :: rest, E => do
    let r ← plan_insert fuel E table values junk
    run_inserts fuel table junk rest r.engine

/-- The table `t (id INT PRIMARY KEY, name TEXT)` of the scenarios. -/
def cols_id_name : List Type_Column := [⟨true, .TYPE_INT⟩, ⟨false, .TYPE_TEXT⟩]

/-- The table `g (id INT PRIMARY KEY, k INT)` of the scenarios. -/
def cols_id_k : List Type_Column := [⟨true, .TYPE_INT⟩, ⟨false, .TYPE_INT⟩]

/-- The expression `id = c` on a table whose column 0 is `id INT`. -/
def id_equals (c : Int) : Plan := .PLAN_EQUAL .TYPE_INT (.PLAN_COLUMN_REF 0) (.PLAN_LITERAL_INT c)

/-- The integer in column `i` of a row. -/
def row_int (i : Nat) (row : List Db_Value) : Int :=
  match row.get? i with
  | some v => v.integer
  | none => 0

/-- The statements `INSERT` (one per row), then `DELETE FROM t WHERE filter`, then
`SELECT * FROM t`: the rows the scan yields. -/
def insert_delete_select (fuel : Nat) (cols : List Type_Column) (rows : List (List Plan))
    (filter : Plan) : Res (List (List Db_Value)) := do
  let (E, table) ← new_table cols 0
  let E1 ← run_inserts fuel table 0 rows E
  let r ← plan_delete fuel E1 table filter
  let (_, out) ← plan_scan fuel r.engine table
  pure out

/-- The statements `INSERT` (one per row), then `UPDATE t SET cols = vals WHERE filter`: the
B-tree keys of the stored cells in scan order and the rows a following `SELECT * FROM t`
yields. -/
def insert_update_select (fuel : Nat) (cols : List Type_Column) (rows : List (List Plan))
    (filter : Plan) (set_cols : List Nat) (set_vals : List Plan) :
    Res (List Nat × List (List Db_Value)) := do
  let (E, table) ← new_table cols 0
  let E1 ← run_inserts fuel table 0 rows E
  let r ← plan_update fuel E1 table filter set_cols set_vals 0
  let cells ← scan fuel r.engine table.tree bcursor_new
  let (_, out) ← plan_scan fuel r.engine table
  pure (cells.map Prod.fst, out)

/-! ## Sequences of engine calls and what is observed of the resulting file -/

/-- One call of a client into the engine, made on a cursor of its own that is closed after
the call: `bcursor_goto_ukey` and then `bcursor_insert`, `bcursor_update` or `bcursor_remove`
(the last two only when the key was found). -/
inductive Op where
  | insert (key : UKey) (val : Val)
  | update (key : UKey) (val : Val)
  | remove (key : UKey)
  deriving Repr, DecidableEq

/-- Run one call on the tree. -/
def run_op (fuel : Nat) (tree : BTree) (E : BEngine) : Op → Res BEngine
  | .insert key val => do
    let (E1, C1, _) ← bcursor_goto_ukey E tree bcursor_new key
    let (E2, C2) ← bcursor_insert fuel E1 tree C1 key val
    bcursor_close E2 C2
  | .update key val => do
    let (E1, C1, found) ← bcursor_goto_ukey E tree bcursor_new key
    if found then do
      let (E2, C2) ← bcursor_update fuel E1 tree C1 val
      bcursor_close E2 C2
    else bcursor_close E1 C1
  | .remove key => do
    let (E1, C1, found) ← bcursor_goto_ukey E tree bcursor_new key
    if found then do
      let (E2, C2) ← bcursor_remove fuel E1 tree C1
      bcursor_close E2 C2
    else bcursor_close E1 C1

/-- Run the calls in turn. -/
def run_ops (fuel : Nat) (tree : BTree) : List Op → BEngine → Res BEngine
  | [], E => pure E
  | op :: rest, E => do
    let E1 ← run_op fuel tree E op
    run_ops fuel tree rest E1

/-- A fresh file with one tree of the given key type, after the calls. -/
def run_on_new_tree (fuel : Nat) (type : BType) (ops : List Op) : Res (BEngine × BTree) := do
  let (E, tree) ← new_tree type
  let E1 ← run_ops fuel tree ops E
  pure (E1, tree)

/-- The child pointers of an inner node in slot order, the rightmost child last. -/
def node_children (E : BEngine) (n : Node) : Res (List Nat) := do
  let cells ← (List.range n.cell_count).mapM (fun i => do
    let cell ← node_get_cell E n i
    cell_get_child E n cell)
  pure (cells ++ [n.rightmost_child])

/-- The page ids reached from page `id` by following child pointers, in depth-first order.
An id that is not a page of the file is listed and not followed. -/
def reachable_pages (E : BEngine) : Nat → Nat → List Nat
  | 0, id => [id]
  | depth + 1, id =>
    match E.node id with
    | .ok n =>
      if id == 0 ∨ E.page_count ≤ id ∨ node_is_leaf n then [id]
      else
        match node_children E n with
        | .ok children => id :: (children.map (fun c => reachable_pages E depth c)).flatten
        | _ => [id]
    | _ => [id]

/-- The page ids on the free list of the pager: from `free_page` along the link stored in the
last four bytes of each free page, until the link is 0. -/
def free_list (E : BEngine) : Nat → Nat → List Nat
  | 0, _ => []
  | k + 1, id =>
    if id == 0 then []
    else
      match E.page id with
      | .ok p => id :: free_list E k (rd p.node.buf (E.full_page_size - 4) 4)
      | _ => [id]

/-- The page sets of a file with the given live trees: ids reachable from the roots, ids on the
free list, and the page count. -/
def page_sets (E : BEngine) (trees : List BTree) : List Nat × List Nat × Nat :=
  ((trees.map (fun t => reachable_pages E MAX_BTREE_HEIGHT t.root)).flatten,
   free_list E E.page_count E.free_page, E.page_count)

/-- The free-page discipline: reachable ids, free ids and page 0 are pairwise disjoint (no id
is listed twice) and together they are the ids below the page count. -/
def page_discipline (E : BEngine) (trees : List BTree) : Bool :=
  let s := page_sets E trees
  let all := 0 :: (s.1 ++ s.2.1)
  all.Nodup && all.all (fun id => id < s.2.2) && (List.range s.2.2).all (fun id => all.contains id)

/-- The inequality of the slotted page: the slot array ends below the cell area, the cell area
starts at or below the logical cell area, and both lie inside the page. -/
def node_layout_ok (E : BEngine) (n : Node) : Bool :=
  NODE_HEADER_SIZE + 2 * n.cell_count ≤ n.cell_area && n.cell_area ≤ n.cell_area_logical
    && n.cell_area_logical ≤ E.full_page_size

/-- The logical free space of every node of the tree other than the root, by page id. -/
def non_root_free_space (E : BEngine) (tree : BTree) : List (Nat × Nat) :=
  (reachable_pages E MAX_BTREE_HEIGHT tree.root).tail.filterMap (fun id =>
    match E.node id with
    | .ok n => some (id, node_get_logical_free_space n)
    | _ => none)

/-- A text key: one leading byte that orders the keys, padded with the letter a to `len`
bytes. -/
def text_key (lead len : Nat) : UKey := .str (lead :: List.replicate (len - 1) 97)

/-- The header fields of a node: `cell_count`, `cell_area`, `cell_area_logical`. -/
def Node.layout (n : Node) : Nat × Nat × Nat := (n.cell_count, n.cell_area, n.cell_area_logical)

/-- The effect of `node_add_cell(node, idx, size)` on the header of page `id`: the layout
before with its verdicts (inequality, `node_can_fit_cell`), and the layout after with the
verdict of the inequality. -/
def add_cell_layouts (E : BEngine) (tree : BTree) (id idx size : Nat) :
    Res ((Nat × Nat × Nat) × Bool × Bool × (Nat × Nat × Nat) × Bool) := do
  let n ← E.node id
  let (E1, _) ← node_add_cell E tree id idx size
  let n1 ← E1.node id
  pure (n.layout, node_layout_ok E n, node_can_fit_cell n size, n1.layout, node_layout_ok E1 n1)

/-- The `free_space` that `bcursor_remove` computes before it chooses its path: the logical
free space of the node of the cursor with the cell under the cursor and its slot counted as
free. -/
def removal_free_space (E : BEngine) (tree : BTree) (C : BCursor) : Res Nat := do
  let idx ← cursor_idx C
  let node ← cursor_node_deref C
  let n ← E.node node
  let cell ← node_get_cell E n idx
  let size ← cell_get_size E tree node cell
  pure (u32 (node_get_logical_free_space n + size + 2))

/-- The value of a run, or `d` when the run failed. -/
def Res.getD {α : Type} (x : Res α) (d : α) : α :=
  match x with
  | .ok a => a
  | _ => d

/-- The calls of the example of a removal: the keys 1 to 6 are inserted with values of 2044
bytes, which makes cells of 2052 bytes. -/
def six_inserts : List Op :=
  [.insert (.int 1) (mk_val 2040 0), .insert (.int 2) (mk_val 2040 0),
   .insert (.int 3) (mk_val 2040 0), .insert (.int 4) (mk_val 2040 0),
   .insert (.int 5) (mk_val 2040 0), .insert (.int 6) (mk_val 2040 0)]

/-- The calls of the example of a tree of height three: seven text keys of 3000 bytes in
ascending order, each with an empty value. -/
def seven_text_keys : List Op :=
  [.insert (text_key 1 3000) (mk_val 0 0), .insert (text_key 2 3000) (mk_val 0 0),
   .insert (text_key 3 3000) (mk_val 0 0), .insert (text_key 4 3000) (mk_val 0 0),
   .insert (text_key 5 3000) (mk_val 0 0), .insert (text_key 6 3000) (mk_val 0 0),
   .insert (text_key 7 3000) (mk_val 0 0)]

/-! ## Rows of a table type -/

/-- Whether the column has a storable type and the value is null or a value of that type: a
64-bit integer for `INT`, a boolean for `BOOL`, a byte string with a `u32` count for `TEXT`. -/
def value_has_type (c : Type_Column) (v : Db_Value) : Bool :=
  match c.field, v.val with
  | .TYPE_INT, .integer i => v.is_null || decide (-(2 ^ 63) ≤ i ∧ i < 2 ^ 63)
  | .TYPE_BOOL, .boolean _ => true
  | .TYPE_TEXT, .string s => v.is_null || decide (s.length < 2 ^ 32)
  | .TYPE_INT, _ => v.is_null
  | .TYPE_BOOL, _ => v.is_null
  | .TYPE_TEXT, _ => v.is_null
  | _, _ => false

/-- Whether the row has one value per column, each of the type of its column. -/
def row_has_type : List Type_Column → List Db_Value → Bool
  | [], [] => true
  | c :: cols, v :: row => value_has_type c v && row_has_type cols row
  | _, _ => false

/-- The number of bytes a value takes in a serialised row: the null byte, then 8, 1 or
4 + count bytes when the value is not null. -/
def value_size (v : Db_Value) : Nat :=
  if v.is_null then 1
  else
    match v.val with
    | .integer _ => 9
    | .boolean _ => 2
    | .string s => 5 + s.length

/-- The number of bytes of a serialised row, length field included. -/
def row_size (row : List Db_Value) : Nat := 4 + (row.map value_size).sum

/-- Two values have the same null flag and, when not null, the same payload. -/
def same_value (v w : Db_Value) : Bool :=
  v.is_null == w.is_null && (v.is_null || v.val == w.val)

/-- Two rows have the same number of values and the same value at every position. -/
def same_rows : List Db_Value → List Db_Value → Bool
  | [], [] => true
  | v :: row, w :: out => same_value v w && same_rows row out
  | _, _ => false

/-- The round trip: `serialize_row`, then `deserialize_row` on the bytes it returned. -/
def round_trip (cols : List Type_Column) (row : List Db_Value) : Res (List Db_Value) := do
  let bytes ← serialize_row cols row
  deserialize_row cols bytes

/-- The value expressions of `INSERT INTO t VALUES (id, text)` with `text` the letter a
repeated `len` times. -/
def id_text_row (id : Int) (len : Nat) : List Plan :=
  [.PLAN_LITERAL_INT id, .PLAN_LITERAL_STRING (List.replicate len 97)]

/-! ## Operators of a query plan (runner.c, `next` and `reset`)

`next(run, plan)` dispatches on the tag of the plan node and calls itself on the operands. Each
case is a function of its own here, taking the operand as an `Input`: a state with the `next`
and `reset` of the operand on it. `none` stands for the `NULL` row. A `Db_Row` is its array of
values; every row object is handed up once between two resets, so rows are values here. -/

/-- The values of a `Db_Row`. -/
abbrev Db_Row := List Db_Value

/-- An operand as `next` and `reset` use it. -/
structure Input (σ : Type) where
  next : σ → Res (Option Db_Row × σ)
  reset : σ → Res σ

/-- Whether the calls of `next` from state `s` return the rows of the list in turn and then
`NULL`. -/
def Input.yields {σ : Type} (I : Input σ) : σ → List Db_Row → Bool
  | s, [] =>
    match I.next s with
    | .ok (none, _) => true
    | _ => false
  | s, r :: rows =>
    match I.next s with
    | .ok (some r1, s1) => r1 == r && I.yields s1 rows
    | _ => false

/-- Calls of `next` until it returns `NULL` (at most `fuel` calls): the rows returned and the
state after the `NULL`. This is the loop of `db_query_next` callers. -/
def Input.drain {σ : Type} (I : Input σ) : Nat → σ → Res (List Db_Row × σ)
  | 0, _ => .outOfFuel
  | fuel + 1, s => do
    let (row, s1) ← I.next s
    match row with
    | none => pure ([], s1)
    | some r => do
      let (rows, s2) ← I.drain fuel s1
      pure (r :: rows, s2)

/-- An operand that is known only by the rows it yields: the state holds the rows not yet
returned, `reset` starts over with all of them. -/
def rows_input (all : List Db_Row) : Input (List Db_Row) where
  next := fun s =>
    match s with
    | [] => pure (none, [])
    | r :: rest => pure (some r, rest)
  reset := fun _ => pure all

/-- The case `PLAN_SCAN_DUMMY` of `next` and `reset`; the state is the field `done`. -/
def plan_scan_dummy : Input Bool where
  next := fun done => if done then pure (none, done) else pure (some [], true)
  reset := fun _ => pure false

/-- The struct `Plan_Filter` with the state of its operand. -/
structure Plan_Filter (σ : Type) where
  expr : Plan
  op : σ

/-- The loop of the case `PLAN_FILTER`. -/
def plan_filter_next {σ : Type} (I : Input σ) (expr : Plan) : Nat → σ → Res (Option Db_Row × σ)
  | 0, _ => .outOfFuel
  | fuel + 1, s => do
    let (row, s1) ← I.next s
    match row with
    | none => pure (none, s1)
    | some r => do
      let pass ← passes_filter expr r
      if pass then pure (some r, s1) else plan_filter_next I expr fuel s1

/-- The case `PLAN_FILTER` of `next` and the default case of `reset` (a node with the base
`PLAN_OP1` resets its operand). -/
def plan_filter {σ : Type} (fuel : Nat) (I : Input σ) : Input (Plan_Filter σ) where
  next := fun P => do
    let (row, s1) ← plan_filter_next I P.expr fuel P.op
    pure (row, { P with op := s1 })
  reset := fun P => do
    let s1 ← I.reset P.op
    pure { P with op := s1 }

/-- The struct `Plan_Projection` with the state of its operand. -/
structure Plan_Projection (σ : Type) where
  cols : List Plan
  op : σ

/-- The values of the projected row: one `eval_expr` per column. -/
def plan_projection_values (row : Db_Row) : List Plan → Res (List Db_Value)
  | [] => pure []
  | expr :: cols => do
    let v ← eval_expr (some row) expr
    let rest ← plan_projection_values row cols
    pure (v :: rest)

/-- The case `PLAN_PROJECTION` of `next` and the default case of `reset`. -/
def plan_projection {σ : Type} (I : Input σ) : Input (Plan_Projection σ) where
  next := fun P => do
    let (row, s1) ← I.next P.op
    match row with
    | none => pure (none, { P with op := s1 })
    | some r => do
      let values ← plan_projection_values r P.cols
      pure (some values, { P with op := s1 })
  reset := fun P => do
    let s1 ← I.reset P.op
    pure { P with op := s1 }

/-- The struct `Plan_Limit` with the state of its operand: `limit`, `offset` and `emitted` are
`s64`, `state` is 0 (skipping the offset), 1 (emitting) or 2 (done). -/
structure Plan_Limit (σ : Type) where
  limit : Int
  offset : Int
  emitted : Int
  state : Nat
  op : σ

/-- The loop `for (s64 i = 0; i < P->offset; ++i)` of state 0 with `n` iterations left: `false`
when the operand ran out of rows. -/
def plan_limit_skip {σ : Type} (I : Input σ) : Nat → σ → Res (Bool × σ)
  | 0, s => pure (true, s)
  | n + 1, s => do
    let (row, s1) ← I.next s
    match row with
    | none => pure (false, s1)
    | some _ => plan_limit_skip I n s1

/-- The code under `case 1` of `PLAN_LIMIT`. -/
def plan_limit_emit {σ : Type} (I : Input σ) (P : Plan_Limit σ) :
    Res (Option Db_Row × Plan_Limit σ) :=
  if P.emitted == P.limit then pure (none, { P with state := 2 })
  else do
    let (row, s1) ← I.next P.op
    let P1 := { P with emitted := wrap64 (P.emitted + 1), op := s1 }
    match row with
    | none => pure (none, { P1 with state := 2 })
    | some r => pure (some r, P1)

/-- The case `PLAN_LIMIT` of `next`. -/
def plan_limit_next {σ : Type} (I : Input σ) (P : Plan_Limit σ) :
    Res (Option Db_Row × Plan_Limit σ) :=
  match P.state with
  | 0 => do
    let (more, s1) ← plan_limit_skip I P.offset.toNat P.op
    if more then plan_limit_emit I { P with state := 1, op := s1 }
    else pure (none, { P with state := 2, op := s1 })
  | 1 => plan_limit_emit I P
  | _ => pure (none, P)

/-- The case `PLAN_LIMIT` of `next`; `reset` does nothing on it, because `PLAN_LIMIT` is
declared without the base `PLAN_OP1` in `X_PLAN`. -/
def plan_limit {σ : Type} (I : Input σ) : Input (Plan_Limit σ) where
  next := plan_limit_next I
  reset := fun P => pure P

/-- A `PLAN_LIMIT` node as the parser makes it, over an operand in state `s`. -/
def plan_limit_new {σ : Type} (offset limit : Int) (s : σ) : Plan_Limit σ :=
  ⟨limit, offset, 0, 0, s⟩

/-- The struct `Sort_Item`. -/
structure Sort_Item where
  row : Db_Row
  keys : List Db_Value
  deriving Repr, DecidableEq

/-- The struct `Sorter`: the read index and the items; keys and directions stay in the plan
node. -/
structure Sorter where
  idx : Nat
  items : List Sort_Item
  deriving Repr, DecidableEq

/-- `a_before_b`, over the key types of the sorter (`array_get(sorter->keys, i)->type`), the
directions (`none` for the `NULL` pointer: all ascending) and the keys of `A` and `B`. The `TEXT`
case tests the value of `strncmp` against -1, as the code does, so two texts whose first bytes
that differ are more than 1 apart are not in order either way. -/
def a_before_b : List Type_Tag → Option (List Bool) → List Db_Value → List Db_Value → Res Bool
  | _, _, [], _ => pure false
  | _, _, _ :: _, [] => .assertFail
  | [], _, _ :: _, _ :: _ => .assertFail
  | key_type :: types, directions, keyA :: keysA, keyB :: keysB => do
    let (ascending, directions1) ←
      match directions with
      | none => pure (true, none)
      | some [] => Res.assertFail
      | some (d :: ds) => pure (d, some ds)
    let key1 := if ascending then keyA else keyB
    let key2 := if ascending then keyB else keyA
    if key1.is_null && key2.is_null then a_before_b types directions1 keysA keysB
    else if key1.is_null then pure true
    else if key2.is_null then pure false
    else
      match key_type with
      | .TYPE_INT =>
        if key1.integer == key2.integer then a_before_b types directions1 keysA keysB
        else pure (decide (key1.integer < key2.integer))
      | .TYPE_BOOL =>
        if key1.boolean == key2.boolean then a_before_b types directions1 keysA keysB
        else pure (!key1.boolean && key2.boolean)
      | .TYPE_TEXT =>
        let result := strncmp key1.string key2.string (min key1.string.length key2.string.length)
        if result == 0 then a_before_b types directions1 keysA keysB
        else pure (result == -1)
      | _ => .assertFail

/-- The keys of `sort_item_new`: one `eval_expr` per key expression. -/
def sort_item_keys (row : Db_Row) : List Plan → Res (List Db_Value)
  | [] => pure []
  | key :: keys => do
    let v ← eval_expr (some row) key
    let rest ← sort_item_keys row keys
    pure (v :: rest)

/-- `sort_item_new`. -/
def sort_item_new (keys : List Plan) (row : Db_Row) : Res Sort_Item := do
  let ks ← sort_item_keys row keys
  pure ⟨row, ks⟩

/-- The loop "Collect" of `sorter_new`. -/
def sorter_collect {σ : Type} (I : Input σ) (keys : List Plan) :
    Nat → σ → Res (List Sort_Item × σ)
  | 0, _ => .outOfFuel
  | fuel + 1, s => do
    let (row, s1) ← I.next s
    match row with
    | none => pure ([], s1)
    | some r => do
      let item ← sort_item_new keys r
      let (items, s2) ← sorter_collect I keys fuel s1
      pure (item :: items, s2)

/-- The inner loop of "Sort": put `A` in front of the first item of the sorted part that it comes
before, or leave it behind all of them. -/
def sorter_insert (types : List Type_Tag) (directions : Option (List Bool)) (A : Sort_Item) :
    List Sort_Item → Res (List Sort_Item)
  | [] => pure [A]
  | B :: rest => do
    let before ← a_before_b types directions A.keys B.keys
    if before then pure (A :: B :: rest)
    else do
      let rest1 ← sorter_insert types directions A rest
      pure (B :: rest1)

/-- The outer loop of "Sort": the sorted part grows by the next item of the array. -/
def sorter_sort (types : List Type_Tag) (directions : Option (List Bool)) :
    List Sort_Item → List Sort_Item → Res (List Sort_Item)
  | sorted, [] => pure sorted
  | sorted, A :: rest => do
    let sorted1 ← sorter_insert types directions A sorted
    sorter_sort types directions sorted1 rest

/-- `sorter_new`: collect the rows of the operand, then sort by insertion; the sorted part
starts with the first item. -/
def sorter_new {σ : Type} (I : Input σ) (keys : List Plan) (types : List Type_Tag)
    (directions : Option (List Bool)) (fuel : Nat) (s : σ) : Res (Sorter × σ) := do
  let (items, s1) ← sorter_collect I keys fuel s
  let sorted ←
    match items with
    | [] => pure []
    | first :: rest => sorter_sort types directions [first] rest
  pure (⟨0, sorted⟩, s1)

/-- `sorter_peek`. -/
def sorter_peek (sorter : Sorter) : Option Sort_Item := sorter.items.get? sorter.idx

/-- `sorter_next`. -/
def sorter_next (sorter : Sorter) : Option Sort_Item × Sorter :=
  match sorter.items.get? sorter.idx with
  | some item => (some item, { sorter with idx := sorter.idx + 1 })
  | none => (none, sorter)

/-- `sorter_reset`. -/
def sorter_reset (sorter : Sorter) : Sorter := { sorter with idx := 0 }

/-- The struct `Plan_Order` with the state of its operand; `key_types` are the types the type
checker gave to the key expressions. -/
structure Plan_Order (σ : Type) where
  directions : List Bool
  keys : List Plan
  key_types : List Type_Tag
  sorter : Option Sorter
  op : σ

/-- The case `PLAN_ORDER` of `next` and of `reset` (which dereferences the sorter). -/
def plan_order {σ : Type} (fuel : Nat) (I : Input σ) : Input (Plan_Order σ) where
  next := fun P => do
    let (sorter, s1) ←
      match P.sorter with
      | some sorter => pure (sorter, P.op)
      | none => sorter_new I P.keys P.key_types (some P.directions) fuel P.op
    let (it, sorter1) := sorter_next sorter
    pure (it.map Sort_Item.row, { P with sorter := some sorter1, op := s1 })
  reset := fun P =>
    match P.sorter with
    | some sorter => pure { P with sorter := some (sorter_reset sorter) }
    | none => .fault

/-- A `PLAN_ORDER` node as the parser makes it, over an operand in state `s`. -/
def plan_order_new {σ : Type} (keys : List Plan) (key_types : List Type_Tag)
    (directions : List Bool) (s : σ) : Plan_Order σ :=
  ⟨directions, keys, key_types, none, s⟩

/-- The enum `Aggregate_Tag`. -/
inductive Aggregate_Tag where
  | AGGREGATE_AVG
  | AGGREGATE_MAX
  | AGGREGATE_MIN
  | AGGREGATE_SUM
  | AGGREGATE_COUNT
  | AGGREGATE_COUNT_ALL
  deriving Repr, DecidableEq

/-- The struct `Aggregate`: the tag and the index of the column reference `ref` (its operand in
the row of the operator below). -/
structure Aggregate where
  tag : Aggregate_Tag
  ref : Nat
  deriving Repr, DecidableEq

/-- The struct `Plan_Group` with the state of its operand; `key_types` are the types the type
checker gave to the keys. -/
structure Plan_Group (σ : Type) where
  keys : List Plan
  key_types : List Type_Tag
  aggregates : List Aggregate
  sorter : Option Sorter
  op : σ

/-- The switch inside the macro `AGGREGATE`: the accumulator after a non-null operand value. -/
def aggregate_step (tag : Aggregate_Tag) (acc val : Db_Value) : Db_Value :=
  match tag with
  | .AGGREGATE_AVG => { acc with val := .integer (wrap64 (acc.integer + val.integer)) }
  | .AGGREGATE_SUM => { acc with val := .integer (wrap64 (acc.integer + val.integer)) }
  | .AGGREGATE_MAX =>
    if val.integer < acc.integer then { acc with val := .integer val.integer } else acc
  | .AGGREGATE_MIN =>
    if val.integer < acc.integer then { acc with val := .integer val.integer } else acc
  | .AGGREGATE_COUNT => { acc with val := .integer (wrap64 (acc.integer + 1)) }
  | .AGGREGATE_COUNT_ALL => acc

/-- The macro `AGGREGATE(input_row)`: every accumulator of the output row takes in its operand
from the input row. -/
def AGGREGATE : List Aggregate → Db_Row → List Db_Value → Res (List Db_Value)
  | [], _, accs => pure accs
  | _ :: _, _, [] => .assertFail
  | agg :: aggs, input_row, acc :: accs =>
    match input_row.get? agg.ref with
    | none => .assertFail
    | some val => do
      let rest ← AGGREGATE aggs input_row accs
      pure ((if val.is_null then acc else aggregate_step agg.tag acc val) :: rest)

/-- The loop that looks whether the next input row is in a different group: `true` when
`value_match` holds for every key. -/
def group_keys_match : List Type_Tag → List Db_Value → List Db_Value → Res Bool
  | _, [], _ => pure true
  | _, _ :: _, [] => .assertFail
  | [], _ :: _, _ :: _ => .assertFail
  | type :: types, key1 :: keys1, key2 :: keys2 => do
    let m ← value_match type key1 key2
    if m then group_keys_match types keys1 keys2 else pure false

/-- The loop `while (1)` of the keyed branch of `PLAN_GROUP`, entered with `input_row` and the
items the sorter has not returned yet: the accumulators, the last row of the group, `count` and
the number of further items taken from the sorter. -/
def plan_group_run (aggs : List Aggregate) (types : List Type_Tag) :
    Sort_Item → List Sort_Item → List Db_Value → Int → Nat →
      Res (List Db_Value × Sort_Item × Int × Nat)
  | input_row, rest, accs, count, taken => do
    let accs1 ← AGGREGATE aggs input_row.row accs
    match rest with
    | [] => pure (accs1, input_row, count, taken)
    | next_input_row :: rest1 => do
      let same ← group_keys_match types input_row.keys next_input_row.keys
      if same then
        plan_group_run aggs types next_input_row rest1 accs1 (wrap64 (count + 1)) (taken + 1)
      else pure (accs1, input_row, count, taken)

/-- The loop `while (1)` of the branch of `PLAN_GROUP` without keys, after `AGGREGATE` on the
first row. -/
def plan_group_all {σ : Type} (I : Input σ) (aggs : List Aggregate) :
    Nat → σ → List Db_Value → Int → Res (List Db_Value × Int × σ)
  | 0, _, _, _ => .outOfFuel
  | fuel + 1, s, accs, count => do
    let (row, s1) ← I.next s
    match row with
    | none => pure (accs, count, s1)
    | some r => do
      let accs1 ← AGGREGATE aggs r accs
      plan_group_all I aggs fuel s1 accs1 (wrap64 (count + 1))

/-- The key values appended to the output row: the columns of the last input row that the keys
(column references) point to. -/
def plan_group_keys (row : Db_Row) : List Plan → Res (List Db_Value)
  | [] => pure []
  | .PLAN_COLUMN_REF idx :: keys =>
    match row.get? idx with
    | none => .assertFail
    | some v => do
      let rest ← plan_group_keys row keys
      pure (v :: rest)
  | _ :: _ => .fault

/-- The last loop of `PLAN_GROUP`: `AVG` divides by `count`, `COUNT(*)` takes `count`. -/
def plan_group_finish (count : Int) : List Aggregate → List Db_Value → Res (List Db_Value)
  | [], accs => pure accs
  | _ :: _, [] => .assertFail
  | agg :: aggs, acc :: accs => do
    let acc1 ←
      match agg.tag with
      | .AGGREGATE_AVG =>
        if count == 0 then Res.fault
        else pure { acc with val := .integer (Int.tdiv acc.integer count) }
      | .AGGREGATE_COUNT_ALL => pure { acc with val := .integer count }
      | _ => pure acc
    let rest ← plan_group_finish count aggs accs
    pure (acc1 :: rest)

/-- The accumulators of a new output row: one `(Db_Value)\x7b0\x7d` per aggregate. -/
def plan_group_zero (aggs : List Aggregate) : List Db_Value :=
  aggs.map (fun _ => ⟨false, .integer 0⟩)

/-- The case `PLAN_GROUP` of `next`. -/
def plan_group_next {σ : Type} (fuel : Nat) (I : Input σ) (P : Plan_Group σ) :
    Res (Option Db_Row × Plan_Group σ) :=
  if P.keys.length == 0 then do
    let (row, s1) ← I.next P.op
    match row with
    | none => pure (none, { P with op := s1 })
    | some input_row => do
      let accs ← AGGREGATE P.aggregates input_row (plan_group_zero P.aggregates)
      let (accs1, count, s2) ← plan_group_all I P.aggregates fuel s1 accs 1
      let out ← plan_group_finish count P.aggregates accs1
      pure (some out, { P with op := s2 })
  else do
    let (sorter, s1) ←
      match P.sorter with
      | some sorter => pure (sorter, P.op)
      | none => sorter_new I P.keys P.key_types none fuel P.op
    match sorter_next sorter with
    | (none, sorter1) => pure (none, { P with sorter := some sorter1, op := s1 })
    | (some input_row, sorter1) => do
      let (accs, last, count, taken) ←
        plan_group_run P.aggregates P.key_types input_row (sorter1.items.drop sorter1.idx)
          (plan_group_zero P.aggregates) 1 0
      let keys ← plan_group_keys last.row P.keys
      let out ← plan_group_finish count P.aggregates (accs ++ keys)
      pure (some out,
        { P with sorter := some { sorter1 with idx := sorter1.idx + taken }, op := s1 })

/-- The case `PLAN_GROUP` of `next` and of `reset`. -/
def plan_group {σ : Type} (fuel : Nat) (I : Input σ) : Input (Plan_Group σ) where
  next := plan_group_next fuel I
  reset := fun P =>
    match P.sorter with
    | some sorter => pure { P with sorter := some (sorter_reset sorter) }
    | none => do
      let s1 ← I.reset P.op
      pure { P with op := s1 }

/-- A `PLAN_GROUP` node as the parser makes it, over an operand in state `s`. -/
def plan_group_new {σ : Type} (keys : List Plan) (key_types : List Type_Tag)
    (aggregates : List Aggregate) (s : σ) : Plan_Group σ :=
  ⟨keys, key_types, aggregates, none, s⟩

/-- The struct `Plan_Join_Cross` with the states of its operands; `cur` is the current row of
the first operand. -/
structure Plan_Join_Cross (σ1 σ2 : Type) where
  cur : Option Db_Row
  op1 : σ1
  op2 : σ2

/-- The case `PLAN_JOIN_CROSS` of `next`. After `reset(run, op2)` the row of the second operand
is used without a test for `NULL`. -/
def plan_join_cross_next {σ1 σ2 : Type} (I1 : Input σ1) (I2 : Input σ2)
    (P : Plan_Join_Cross σ1 σ2) : Res (Option Db_Row × Plan_Join_Cross σ1 σ2) := do
  let (cur, s1) ←
    match P.cur with
    | some r => pure (some r, P.op1)
    | none => I1.next P.op1
  match cur with
  | none => pure (none, ⟨none, s1, P.op2⟩)
  | some row1 => do
    let (row2, s2) ← I2.next P.op2
    match row2 with
    | some r2 => pure (some (row1 ++ r2), ⟨some row1, s1, s2⟩)
    | none => do
      let (cur1, s1a) ← I1.next s1
      match cur1 with
      | none => pure (none, ⟨none, s1a, s2⟩)
      | some row1a => do
        let s2a ← I2.reset s2
        let (row2a, s2b) ← I2.next s2a
        match row2a with
        | none => .fault
        | some r2 => pure (some (row1a ++ r2), ⟨some row1a, s1a, s2b⟩)

/-- The case `PLAN_JOIN_CROSS` of `next` and the default case of `reset` (a node with the base
`PLAN_OP2` resets both operands and keeps its own fields). -/
def plan_join_cross {σ1 σ2 : Type} (I1 : Input σ1) (I2 : Input σ2) :
    Input (Plan_Join_Cross σ1 σ2) where
  next := plan_join_cross_next I1 I2
  reset := fun P => do
    let s1 ← I1.reset P.op1
    let s2 ← I2.reset P.op2
    pure { P with op1 := s1, op2 := s2 }

/-- The struct `Plan_Join_Inner` with the states of its operands; `on_expr` is the field `on`. -/
structure Plan_Join_Inner (σ1 σ2 : Type) where
  on_expr : Plan
  cur : Option Db_Row
  op1 : σ1
  op2 : σ2

/-- The loop `while (1)` of the case `PLAN_JOIN_INNER`, with `row1` the current row of the
first operand. -/
def plan_join_inner_loop {σ1 σ2 : Type} (I1 : Input σ1) (I2 : Input σ2) (on_expr : Plan) :
    Nat → Db_Row → σ1 → σ2 → Res (Option Db_Row × Option Db_Row × σ1 × σ2)
  | 0, _, _, _ => .outOfFuel
  | fuel + 1, row1, s1, s2 => do
    let (row2, s2a) ← I2.next s2
    match row2 with
    | some r2 => do
      let pass ← passes_filter on_expr (row1 ++ r2)
      if pass then pure (some (row1 ++ r2), some row1, s1, s2a)
      else plan_join_inner_loop I1 I2 on_expr fuel row1 s1 s2a
    | none => do
      let (cur1, s1a) ← I1.next s1
      match cur1 with
      | none => pure (none, none, s1a, s2a)
      | some row1a => do
        let s2b ← I2.reset s2a
        let (row2a, s2c) ← I2.next s2b
        match row2a with
        | none => .fault
        | some r2 => do
          let pass ← passes_filter on_expr (row1a ++ r2)
          if pass then pure (some (row1a ++ r2), some row1a, s1a, s2c)
          else plan_join_inner_loop I1 I2 on_expr fuel row1a s1a s2c

/-- The case `PLAN_JOIN_INNER` of `next`. -/
def plan_join_inner_next {σ1 σ2 : Type} (fuel : Nat) (I1 : Input σ1) (I2 : Input σ2)
    (P : Plan_Join_Inner σ1 σ2) : Res (Option Db_Row × Plan_Join_Inner σ1 σ2) := do
  let (cur, s1) ←
    match P.cur with
    | some r => pure (some r, P.op1)
    | none => I1.next P.op1
  match cur with
  | none => pure (none, { P with cur := none, op1 := s1 })
  | some row1 => do
    let (row, cur1, s1a, s2) ← plan_join_inner_loop I1 I2 P.on_expr fuel row1 s1 P.op2
    pure (row, { P with cur := cur1, op1 := s1a, op2 := s2 })

/-- The case `PLAN_JOIN_INNER` of `next` and the default case of `reset`. -/
def plan_join_inner {σ1 σ2 : Type} (fuel : Nat) (I1 : Input σ1) (I2 : Input σ2) :
    Input (Plan_Join_Inner σ1 σ2) where
  next := plan_join_inner_next fuel I1 I2
  reset := fun P => do
    let s1 ← I1.reset P.op1
    let s2 ← I2.reset P.op2
    pure { P with op1 := s1, op2 := s2 }

/-- The statements `INSERT` (one per row) on a new table: the B-tree keys of the stored cells in
scan order and the rows a following `SELECT * FROM t` yields. -/
def insert_select (fuel : Nat) (cols : List Type_Column) (rows : List (List Plan)) :
    Res (List Nat × List (List Db_Value)) := do
  let (E, table) ← new_table cols 0
  let E1 ← run_inserts fuel table 0 rows E
  let cells ← scan fuel E1 table.tree bcursor_new
  let (_, out) ← plan_scan fuel E1 table
  pure (cells.map Prod.fst, out)

/-- On a new tree of the given key type, after the calls: what `bcursor_goto_ukey(key)` on a new
cursor returns. -/
def goto_ukey_after (fuel : Nat) (type : BType) (ops : List Op) (key : UKey) : Res Bool := do
  let (E, tree) ← run_on_new_tree fuel type ops
  let (_, _, found) ← bcursor_goto_ukey E tree bcursor_new key
  pure found

/-! ## Three-valued results of `eval_expr` -/

/-- The evaluation returned a value and that value is null. -/
def yields_null (r : Res Db_Value) : Bool :=
  match r with
  | .ok v => v.is_null
  | _ => false

/-- The evaluation returned a value and that value is the non-null boolean `b`. -/
def yields_bool (r : Res Db_Value) (b : Bool) : Bool :=
  match r with
  | .ok v => !v.is_null && v.boolean == b
  | _ => false

/-- The nodes with one operand that `eval_expr` evaluates with the macro `EVAL1`. -/
def unary_operators : List (Plan → Plan) := [.PLAN_NOT, .PLAN_NEG]

/-- The nodes with two operands that `eval_expr` evaluates with the macro `EVAL2` or with
`value_match`: `+`, `-`, `*`, `/`, `<`, `>`, `<=`, `>=`, `=` and `!=` (the last two on operands
of type `type`). -/
def binary_operators (type : Type_Tag) : List (Plan → Plan → Plan) :=
  [.PLAN_ADD, .PLAN_SUB, .PLAN_MUL, .PLAN_DIV, .PLAN_LESS, .PLAN_GREATER, .PLAN_LESS_EQUAL,
   .PLAN_GREATER_EQUAL, .PLAN_EQUAL type, .PLAN_NOT_EQUAL type]

/-! ## Front end: the expression parser and the type checker (parser.c, typer.c)

The parser is modelled on the tokens the lexer hands out for the text, for statements of the
form `SELECT expr, ..., expr` over literals and operators. Identifiers (column references and
aggregates) and the other clauses and statements need the tables of the type checker and are
not modelled: the functions answer `unmodelled` on them. -/

/-- The errors the modelled part of the front end reports with `error()`. -/
inductive Front_Error where
  | expected_expression
  | expected_token
  | invalid_statement
  | column_does_not_exist
  | type_mismatch (expected got : Type_Tag)
  | type_mismatch_of_operands (type1 type2 : Type_Tag)
  deriving Repr, DecidableEq

/-- What the front end does with an input: a value, a call of `error()` (the statement is
rejected with a report), a call of `panic()` (`unreachable`), an input outside the modelled
part, or an exhausted recursion budget. -/
inductive Front (α : Type) where
  | ok (a : α)
  | error (e : Front_Error)
  | panic
  | unmodelled
  | outOfFuel
  deriving Repr, DecidableEq

/-- Sequencing of front-end code: the first outcome that is not a value ends the run. -/
@[inline] def Front.bind {α β : Type} (x : Front α) (f : α → Front β) : Front β :=
  match x with
  | .ok a => f a
  | .error e => .error e
  | .panic => .panic
  | .unmodelled => .unmodelled
  | .outOfFuel => .outOfFuel

instance : Monad Front where
  pure := Front.ok
  bind := Front.bind

/-- The tokens of the lexer (`Token_Tag`, with `val`, `str` or `txt` where the token has one).
`TOKEN_OTHER` stands for the tags that no modelled function looks at. -/
inductive Token where
  | TOKEN_EOF
  | TOKEN_EXCLAMATION
  | TOKEN_OPEN_PAREN
  | TOKEN_CLOSED_PAREN
  | TOKEN_ASTERISK
  | TOKEN_PLUS
  | TOKEN_COMMA
  | TOKEN_MINUS
  | TOKEN_SLASH
  | TOKEN_SEMICOLON
  | TOKEN_LESS
  | TOKEN_EQUAL
  | TOKEN_GREATER
  | TOKEN_NOT_EQUAL
  | TOKEN_LESS_EQUAL
  | TOKEN_GREATER_EQUAL
  | TOKEN_IDENT (txt : List Nat)
  | TOKEN_LITERAL_INT (val : Int)
  | TOKEN_LITERAL_STRING (str : List Nat)
  | TOKEN_OR
  | TOKEN_IS
  | TOKEN_AS
  | TOKEN_NOT
  | TOKEN_AND
  | TOKEN_NULL
  | TOKEN_FROM
  | TOKEN_TRUE
  | TOKEN_FALSE
  | TOKEN_GROUP
  | TOKEN_ORDER
  | TOKEN_WHERE
  | TOKEN_LIMIT
  | TOKEN_SELECT
  | TOKEN_OTHER
  deriving Repr, DecidableEq

/-- `lex_peek_token`: the next token; at the end of the text the lexer hands out `TOKEN_EOF`. -/
def lex_peek_token (L : List Token) : Token := L.headD .TOKEN_EOF

/-- `lex_eat_token`: the tokens after the next one. -/
def lex_eat_token (L : List Token) : List Token := L.tail

/-- `lex_try_eat_token`: `none` stands for `NULL`. -/
def lex_try_eat_token (L : List Token) (tag : Token) : Option (List Token) :=
  if lex_peek_token L == tag then some (lex_eat_token L) else none

/-- The function `error` of lexer.c and parser.c on the next token of `L`: the report is made
with `report_source`, whose `sp_new` starts with `ASSERT(src.offset < txt.count)`. The token at
the end of the text starts at `txt.count`, so an error reported there ends in a panic; on any
other token the statement is rejected with the report. -/
def error_on_token {α : Type} (L : List Token) (e : Front_Error) : Front α :=
  if lex_peek_token L == .TOKEN_EOF then .panic else .error e

/-- `lex_eat_the_token`. -/
def lex_eat_the_token (L : List Token) (tag : Token) : Front (List Token) :=
  if lex_peek_token L == tag then pure (lex_eat_token L) else error_on_token L .expected_token

/-- `precedence_of`; `is_prefix_op` tells that the argument is `prefix(token_tag)`. -/
def precedence_of ( is_prefix_op : Bool) (token_tag : Token) : Nat :=
  if is_prefix_op then
    match token_tag with
    | .TOKEN_MINUS => 8
    | .TOKEN_NOT => 8
    | _ => 0
  else
    match token_tag with
    | .TOKEN_EXCLAMATION => 7
    | .TOKEN_IS => 7
    | .TOKEN_ASTERISK => 6
    | .TOKEN_SLASH => 6
    | .TOKEN_PLUS => 5
    | .TOKEN_MINUS => 5
    | .TOKEN_LESS => 4
    | .TOKEN_GREATER => 4
    | .TOKEN_LESS_EQUAL => 4
    | .TOKEN_GREATER_EQUAL => 4
    | .TOKEN_EQUAL => 3
    | .TOKEN_NOT_EQUAL => 3
    | .TOKEN_AND => 2
    | .TOKEN_OR => 1
    | _ => 0

/-- The node `parse_binary_op` makes for the operator token in `parse_expr_with_lhs`; `none` for
the tokens of its `default` case and for `IS`. The type that `PLAN_EQUAL` and `PLAN_NOT_EQUAL`
carry is not set by the parser (written `TYPE_VOID` here). -/
def binary_op_of (op : Token) : Option (Plan → Plan → Plan) :=
  match op with
  | .TOKEN_PLUS => some .PLAN_ADD
  | .TOKEN_MINUS => some .PLAN_SUB
  | .TOKEN_ASTERISK => some .PLAN_MUL
  | .TOKEN_SLASH => some .PLAN_DIV
  | .TOKEN_LESS => some .PLAN_LESS
  | .TOKEN_GREATER => some .PLAN_GREATER
  | .TOKEN_OR => some .PLAN_OR
  | .TOKEN_AND => some .PLAN_AND
  | .TOKEN_EQUAL => some (.PLAN_EQUAL .TYPE_VOID)
  | .TOKEN_NOT_EQUAL => some (.PLAN_NOT_EQUAL .TYPE_VOID)
  | .TOKEN_LESS_EQUAL => some .PLAN_LESS_EQUAL
  | .TOKEN_GREATER_EQUAL => some .PLAN_GREATER_EQUAL
  | _ => none

/-- `parse_is_null`, entered with the next token `IS`. -/
def parse_is_null (L : List Token) (lhs : Plan) : Front (Plan × List Token) := do
  let L1 ← lex_eat_the_token L .TOKEN_IS
  match lex_try_eat_token L1 .TOKEN_NOT with
  | some L2 => do
    let L3 ← lex_eat_the_token L2 .TOKEN_NULL
    pure (.PLAN_NOT (.PLAN_IS_NULL lhs), L3)
  | none => do
    let L2 ← lex_eat_the_token L1 .TOKEN_NULL
    pure (.PLAN_IS_NULL lhs, L2)

mutual

/-- `parse_expr_without_lhs`; `none` stands for the `NULL` of the `default` case. -/
def parse_expr_without_lhs : Nat → List Token → Front (Option Plan × List Token)
  | 0, _ => .outOfFuel
  | fuel + 1, L =>
    match lex_peek_token L with
    | .TOKEN_OPEN_PAREN => do
      let L1 ← lex_eat_the_token L .TOKEN_OPEN_PAREN
      let (node, L2) ← parse_expr fuel 0 L1
      let L3 ← lex_eat_the_token L2 .TOKEN_CLOSED_PAREN
      pure (some node, L3)
    | .TOKEN_MINUS => do
      let L1 ← lex_eat_the_token L .TOKEN_MINUS
      let (op, L2) ← parse_expr fuel (precedence_of true .TOKEN_MINUS) L1
      match op with
      | .PLAN_LITERAL_INT val => pure (some (.PLAN_LITERAL_INT (wrap64 (-val))), L2)
      | _ => pure (some (.PLAN_NEG op), L2)
    | .TOKEN_NOT => do
      let (op, L1) ← parse_expr fuel (precedence_of true .TOKEN_NOT) (lex_eat_token L)
      pure (some (.PLAN_NOT op), L1)
    | .TOKEN_NULL => pure (some .PLAN_LITERAL_NULL, lex_eat_token L)
    | .TOKEN_TRUE => pure (some (.PLAN_LITERAL_BOOL true), lex_eat_token L)
    | .TOKEN_FALSE => pure (some (.PLAN_LITERAL_BOOL false), lex_eat_token L)
    | .TOKEN_LITERAL_INT val => pure (some (.PLAN_LITERAL_INT val), lex_eat_token L)
    | .TOKEN_LITERAL_STRING str => pure (some (.PLAN_LITERAL_STRING str), lex_eat_token L)
    | .TOKEN_IDENT _ => .unmodelled
    | _ => pure (none, L)

/-- The loop `while (1)` of `parse_expr`, with `result` the expression parsed so far; its body
is `parse_expr_with_lhs`. -/
def parse_expr_loop : Nat → Nat → Plan → List Token → Front (Plan × List Token)
  | 0, _, _, _ => .outOfFuel
  | fuel + 1, precedence_of_lhs, result, L =>
    let op := lex_peek_token L
    let p := precedence_of false op
    if p < precedence_of_lhs || p == precedence_of_lhs then pure (result, L)
    else
      match op with
      | .TOKEN_IS => do
        let (node, L1) ← parse_is_null L result
        parse_expr_loop fuel precedence_of_lhs node L1
      | _ =>
        match binary_op_of op with
        | none => .panic
        | some mk => do
          let (op2, L1) ← parse_expr fuel (precedence_of false op) (lex_eat_token L)
          parse_expr_loop fuel precedence_of_lhs (mk result op2) L1

/-- `parse_expr`; `precedence_of_lhs` is the precedence of the operator to the left. -/
def parse_expr : Nat → Nat → List Token → Front (Plan × List Token)
  | 0, _, _ => .outOfFuel
  | fuel + 1, precedence_of_lhs, L => do
    let (result, L1) ← parse_expr_without_lhs fuel L
    match result with
    | none => error_on_token L1 .expected_expression
    | some r => parse_expr_loop fuel precedence_of_lhs r L1

end

/-- The operator trees the modelled part of `parse_select` builds. -/
inductive Query where
  | PLAN_SCAN_DUMMY
  | PLAN_PROJECTION (cols : List Plan) (op : Query)
  deriving Repr, DecidableEq

/-- The loop of `parse_select_clause` over the expressions of the select list. -/
def parse_select_list : Nat → List Token → Front (List Plan × List Token)
  | 0, _ => .outOfFuel
  | fuel + 1, L => do
    let (expr, L1) ← parse_expr fuel 0 L
    let (expr1, L2) ←
      if lex_peek_token L1 == .TOKEN_AS then
        match lex_peek_token (lex_eat_token L1) with
        | .TOKEN_IDENT _ => pure (Plan.PLAN_AS expr, lex_eat_token (lex_eat_token L1))
        | _ => error_on_token (lex_eat_token L1) .expected_token
      else pure (expr, L1)
    match lex_try_eat_token L2 .TOKEN_COMMA with
    | none => pure ([expr1], L2)
    | some L3 => do
      let (rest, L4) ← parse_select_list fuel L3
      pure (expr1 :: rest, L4)

/-- `parse_select` with `assemble_select`, for a select list without identifiers that is not
followed by another clause: a projection over the dummy scan. -/
def parse_select (fuel : Nat) (L : List Token) : Front (Query × List Token) := do
  let L1 ← lex_eat_the_token L .TOKEN_SELECT
  if lex_peek_token L1 == .TOKEN_ASTERISK then .unmodelled
  else do
    let (cols, L2) ← parse_select_list fuel L1
    match lex_peek_token L2 with
    | .TOKEN_FROM => .unmodelled
    | .TOKEN_WHERE => .unmodelled
    | .TOKEN_GROUP => .unmodelled
    | .TOKEN_ORDER => .unmodelled
    | .TOKEN_LIMIT => .unmodelled
    | _ => pure (.PLAN_PROJECTION cols .PLAN_SCAN_DUMMY, L2)

/-- `eat_semicolons(P, false)`. -/
def eat_semicolons : List Token → List Token
  | .TOKEN_SEMICOLON :: L => eat_semicolons L
  | L => L

/-- `parse_statement_by_tag`; `none` stands for the `NULL` returned at the end of the text. The
switch is on the tag passed in, not on the token that follows the semicolons. -/
def parse_statement_by_tag (fuel : Nat) (L : List Token) (tag : Token) :
    Front (Option Query × List Token) :=
  let L1 := eat_semicolons L
  match tag with
  | .TOKEN_SELECT => do
    let (q, L2) ← parse_select fuel L1
    pure (some q, L2)
  | .TOKEN_EOF => pure (none, L1)
  | .TOKEN_OTHER => .unmodelled
  | _ => error_on_token L1 .invalid_statement

/-- `parse_statement`. -/
def parse_statement (fuel : Nat) (L : List Token) : Front (Option Query × List Token) :=
  parse_statement_by_tag fuel L (lex_peek_token L)

/-- `parse_statements`: the statements of the text. -/
def parse_statements (fuel : Nat) : Nat → List Token → Front (List Query)
  | 0, _ => .outOfFuel
  | n + 1, L => do
    let (node, L1) ← parse_statement fuel L
    match node with
    | none => pure []
    | some q => do
      let rest ← parse_statements fuel n L1
      pure (q :: rest)

/-- `match_type_tag`. -/
def match_type_tag (plan : Plan) (type : Type_Tag) (tag : Type_Tag) : Front Unit :=
  if plan == .PLAN_LITERAL_NULL then pure ()
  else if type != tag then .error (.type_mismatch tag type)
  else pure ()

/-- `match_type_tags`. -/
def match_type_tags (plan1 : Plan) (type1 : Type_Tag) (plan2 : Plan) (type2 : Type_Tag) :
    Front Unit :=
  if plan1 == .PLAN_LITERAL_NULL then pure ()
  else if plan2 == .PLAN_LITERAL_NULL then pure ()
  else if type1 == type2 then pure ()
  else .error (.type_mismatch_of_operands type1 type2)

/-- The cases of `check` for the nodes with two operands: both operands are checked, then
matched against `tag` in turn. -/
def check_operands (r1 r2 : Plan × Type_Tag) (op1 op2 : Plan) (tag : Type_Tag) : Front Unit := do
  match_type_tag op1 r1.2 tag
  match_type_tag op2 r2.2 tag

/-- The cases of `check` for expressions, on an input row with the given column types: the
tag of the type written to `plan->type`, and the plan with that type where the model keeps it
(in `PLAN_EQUAL` and `PLAN_NOT_EQUAL`: the type of the first operand). A column reference is
taken as resolved to its index. -/
def check : List Type_Tag → Plan → Front (Plan × Type_Tag)
  | input_row, .PLAN_COLUMN_REF idx =>
    match input_row.get? idx with
    | some t => pure (.PLAN_COLUMN_REF idx, t)
    | none => .error .column_does_not_exist
  | input_row, .PLAN_AS op => do
    let r ← check input_row op
    pure (.PLAN_AS r.1, r.2)
  | _, .PLAN_LITERAL_INT val => pure (.PLAN_LITERAL_INT val, .TYPE_INT)
  | _, .PLAN_LITERAL_NULL => pure (.PLAN_LITERAL_NULL, .TYPE_VOID)
  | _, .PLAN_LITERAL_BOOL val => pure (.PLAN_LITERAL_BOOL val, .TYPE_BOOL)
  | _, .PLAN_LITERAL_STRING val => pure (.PLAN_LITERAL_STRING val, .TYPE_TEXT)
  | input_row, .PLAN_NEG op => do
    let r ← check input_row op
    match_type_tag op r.2 .TYPE_INT
    pure (.PLAN_NEG r.1, r.2)
  | input_row, .PLAN_ADD op1 op2 => do
    let r1 ← check input_row op1
    let r2 ← check input_row op2
    check_operands r1 r2 op1 op2 .TYPE_INT
    pure (.PLAN_ADD r1.1 r2.1, r1.2)
  | input_row, .PLAN_SUB op1 op2 => do
    let r1 ← check input_row op1
    let r2 ← check input_row op2
    check_operands r1 r2 op1 op2 .TYPE_INT
    pure (.PLAN_SUB r1.1 r2.1, r1.2)
  | input_row, .PLAN_MUL op1 op2 => do
    let r1 ← check input_row op1
    let r2 ← check input_row op2
    check_operands r1 r2 op1 op2 .TYPE_INT
    pure (.PLAN_MUL r1.1 r2.1, r1.2)
  | input_row, .PLAN_DIV op1 op2 => do
    let r1 ← check input_row op1
    let r2 ← check input_row op2
    check_operands r1 r2 op1 op2 .TYPE_INT
    pure (.PLAN_DIV r1.1 r2.1, r1.2)
  | input_row, .PLAN_NOT op => do
    let r ← check input_row op
    match_type_tag op r.2 .TYPE_BOOL
    pure (.PLAN_NOT r.1, .TYPE_BOOL)
  | input_row, .PLAN_IS_NULL op => do
    let r ← check input_row op
    pure (.PLAN_IS_NULL r.1, .TYPE_BOOL)
  | input_row, .PLAN_OR op1 op2 => do
    let r1 ← check input_row op1
    let r2 ← check input_row op2
    check_operands r1 r2 op1 op2 .TYPE_BOOL
    pure (.PLAN_OR r1.1 r2.1, .TYPE_BOOL)
  | input_row, .PLAN_AND op1 op2 => do
    let r1 ← check input_row op1
    let r2 ← check input_row op2
    check_operands r1 r2 op1 op2 .TYPE_BOOL
    pure (.PLAN_AND r1.1 r2.1, .TYPE_BOOL)
  | input_row, .PLAN_EQUAL _ op1 op2 => do
    let r1 ← check input_row op1
    let r2 ← check input_row op2
    match_type_tags op1 r1.2 op2 r2.2
    pure (.PLAN_EQUAL r1.2 r1.1 r2.1, .TYPE_BOOL)
  | input_row, .PLAN_NOT_EQUAL _ op1 op2 => do
    let r1 ← check input_row op1
    let r2 ← check input_row op2
    match_type_tags op1 r1.2 op2 r2.2
    pure (.PLAN_NOT_EQUAL r1.2 r1.1 r2.1, .TYPE_BOOL)
  | input_row, .PLAN_LESS op1 op2 => do
    let r1 ← check input_row op1
    let r2 ← check input_row op2
    check_operands r1 r2 op1 op2 .TYPE_INT
    pure (.PLAN_LESS r1.1 r2.1, .TYPE_BOOL)
  | input_row, .PLAN_GREATER op1 op2 => do
    let r1 ← check input_row op1
    let r2 ← check input_row op2
    check_operands r1 r2 op1 op2 .TYPE_INT
    pure (.PLAN_GREATER r1.1 r2.1, .TYPE_BOOL)
  | input_row, .PLAN_LESS_EQUAL op1 op2 => do
    let r1 ← check input_row op1
    let r2 ← check input_row op2
    check_operands r1 r2 op1 op2 .TYPE_INT
    pure (.PLAN_LESS_EQUAL r1.1 r2.1, .TYPE_BOOL)
  | input_row, .PLAN_GREATER_EQUAL op1 op2 => do
    let r1 ← check input_row op1
    let r2 ← check input_row op2
    check_operands r1 r2 op1 op2 .TYPE_INT
    pure (.PLAN_GREATER_EQUAL r1.1 r2.1, .TYPE_BOOL)

/-- The loop `array_iter (col, P->cols) check(typer, col)` of the case `PLAN_PROJECTION`. -/
def check_cols (input_row : List Type_Tag) : List Plan → Front (List Plan × List Type_Tag)
  | [] => pure ([], [])
  | col :: cols => do
    let r ← check input_row col
    let (rest, types) ← check_cols input_row cols
    pure (r.1 :: rest, r.2 :: types)

/-- The cases `PLAN_SCAN_DUMMY` and `PLAN_PROJECTION` of `check`: the checked tree and the field
types of its row type (`type_void_row` has no columns). -/
def check_query : Query → Front (Query × List Type_Tag)
  | .PLAN_SCAN_DUMMY => pure (.PLAN_SCAN_DUMMY, [])
  | .PLAN_PROJECTION cols op => do
    let (op1, input_row) ← check_query op
    let (cols1, types) ← check_cols input_row cols
    pure (.PLAN_PROJECTION cols1 op1, types)

/-- An operator tree ready to run: the type of its state, its `next` and `reset`, and the state
the parser leaves it in. -/
structure Running where
  σ : Type
  input : Input σ
  init : σ

/-- The operators of a checked tree. -/
def Query.running : Query → Running
  | .PLAN_SCAN_DUMMY => ⟨Bool, plan_scan_dummy, false⟩
  | .PLAN_PROJECTION cols op =>
    ⟨Plan_Projection op.running.σ, plan_projection op.running.input, ⟨cols, op.running.init⟩⟩

/-- `run_next` on the tree until it returns `NULL`: the rows of the query. -/
def run_query (fuel : Nat) (q : Query) : Res (List Db_Row) := do
  let (rows, _) ← q.running.input.drain fuel q.running.init
  pure rows

/-- The loop of `db_run_query` over the statements: type check, then run; the statements and
results so far. A statement the type checker rejects ends the query. -/
def db_run_statements (fuel : Nat) : List Query → Front (List (Query × Res (List Db_Row)))
  | [] => pure []
  | stmt :: rest => do
    let (stmt1, _) ← check_query stmt
    let rows := run_query fuel stmt1
    let more ← db_run_statements fuel rest
    pure ((stmt1, rows) :: more)

/-- `db_run_query` on the tokens of the text: for every statement the checked plan and the rows
it yields. -/
def db_run_query (fuel : Nat) (L : List Token) : Front (List (Query × Res (List Db_Row))) := do
  let statements ← parse_statements fuel fuel L
  db_run_statements fuel statements

/-! ## Inputs of the properties about queries -/

/-- The tokens of the text `SELECT 1 + NULL IS NULL`. -/
def tokens_select_1_plus_null_is_null : List Token :=
  [.TOKEN_SELECT, .TOKEN_LITERAL_INT 1, .TOKEN_PLUS, .TOKEN_NULL, .TOKEN_IS, .TOKEN_NULL]

/-- The tokens of the text `SELECT (1 + NULL) IS NULL`. -/
def tokens_select_paren_1_plus_null_is_null : List Token :=
  [.TOKEN_SELECT, .TOKEN_OPEN_PAREN, .TOKEN_LITERAL_INT 1, .TOKEN_PLUS, .TOKEN_NULL,
   .TOKEN_CLOSED_PAREN, .TOKEN_IS, .TOKEN_NULL]

/-- A non-null integer value. -/
def int_value (i : Int) : Db_Value := ⟨false, .integer i⟩

/-- The rows a `PLAN_GROUP` with the given keys (column references with integer type) and
aggregates yields over an operand that yields `rows`. -/
def group_rows (fuel : Nat) (keys : List Nat) (aggregates : List Aggregate)
    (rows : List Db_Row) : Res (List Db_Row) := do
  let (out, _) ← (plan_group fuel (rows_input rows)).drain fuel
    (plan_group_new (keys.map Plan.PLAN_COLUMN_REF) (keys.map (fun _ => Type_Tag.TYPE_INT))
      aggregates rows)
  pure out

/-- The rows a `PLAN_JOIN_CROSS` yields over operands that yield `outer` and `inner`. -/
def cross_join_rows (fuel : Nat) (outer inner : List Db_Row) : Res (List Db_Row) := do
  let (out, _) ← (plan_join_cross (rows_input outer) (rows_input inner)).drain fuel
    ⟨none, outer, inner⟩
  pure out

/-- The rows a `PLAN_JOIN_INNER` with the predicate `on_expr` yields over operands that yield
`outer` and `inner`. -/
def inner_join_rows (fuel : Nat) (on_expr : Plan) (outer inner : List Db_Row) :
    Res (List Db_Row) := do
  let (out, _) ← (plan_join_inner fuel (rows_input outer) (rows_input inner)).drain fuel
    ⟨on_expr, none, outer, inner⟩
  pure out

/-- `n` calls of `next`: what they return, and the state after them. -/
def Input.next_n {σ : Type} (I : Input σ) : Nat → σ → Res (List (Option Db_Row) × σ)
  | 0, s => pure ([], s)
  | n + 1, s => do
    let (row, s1) ← I.next s
    let (more, s2) ← I.next_n n s1
    pure (row :: more, s2)

/-- Calls of `next` until it returns `NULL`, and `n` further calls: the rows returned, and what
the further calls return. -/
def Input.drain_and_more {σ : Type} (I : Input σ) (fuel n : Nat) (s : σ) :
    Res (List Db_Row × List (Option Db_Row)) := do
  let (rows, s1) ← I.drain fuel s
  let (more, _) ← I.next_n n s1
  pure (rows, more)

/-! ## The order of the sorter, as the properties state it -/

/-- The keys of a row under the key expressions, `[]` when an expression fails on the row. -/
def row_keys (keys : List Plan) (row : Db_Row) : List Db_Value :=
  Res.getD (sort_item_keys row keys) []

/-- `a_before_b` on the sort items of two rows. -/
def row_before (keys : List Plan) (types : List Type_Tag) (directions : Option (List Bool))
    (x y : Db_Row) : Res Bool :=
  a_before_b types directions (row_keys keys x) (row_keys keys y)

/-- The run returned a list that is a permutation of `rows` in which no row comes after a row
that `before` places strictly after it. -/
def is_sorted_permutation (before : Db_Row → Db_Row → Res Bool) (rows : List Db_Row) :
    Res (List Db_Row) → Bool
  | .ok out =>
    decide (out.Perm rows) && decide (out.Pairwise (fun x y => before y x = Res.ok false))
  | _ => false

/-- The rows a `PLAN_ORDER` yields over an operand in state `s`. -/
def order_rows {σ : Type} (fuel : Nat) (I : Input σ) (keys : List Plan)
    (key_types : List Type_Tag) (directions : List Bool) (s : σ) : Res (List Db_Row) := do
  let (out, _) ← (plan_order fuel I).drain fuel (plan_order_new keys key_types directions s)
  pure out

/-- The place of a key value in the order of one sort key, as a pair compared first by the
left and then by the right component: null is `(0, 0)`; a non-null value `v` is `(1, v)` for an
ascending key and `(-1, -v)` for a descending one (`false` counts as 0 and `true` as 1). -/
def key_rank (type : Type_Tag) (ascending : Bool) (k : Db_Value) : Int × Int :=
  if k.is_null then (0, 0)
  else
    let v : Int :=
      match type with
      | .TYPE_BOOL => if k.boolean then 1 else 0
      | _ => k.integer
    if ascending then (1, v) else (-1, -v)

/-- The ranks of the keys of a sort item. -/
def key_ranks : List Type_Tag → Option (List Bool) → List Db_Value → List (Int × Int)
  | type :: types, none, k :: keys => key_rank type true k :: key_ranks types none keys
  | type :: types, some (d :: ds), k :: keys => key_rank type d k :: key_ranks types (some ds) keys
  | _, _, _ => []

/-- Lexicographic "less than" on rank vectors. -/
def rank_lt : List (Int × Int) → List (Int × Int) → Bool
  | p :: ps, q :: qs =>
    decide (p.1 < q.1 ∨ (p.1 = q.1 ∧ p.2 < q.2)) || (p == q && rank_lt ps qs)
  | _, _ => false

/-! ## The groups, as the properties state them -/

/-- The rows a `PLAN_GROUP` yields over an operand in state `s`. -/
def plan_group_rows {σ : Type} (fuel : Nat) (I : Input σ) (keys : List Plan)
    (key_types : List Type_Tag) (aggregates : List Aggregate) (s : σ) : Res (List Db_Row) := do
  let (out, _) ← (plan_group fuel I).drain fuel (plan_group_new keys key_types aggregates s)
  pure out

/-- The key vector of a row: the integers in its key columns. -/
def key_vector (key_cols : List Nat) (row : Db_Row) : List Int :=
  key_cols.map (fun i => (row.getD i Db_Value.null).integer)

/-- Lexicographic "less than" on key vectors. -/
def key_vector_lt : List Int → List Int → Bool
  | a :: as, b :: bs => decide (a < b) || (a == b && key_vector_lt as bs)
  | _, _ => false

/-- The rows with the key vector `k`. -/
def rows_of_key (key_cols : List Nat) (k : List Int) (rows : List Db_Row) : List Db_Row :=
  rows.filter (fun r => key_vector key_cols r == k)

/-- The non-null values in column `ref` of the rows, as integers. -/
def operand_values (ref : Nat) (rows : List Db_Row) : List Int :=
  ((rows.map (fun r => r.getD ref Db_Value.null)).filter (fun v => !v.is_null)).map
    Db_Value.integer

/-- The key vector in an output row of `PLAN_GROUP` with `n` aggregates: the integers of the
values behind the accumulators. -/
def output_key_vector (n : Nat) (output_row : Db_Row) : List Int :=
  (output_row.drop n).map Db_Value.integer

/-- One accumulator after one round of the macro `AGGREGATE`. -/
def aggregate_round (agg : Aggregate) (acc : Db_Value) (input_row : Db_Row) : Db_Value :=
  if (input_row.getD agg.ref Db_Value.null).is_null then acc
  else aggregate_step agg.tag acc (input_row.getD agg.ref Db_Value.null)

/-- One accumulator after the last loop of `PLAN_GROUP`. -/
def aggregate_finish (count : Int) (agg : Aggregate) (acc : Db_Value) : Db_Value :=
  match agg.tag with
  | .AGGREGATE_AVG => { acc with val := .integer (Int.tdiv acc.integer count) }
  | .AGGREGATE_COUNT_ALL => { acc with val := .integer count }
  | _ => acc

/-- The output row of `PLAN_GROUP` for a group of sort items: the accumulators after a round per
item, then the keys of the last item. -/
def group_output (aggs : List Aggregate) (group : List Sort_Item) : Db_Row :=
  aggs.map (fun a => aggregate_finish group.length a
      (group.foldl (fun acc x => aggregate_round a acc x.row) ⟨false, .integer 0⟩))
    ++ (match group.getLast? with
        | some last => last.keys
        | none => [])

/-! ## The pager on its own (pager.c): cache slots, hash map, LRU list and the database file

The engine above sees the pager through the simplified page table of `BEngine`. This section
follows `pager.c` itself.

* A `Page *` is the index of the slot in `cache.pages`; `cache.count` is the number of slots in
  use, the length of `pages`. The page buffer and the user buffer a slot points to are kept in
  the slot (`buf`, `user_buf`); `raw_pages` holds the buffers of the slots not yet in use, whose
  content `MEM_ALLOC` leaves undetermined.
* A chain of the hash map (`*slot`, `(*slot)->map_next`, ...) is the list of its slots, and the
  circular list through `lru_next` / `lru_prev` is the list of its slots without the sentinel,
  most recently used first. Unlinking a slot that is not on the list it is unlinked from follows
  pointers that were never set; that is `Res.fault` here.
* The file is a little-endian byte string with its size; a read past the end and every other
  error of `files.c` end in `panic_fmt`, which is `Res.assertFail` here as for `ASSERT`.
* `header_write_to_disk` fills 25 bytes of an array on the stack and writes all 64; the content
  of the array before the call is the argument `stack`. -/

namespace Paging

def MIN_PAGE_SIZE : Nat := 512
def CACHE_SIZE : Nat := 1024
def FILE_HEADER_SIZE : Nat := 64
def F_PAGE_HAS_MUTABLE_REF : Nat := 1
def UINT32_MAX : Nat := 4294967295

/-- The bytes of `FILE_HEADER_TITLE`, "My custom database.". -/
def FILE_HEADER_TITLE : List Nat :=
  [77, 121, 32, 99, 117, 115, 116, 111, 109, 32, 100, 97, 116, 97, 98, 97, 115, 101, 46]

/-- The struct `Page`: a slot of the cache. -/
structure Page where
  id : Nat
  buf : Nat
  user_buf : Nat
  flags : Nat
  ref_count : Nat
  deriving Repr, DecidableEq

/-- The struct `Pager` with the file behind `db_file`. -/
structure Pager where
  file : Nat
  file_size : Nat
  db_file_page_count : Nat
  page_size : Nat
  free_page : Nat
  capacity : Nat
  map : List (List Nat)
  pages : List Page
  raw_pages : List Nat
  user_buffer_size : Nat
  lru : List Nat
  deriving Repr, DecidableEq

/-- The macro `PSIZE`. -/
def PSIZE (pager : Pager) : Nat := pager.page_size

/-- `fs_write_to_file` on the database file. -/
def fs_write_to_file (pager : Pager) (payload count offset : Nat) : Pager :=
  { pager with file := wr pager.file offset count payload,
               file_size := max pager.file_size (offset + count) }

/-- `fs_append_to_file` on the database file. -/
def fs_append_to_file (pager : Pager) (payload count : Nat) : Pager :=
  fs_write_to_file pager payload count pager.file_size

/-- `fs_read_from_file` on the database file: `fread` returns less than `amount` past the end
of the file, which is an error. -/
def fs_read_from_file (pager : Pager) (offset amount : Nat) : Res Nat :=
  if offset + amount ≤ pager.file_size then pure (rd pager.file offset amount) else .assertFail

/-- The buffer `header_write_to_disk` writes: the array on the stack, then the title, the page
size and the head of the free list. -/
def header_bytes (page_size free_page stack : Nat) : Nat :=
  let buf := stack % 256 ^ FILE_HEADER_SIZE
  let buf := wr buf 0 19 (bytesToNat FILE_HEADER_TITLE)
  let buf := wr buf 19 2 page_size
  wr buf 21 4 free_page

/-- `header_write_to_disk`. -/
def header_write_to_disk (pager : Pager) (stack : Nat) : Pager :=
  fs_write_to_file pager (header_bytes (PSIZE pager) pager.free_page stack) FILE_HEADER_SIZE 0

/-- `header_read_from_disk`. -/
def header_read_from_disk (pager : Pager) : Res Pager := do
  let buf ← fs_read_from_file pager 0 FILE_HEADER_SIZE
  pure { pager with page_size := rd buf 19 2, free_page := rd buf 21 4 }

/-- `pager_new` on a file with the given content; `raw_pages` is the memory `init_page_cache`
gets for the page buffers. -/
def pager_new (file file_size : Nat) (raw_pages : List Nat) (stack : Nat) : Res Pager :=
  let pager : Pager :=
    { file := file, file_size := file_size, db_file_page_count := 0, page_size := 0,
      free_page := 0, capacity := CACHE_SIZE, map := List.replicate CACHE_SIZE [],
      pages := [], raw_pages := raw_pages, user_buffer_size := 0, lru := [] }
  if file_size < MIN_PAGE_SIZE then
    let pager := { pager with page_size := PAGE_SIZE }
    let pager := header_write_to_disk pager stack
    pure { pager with db_file_page_count := 1 }
  else do
    let pager ← header_read_from_disk pager
    ASSERT (file_size < UINT32_MAX)
    if PSIZE pager == 0 then .fault
    else do
      ASSERT (file_size % PSIZE pager == 0)
      pure { pager with db_file_page_count := u32 file_size / PSIZE pager }

/-- The slot behind a `Page *`. -/
def Pager.page (pager : Pager) (page : Nat) : Res Page :=
  match pager.pages.get? page with
  | some p => .ok p
  | none => .fault

/-- A write through a `Page *`. -/
def Pager.setPage (pager : Pager) (page : Nat) (p : Page) : Pager :=
  { pager with pages := pager.pages.set page p }

/-- `lru_add`. -/
def lru_add (pager : Pager) (page : Nat) : Pager := { pager with lru := page :: pager.lru }

/-- `lru_remove`. -/
def lru_remove (pager : Pager) (page : Nat) : Res Pager :=
  if page ∈ pager.lru then pure { pager with lru := pager.lru.erase page } else .fault

/-- `decrement_ref_count`. -/
def decrement_ref_count (pager : Pager) (page : Nat) : Res Pager := do
  let p ← pager.page page
  ASSERT (p.ref_count > 0)
  let pager := pager.setPage page { p with ref_count := p.ref_count - 1 }
  if p.ref_count - 1 == 0 then pure (lru_add pager page) else pure pager

/-- `map_get_slot`: the index of the chain of `id`. -/
def map_get_slot (pager : Pager) (id : Nat) : Nat := id % pager.capacity

/-- `map_get`: the first slot of the chain that holds page `id`; `none` stands for `NULL`. -/
def map_get (pager : Pager) (id : Nat) : Option Nat :=
  (pager.map.getD (map_get_slot pager id) []).find?
    (fun slot => (pager.pages.get? slot).map Page.id == some id)

/-- `map_add`. -/
def map_add (pager : Pager) (page id : Nat) : Pager :=
  let chain := pager.map.getD (map_get_slot pager id) []
  { pager with map := pager.map.set (map_get_slot pager id) (page :: chain) }

/-- `map_remove`. -/
def map_remove (pager : Pager) (page : Nat) : Res Pager := do
  let p ← pager.page page
  let chain := pager.map.getD (map_get_slot pager p.id) []
  if page ∈ chain then
    pure { pager with map := pager.map.set (map_get_slot pager p.id) (chain.erase page) }
  else .fault

/-- `page_id_to_file_offset`: the product is computed in 32 bits. -/
def page_id_to_file_offset (pager : Pager) (id : Nat) : Nat := u32 (id * PSIZE pager)

/-- `page_write_to_disk`. -/
def page_write_to_disk (pager : Pager) (page : Nat) : Res Pager := do
  let p ← pager.page page
  pure (fs_write_to_file pager (p.buf % 256 ^ PSIZE pager) (PSIZE pager)
    (page_id_to_file_offset pager p.id))

/-- `page_read_from_disk`. -/
def page_read_from_disk (pager : Pager) (page : Nat) : Res Pager := do
  let p ← pager.page page
  let buf ← fs_read_from_file pager (page_id_to_file_offset pager p.id) (PSIZE pager)
  pure (pager.setPage page { p with buf := buf })

/-- `get_empty_cache_slot`: a slot not yet in use, or the least recently used slot without
references. With an empty LRU list `lru_prev` of the sentinel is the sentinel, whose `ref_count`
is 0, so the third `ASSERT` is the one that fails. -/
def get_empty_cache_slot (pager : Pager) (id : Nat) : Res (Nat × Pager) := do
  let (page, pager) ←
    if pager.pages.length < pager.capacity then
      let idx := pager.pages.length
      pure (idx, { pager with
        pages := pager.pages ++ [⟨id, pager.raw_pages.headD 0, 0, 0, 1⟩],
        raw_pages := pager.raw_pages.tail })
    else
      match pager.lru.getLast? with
      | none => Res.assertFail
      | some page => do
        let p ← pager.page page
        ASSERT (p.ref_count == 0)
        let pager ← lru_remove pager page
        let pager ← map_remove pager page
        pure (page, pager.setPage page ⟨id, p.buf, 0, 0, 1⟩)
  pure (page, map_add pager page id)

/-- `pager_make_page_mutable`. -/
def pager_make_page_mutable (pager : Pager) (ref : Nat) : Res (Bool × Pager) := do
  let page ← pager.page ref
  ASSERT (page.ref_count > 0)
  if page.ref_count != 1 then pure (false, pager)
  else
    pure (true, pager.setPage ref { page with flags := setFlag page.flags F_PAGE_HAS_MUTABLE_REF })

/-- `pager_is_page_mutable`: `page->flags | F_PAGE_HAS_MUTABLE_REF` as a `bool`. -/
def pager_is_page_mutable (pager : Pager) (ref : Nat) : Res Bool := do
  let page ← pager.page ref
  pure (setFlag page.flags F_PAGE_HAS_MUTABLE_REF != 0)

/-- `pager_unref_page`. -/
def pager_unref_page (pager : Pager) (ref : Nat) : Res Pager := do
  let pager ← decrement_ref_count pager ref
  let page ← pager.page ref
  if hasFlag page.flags F_PAGE_HAS_MUTABLE_REF then
    page_write_to_disk
      (pager.setPage ref { page with flags := clearFlag page.flags F_PAGE_HAS_MUTABLE_REF }) ref
  else pure pager

/-- `pager_get_page`; `none` stands for `NULL`. -/
def pager_get_page (pager : Pager) (id : Nat) : Res (Option Nat × Pager) := do
  ASSERT (id != 0)
  ASSERT (id < pager.db_file_page_count)
  match map_get pager id with
  | some page => do
    let p ← pager.page page
    if hasFlag p.flags F_PAGE_HAS_MUTABLE_REF then pure (none, pager)
    else do
      let pager ← if p.ref_count == 0 then lru_remove pager page else pure pager
      pure (some page, pager.setPage page { p with ref_count := u32 (p.ref_count + 1) })
  | none => do
    let (page, pager) ← get_empty_cache_slot pager id
    let pager ← page_read_from_disk pager page
    pure (some page, pager)

/-- `pager_get_page_mutable`. -/
def pager_get_page_mutable (pager : Pager) (id : Nat) : Res (Option Nat × Pager) := do
  let (page, pager) ← pager_get_page pager id
  match page with
  | none => pure (none, pager)
  | some page => do
    let (made, pager) ← pager_make_page_mutable pager page
    if made then pure (some page, pager)
    else do
      let pager ← pager_unref_page pager page
      pure (none, pager)

/-- `pager_alloc_page`. -/
def pager_alloc_page (pager : Pager) : Res (Nat × Pager) := do
  let (page, pager) ←
    if pager.free_page != 0 then do
      let (page, pager) ← get_empty_cache_slot pager pager.free_page
      let pager ← page_read_from_disk pager page
      let p ← pager.page page
      inBounds (4 ≤ PSIZE pager)
      pure (page, { pager with free_page := rd p.buf (PSIZE pager - 4) 4 })
    else do
      let (page, pager) ← get_empty_cache_slot
        { pager with db_file_page_count := u32 (pager.db_file_page_count + 1) }
        pager.db_file_page_count
      let p ← pager.page page
      pure (page, fs_append_to_file pager (p.buf % 256 ^ PSIZE pager) (PSIZE pager))
  let (_, pager) ← pager_make_page_mutable pager page
  pure (page, pager)

/-- `pager_delete_page`. -/
def pager_delete_page (pager : Pager) (ref stack : Nat) : Res (Bool × Pager) := do
  let page ← pager.page ref
  if page.ref_count != 1 then pure (false, pager)
  else do
    inBounds (4 ≤ PSIZE pager)
    let pager := pager.setPage ref
      { page with buf := wr page.buf (PSIZE pager - 4) 4 pager.free_page }
    let pager := { pager with free_page := page.id }
    let pager ← page_write_to_disk pager ref
    let pager := header_write_to_disk pager stack
    let pager ← decrement_ref_count pager ref
    pure (true, pager)

/-- `pager_get_ref_count`. -/
def pager_get_ref_count (pager : Pager) (ref : Nat) : Res Nat := do
  let page ← pager.page ref
  pure page.ref_count

/-- The public operations of the pager that change its state; a `Page_Ref *` is the slot. -/
inductive Pager_Op where
  | get_page (id : Nat)
  | get_page_mutable (id : Nat)
  | make_page_mutable (ref : Nat)
  | alloc_page
  | unref_page (ref : Nat)
  | delete_page (ref stack : Nat)
  deriving Repr, DecidableEq

/-- One public operation. -/
def pager_op (pager : Pager) : Pager_Op → Res Pager
  | .get_page id => do
    let (_, pager) ← pager_get_page pager id
    pure pager
  | .get_page_mutable id => do
    let (_, pager) ← pager_get_page_mutable pager id
    pure pager
  | .make_page_mutable ref => do
    let (_, pager) ← pager_make_page_mutable pager ref
    pure pager
  | .alloc_page => do
    let (_, pager) ← pager_alloc_page pager
    pure pager
  | .unref_page ref => pager_unref_page pager ref
  | .delete_page ref stack => do
    let (_, pager) ← pager_delete_page pager ref stack
    pure pager

/-- A sequence of public operations. -/
def pager_ops : List Pager_Op → Pager → Res Pager
  | [], pager => pure pager
  | op :: ops, pager => do
    let pager ← pager_op pager op
    pager_ops ops pager

end Paging

/-! ## What the properties observe of a pager -/

namespace Paging

/-- The slots in use: page id, whether the mutable flag is set, and the reference count. -/
def slots (pager : Pager) : List (Nat × Bool × Nat) :=
  pager.pages.map (fun p => (p.id, hasFlag p.flags F_PAGE_HAS_MUTABLE_REF, p.ref_count))

/-- Every slot whose mutable flag is set has exactly one reference. -/
def mutable_flag_rule (pager : Pager) : Bool :=
  pager.pages.all (fun p => !hasFlag p.flags F_PAGE_HAS_MUTABLE_REF || p.ref_count == 1)

/-- A new database file: `pager_new` on an empty file, with zeroed memory. -/
def new_pager : Res Pager := pager_new 0 0 [] 0

/-- The public operations `ops` on a new database file. -/
def run_on_new_pager (ops : List Pager_Op) : Res Pager := do
  let pager ← new_pager
  pager_ops ops pager

/-- What `pager_is_page_mutable` says about the page `pager_get_page` returns for `id`, next to
the mutable flag of that page. -/
def get_page_is_mutable (pager : Pager) (id : Nat) : Res (Option (Bool × Bool)) := do
  let (ref, pager) ← pager_get_page pager id
  match ref with
  | none => pure none
  | some ref => do
    let page ← pager.page ref
    let said ← pager_is_page_mutable pager ref
    pure (some (hasFlag page.flags F_PAGE_HAS_MUTABLE_REF, said))

/-- Whether `get_empty_cache_slot` finds a slot: the cache is not full, or the least recently
used slot has no reference and is on the chain of its page id. -/
def slot_available (pager : Pager) : Bool :=
  decide (pager.pages.length < pager.capacity) ||
    match pager.lru.getLast? with
    | none => false
    | some v =>
      match pager.pages.get? v with
      | none => false
      | some pv =>
        pv.ref_count == 0 && decide (v ∈ pager.map.getD (map_get_slot pager pv.id) [])

/-- A pager with one page that is cached and has no reference: a new database file after
`pager_alloc_page` and `pager_unref_page`. -/
def one_page_pager : Pager :=
  Res.getD (run_on_new_pager [.alloc_page, .unref_page 0])
    ⟨0, 0, 0, 0, 0, 0, [], [], [], 0, []⟩

/-- A pager with one page that has a mutable reference: a new database file after
`pager_alloc_page`. -/
def allocated_page_pager : Pager :=
  Res.getD (run_on_new_pager [.alloc_page]) ⟨0, 0, 0, 0, 0, 0, [], [], [], 0, []⟩

end Paging

/-! ## The row and the key of an `INSERT` -/

/-- The unresolved key `PLAN_INSERT` takes from the value of the primary-key column: the
member of the union that the `switch` on the column type selects. -/
def insert_ukey (tag : Type_Tag) (value : Db_Value) : UKey :=
  match tag with
  | .TYPE_BOOL => .bool (if value.boolean then 1 else 0)
  | .TYPE_TEXT => .str value.string
  | _ => .int value.integer

/-- The statement `INSERT INTO t VALUES (values)` on a new table `t`, then a scan: whether the
statement ended in `error()` and the rows of the table. -/
def insert_then_scan (fuel : Nat) (cols : List Type_Column) (values : List Plan) :
    Res (Bool × List (List Db_Value)) := do
  let (E, table) ← new_table cols 0
  let r ← plan_insert fuel E table values 0
  let (_, out) ← plan_scan fuel r.engine table
  pure (r.error, out)

/-! ## The rule of the LRU list of the pager -/

namespace Paging

/-- The rule of the LRU list: it holds no slot twice, a slot is on it exactly when it is in use
and has no reference, and no slot has more than `n` references. -/
def lru_rule (n : Nat) (pager : Pager) : Prop :=
  pager.lru.Nodup
    ∧ (∀ slot, slot ∈ pager.lru ↔
        ∃ page, pager.pages.get? slot = some page ∧ page.ref_count = 0)
    ∧ ∀ page ∈ pager.pages, page.ref_count ≤ n

/-- The number of slots in use that have a reference. -/
def referenced_slots (pager : Pager) : Nat :=
  (pager.pages.filter (fun page => decide (0 < page.ref_count))).length

end Paging

/-! ## The nodes of a tree in the order in which `btree_delete` frees them -/

/-- The page id that `node_get_child` reads for slot `idx` of an inner node; slot `cell_count`
is the rightmost child. -/
def child_of (E : BEngine) (n : Node) (idx : Nat) : Res Nat :=
  if idx < n.cell_count then do
    let cell ← node_get_cell E n idx
    cell_get_child E n cell
  else pure n.rightmost_child

/-- The value `f a` for a result `a`, and `d` for a failed run. -/
def Res.fold {α β : Type} (d : β) (f : α → β) : Res α → β
  | .ok a => f a
  | _ => d

/-- The page ids of the subtree of page `id`, every node after all nodes of its subtree, down to
`depth` levels. -/
def post_order (E : BEngine) : Nat → Nat → List Nat
  | 0, id => [id]
  | depth + 1, id =>
    match E.pages.get? id with
    | some p =>
      if node_is_leaf p.node then [id]
      else
        ((List.range (p.node.cell_count + 1)).map (fun idx =>
          Res.fold [] (fun c => post_order E depth c) (child_of E p.node idx))).flatten ++ [id]
    | none => [id]

/-- The post-order lists of the children of an inner node in the slots below `j`, one after
the other. -/
def children_post_order (E : BEngine) (depth : Nat) (n : Node) (j : Nat) : List Nat :=
  ((List.range j).map (fun idx =>
    Res.fold [] (fun c => post_order E depth c) (child_of E n idx))).flatten

/-- A subtree on which no cursor is open and which a cursor can walk with `depth` more pushes:
every page is a page of the file other than page 0, has no reference and is not marked free,
and every inner node has at least one cell and child pointers that can be read. -/
def deletable (E : BEngine) : Nat → Nat → Bool
  | 0, _ => false
  | depth + 1, id =>
    match E.pages.get? id with
    | none => false
    | some p =>
      (id != 0) && decide (id < E.page_count) && (p.ref_count == 0) && (!p.mutable_ref)
        && (!hasFlag p.node.flags F_NODE_IS_FREE)
        && (node_is_leaf p.node
          || (decide (0 < p.node.cell_count) && decide (p.node.cell_count + 1 < 65536)
            && (List.range (p.node.cell_count + 1)).all (fun idx =>
              Res.fold false (fun c => deletable E depth c) (child_of E p.node idx))))

/-- The calls `node_from_page_id` and `node_delete` on every page of a list in turn. -/
def delete_nodes : List Nat → BEngine → Res BEngine
  | [], E => pure E
  | id :: ids, E => do
    let E1 ← node_from_page_id E id
    let E2 ← node_delete E1 id
    delete_nodes ids E2

/-- A page with the mutable reference that `node_from_page_id` takes. -/
def ref_node (E : BEngine) (id : Nat) : BEngine :=
  match E.pages.get? id with
  | some p => E.setPage id { p with ref_count := 1, mutable_ref := true }
  | none => E

/-- The pages of a cursor path with their references, the top of the path first. -/
def ref_nodes (E : BEngine) : List Nat → BEngine
  | [] => E
  | id :: ids => ref_node (ref_nodes E ids) id

/-- A page after `node_from_page_id` and `node_delete`: marked free, linked to the old head of
the free list and made the new head. -/
def free_node (E : BEngine) (id : Nat) : BEngine :=
  match E.pages.get? id with
  | some p =>
    { E.setPage id
        ⟨{ p.node with flags := setFlag p.node.flags F_NODE_IS_FREE,
                       buf := wr p.node.buf (E.full_page_size - 4) 4 E.free_page }, 0, true⟩ with
      free_page := id }
  | none => E

/-- The pages of a list freed in turn. -/
def free_nodes (E : BEngine) (ids : List Nat) : BEngine := ids.foldl free_node E

/-- The rest of `btree_delete` from inside the loop of `cursor_goto_next_node`: the loop with
`K` rounds left for the node `node`, then the loop of `btree_delete` with `f` rounds left. -/
def btree_delete_exit (tree : BTree) (K f : Nat) (E : BEngine) (C : BCursor) (node : Nat) :
    Res (BEngine × BCursor) := do
  let (E1, C1, more) ← cursor_goto_next_node_loop K E C node
  if more then btree_delete_loop tree f E1 C1 else pure (E1, C1)

/-- A tree of three nodes: the file and the tree after inserting the keys 1, 2, 3, 4 with
values of 2696 bytes into a new tree (the root, page 1, has split into the leaves 2 and 3), with
no cursor open. -/
def split_tree : BEngine × BTree :=
  Res.getD (run_on_new_tree 64 .int
    [.insert (.int 1) (mk_val 2692 0), .insert (.int 2) (mk_val 2692 0),
     .insert (.int 3) (mk_val 2692 0), .insert (.int 4) (mk_val 2692 0)])
    (bengine_new PAGE_SIZE, ⟨.int, 1⟩)

/-- The walk of `btree_delete` through a subtree of depth at most `d`: with `id` on top of the
path, after as many rounds as the subtree has nodes every node below `id` is freed and the walk
is in the loop of `cursor_goto_next_node` at `id`. `D` are the pages freed before and `P` the
pages of the rest of the path. -/
def Subtree_Deleted (E0 : BEngine) (tree : BTree) (d : Nat) : Prop :=
  ∀ (id : Nat) (D P : List Nat) (rest : List (Nat × Nat)),
    deletable E0 d id = true →
    (post_order E0 d id).Nodup →
    (∀ x ∈ post_order E0 d id, x ∉ D ∧ x ∉ P) →
    rest.length + d ≤ MAX_BTREE_HEIGHT →
    ∃ K j, rest.length + 2 ≤ K ∧ ∀ f,
      btree_delete_loop tree ((post_order E0 d id).length + f)
          (ref_nodes (free_nodes E0 D) (id :: P)) ⟨2, (id, 0) :: rest⟩
        = btree_delete_exit tree K f
            (ref_nodes (free_nodes E0 (D ++ (post_order E0 d id).dropLast)) (id :: P))
            ⟨2, (id, j) :: rest⟩ id

/-! ## `close` (runner.c) and the scan of a table of the engine -/

/-- The base tags `PLAN_OP1` and `PLAN_OP2` of `X_PLAN_BASE`. -/
def PLAN_OP1 : Nat := 4
def PLAN_OP2 : Nat := 8

/-- The tags of the plan nodes that have operands or hold a cursor (`X_PLAN`). -/
inductive Plan_Tag where
  | PLAN_INSERT
  | PLAN_DELETE
  | PLAN_UPDATE
  | PLAN_SCAN
  | PLAN_SCAN_DUMMY
  | PLAN_AS
  | PLAN_PROJECTION
  | PLAN_JOIN_CROSS
  | PLAN_JOIN_INNER
  | PLAN_FILTER
  | PLAN_GROUP
  | PLAN_ORDER
  | PLAN_LIMIT
  deriving Repr, DecidableEq

/-- The array `plan_bases`: the last column of `X_PLAN`. -/
def plan_bases : Plan_Tag → Nat
  | .PLAN_INSERT => 0
  | .PLAN_DELETE => 0
  | .PLAN_UPDATE => 0
  | .PLAN_SCAN => 0
  | .PLAN_SCAN_DUMMY => 0
  | .PLAN_AS => PLAN_OP1
  | .PLAN_PROJECTION => PLAN_OP1
  | .PLAN_JOIN_CROSS => PLAN_OP2
  | .PLAN_JOIN_INNER => PLAN_OP2
  | .PLAN_FILTER => PLAN_OP1
  | .PLAN_GROUP => PLAN_OP1
  | .PLAN_ORDER => PLAN_OP1
  | .PLAN_LIMIT => 0

/-- `plan_has_bases`: `plan_bases[P->tag] & B` for a one-bit `B`. -/
def plan_has_bases (tag : Plan_Tag) (B : Nat) : Bool := hasFlag (plan_bases tag) B

/-- The struct `Plan_Scan` together with what it uses of the `Runner`: the engine and the
array `run->cursors`. -/
structure Plan_Scan where
  engine : BEngine
  cursors : List BCursor
  table : Type_Table
  cur : Nat
  done : Bool
  deriving Repr, DecidableEq

/-- The element `array_get(&run->cursors, P->cur - 1)`; the index is a `u32`, and an index
outside the array ends in `panic_fmt`. -/
def plan_scan_cursor (P : Plan_Scan) : Res BCursor :=
  match P.cursors.get? (u32 (P.cur + 4294967295)) with
  | some C => pure C
  | none => .assertFail

/-- The case `PLAN_SCAN` of `next`. -/
def plan_scan_next (fuel : Nat) (P : Plan_Scan) : Res (Option Db_Row × Plan_Scan) :=
  if P.done then pure (none, P)
  else do
    let (P1, found) ←
      if P.cur == 0 then do
        let (E1, C1, found) ← bcursor_goto_first P.engine P.table.tree bcursor_new
        pure ({ P with engine := E1, cursors := P.cursors ++ [C1],
                       cur := u32 (P.cursors.length + 1) }, found)
      else pure (P, true)
    if !found then pure (none, { P1 with done := true })
    else do
      let C ← plan_scan_cursor P1
      let buf ← bcursor_read_bytes P1.engine P1.table.tree C
      let row ← deserialize_row P1.table.cols buf
      let (E2, C2, more) ← bcursor_goto_next fuel P1.engine C
      pure (some row, { P1 with engine := E2,
                                cursors := P1.cursors.set (u32 (P1.cur + 4294967295)) C2,
                                done := !more })

/-- The case `PLAN_SCAN` of `reset`. -/
def plan_scan_reset (P : Plan_Scan) : Res Plan_Scan := do
  let C ← plan_scan_cursor P
  let (E1, C1, _) ← bcursor_goto_first P.engine P.table.tree C
  pure { P with engine := E1, cursors := P.cursors.set (u32 (P.cur + 4294967295)) C1,
                done := false }

/-- The case `PLAN_SCAN` of `close`. -/
def plan_scan_close (P : Plan_Scan) : Res Plan_Scan := do
  let C ← plan_scan_cursor P
  let (E1, C1) ← bcursor_reset P.engine C
  pure { P with engine := E1, cursors := P.cursors.set (u32 (P.cur + 4294967295)) C1,
                done := false }

/-- A `PLAN_SCAN` node as an operand. -/
def plan_scan_input (fuel : Nat) : Input Plan_Scan where
  next := plan_scan_next fuel
  reset := plan_scan_reset

/-- A `PLAN_SCAN` node as the parser makes it, in a runner as `run_new` makes it. -/
def plan_scan_new (E : BEngine) (table : Type_Table) : Plan_Scan := ⟨E, [], table, 0, false⟩

/-- The default case of `close` on a node of tag `tag` that has one operand field: the operand
is closed when the tag is declared with the base `PLAN_OP1`; a tag with neither base is left
alone. -/
def close_default {σ : Type} (tag : Plan_Tag) (close_op : σ → Res σ) (op : σ) : Res σ :=
  if plan_has_bases tag PLAN_OP1 then close_op op else pure op

/-- `close` on a `PLAN_FILTER` node: the default case. -/
def plan_filter_close {σ : Type} (close_op : σ → Res σ) (P : Plan_Filter σ) :
    Res (Plan_Filter σ) := do
  let s ← close_default .PLAN_FILTER close_op P.op
  pure { P with op := s }

/-- `close` on a `PLAN_PROJECTION` node: the default case. -/
def plan_projection_close {σ : Type} (close_op : σ → Res σ) (P : Plan_Projection σ) :
    Res (Plan_Projection σ) := do
  let s ← close_default .PLAN_PROJECTION close_op P.op
  pure { P with op := s }

/-- `close` on a `PLAN_LIMIT` node: the default case. -/
def plan_limit_close {σ : Type} (close_op : σ → Res σ) (P : Plan_Limit σ) :
    Res (Plan_Limit σ) := do
  let s ← close_default .PLAN_LIMIT close_op P.op
  pure { P with op := s }

/-- The pages that have a reference or the mutable flag: id, `ref_count`, flag. -/
def referenced_pages (E : BEngine) : List (Nat × Nat × Bool) :=
  (E.pages.enum.filter (fun p => decide (p.2.ref_count > 0) || p.2.mutable_ref)).map
    (fun p => (p.1, p.2.ref_count, p.2.mutable_ref))

/-- The table `g (id INT PRIMARY KEY, k INT)` with the rows (1, 10), (2, 20), (3, 30). -/
def table_of_three_rows : Res (BEngine × Type_Table) := do
  let (E, table) ← new_table cols_id_k 0
  let E1 ← run_inserts 64 table 0
    [[.PLAN_LITERAL_INT 1, .PLAN_LITERAL_INT 10], [.PLAN_LITERAL_INT 2, .PLAN_LITERAL_INT 20],
     [.PLAN_LITERAL_INT 3, .PLAN_LITERAL_INT 30]] E
  pure (E1, table)

/-- `run_next` until it returns `NULL` and then `run_close` on a plan given by its `next` and
its `close`: the rows, and the pages left with a reference or the mutable flag in the engine
that `engine_of` finds in the state of the plan. -/
def run_to_the_end_and_close {σ : Type} (I : Input σ) (close : σ → Res σ)
    (engine_of : σ → BEngine) (fuel : Nat) (s : σ) :
    Res (List Db_Row × List (Nat × Nat × Bool)) := do
  let (rows, s1) ← I.drain fuel s
  let s2 ← close s1
  pure (rows, referenced_pages (engine_of s2))

/-! ## Nodes as the properties about moving cells observe them -/

/-- The entries of a leaf in slot order: the key bytes and the value bytes of every cell. -/
def leaf_entries_loop (E : BEngine) (tree : BTree) (id : Nat) : Nat → Nat → Res (List (Nat × Nat))
  | 0, _ => pure []
  | k + 1, idx => do
    let key ← bcursor_key E tree ⟨0, [(id, idx)]⟩
    let v ← bcursor_read E tree ⟨0, [(id, idx)]⟩
    let rest ← leaf_entries_loop E tree id k (idx + 1)
    pure ((key, val_bytes v) :: rest)

/-- The entries of the leaf in page `id`. -/
def leaf_entries (E : BEngine) (tree : BTree) (id : Nat) : Res (List (Nat × Nat)) := do
  let n ← E.node id
  leaf_entries_loop E tree id n.cell_count 0

/-- The header fields of the node in page `id` that describe its cells: `cell_count`,
`cell_area`, `cell_area_logical`, and its logical free space. -/
def node_space (E : BEngine) (id : Nat) : Res (Nat × Nat × Nat × Nat) := do
  let n ← E.node id
  pure (n.cell_count, n.cell_area, n.cell_area_logical, node_get_logical_free_space n)

/-- The root of a tree of height 2 with its first two children, held as
`node_ensure_cell_space` holds a node and its left sibling when it calls the rotate functions:
the cursor is on slot 0 of the root, and both children are referenced. -/
def siblings_under_root (E : BEngine) (tree : BTree) : Res (BEngine × BCursor × Nat × Nat) := do
  let E1 ← node_from_page_id E tree.root
  let C ← cursor_push bcursor_new tree.root 0
  let (E2, left) ← node_get_child E1 tree.root 0
  let (E3, right) ← node_get_child E2 tree.root 1
  pure (E3, C, left, right)

/-- The in-order sequence two sibling leaves and their separator form: the entries of the
left leaf, the key of the parent cell under the cursor, the entries of the right leaf. -/
def leaves_in_order (E : BEngine) (tree : BTree) (C : BCursor) (left right : Nat) :
    Res (List (Nat × Nat) × Nat × List (Nat × Nat)) := do
  let l ← leaf_entries E tree left
  let key ← bcursor_key E tree C
  let r ← leaf_entries E tree right
  pure (l, key, r)

/-- A tree of height 2 whose left leaf (page 2) has one cell of 200 bytes under a hole of 3900
bytes, and whose right leaf (page 3) has the keys 200, 300 and 400; the cell of key 300 has
`size300 + 12` bytes. -/
def fragmented_left_leaf (size300 : Nat) : Res (BEngine × BTree) :=
  run_on_new_tree 64 .int
    [.insert (.int 100) (mk_val 3888 0), .insert (.int 200) (mk_val 1988 0),
     .insert (.int 300) (mk_val size300 0), .insert (.int 400) (mk_val 288 0),
     .insert (.int 50) (mk_val 188 0), .remove (.int 100)]

/-- Two trees of integer keys in one file, each with a root leaf, after the calls on each. -/
def two_root_leaves (ops1 ops2 : List Op) : Res (BEngine × BTree × BTree) := do
  let (E, left) ← new_tree .int
  let (E1, right) ← btree_new E .int
  let E2 ← run_ops 64 left ops1 E1
  let E3 ← run_ops 64 right ops2 E2
  pure (E3, left, right)

/-- The split point `split_node` computes for the node of the cursor, next to the number of
cells of that node: the part of `split_node` up to its two assertions on `n_cells_to_move`,
without them. -/
def split_node_point (E : BEngine) (tree : BTree) (C : BCursor) : Res (Nat × Nat) := do
  let right0 ← cursor_node_deref C
  let r0 ← E.node right0
  let (E1, _) ← node_new E (if node_is_leaf r0 then F_NODE_IS_LEAF else 0)
  let (E2, C2, right) ←
    if C.path.length == 1 then do
      let new_root := right0
      let (Ea, right) ← node_new E1 0
      let Eb ← node_copy Ea right new_root
      let nr ← Eb.node new_root
      let Ec ← Eb.setNode new_root { node_reset Eb nr with rightmost_child := right }
      let idx ← cursor_idx C
      let Cb ← cursor_push (cursor_pop C) new_root 0
      let Cc ← cursor_push Cb right idx
      CHECK Ec tree right
      CHECK Ec tree new_root
      pure (Ec, Cc, right)
    else pure (E1, C, right0)
  ASSERT (C2.path.length > 1)
  let r ← E2.node right
  let n_cells_to_move ← split_scan E2 tree right (E2.page_size / 2) r.cell_count 0 0 0
  pure (n_cells_to_move, r.cell_count)

/-- The tree that holds the keys 14 and 15 with cells of 16 and 4072 bytes, with the cursor as
`bcursor_goto_ukey(2)` leaves it. -/
def cursor_for_key_2 : Res (BEngine × BTree × BCursor) := do
  let (E, tree, C) ← build 64 [(15, mk_val 4060 0), (14, mk_val 4 0)]
  let (E1, C1, _) ← bcursor_goto_ukey E tree C (.int 2)
  pure (E1, tree, C1)

/-- The tree built by inserting 18, 33 and 16 with values of 4076, 3325 and 6 bytes, with the
cursor as `bcursor_goto_ukey(23)` leaves it. -/
def cursor_for_key_23 : Res (BEngine × BTree × BCursor) := do
  let (E, tree, C) ← build 64 [(18, mk_val 4072 0), (33, mk_val 3321 0), (16, mk_val 2 0)]
  let (E1, C1, _) ← bcursor_goto_ukey E tree C (.int 23)
  pure (E1, tree, C1)

/-- The leaves of `fragmented_left_leaf 2064` under their parent, held for a rotation. -/
def siblings_for_rotation : Res (BEngine × BTree × BCursor × Nat × Nat) := do
  let (E, tree) ← fragmented_left_leaf 2064
  let (E1, C, left, right) ← siblings_under_root E tree
  pure (E1, tree, C, left, right)

/-- Two root leaves of integer keys in one file: the left one (page 1) with one cell of 3012
bytes, the right one (page 2) after three cells of 2700 bytes were inserted and removed. -/
def leaf_and_emptied_leaf : Res (BEngine × BTree × BTree) :=
  two_root_leaves [.insert (.int 1) (mk_val 3000 0)]
    [.insert (.int 11) (mk_val 2688 0), .insert (.int 12) (mk_val 2688 0),
     .insert (.int 13) (mk_val 2688 0), .remove (.int 11), .remove (.int 12),
     .remove (.int 13)]

/-! ## The rule of the file that the calls on a tree keep -/

/-- A page that the running call holds: it has exactly one reference, the mutable one. -/
def held (E : BEngine) (x : Nat) : Prop :=
  ∃ p, E.pages.get? x = some p ∧ p.ref_count = 1 ∧ p.mutable_ref = true

/-- The rule of the file that the calls on a tree with the given root page keep. -/
structure File_Rule (E : BEngine) (root : Nat) : Prop where
  count : E.page_count = E.pages.length
  root_lt : root < E.pages.length
  free_lt : E.free_page < 2 ^ 32
  states : ∀ j p, E.pages.get? j = some p →
    p.ref_count = 0 ∨ (p.ref_count = 1 ∧ p.mutable_ref = true)
  free_nodup : ∀ k, (free_list E k E.free_page).Nodup
  free : ∀ k, ∀ x ∈ free_list E k E.free_page,
    x ≠ root ∧ ∃ p, E.pages.get? x = some p ∧ p.ref_count = 0 ∧ p.mutable_ref = true

/-- The rule of the file together with the pages held at the moment, or a file that has
reached `2^32` pages. -/
def Held_Pages (E : BEngine) (root : Nat) (H : List Nat) : Prop :=
  2 ^ 32 ≤ E.pages.length ∨ (File_Rule E root ∧ H.Nodup ∧ ∀ x ∈ H, held E x)

/-- Page `x` is not in the state that `pager_delete_page` leaves a page in. -/
def unfreed (E : BEngine) (x : Nat) : Prop :=
  ∀ p, E.pages.get? x = some p → ¬(p.ref_count = 0 ∧ p.mutable_ref = true)

/-- From `E` to `E1` the file did not shrink and no page was freed. -/
def Unfreed (E E1 : BEngine) : Prop :=
  E.pages.length ≤ E1.pages.length ∧ ∀ x, unfreed E x → unfreed E1 x

/-- The engine `E1` differs from `E` only in the nodes stored in the pages `ids`. -/
def Node_Writes (ids : List Nat) (E E1 : BEngine) : Prop :=
  E1.full_page_size = E.full_page_size ∧ E1.page_count = E.page_count
    ∧ E1.free_page = E.free_page ∧ E1.pages.length = E.pages.length
    ∧ ∀ j, (j ∉ ids → E1.pages.get? j = E.pages.get? j)
        ∧ ∀ p, E.pages.get? j = some p → ∃ n, E1.pages.get? j = some { p with node := n }

/-- The path of a cursor ends in the root page of its tree. -/
def root_last (root : Nat) (P : List (Nat × Nat)) : Prop := ∃ i, P.getLast? = some (root, i)

/-- What a step on a cursor keeps: the rule of the file with the pages of the path and the
pages `T` held, the root page at the end of the path, and no page freed. -/
def Keeps (root : Nat) (T : List Nat) (E : BEngine) (C : BCursor) (E1 : BEngine) (C1 : BCursor) :
    Prop :=
  Held_Pages E root (C.path.map Prod.fst ++ T) → root_last root C.path →
    Held_Pages E1 root (C1.path.map Prod.fst ++ T) ∧ root_last root C1.path ∧ Unfreed E E1

/-- What `copy_key_into_inner_cell` with fuel `k` keeps when it returns. -/
def Spec_copy (root k : Nat) : Prop :=
  ∀ E tree C key E1 C1 T, copy_key_into_inner_cell k E tree C key = Res.ok (E1, C1) →
    Keeps root T E C E1 C1

/-- What `node_rotate_cells_left` with fuel `k` keeps when it returns, the two siblings being held. -/
def Spec_rotate_left (root k : Nat) : Prop :=
  ∀ E tree C left right n E1 C1 T, node_rotate_cells_left k E tree C left right n = Res.ok (E1, C1) →
    left ∈ T → right ∈ T → Keeps root T E C E1 C1

/-- What `node_rotate_cells_right` with fuel `k` keeps when it returns, the two siblings being held. -/
def Spec_rotate_right (root k : Nat) : Prop :=
  ∀ E tree C left right n E1 C1 T, node_rotate_cells_right k E tree C left right n = Res.ok (E1, C1) →
    left ∈ T → right ∈ T → Keeps root T E C E1 C1

/-- What `node_try_rotate_bytes_left` with fuel `k` keeps when it returns, the two siblings being held. -/
def Spec_try_left (root k : Nat) : Prop :=
  ∀ E tree C left right a b c E1 C1 r T,
    node_try_rotate_bytes_left k E tree C left right a b c = Res.ok (E1, C1, r) →
    left ∈ T → right ∈ T → Keeps root T E C E1 C1

/-- What `node_try_rotate_bytes_right` with fuel `k` keeps when it returns, the two siblings being held. -/
def Spec_try_right (root k : Nat) : Prop :=
  ∀ E tree C left right a b c E1 C1 r T,
    node_try_rotate_bytes_right k E tree C left right a b c = Res.ok (E1, C1, r) →
    left ∈ T → right ∈ T → Keeps root T E C E1 C1

/-- What `node_ensure_cell_space` with fuel `k` keeps when it returns. -/
def Spec_ensure (root k : Nat) : Prop :=
  ∀ E tree C size E1 C1 T, node_ensure_cell_space k E tree C size = Res.ok (E1, C1) →
    Keeps root T E C E1 C1

/-- What `split_node` with fuel `k` keeps when it returns. -/
def Spec_split (root k : Nat) : Prop :=
  ∀ E tree C E1 C1 T, split_node k E tree C = Res.ok (E1, C1) → Keeps root T E C E1 C1

/-- What `cursor_remove` with fuel `k` keeps when it returns: the rule of the file with the pages of
the path held, and a path that ends in the root or is empty. -/
def Spec_remove (root k : Nat) : Prop :=
  ∀ E tree C E1 C1 T, cursor_remove k E tree C = Res.ok (E1, C1) →
    Held_Pages E root (C.path.map Prod.fst ++ T) → root_last root C.path →
    Held_Pages E1 root (C1.path.map Prod.fst ++ T) ∧ (root_last root C1.path ∨ C1.path = [])

/-- What `try_merge_right` with fuel `k` keeps when it returns: of the two siblings the ones that
were not released stay held, and the path ends in the root or is empty. -/
def Spec_merge (root k : Nat) : Prop :=
  ∀ E tree C left right E1 C1 merged null T,
    try_merge_right k E tree C left right = Res.ok (E1, C1, merged, null) →
    Held_Pages E root (C.path.map Prod.fst ++ left :: right :: T) → root_last root C.path →
    Held_Pages E1 root (C1.path.map Prod.fst ++
        (if merged then (if null then T else right :: T) else left :: right :: T))
      ∧ (root_last root C1.path ∨ C1.path = [])

/-- The engine of a database file that was just created with one tree. -/
def new_tree_engine : BEngine := (Res.getD (new_tree .int) (bengine_new 0, ⟨.int, 0⟩)).1

set_option maxRecDepth 1000000

/-! ### Lemmas about results and node headers -/

theorem Res.bind_eq_ok {α β : Type} {x : Res α} {f : α → Res β} {b : β} :
    (x >>= f) = Res.ok b ↔ ∃ a, x = Res.ok a ∧ f a = Res.ok b := by
  cases x <;> simp [Bind.bind, Res.bind]

theorem Res.pure_eq_ok {α : Type} {a b : α} : (pure a : Res α) = Res.ok b ↔ a = b := by
  simp [pure]

theorem ASSERT_eq_ok {c : Bool} {u : Unit} : ASSERT c = Res.ok u ↔ c = true := by
  cases c <;> simp [ASSERT]

theorem cell_get_size_lt {E : BEngine} {tree : BTree} {id cell size : Nat}
    (h : cell_get_size E tree id cell = Res.ok size) : size < 65536 := by
  unfold cell_get_size at h
  simp only [Res.bind_eq_ok] at h
  obtain ⟨n, _, ks, _, h⟩ := h
  split at h
  · simp only [Res.pure_eq_ok, u16] at h; omega
  · simp only [Res.bind_eq_ok, Res.pure_eq_ok, u16] at h
    obtain ⟨l, _, h⟩ := h
    omega

theorem setNode_node {E E1 : BEngine} {id : Nat} {n : Node}
    (h : E.setNode id n = Res.ok E1) :
    E1.node id = Res.ok n ∧ E1.full_page_size = E.full_page_size := by
  unfold BEngine.setNode at h
  simp only [Res.bind_eq_ok, Res.pure_eq_ok] at h
  obtain ⟨p, hp, h⟩ := h
  subst h
  unfold BEngine.page at hp
  split at hp
  · rename_i q hq
    have hlt : id < E.pages.length := by
      rcases Nat.lt_or_ge id E.pages.length with h1 | h1
      · exact h1
      · rw [List.get?_eq_none.mpr h1] at hq; cases hq
    refine ⟨?_, rfl⟩
    simp [BEngine.node, BEngine.page, BEngine.setPage, Bind.bind, Res.bind, List.getElem?_set, hlt, pure]
  · cases hp

theorem node_free_cell_cell_area_logical (n : Node) (cell size : Nat) :
    (node_free_cell n cell size).cell_area_logical = u16 (n.cell_area_logical + size) := by
  unfold node_free_cell; dsimp only; split <;> rfl

theorem node_free_cell_cell_count (n : Node) (cell size : Nat) :
    (node_free_cell n cell size).cell_count = n.cell_count := by
  unfold node_free_cell; dsimp only; split <;> rfl

theorem node_get_cell_idx_lt {E : BEngine} {n : Node} {idx cell : Nat}
    (h : node_get_cell E n idx = Res.ok cell) : idx < n.cell_count := by
  unfold node_get_cell at h
  simp only [Res.bind_eq_ok, ASSERT_eq_ok, decide_eq_true_eq] at h
  obtain ⟨_, h, _⟩ := h
  exact h

theorem node_delete_cell_free_space {E E1 : BEngine} {tree : BTree} {id idx : Nat} {n : Node}
    {cell size : Nat} (h16 : idx < 65536) (hn : E.node id = Res.ok n)
    (hcell : node_get_cell E n idx = Res.ok cell)
    (hsize : cell_get_size E tree id cell = Res.ok size)
    (h : node_delete_cell E tree id idx = Res.ok E1) :
    ∃ n1, E1.node id = Res.ok n1 ∧ E1.full_page_size = E.full_page_size
      ∧ n1.cell_area_logical = u16 (n.cell_area_logical + size)
      ∧ n1.cell_count = sub16 n.cell_count 1 := by
  unfold node_delete_cell at h
  have hu : u16 idx = idx := by unfold u16; omega
  simp only [hu, hn, hcell, hsize, Res.bind_eq_ok, Res.pure_eq_ok, Res.ok.injEq, exists_eq_left'] at h
  obtain ⟨_, _, E2, hset, _, _, rfl⟩ := h
  obtain ⟨h1, h2⟩ := setNode_node hset
  exact ⟨_, h1, h2, node_free_cell_cell_area_logical n cell size,
    congrArg (fun c => sub16 c 1) (node_free_cell_cell_count n cell size)⟩

/-! ### Lemmas about the row codec -/

theorem Res.ok_bind {α β : Type} (a : α) (f : α → Res β) : (Res.ok a >>= f) = f a := rfl

theorem natToBytes_length (n x : Nat) : (natToBytes n x).length = n := by
  induction n generalizing x with
  | zero => rfl
  | succ n ih => simp [natToBytes, ih]

theorem read_le_natToBytes (n x : Nat) (rest : List Nat) :
    read_le n (natToBytes n x ++ rest) = Res.ok (x % 256 ^ n, rest) := by
  induction n generalizing x with
  | zero => simp [read_le, natToBytes, pure, Nat.mod_one]
  | succ n ih =>
    have e : x % 256 ^ (n + 1) = x % 256 % 256 + 256 * (x / 256 % 256 ^ n) := by
      rw [Nat.mod_mod, pow_succ, Nat.mul_comm (256 ^ n) 256, Nat.mod_mul]
    simp only [natToBytes, List.cons_append, read_le, List.append_eq, ih, Res.ok_bind, pure, e]

theorem take_bytes_append (s rest : List Nat) :
    take_bytes s.length (s ++ rest) = Res.ok (s, rest) := by
  induction s with
  | nil => simp [take_bytes, pure]
  | cons b s ih =>
    simp only [List.length_cons, List.cons_append, take_bytes, List.append_eq, ih, Res.ok_bind,
      pure]

theorem toS64_ofS64 (i : Int) (h1 : -(2 ^ 63) ≤ i) (h2 : i < 2 ^ 63) :
    toS64 (ofS64 i % 256 ^ 8) = i := by
  unfold toS64 ofS64
  have e : (256 : Nat) ^ 8 = 2 ^ 64 := by norm_num
  rw [e]
  have hm : ((i % 2 ^ 64).toNat % 2 ^ 64 % 2 ^ 64 : Nat) = (i % 2 ^ 64).toNat := by
    omega
  rw [hm]
  split <;> omega

theorem drop_eq_cons {α : Type} {l : List α} {idx : Nat} {c : α} {cs : List α}
    (h : l.drop idx = c :: cs) : l.get? idx = some c ∧ l.drop (idx + 1) = cs := by
  induction l generalizing idx with
  | nil => simp at h
  | cons a l ih =>
    cases idx with
    | zero => simp at h; simp [h.1, h.2]
    | succ idx => simpa using ih (by simpa using h)

theorem u32_of_lt {x : Nat} (h : x < 2 ^ 32) : u32 x = x := by
  unfold u32; omega

theorem serialize_row_length_eq (cols : List Type_Column) (row : List Db_Value) :
    ∀ (idx len : Nat), row_has_type (cols.drop idx) row = true →
      len + (row.map value_size).sum < 2 ^ 32 →
      serialize_row_length cols idx len row = Res.ok (len + (row.map value_size).sum) := by
  induction row with
  | nil => intro idx len _ _; simp [serialize_row_length, pure]
  | cons v vs ih =>
    intro idx len h hs
    cases hd : cols.drop idx with
    | nil => rw [hd] at h; simp [row_has_type] at h
    | cons c cs =>
      obtain ⟨hget, hdrop⟩ := drop_eq_cons hd
      rw [hd] at h
      simp only [row_has_type, Bool.and_eq_true] at h
      obtain ⟨hv, hrest⟩ := h
      rw [← hdrop] at hrest
      simp only [List.map_cons, List.sum_cons] at hs ⊢
      unfold serialize_row_length
      by_cases hnull : v.is_null = true
      · have e : value_size v = 1 := by simp [value_size, hnull]
        rw [e] at hs ⊢
        simp only [hnull, if_true]
        have e1 : u32 (len + 1) = len + 1 := by unfold u32; omega
        rw [e1, ih (idx + 1) (len + 1) hrest (by omega)]
        congr 1; omega
      · simp only [hnull, typer_get_col_type, hget]
        simp only [Bool.not_eq_true] at hnull
        rcases c with ⟨nn, field⟩
        rcases v with ⟨isn, val⟩
        simp only at hnull
        subst hnull
        cases field <;> cases val <;> simp [value_has_type] at hv <;>
          simp only [value_size, Db_Value.string] at hs ⊢ <;> simp only [Bool.false_eq_true, if_false] at hs ⊢
        · have e : u32 (u32 (len + 1) + 8) = len + 9 := by unfold u32; omega
          rw [e, ih (idx + 1) _ hrest (by omega)]
          congr 1; omega
        · have e : u32 (u32 (len + 1) + 1) = len + 2 := by unfold u32; omega
          rw [e, ih (idx + 1) _ hrest (by omega)]
          congr 1; omega
        · rename_i s
          have e : u32 (u32 (len + 1) + u32 (4 + u32 s.length)) = len + (5 + s.length) := by
            unfold u32; omega
          rw [e, ih (idx + 1) _ hrest (by omega)]
          congr 1; omega

theorem serialize_row_body_round_trip (cols : List Type_Column) (row : List Db_Value) :
    ∀ (idx : Nat), row_has_type (cols.drop idx) row = true →
      ∃ body, serialize_row_body cols idx row = Res.ok body
        ∧ body.length = (row.map value_size).sum
        ∧ ∀ rest, ∃ out, deserialize_row_loop (cols.drop idx) (body ++ rest) = Res.ok out
            ∧ same_rows row out = true := by
  induction row with
  | nil =>
    intro idx h
    refine ⟨[], by simp [serialize_row_body, pure], by simp, fun rest => ⟨[], ?_, rfl⟩⟩
    cases hd : cols.drop idx with
    | nil => simp [deserialize_row_loop, pure]
    | cons c cs => rw [hd] at h; simp [row_has_type] at h
  | cons v vs ih =>
    intro idx h
    cases hd : cols.drop idx with
    | nil => rw [hd] at h; simp [row_has_type] at h
    | cons c cs =>
      obtain ⟨hget, hdrop⟩ := drop_eq_cons hd
      rw [hd] at h
      simp only [row_has_type, Bool.and_eq_true] at h
      obtain ⟨hv, hrest⟩ := h
      rw [← hdrop] at hrest
      obtain ⟨tail, htail, hlen, hdes⟩ := ih (idx + 1) hrest
      rw [hdrop] at hdes
      simp only [List.map_cons, List.sum_cons]
      unfold serialize_row_body
      by_cases hnull : v.is_null = true
      · refine ⟨1 :: tail, by simp [hnull, htail, Res.ok_bind, pure], ?_, fun rest => ?_⟩
        · simp [value_size, hnull, hlen]; omega
        · obtain ⟨out, hout, hsame⟩ := hdes rest
          refine ⟨Db_Value.null :: out, ?_, ?_⟩
          · simp [deserialize_row_loop, hout, Res.ok_bind, pure]
          · simp [same_rows, same_value, hnull, Db_Value.null, hsame]
      · simp only [hnull, typer_get_col_type, hget]
        simp only [Bool.not_eq_true] at hnull
        rcases c with ⟨nn, field⟩
        rcases v with ⟨isn, val⟩
        simp only at hnull
        subst hnull
        cases field <;> cases val <;> simp [value_has_type] at hv
        · rename_i i
          refine ⟨0 :: natToBytes 8 (ofS64 i) ++ tail, by simp [htail, Res.ok_bind, pure, Db_Value.integer], ?_, fun rest => ?_⟩
          · simp [value_size, hlen, natToBytes_length]; omega
          · obtain ⟨out, hout, hsame⟩ := hdes rest
            refine ⟨⟨false, .integer i⟩ :: out, ?_, ?_⟩
            · have e : toS64 (ofS64 i % 18446744073709551616) = i := by
                have h := toS64_ofS64 i (by omega) (by omega)
                norm_num at h
                exact h
              simp [deserialize_row_loop, hout, Res.ok_bind, pure, read_le_natToBytes, e]
            · simp [same_rows, same_value, hsame]
        · rename_i b
          refine ⟨0 :: (if b then 1 else 0) :: tail, by simp [htail, Res.ok_bind, pure, Db_Value.boolean], ?_, fun rest => ?_⟩
          · simp [value_size, hlen]; omega
          · obtain ⟨out, hout, hsame⟩ := hdes rest
            refine ⟨⟨false, .boolean b⟩ :: out, ?_, ?_⟩
            · cases b <;> simp [deserialize_row_loop, hout, Res.ok_bind, pure, read_le]
            · simp [same_rows, same_value, hsame]
        · rename_i s
          refine ⟨0 :: natToBytes 4 (u32 s.length) ++ s ++ tail, by simp [htail, Res.ok_bind, pure, Db_Value.string], ?_, fun rest => ?_⟩
          · simp [value_size, hlen, natToBytes_length]; omega
          · obtain ⟨out, hout, hsame⟩ := hdes rest
            refine ⟨⟨false, .string s⟩ :: out, ?_, ?_⟩
            · have e : u32 s.length % 4294967296 = s.length := by unfold u32; omega
              simp [deserialize_row_loop, hout, Res.ok_bind, pure, read_le_natToBytes, e, take_bytes_append]
            · simp [same_rows, same_value, hsame]

/-! ### Lemmas about expressions -/

theorem eval2_null {v1 v2 : Db_Value} (f : Db_Value → Db_Value → Res Payload)
    (h : v1.is_null = true ∨ v2.is_null = true) : yields_null (eval2 v1 v2 f) = true := by
  unfold eval2
  by_cases h1 : v1.is_null = true
  · simp [h1, yields_null, pure]
  · have h2 : v2.is_null = true := by tauto
    simp [h1, h2, yields_null, pure]

theorem boolean_mk (n x : Bool) : Db_Value.boolean ⟨n, .boolean x⟩ = x := rfl

/-! ### Lemmas about operands and the limit operator -/

theorem yields_nil {σ : Type} {I : Input σ} {s : σ} (h : I.yields s [] = true) :
    ∃ s1, I.next s = Res.ok (none, s1) := by
  unfold Input.yields at h
  split at h
  · rename_i s1 heq; exact ⟨s1, heq⟩
  · cases h

theorem yields_cons {σ : Type} {I : Input σ} {s : σ} {r : Db_Row} {rows : List Db_Row}
    (h : I.yields s (r :: rows) = true) :
    ∃ s1, I.next s = Res.ok (some r, s1) ∧ I.yields s1 rows = true := by
  unfold Input.yields at h
  split at h
  · rename_i r1 s1 heq
    simp only [Bool.and_eq_true, beq_iff_eq] at h
    exact ⟨s1, by rw [heq, h.1], h.2⟩
  · cases h

theorem wrap64_eq {x : Int} (h1 : -(2 ^ 63) ≤ x) (h2 : x < 2 ^ 63) : wrap64 x = x := by
  unfold wrap64 toS64 ofS64
  have hm : ((x % 2 ^ 64).toNat % 2 ^ 64 : Nat) = (x % 2 ^ 64).toNat := by omega
  rw [hm]
  split <;> omega

theorem plan_limit_skip_yields {σ : Type} (I : Input σ) (k : Nat) :
    ∀ (s : σ) (rows : List Db_Row), I.yields s rows = true →
      ∃ s1, plan_limit_skip I k s = Res.ok (decide (k ≤ rows.length), s1)
        ∧ (k ≤ rows.length → I.yields s1 (rows.drop k) = true) := by
  induction k with
  | zero => intro s rows h; exact ⟨s, by simp [plan_limit_skip, pure], fun _ => by simpa using h⟩
  | succ k ih =>
    intro s rows h
    cases rows with
    | nil =>
      obtain ⟨s1, h1⟩ := yields_nil h
      exact ⟨s1, by simp [plan_limit_skip, h1, Res.ok_bind, pure], by simp⟩
    | cons r rows =>
      obtain ⟨s1, h1, h2⟩ := yields_cons h
      obtain ⟨s2, h3, h4⟩ := ih s1 rows h2
      refine ⟨s2, ?_, ?_⟩
      · simp [plan_limit_skip, h1, Res.ok_bind, h3]
      · intro hk
        simpa using h4 (by simpa using hk)

theorem plan_limit_done {σ : Type} (I : Input σ) (P : Plan_Limit σ) (h : P.state = 2) (n : Nat) :
    (plan_limit I).next_n n P = Res.ok (List.replicate n none, P) := by
  induction n with
  | zero => rfl
  | succ n ih =>
    have h1 : (plan_limit I).next P = Res.ok (none, P) := by
      show plan_limit_next I P = _
      unfold plan_limit_next
      rw [h]
      rfl
    unfold Input.next_n
    rw [h1]
    simp only [Res.ok_bind, ih, pure]
    rfl

theorem drain_none {σ : Type} (I : Input σ) (fuel : Nat) (s s1 : σ)
    (h : I.next s = Res.ok (none, s1)) : I.drain (fuel + 1) s = Res.ok ([], s1) := by
  unfold Input.drain
  rw [h]
  rfl

theorem drain_some {σ : Type} (I : Input σ) (fuel : Nat) (s s1 : σ) (r : Db_Row)
    (h : I.next s = Res.ok (some r, s1)) :
    I.drain (fuel + 1) s = (I.drain fuel s1 >>= fun p => pure (r :: p.1, p.2)) := by
  conv => lhs; unfold Input.drain
  rw [h]
  rfl

theorem plan_limit_next_emit {σ : Type} (I : Input σ) (P : Plan_Limit σ) (h : P.state = 1) :
    (plan_limit I).next P = plan_limit_emit I P := by
  show plan_limit_next I P = _
  unfold plan_limit_next
  rw [h]

theorem plan_limit_emitting {σ : Type} (I : Input σ) (rows : List Db_Row) :
    ∀ (fuel : Nat) (P : Plan_Limit σ), P.state = 1 → 0 ≤ P.emitted → P.emitted ≤ P.limit →
      P.limit < 2 ^ 63 → I.yields P.op rows = true → rows.length < fuel →
      ∃ P1, (plan_limit I).drain fuel P
          = Res.ok (rows.take (P.limit - P.emitted).toNat, P1) ∧ P1.state = 2 := by
  induction rows with
  | nil =>
    intro fuel P hs h0 h1 h2 hy hf
    obtain ⟨s1, hn⟩ := yields_nil hy
    cases fuel with
    | zero => omega
    | succ fuel =>
      by_cases he : P.emitted = P.limit
      · refine ⟨{ P with state := 2 }, ?_, rfl⟩
        rw [drain_none _ _ _ { P with state := 2 }]
        · simp
        · rw [plan_limit_next_emit I P hs]
          simp [plan_limit_emit, he, pure]
      · refine ⟨{ P with emitted := wrap64 (P.emitted + 1), op := s1, state := 2 }, ?_, rfl⟩
        rw [drain_none _ _ _ { P with emitted := wrap64 (P.emitted + 1), op := s1, state := 2 }]
        · simp
        · rw [plan_limit_next_emit I P hs]
          simp [plan_limit_emit, he, hn, Res.ok_bind, pure]
  | cons r rows ih =>
    intro fuel P hs h0 h1 h2 hy hf
    obtain ⟨s1, hn, hy1⟩ := yields_cons hy
    cases fuel with
    | zero => omega
    | succ fuel =>
      by_cases he : P.emitted = P.limit
      · refine ⟨{ P with state := 2 }, ?_, rfl⟩
        rw [drain_none _ _ _ { P with state := 2 }]
        · simp [he]
        · rw [plan_limit_next_emit I P hs]
          simp [plan_limit_emit, he, pure]
      · have hw : wrap64 (P.emitted + 1) = P.emitted + 1 := wrap64_eq (by omega) (by omega)
        obtain ⟨P1, hd, hs1⟩ := ih fuel { P with emitted := P.emitted + 1, op := s1 } hs
          (by simp; omega) (by simp; omega) h2 hy1 (by simpa using hf)
        refine ⟨P1, ?_, hs1⟩
        rw [drain_some _ _ _ { P with emitted := P.emitted + 1, op := s1 } r]
        · rw [hd]
          simp only [Res.ok_bind, pure]
          have e : (P.limit - P.emitted).toNat = (P.limit - (P.emitted + 1)).toNat + 1 := by omega
          rw [e, List.take_succ_cons]
        · rw [plan_limit_next_emit I P hs]
          simp [plan_limit_emit, he, hn, Res.ok_bind, pure, hw]

theorem drain_congr {σ : Type} (I : Input σ) (fuel : Nat) (s t : σ)
    (h : I.next s = I.next t) : I.drain (fuel + 1) s = I.drain (fuel + 1) t := by
  conv => lhs; unfold Input.drain
  conv => rhs; unfold Input.drain
  rw [h]

/-! ### Lemmas about the sorter and the order operator -/

theorem rank_lt_cons (p q : Int × Int) (ps qs : List (Int × Int)) :
    rank_lt (p :: ps) (q :: qs)
      = (decide (p.1 < q.1 ∨ (p.1 = q.1 ∧ p.2 < q.2)) || (p == q && rank_lt ps qs)) := rfl

theorem a_before_b_step (type : Type_Tag) (d : Bool) (a b : Db_Value) (rest : Res Bool)
    (r : Bool) : type = .TYPE_INT ∨ type = .TYPE_BOOL → rest = Res.ok r →
    (let key1 := if d then a else b
     let key2 := if d then b else a
     if key1.is_null && key2.is_null then rest
     else if key1.is_null then pure true
     else if key2.is_null then pure false
     else
       match type with
       | .TYPE_INT =>
         if key1.integer == key2.integer then rest
         else pure (decide (key1.integer < key2.integer))
       | .TYPE_BOOL =>
         if key1.boolean == key2.boolean then rest
         else pure (!key1.boolean && key2.boolean)
       | .TYPE_TEXT =>
         let result := strncmp key1.string key2.string (min key1.string.length key2.string.length)
         if result == 0 then rest
         else pure (result == -1)
       | _ => Res.assertFail)
      = Res.ok (decide ((key_rank type d a).1 < (key_rank type d b).1
          ∨ ((key_rank type d a).1 = (key_rank type d b).1
              ∧ (key_rank type d a).2 < (key_rank type d b).2))
        || (key_rank type d a == key_rank type d b && r)) := by
  intro htype hrest
  subst hrest
  rcases htype with rfl | rfl <;> cases d <;> cases hna : a.is_null <;> cases hnb : b.is_null <;>
    simp only [key_rank, hna, hnb, if_true, if_false, Bool.false_eq_true, Bool.and_self,
      Bool.and_false, Bool.false_and, Bool.and_true, pure]
  all_goals
    generalize a.boolean = x
    generalize b.boolean = y
    generalize a.integer = i
    generalize b.integer = j
    cases x <;> cases y <;> (try by_cases h : i = j) <;>
      (try have h1 : ¬ j = i := fun e => h e.symm) <;>
      simp [Prod.ext_iff, *]

/-- The directions fit the key types: one per key, when there are any. -/
theorem a_before_b_rank (types : List Type_Tag) :
    ∀ (directions : Option (List Bool)) (A B : List Db_Value),
      (∀ t ∈ types, t = Type_Tag.TYPE_INT ∨ t = Type_Tag.TYPE_BOOL) →
      A.length = types.length → B.length = types.length →
      (∀ ds, directions = some ds → ds.length = types.length) →
      a_before_b types directions A B
        = Res.ok (rank_lt (key_ranks types directions A) (key_ranks types directions B)) := by
  induction types with
  | nil =>
    intro directions A B _ hA _ _
    have : A = [] := List.length_eq_zero.mp hA
    subst this
    simp [a_before_b, key_ranks, rank_lt, pure]
  | cons t ts ih =>
    intro directions A B ht hA hB hd
    cases A with
    | nil => simp at hA
    | cons a as =>
      cases B with
      | nil => simp at hB
      | cons b bs =>
        have hts : ∀ t1 ∈ ts, t1 = Type_Tag.TYPE_INT ∨ t1 = Type_Tag.TYPE_BOOL :=
          fun t1 h1 => ht t1 (List.mem_cons_of_mem _ h1)
        have hA1 : as.length = ts.length := by simpa using hA
        have hB1 : bs.length = ts.length := by simpa using hB
        cases directions with
        | none =>
          have hrec := ih none as bs hts hA1 hB1 (by intro ds h; cases h)
          have := a_before_b_step t true a b _ _ (ht t (List.mem_cons_self _ _)) hrec
          simp only [a_before_b, key_ranks, rank_lt_cons, Res.ok_bind, pure]
          simpa using this
        | some ds0 =>
          cases ds0 with
          | nil => have := hd [] rfl; simp at this
          | cons d ds =>
            have hrec := ih (some ds) as bs hts hA1 hB1
              (by intro ds1 h; cases h; simpa using hd (d :: ds) rfl)
            have := a_before_b_step t d a b _ _ (ht t (List.mem_cons_self _ _)) hrec
            simp only [a_before_b, key_ranks, rank_lt_cons, Res.ok_bind, pure]
            simpa using this

theorem rank_lt_asymm : ∀ (p q : List (Int × Int)), rank_lt p q = true → rank_lt q p = false := by
  intro p
  induction p with
  | nil => intro q _; cases q <;> rfl
  | cons a as ih =>
    intro q h
    cases q with
    | nil => rfl
    | cons b bs =>
      simp only [rank_lt_cons, Bool.or_eq_true, decide_eq_true_eq, Bool.and_eq_true,
        beq_iff_eq] at h
      simp only [rank_lt_cons, Bool.or_eq_false_iff, decide_eq_false_iff_not,
        Bool.and_eq_false_imp, beq_iff_eq]
      rcases h with h | ⟨rfl, h⟩
      · refine ⟨by omega, fun e => ?_⟩
        subst e
        omega
      · exact ⟨by omega, fun _ => ih bs h⟩

theorem rank_lt_trans : ∀ (p q r : List (Int × Int)),
    rank_lt p q = true → rank_lt q r = true → rank_lt p r = true := by
  intro p
  induction p with
  | nil => intro q r h _; cases q <;> cases h
  | cons a as ih =>
    intro q r h1 h2
    cases q with
    | nil => cases h1
    | cons b bs =>
      cases r with
      | nil => cases h2
      | cons c cs =>
        simp only [rank_lt_cons, Bool.or_eq_true, decide_eq_true_eq, Bool.and_eq_true,
          beq_iff_eq] at h1 h2 ⊢
        rcases h1 with h1 | ⟨rfl, h1⟩
        · rcases h2 with h2 | ⟨rfl, h2⟩
          · left; omega
          · left; exact h1
        · rcases h2 with h2 | ⟨rfl, h2⟩
          · left; exact h2
          · right; exact ⟨rfl, ih bs cs h1 h2⟩

theorem sorter_insert_sorted (types : List Type_Tag) (directions : Option (List Bool))
    (ht : ∀ t ∈ types, t = Type_Tag.TYPE_INT ∨ t = Type_Tag.TYPE_BOOL)
    (hd : ∀ ds, directions = some ds → ds.length = types.length)
    (A : Sort_Item) (hA : A.keys.length = types.length) :
    ∀ (l : List Sort_Item), (∀ x ∈ l, x.keys.length = types.length) →
      ∃ l1, sorter_insert types directions A l = Res.ok l1 ∧ l1.Perm (A :: l)
        ∧ (l.Pairwise (fun x y => rank_lt (key_ranks types directions y.keys)
              (key_ranks types directions x.keys) = false) →
            l1.Pairwise (fun x y => rank_lt (key_ranks types directions y.keys)
              (key_ranks types directions x.keys) = false)) := by
  intro l
  induction l with
  | nil =>
    intro _
    exact ⟨[A], rfl, List.Perm.refl _, fun _ => List.pairwise_singleton _ _⟩
  | cons B rest ih =>
    intro hl
    have hB : B.keys.length = types.length := hl B (List.mem_cons_self _ _)
    have hrest : ∀ x ∈ rest, x.keys.length = types.length :=
      fun x hx => hl x (List.mem_cons_of_mem _ hx)
    have hcmp := a_before_b_rank types directions A.keys B.keys ht hA hB hd
    cases hlt : rank_lt (key_ranks types directions A.keys) (key_ranks types directions B.keys) with
    | true =>
      refine ⟨A :: B :: rest, ?_, List.Perm.refl _, ?_⟩
      · simp [sorter_insert, hcmp, hlt, Res.ok_bind, pure]
      · intro hs
        refine List.Pairwise.cons ?_ hs
        intro y hy
        rcases List.mem_cons.mp hy with rfl | hy
        · exact rank_lt_asymm _ _ hlt
        · have hyB := List.rel_of_pairwise_cons hs hy
          cases hyA : rank_lt (key_ranks types directions y.keys)
              (key_ranks types directions A.keys) with
          | false => rfl
          | true =>
            have := rank_lt_trans _ _ _ hyA hlt
            rw [hyB] at this
            cases this
    | false =>
      obtain ⟨r1, hr1, hperm, hsorted⟩ := ih hrest
      refine ⟨B :: r1, ?_, ?_, ?_⟩
      · simp [sorter_insert, hcmp, hlt, Res.ok_bind, pure, hr1]
      · exact (List.Perm.cons B hperm).trans (List.Perm.swap A B rest)
      · intro hs
        refine List.Pairwise.cons ?_ (hsorted (List.Pairwise.of_cons hs))
        intro y hy
        rcases List.mem_cons.mp (hperm.mem_iff.mp hy) with rfl | hy
        · exact hlt
        · exact List.rel_of_pairwise_cons hs hy

theorem sorter_sort_sorted (types : List Type_Tag) (directions : Option (List Bool))
    (ht : ∀ t ∈ types, t = Type_Tag.TYPE_INT ∨ t = Type_Tag.TYPE_BOOL)
    (hd : ∀ ds, directions = some ds → ds.length = types.length) :
    ∀ (rest sorted : List Sort_Item), (∀ x ∈ sorted, x.keys.length = types.length) →
      (∀ x ∈ rest, x.keys.length = types.length) →
      sorted.Pairwise (fun x y => rank_lt (key_ranks types directions y.keys)
        (key_ranks types directions x.keys) = false) →
      ∃ l1, sorter_sort types directions sorted rest = Res.ok l1 ∧ l1.Perm (sorted ++ rest)
        ∧ l1.Pairwise (fun x y => rank_lt (key_ranks types directions y.keys)
            (key_ranks types directions x.keys) = false) := by
  intro rest
  induction rest with
  | nil =>
    intro sorted _ _ hs
    exact ⟨sorted, rfl, by simp, hs⟩
  | cons A rest ih =>
    intro sorted hsorted hrest hs
    obtain ⟨s1, h1, hperm, hsort⟩ := sorter_insert_sorted types directions ht hd A
      (hrest A (List.mem_cons_self _ _)) sorted hsorted
    have hs1 : ∀ x ∈ s1, x.keys.length = types.length := by
      intro x hx
      rcases List.mem_cons.mp (hperm.mem_iff.mp hx) with rfl | hx
      · exact hrest _ (List.mem_cons_self _ _)
      · exact hsorted x hx
    obtain ⟨l1, h2, hperm2, hsort2⟩ := ih s1 hs1
      (fun x hx => hrest x (List.mem_cons_of_mem _ hx)) (hsort hs)
    refine ⟨l1, ?_, ?_, hsort2⟩
    · simp [sorter_sort, h1, Res.ok_bind, h2]
    · refine hperm2.trans ?_
      refine (List.Perm.append_right rest hperm).trans ?_
      exact List.perm_middle.symm

theorem sort_item_keys_length (row : Db_Row) :
    ∀ (keys : List Plan) (ks : List Db_Value), sort_item_keys row keys = Res.ok ks →
      ks.length = keys.length := by
  intro keys
  induction keys with
  | nil => intro ks h; simp [sort_item_keys, pure] at h; subst h; rfl
  | cons key keys ih =>
    intro ks h
    simp only [sort_item_keys, Res.bind_eq_ok, Res.pure_eq_ok] at h
    obtain ⟨v, _, rest, hrest, rfl⟩ := h
    simp [ih rest hrest]

theorem row_keys_of_ok {keys : List Plan} {row : Db_Row}
    (h : (sort_item_keys row keys).isOk = true) :
    sort_item_keys row keys = Res.ok (row_keys keys row)
      ∧ (row_keys keys row).length = keys.length := by
  unfold row_keys
  cases hk : sort_item_keys row keys with
  | ok ks => exact ⟨rfl, sort_item_keys_length row keys ks hk⟩
  | assertFail => rw [hk] at h; cases h
  | fault => rw [hk] at h; cases h
  | outOfFuel => rw [hk] at h; cases h

theorem sorter_collect_yields {σ : Type} (I : Input σ) (keys : List Plan) (rows : List Db_Row) :
    ∀ (fuel : Nat) (s : σ), I.yields s rows = true →
      (∀ r ∈ rows, (sort_item_keys r keys).isOk = true) → rows.length < fuel →
      ∃ s1, sorter_collect I keys fuel s
        = Res.ok (rows.map (fun r => ⟨r, row_keys keys r⟩), s1) := by
  induction rows with
  | nil =>
    intro fuel s hy _ hf
    obtain ⟨s1, hn⟩ := yields_nil hy
    cases fuel with
    | zero => omega
    | succ fuel => exact ⟨s1, by simp [sorter_collect, hn, Res.ok_bind, pure]⟩
  | cons r rows ih =>
    intro fuel s hy hk hf
    obtain ⟨s1, hn, hy1⟩ := yields_cons hy
    cases fuel with
    | zero => omega
    | succ fuel =>
      obtain ⟨s2, h2⟩ := ih fuel s1 hy1 (fun x hx => hk x (List.mem_cons_of_mem _ hx))
        (by simpa using hf)
      have hr := (row_keys_of_ok (hk r (List.mem_cons_self _ _))).1
      exact ⟨s2, by simp [sorter_collect, hn, Res.ok_bind, pure, sort_item_new, hr, h2]⟩

theorem sorter_new_sorted {σ : Type} (I : Input σ) (keys : List Plan) (types : List Type_Tag)
    (directions : Option (List Bool)) (rows : List Db_Row) (fuel : Nat) (s : σ)
    (ht : ∀ t ∈ types, t = Type_Tag.TYPE_INT ∨ t = Type_Tag.TYPE_BOOL)
    (hlen : types.length = keys.length)
    (hd : ∀ ds, directions = some ds → ds.length = types.length)
    (hy : I.yields s rows = true)
    (hk : ∀ r ∈ rows, (sort_item_keys r keys).isOk = true) (hf : rows.length < fuel) :
    ∃ sorted s1, sorter_new I keys types directions fuel s = Res.ok (⟨0, sorted⟩, s1)
      ∧ sorted.Perm (rows.map (fun r => ⟨r, row_keys keys r⟩))
      ∧ sorted.Pairwise (fun x y => rank_lt (key_ranks types directions y.keys)
          (key_ranks types directions x.keys) = false) := by
  obtain ⟨s1, hc⟩ := sorter_collect_yields I keys rows fuel s hy hk hf
  have hwf : ∀ x ∈ rows.map (fun r => (⟨r, row_keys keys r⟩ : Sort_Item)),
      x.keys.length = types.length := by
    intro x hx
    obtain ⟨r, hr, rfl⟩ := List.mem_map.mp hx
    rw [hlen]
    exact (row_keys_of_ok (hk r hr)).2
  cases hrows : rows with
  | nil =>
    subst hrows
    exact ⟨[], s1, by simp [sorter_new, hc, Res.ok_bind, pure], by simp, List.Pairwise.nil⟩
  | cons r rest =>
    subst hrows
    obtain ⟨l1, h1, hperm, hsort⟩ := sorter_sort_sorted types directions ht hd
      (rest.map (fun r => (⟨r, row_keys keys r⟩ : Sort_Item))) [⟨r, row_keys keys r⟩]
      (by
        intro x hx
        exact hwf x (by simp only [List.mem_singleton] at hx; subst hx; simp))
      (by
        intro x hx
        exact hwf x (by simp only [List.map_cons]; exact List.mem_cons_of_mem _ hx))
      (List.pairwise_singleton _ _)
    refine ⟨l1, s1, ?_, by simpa using hperm, hsort⟩
    simp [sorter_new, hc, Res.ok_bind, pure, h1]

theorem plan_order_drain_sorted {σ : Type} (fuel0 : Nat) (I : Input σ) (items : List Sort_Item) :
    ∀ (k idx fuel : Nat) (P : Plan_Order σ), P.sorter = some ⟨idx, items⟩ →
      items.length - idx = k → idx ≤ items.length → k < fuel →
      ∃ P1, (plan_order fuel0 I).drain fuel P
        = Res.ok ((items.drop idx).map Sort_Item.row, P1) := by
  intro k
  induction k with
  | zero =>
    intro idx fuel P hP hk hidx hf
    have hidx1 : idx = items.length := by omega
    cases fuel with
    | zero => omega
    | succ fuel =>
      refine ⟨{ P with sorter := some ⟨idx, items⟩, op := P.op }, ?_⟩
      rw [drain_none _ _ _ { P with sorter := some ⟨idx, items⟩, op := P.op }]
      · simp [hidx1]
      · simp [plan_order, hP, Res.ok_bind, pure, sorter_next, hidx1]
  | succ k ih =>
    intro idx fuel P hP hk hidx hf
    have hlt : idx < items.length := by omega
    cases fuel with
    | zero => omega
    | succ fuel =>
      obtain ⟨P1, h1⟩ := ih (idx + 1) fuel { P with sorter := some ⟨idx + 1, items⟩, op := P.op }
        rfl (by omega) (by omega) (by omega)
      refine ⟨P1, ?_⟩
      rw [drain_some _ _ _ { P with sorter := some ⟨idx + 1, items⟩, op := P.op } (items[idx]).row]
      · rw [h1]
        simp only [Res.ok_bind, pure]
        rw [List.drop_eq_getElem_cons hlt]
        rfl
      · simp [plan_order, hP, Res.ok_bind, pure, sorter_next, List.getElem?_eq_getElem hlt]

/-! ### Lemmas about the group operator -/

theorem AGGREGATE_map (row : Db_Row) :
    ∀ (aggs : List Aggregate) (g : Aggregate → Db_Value), (∀ a ∈ aggs, a.ref < row.length) →
      AGGREGATE aggs row (aggs.map g)
        = Res.ok (aggs.map (fun a => aggregate_round a (g a) row)) := by
  intro aggs
  induction aggs with
  | nil => intro g _; rfl
  | cons a aggs ih =>
    intro g h
    have ha : a.ref < row.length := h a (List.mem_cons_self _ _)
    have hget : row.get? a.ref = some (row.getD a.ref Db_Value.null) := by
      simp [List.getD, List.getElem?_eq_getElem ha]
    simp only [List.map_cons, AGGREGATE, hget,
      ih g (fun b hb => h b (List.mem_cons_of_mem _ hb)), Res.ok_bind, pure, aggregate_round]

theorem group_keys_match_int :
    ∀ (types : List Type_Tag) (k1 k2 : List Db_Value), (∀ t ∈ types, t = Type_Tag.TYPE_INT) →
      k1.length = types.length → k2.length = types.length →
      group_keys_match types k1 k2
        = Res.ok (k2.map Db_Value.integer == k1.map Db_Value.integer) := by
  intro types
  induction types with
  | nil =>
    intro k1 k2 _ h1 h2
    have e1 : k1 = [] := List.length_eq_zero.mp h1
    have e2 : k2 = [] := List.length_eq_zero.mp h2
    subst e1 e2
    simp [group_keys_match, pure]
  | cons t ts ih =>
    intro k1 k2 ht h1 h2
    cases k1 with
    | nil => simp at h1
    | cons a as =>
      cases k2 with
      | nil => simp at h2
      | cons b bs =>
        have e : t = Type_Tag.TYPE_INT := ht t (List.mem_cons_self _ _)
        subst e
        have hrec := ih as bs (fun t1 h => ht t1 (List.mem_cons_of_mem _ h))
          (by simpa using h1) (by simpa using h2)
        by_cases hab : a.integer = b.integer
        · simp [group_keys_match, value_match, Res.ok_bind, pure, hab, hrec]
        · have hba : ¬ b.integer = a.integer := fun e => hab e.symm
          simp [group_keys_match, value_match, Res.ok_bind, pure, hab, hba]

theorem plan_group_finish_map (count : Int) (hc : count ≠ 0) (ks : List Db_Value) :
    ∀ (aggs : List Aggregate) (g : Aggregate → Db_Value),
      plan_group_finish count aggs (aggs.map g ++ ks)
        = Res.ok (aggs.map (fun a => aggregate_finish count a (g a)) ++ ks) := by
  intro aggs
  induction aggs with
  | nil => intro g; simp [plan_group_finish, pure]
  | cons a aggs ih =>
    intro g
    have h := ih g
    simp only [List.map_cons, List.cons_append, plan_group_finish, List.append_eq] at h ⊢
    rw [h]
    cases ht : a.tag <;> simp [aggregate_finish, ht, Res.ok_bind, pure, hc]

theorem plan_group_keys_cols (row : Db_Row) :
    ∀ (key_cols : List Nat), (∀ i ∈ key_cols, i < row.length) →
      plan_group_keys row (key_cols.map Plan.PLAN_COLUMN_REF)
        = Res.ok (key_cols.map (fun i => row.getD i Db_Value.null)) := by
  intro key_cols
  induction key_cols with
  | nil => intro _; rfl
  | cons i is ih =>
    intro h
    have hi : i < row.length := h i (List.mem_cons_self _ _)
    have hget : row.get? i = some (row.getD i Db_Value.null) := by
      simp [List.getD, List.getElem?_eq_getElem hi]
    simp only [List.map_cons, plan_group_keys, hget,
      ih (fun b hb => h b (List.mem_cons_of_mem _ hb)), Res.ok_bind, pure]

theorem sort_item_keys_cols (row : Db_Row) :
    ∀ (key_cols : List Nat), (∀ i ∈ key_cols, i < row.length) →
      sort_item_keys row (key_cols.map Plan.PLAN_COLUMN_REF)
        = Res.ok (key_cols.map (fun i => row.getD i Db_Value.null)) := by
  intro key_cols
  induction key_cols with
  | nil => intro _; rfl
  | cons i is ih =>
    intro h
    have hi : i < row.length := h i (List.mem_cons_self _ _)
    have hget : row.get? i = some (row.getD i Db_Value.null) := by
      simp [List.getD, List.getElem?_eq_getElem hi]
    simp only [List.map_cons, sort_item_keys, eval_expr, hget,
      ih (fun b hb => h b (List.mem_cons_of_mem _ hb)), Res.ok_bind, pure]

theorem plan_group_run_takeWhile (aggs : List Aggregate) (types : List Type_Tag)
    (htypes : ∀ t ∈ types, t = Type_Tag.TYPE_INT) :
    ∀ (rest : List Sort_Item) (x : Sort_Item) (g : Aggregate → Db_Value) (count : Int)
      (taken : Nat),
      (∀ y ∈ x :: rest, y.keys.length = types.length ∧ ∀ a ∈ aggs, a.ref < y.row.length) →
      0 ≤ count → count + rest.length < 2 ^ 63 →
      plan_group_run aggs types x rest (aggs.map g) count taken
        = Res.ok
          (aggs.map (fun a =>
              (x :: rest.takeWhile
                (fun y => y.keys.map Db_Value.integer == x.keys.map Db_Value.integer)).foldl
                (fun acc y => aggregate_round a acc y.row) (g a)),
            (rest.takeWhile
              (fun y => y.keys.map Db_Value.integer == x.keys.map Db_Value.integer)).getLastD x,
            count + ((rest.takeWhile
              (fun y => y.keys.map Db_Value.integer == x.keys.map Db_Value.integer)).length : Int),
            taken + (rest.takeWhile
              (fun y => y.keys.map Db_Value.integer == x.keys.map Db_Value.integer)).length) := by
  intro rest
  induction rest with
  | nil =>
    intro x g count taken hwf _ _
    unfold plan_group_run
    rw [AGGREGATE_map x.row aggs g (hwf x (List.mem_cons_self _ _)).2]
    simp [Res.ok_bind, pure]
  | cons y rest ih =>
    intro x g count taken hwf h0 h1
    have hx := hwf x (List.mem_cons_self _ _)
    have hy := hwf y (List.mem_cons_of_mem _ (List.mem_cons_self _ _))
    unfold plan_group_run
    rw [AGGREGATE_map x.row aggs g hx.2]
    simp only [Res.ok_bind, group_keys_match_int types x.keys y.keys htypes hx.1 hy.1]
    by_cases hp : y.keys.map Db_Value.integer = x.keys.map Db_Value.integer
    · have hw : wrap64 (count + 1) = count + 1 := wrap64_eq (by omega) (by
        simp only [List.length_cons] at h1; push_cast at h1; omega)
      have hrec := ih y (fun a => aggregate_round a (g a) x.row) (count + 1) (taken + 1)
        (fun z hz => hwf z (List.mem_cons_of_mem _ hz)) (by omega) (by
          simp only [List.length_cons] at h1; push_cast at h1; omega)
      rw [if_pos (by simpa using hp), hw, hrec]
      have e : ∀ z : Sort_Item, (z.keys.map Db_Value.integer == y.keys.map Db_Value.integer)
          = (z.keys.map Db_Value.integer == x.keys.map Db_Value.integer) := by
        intro z
        rw [hp]
      simp only [e, List.takeWhile_cons, hp, beq_self_eq_true, if_true, List.foldl_cons,
        List.getLastD_cons, List.length_cons]
      refine congrArg Res.ok (Prod.ext rfl (Prod.ext rfl (Prod.ext ?_ ?_)))
      · simp only []
        push_cast
        omega
      · simp only []
        omega
    · have hp1 : (y.keys.map Db_Value.integer == x.keys.map Db_Value.integer) = false := by
        simpa using hp
      simp [hp1, List.takeWhile_cons, pure]

theorem key_vector_lt_total : ∀ (p q : List Int), p.length = q.length → p ≠ q →
    key_vector_lt q p = false → key_vector_lt p q = true := by
  intro p
  induction p with
  | nil =>
    intro q hl hne _
    have : q = [] := List.length_eq_zero.mp hl.symm
    exact absurd this.symm hne
  | cons a as ih =>
    intro q hl hne h
    cases q with
    | nil => simp at hl
    | cons b bs =>
      simp only [key_vector_lt, Bool.or_eq_false_iff, decide_eq_false_iff_not, not_lt,
        Bool.and_eq_false_imp, beq_iff_eq] at h
      simp only [key_vector_lt, Bool.or_eq_true, decide_eq_true_eq, Bool.and_eq_true, beq_iff_eq]
      by_cases hab : a = b
      · subst hab
        right
        refine ⟨rfl, ih bs (by simpa using hl) (fun e => hne (by rw [e])) (h.2 rfl)⟩
      · left
        omega

theorem key_vector_lt_irrefl : ∀ (p : List Int), key_vector_lt p p = false := by
  intro p
  induction p with
  | nil => rfl
  | cons a as ih => simp [key_vector_lt, ih]

theorem sorted_takeWhile_eq_filter {α : Type} (k : α → List Int) (n : Nat) (x : α) :
    ∀ (rest : List α), (∀ y ∈ x :: rest, (k y).length = n) →
      (x :: rest).Pairwise (fun a b => key_vector_lt (k b) (k a) = false) →
      rest.takeWhile (fun y => k y == k x) = rest.filter (fun y => k y == k x) := by
  intro rest
  induction rest with
  | nil => intro _ _; rfl
  | cons y rest ih =>
    intro hlen hs
    have hs1 : (x :: rest).Pairwise (fun a b => key_vector_lt (k b) (k a) = false) :=
      hs.sublist (List.Sublist.cons₂ x (List.sublist_cons_self y rest))
    by_cases hp : k y = k x
    · simp only [List.takeWhile_cons, List.filter_cons, hp, beq_self_eq_true, if_true]
      rw [ih (fun z hz => hlen z (by
        rcases List.mem_cons.mp hz with h | h
        · exact h ▸ List.mem_cons_self _ _
        · exact List.mem_cons_of_mem _ (List.mem_cons_of_mem _ h))) hs1]
    · have hp1 : (k y == k x) = false := by simpa using hp
      simp only [List.takeWhile_cons, List.filter_cons, hp1, Bool.false_eq_true, if_false]
      symm
      rw [List.filter_eq_nil_iff]
      intro z hz hzx
      have hzx1 : k z = k x := by simpa using hzx
      have hxy : key_vector_lt (k x) (k y) = true := by
        refine key_vector_lt_total _ _ ?_ (fun e => hp e.symm) ?_
        · rw [hlen x (List.mem_cons_self _ _),
            hlen y (List.mem_cons_of_mem _ (List.mem_cons_self _ _))]
        · exact (List.pairwise_cons.mp hs).1 y (List.mem_cons_self _ _)
      have hyz : key_vector_lt (k z) (k y) = false :=
        (List.pairwise_cons.mp (List.pairwise_cons.mp hs).2).1 z hz
      rw [hzx1, hxy] at hyz
      cases hyz

theorem mem_takeWhile_true {α : Type} (p : α → Bool) :
    ∀ (l : List α) (a : α), a ∈ l.takeWhile p → p a = true := by
  intro l
  induction l with
  | nil => intro a h; simp at h
  | cons b l ih =>
    intro a h
    by_cases hb : p b = true
    · simp only [List.takeWhile_cons, hb, if_true, List.mem_cons] at h
      rcases h with h | h
      · rw [h]; exact hb
      · exact ih a h
    · simp [List.takeWhile_cons, hb] at h

theorem sorted_dropWhile_gt {α : Type} (k : α → List Int) (n : Nat) (x : α) (rest : List α)
    (hlen : ∀ y ∈ x :: rest, (k y).length = n)
    (hs : (x :: rest).Pairwise (fun a b => key_vector_lt (k b) (k a) = false)) :
    ∀ z ∈ rest.dropWhile (fun y => k y == k x), key_vector_lt (k x) (k z) = true := by
  intro z hz
  have hsplit : rest.takeWhile (fun y => k y == k x) ++ rest.dropWhile (fun y => k y == k x)
      = rest := List.takeWhile_append_dropWhile _ _
  have hzr : z ∈ rest := by
    rw [← hsplit]
    exact List.mem_append_right _ hz
  have hf : (rest.dropWhile (fun y => k y == k x)).filter (fun y => k y == k x) = [] := by
    have h1 := congrArg (List.filter (fun y => k y == k x)) hsplit
    rw [List.filter_append, ← sorted_takeWhile_eq_filter k n x rest hlen hs] at h1
    have h2 : (rest.takeWhile (fun y => k y == k x)).filter (fun y => k y == k x)
        = rest.takeWhile (fun y => k y == k x) := by
      rw [List.filter_eq_self]
      intro a ha
      exact mem_takeWhile_true _ _ a ha
    rw [h2] at h1
    exact List.append_right_eq_self.mp h1
  have hne : ¬ k z = k x := by
    intro e
    have := List.filter_eq_nil_iff.mp hf z hz
    simp [e] at this
  refine key_vector_lt_total _ _ ?_ (fun e => hne e.symm) ?_
  · rw [hlen x (List.mem_cons_self _ _), hlen z (List.mem_cons_of_mem _ hzr)]
  · exact (List.pairwise_cons.mp hs).1 z hzr

theorem getLastD_mem {α : Type} : ∀ (l : List α) (x : α), l.getLastD x = x ∨ l.getLastD x ∈ l := by
  intro l x
  cases l with
  | nil => left; rfl
  | cons a l =>
    right
    rw [List.getLastD_cons]
    rcases getLastD_mem l a with h | h
    · rw [h]; exact List.mem_cons_self _ _
    · exact List.mem_cons_of_mem _ h

theorem getLast?_cons_getLastD {α : Type} (l : List α) (x : α) :
    (x :: l).getLast? = some (l.getLastD x) := by
  induction l generalizing x with
  | nil => rfl
  | cons a l ih => rw [List.getLast?_cons_cons, ih, List.getLastD_cons]

theorem plan_group_next_some {σ : Type} (fuel : Nat) (I : Input σ) (key_cols : List Nat)
    (aggs : List Aggregate) (items : List Sort_Item) (idx : Nat) (s : σ)
    (hne : key_cols ≠ [])
    (hwf : ∀ x ∈ items, x.keys = key_cols.map (fun i => x.row.getD i Db_Value.null)
      ∧ (∀ i ∈ key_cols, i < x.row.length) ∧ ∀ a ∈ aggs, a.ref < x.row.length)
    (hlen : items.length < 2 ^ 63) (hidx : idx < items.length) :
    plan_group_next fuel I ⟨key_cols.map Plan.PLAN_COLUMN_REF,
        key_cols.map (fun _ => Type_Tag.TYPE_INT), aggs, some ⟨idx, items⟩, s⟩
      = Res.ok (some (group_output aggs (items[idx] :: (items.drop (idx + 1)).takeWhile
            (fun y => y.keys.map Db_Value.integer == items[idx].keys.map Db_Value.integer))),
          ⟨key_cols.map Plan.PLAN_COLUMN_REF, key_cols.map (fun _ => Type_Tag.TYPE_INT), aggs,
            some ⟨idx + 1 + ((items.drop (idx + 1)).takeWhile
              (fun y => y.keys.map Db_Value.integer
                == items[idx].keys.map Db_Value.integer)).length, items⟩, s⟩) := by
  have hk : ((key_cols.map Plan.PLAN_COLUMN_REF).length == 0) = false := by
    cases key_cols with
    | nil => exact absurd rfl hne
    | cons a l => rfl
  have hx := hwf _ (List.getElem_mem hidx)
  have hkl : ∀ x ∈ items, x.keys.length
      = (key_cols.map (fun _ => Type_Tag.TYPE_INT)).length := by
    intro x hx
    rw [(hwf x hx).1]
    simp
  have hrun := plan_group_run_takeWhile aggs (key_cols.map (fun _ => Type_Tag.TYPE_INT))
    (by intro t ht; obtain ⟨_, _, rfl⟩ := List.mem_map.mp ht; rfl)
    (items.drop (idx + 1)) items[idx] (fun _ => ⟨false, .integer 0⟩) 1 0
    (by
      intro y hy
      have hy1 : y ∈ items := by
        rcases List.mem_cons.mp hy with h | h
        · rw [h]; exact List.getElem_mem hidx
        · exact List.mem_of_mem_drop h
      exact ⟨hkl y hy1, (hwf y hy1).2.2⟩)
    (by decide)
    (by simp only [List.length_drop]; omega)
  have hlast : (((items.drop (idx + 1)).takeWhile
      (fun y => y.keys.map Db_Value.integer == items[idx].keys.map Db_Value.integer)).getLastD
        items[idx]) ∈ items := by
    rcases getLastD_mem ((items.drop (idx + 1)).takeWhile
      (fun y => y.keys.map Db_Value.integer == items[idx].keys.map Db_Value.integer))
      items[idx] with h | h
    · rw [h]; exact List.getElem_mem hidx
    · exact List.mem_of_mem_drop ((List.takeWhile_sublist _).subset h)
  have hkeys := plan_group_keys_cols _ key_cols (hwf _ hlast).2.1
  rw [← (hwf _ hlast).1] at hkeys
  have hfin := plan_group_finish_map
    (1 + (((items.drop (idx + 1)).takeWhile
      (fun y => y.keys.map Db_Value.integer
        == items[idx].keys.map Db_Value.integer)).length : Int))
    (by omega)
    (((items.drop (idx + 1)).takeWhile
      (fun y => y.keys.map Db_Value.integer == items[idx].keys.map Db_Value.integer)).getLastD
        items[idx]).keys aggs
  unfold plan_group_next
  simp only [hk, Bool.false_eq_true, if_false, pure, Res.ok_bind, sorter_next,
    List.get?_eq_getElem?, List.getElem?_eq_getElem hidx, plan_group_zero, hrun, hkeys, hfin]
  simp only [group_output, getLast?_cons_getLastD, List.length_cons, Nat.zero_add]
  refine congrArg Res.ok (Prod.ext ?_ rfl)
  simp only [Option.some.injEq]
  congr 2
  funext a
  congr 1
  push_cast
  omega

theorem plan_group_next_none {σ : Type} (fuel : Nat) (I : Input σ) (key_cols : List Nat)
    (aggs : List Aggregate) (items : List Sort_Item) (idx : Nat) (s : σ)
    (hne : key_cols ≠ []) (hidx : items.length ≤ idx) :
    plan_group_next fuel I ⟨key_cols.map Plan.PLAN_COLUMN_REF,
        key_cols.map (fun _ => Type_Tag.TYPE_INT), aggs, some ⟨idx, items⟩, s⟩
      = Res.ok (none, ⟨key_cols.map Plan.PLAN_COLUMN_REF,
          key_cols.map (fun _ => Type_Tag.TYPE_INT), aggs, some ⟨idx, items⟩, s⟩) := by
  have hk : ((key_cols.map Plan.PLAN_COLUMN_REF).length == 0) = false := by
    cases key_cols with
    | nil => exact absurd rfl hne
    | cons a l => rfl
  unfold plan_group_next
  simp only [hk, Bool.false_eq_true, if_false, pure, Res.ok_bind, sorter_next,
    List.get?_eq_getElem?, List.getElem?_eq_none hidx]

theorem output_key_vector_group_output (aggs : List Aggregate) (group : List Sort_Item)
    (z : Sort_Item) (hne : group ≠ [])
    (h : ∀ w ∈ group, w.keys.map Db_Value.integer = z.keys.map Db_Value.integer) :
    output_key_vector aggs.length (group_output aggs group) = z.keys.map Db_Value.integer := by
  have hl : group.getLast? = some (group.getLast hne) := List.getLast?_eq_getLast _ hne
  unfold output_key_vector group_output
  rw [hl, List.drop_left' (by simp)]
  exact h _ (List.getLast_mem hne)

theorem output_key_vector_filter (aggs : List Aggregate) (L : List Sort_Item) (y : Sort_Item)
    (hy : y ∈ L) :
    output_key_vector aggs.length (group_output aggs
        (L.filter (fun w => w.keys.map Db_Value.integer == y.keys.map Db_Value.integer)))
      = y.keys.map Db_Value.integer := by
  refine output_key_vector_group_output aggs _ y ?_ ?_
  · intro e
    have : y ∈ L.filter (fun w => w.keys.map Db_Value.integer == y.keys.map Db_Value.integer) :=
      List.mem_filter.mpr ⟨hy, by simp⟩
    rw [e] at this
    cases this
  · intro w hw
    simpa using (List.mem_filter.mp hw).2

theorem sorted_groups_step {α : Type} (k : α → List Int) (n : Nat) (x : α) (rest : List α)
    (hlen : ∀ y ∈ x :: rest, (k y).length = n)
    (hs : (x :: rest).Pairwise (fun a b => key_vector_lt (k b) (k a) = false)) :
    (x :: rest).filter (fun y => k y == k x) = x :: rest.takeWhile (fun y => k y == k x)
      ∧ (∀ y ∈ x :: rest.takeWhile (fun y => k y == k x), k y = k x)
      ∧ (∀ y ∈ rest.dropWhile (fun y => k y == k x), key_vector_lt (k x) (k y) = true
          ∧ (x :: rest).filter (fun w => k w == k y)
            = (rest.dropWhile (fun y => k y == k x)).filter (fun w => k w == k y))
      ∧ (∀ y ∈ x :: rest, y ∈ x :: rest.takeWhile (fun y => k y == k x)
          ∨ y ∈ rest.dropWhile (fun y => k y == k x)) := by
  have hrun : ∀ y ∈ x :: rest.takeWhile (fun y => k y == k x), k y = k x := by
    intro y hy
    rcases List.mem_cons.mp hy with h | h
    · rw [h]
    · simpa using mem_takeWhile_true _ _ y h
  refine ⟨?_, hrun, ?_, ?_⟩
  · rw [sorted_takeWhile_eq_filter k n x rest hlen hs]
    simp [List.filter_cons]
  · intro y hy
    have hlt := sorted_dropWhile_gt k n x rest hlen hs y hy
    refine ⟨hlt, ?_⟩
    have hne : ∀ w, k w = k x → (k w == k y) = false := by
      intro w hw
      rw [hw]
      cases hb : (k x == k y)
      · rfl
      · have e : k x = k y := by simpa using hb
        rw [e, key_vector_lt_irrefl] at hlt
        cases hlt
    have hsplit : rest.takeWhile (fun y => k y == k x) ++ rest.dropWhile (fun y => k y == k x)
        = rest := List.takeWhile_append_dropWhile _ _
    have h0 : (x :: rest.takeWhile (fun y => k y == k x)).filter (fun w => k w == k y) = [] := by
      rw [List.filter_eq_nil_iff]
      intro w hw
      rw [hne w (hrun w hw)]
      simp
    calc (x :: rest).filter (fun w => k w == k y)
        = ((x :: rest.takeWhile (fun y => k y == k x))
            ++ rest.dropWhile (fun y => k y == k x)).filter (fun w => k w == k y) := by
          rw [List.cons_append, hsplit]
      _ = (rest.dropWhile (fun y => k y == k x)).filter (fun w => k w == k y) := by
          rw [List.filter_append, h0, List.nil_append]
  · intro y hy
    rcases List.mem_cons.mp hy with h | h
    · left; rw [h]; exact List.mem_cons_self _ _
    · rw [← List.takeWhile_append_dropWhile (fun y => k y == k x) rest] at h
      rcases List.mem_append.mp h with h1 | h1
      · left; exact List.mem_cons_of_mem _ h1
      · right; exact h1

theorem drop_length_takeWhile {α : Type} (p : α → Bool) (l : List α) :
    l.drop (l.takeWhile p).length = l.dropWhile p := by
  have h := List.drop_left (l.takeWhile p) (l.dropWhile p)
  rwa [List.takeWhile_append_dropWhile] at h

theorem plan_group_drain_sorted {σ : Type} (fuel0 : Nat) (I : Input σ) (key_cols : List Nat)
    (aggs : List Aggregate) (items : List Sort_Item) (s : σ)
    (hne : key_cols ≠ [])
    (hwf : ∀ x ∈ items, x.keys = key_cols.map (fun i => x.row.getD i Db_Value.null)
      ∧ (∀ i ∈ key_cols, i < x.row.length) ∧ ∀ a ∈ aggs, a.ref < x.row.length)
    (hlen : items.length < 2 ^ 63)
    (hs : items.Pairwise (fun a b => key_vector_lt (b.keys.map Db_Value.integer)
      (a.keys.map Db_Value.integer) = false)) :
    ∀ (n idx fuel : Nat), items.length - idx ≤ n → idx ≤ items.length → n < fuel →
      ∃ out P1, (plan_group fuel0 I).drain fuel ⟨key_cols.map Plan.PLAN_COLUMN_REF,
          key_cols.map (fun _ => Type_Tag.TYPE_INT), aggs, some ⟨idx, items⟩, s⟩
          = Res.ok (out, P1)
        ∧ (∀ o ∈ out, ∃ x ∈ items.drop idx, o = group_output aggs ((items.drop idx).filter
            (fun w => w.keys.map Db_Value.integer == x.keys.map Db_Value.integer)))
        ∧ (∀ x ∈ items.drop idx, group_output aggs ((items.drop idx).filter
            (fun w => w.keys.map Db_Value.integer == x.keys.map Db_Value.integer)) ∈ out)
        ∧ out.Pairwise (fun o1 o2 => key_vector_lt (output_key_vector aggs.length o1)
            (output_key_vector aggs.length o2) = true) := by
  intro n
  induction n with
  | zero =>
    intro idx fuel h1 h2 hf
    cases fuel with
    | zero => omega
    | succ fuel =>
      refine ⟨[], _, drain_none _ _ _ _
        (plan_group_next_none fuel0 I key_cols aggs items idx s hne (by omega)), ?_, ?_, ?_⟩
      · intro o ho; cases ho
      · intro x hx
        rw [List.drop_eq_nil_of_le (by omega)] at hx
        cases hx
      · exact List.Pairwise.nil
  | succ n ih =>
    intro idx fuel h1 h2 hf
    cases fuel with
    | zero => omega
    | succ fuel =>
      by_cases hidx : items.length ≤ idx
      · refine ⟨[], _, drain_none _ _ _ _
          (plan_group_next_none fuel0 I key_cols aggs items idx s hne hidx), ?_, ?_, ?_⟩
        · intro o ho; cases ho
        · intro x hx
          rw [List.drop_eq_nil_of_le hidx] at hx
          cases hx
        · exact List.Pairwise.nil
      · have hlt : idx < items.length := by omega
        have hL : items.drop idx = items[idx] :: items.drop (idx + 1) :=
          List.drop_eq_getElem_cons hlt
        have hsL : (items[idx] :: items.drop (idx + 1)).Pairwise
            (fun a b => key_vector_lt (b.keys.map Db_Value.integer)
              (a.keys.map Db_Value.integer) = false) := by
          rw [← hL]
          exact hs.sublist (List.drop_sublist _ _)
        have hlenL : ∀ y ∈ items[idx] :: items.drop (idx + 1),
            (y.keys.map Db_Value.integer).length = key_cols.length := by
          intro y hy
          rw [← hL] at hy
          rw [(hwf y (List.mem_of_mem_drop hy)).1]
          simp
        obtain ⟨g1, g2, g3, g4⟩ := sorted_groups_step (fun (x : Sort_Item) =>
          x.keys.map Db_Value.integer) key_cols.length items[idx] (items.drop (idx + 1))
          hlenL hsL
        have hrl : ((items.drop (idx + 1)).takeWhile (fun y => y.keys.map Db_Value.integer
            == items[idx].keys.map Db_Value.integer)).length ≤ items.length - (idx + 1) := by
          have := (List.takeWhile_sublist (fun (y : Sort_Item) => y.keys.map Db_Value.integer
            == items[idx].keys.map Db_Value.integer) (l := items.drop (idx + 1))).length_le
          simpa using this
        have hnext := plan_group_next_some fuel0 I key_cols aggs items idx s hne hwf hlen hlt
        obtain ⟨out1, P1, hd, q1, q2, q3⟩ := ih
          (idx + 1 + ((items.drop (idx + 1)).takeWhile (fun y => y.keys.map Db_Value.integer
            == items[idx].keys.map Db_Value.integer)).length) fuel
          (by omega) (by omega) (by omega)
        have hdrop : items.drop (idx + 1 + ((items.drop (idx + 1)).takeWhile
            (fun y => y.keys.map Db_Value.integer
              == items[idx].keys.map Db_Value.integer)).length)
            = (items.drop (idx + 1)).dropWhile (fun y => y.keys.map Db_Value.integer
              == items[idx].keys.map Db_Value.integer) := by
          rw [← List.drop_drop, drop_length_takeWhile]
        rw [hdrop] at q1 q2
        refine ⟨group_output aggs (items[idx] :: (items.drop (idx + 1)).takeWhile
          (fun y => y.keys.map Db_Value.integer == items[idx].keys.map Db_Value.integer))
          :: out1, P1, ?_, ?_, ?_, ?_⟩
        · rw [drain_some _ _ _ _ _ hnext, hd]
          rfl
        · intro o ho
          rw [hL]
          rcases List.mem_cons.mp ho with h | h
          · exact ⟨items[idx], List.mem_cons_self _ _, by rw [h, g1]⟩
          · obtain ⟨x, hx, hox⟩ := q1 o h
            refine ⟨x, List.mem_cons_of_mem _ ((List.dropWhile_sublist _).subset hx), ?_⟩
            rw [(g3 x hx).2, hox]
        · intro x hx
          rw [hL] at hx ⊢
          rcases g4 x hx with h | h
          · have e : x.keys.map Db_Value.integer = items[idx].keys.map Db_Value.integer :=
              g2 x h
            rw [e, g1]
            exact List.mem_cons_self _ _
          · rw [(g3 x h).2]
            exact List.mem_cons_of_mem _ (q2 x h)
        · refine List.pairwise_cons.mpr ⟨?_, q3⟩
          intro o ho
          obtain ⟨x, hx, hox⟩ := q1 o ho
          rw [← g1, hox, output_key_vector_filter aggs _ x hx,
            output_key_vector_filter aggs _ items[idx] (List.mem_cons_self _ _)]
          exact (g3 x hx).1

theorem wrap64_wrap64_add (a b : Int) : wrap64 (wrap64 a + b) = wrap64 (a + b) := by
  unfold wrap64 toS64 ofS64
  have h1 : (((a % 2 ^ 64).toNat % 2 ^ 64 : Nat) : Int) = a % 2 ^ 64 := by omega
  have h2 : (((a + b) % 2 ^ 64).toNat % 2 ^ 64 : Nat) = ((a + b) % 2 ^ 64).toNat := by omega
  have h3 : ((a % 2 ^ 64).toNat % 2 ^ 64 : Nat) = (a % 2 ^ 64).toNat := by omega
  rw [h3]
  split <;> split <;> split <;> omega

theorem rank_lt_key_vector : ∀ (types : List Type_Tag) (A B : List Db_Value),
    (∀ t ∈ types, t = Type_Tag.TYPE_INT) → A.length = types.length → B.length = types.length →
    (∀ v ∈ A, v.is_null = false) → (∀ v ∈ B, v.is_null = false) →
    rank_lt (key_ranks types none A) (key_ranks types none B)
      = key_vector_lt (A.map Db_Value.integer) (B.map Db_Value.integer) := by
  intro types
  induction types with
  | nil =>
    intro A B _ hA hB _ _
    have e1 : A = [] := List.length_eq_zero.mp hA
    have e2 : B = [] := List.length_eq_zero.mp hB
    subst e1 e2
    rfl
  | cons t ts ih =>
    intro A B ht hA hB hnA hnB
    cases A with
    | nil => simp at hA
    | cons a as =>
      cases B with
      | nil => simp at hB
      | cons b bs =>
        have e : t = Type_Tag.TYPE_INT := ht t (List.mem_cons_self _ _)
        subst e
        have hrec := ih as bs (fun t1 h => ht t1 (List.mem_cons_of_mem _ h))
          (by simpa using hA) (by simpa using hB)
          (fun v hv => hnA v (List.mem_cons_of_mem _ hv))
          (fun v hv => hnB v (List.mem_cons_of_mem _ hv))
        have ha := hnA a (List.mem_cons_self _ _)
        have hb := hnB b (List.mem_cons_self _ _)
        have hbeq : (((1 : Int), a.integer) == ((1 : Int), b.integer))
            = (a.integer == b.integer) := by
          rw [Bool.eq_iff_iff]
          simp
        simp [key_ranks, rank_lt, key_vector_lt, key_rank, ha, hb, hrec, hbeq]

theorem operand_values_cons (ref : Nat) (r : Db_Row) (rows : List Db_Row) :
    operand_values ref (r :: rows)
      = if (r.getD ref Db_Value.null).is_null then operand_values ref rows
        else (r.getD ref Db_Value.null).integer :: operand_values ref rows := by
  unfold operand_values
  rw [List.map_cons, List.filter_cons]
  cases h : (r.getD ref Db_Value.null).is_null <;>
    simp only [Bool.not_false, Bool.not_true, if_true, if_false, Bool.false_eq_true,
      List.map_cons]

theorem foldl_aggregate_round_sum (a : Aggregate) (ha : a.tag = Aggregate_Tag.AGGREGATE_SUM) :
    ∀ (rows : List Db_Row) (c : Int), wrap64 c = c →
      rows.foldl (aggregate_round a) (int_value c)
        = int_value (wrap64 (c + (operand_values a.ref rows).sum)) := by
  intro rows
  induction rows with
  | nil => intro c hc; simp [operand_values, hc]
  | cons r rows ih =>
    intro c hc
    have hstep : aggregate_round a (int_value c) r
        = if (r.getD a.ref Db_Value.null).is_null then int_value c
          else aggregate_step a.tag (int_value c) (r.getD a.ref Db_Value.null) := rfl
    rw [List.foldl_cons, operand_values_cons, hstep]
    generalize r.getD a.ref Db_Value.null = v
    cases hn : v.is_null
    · have h1 : aggregate_step a.tag (int_value c) v = int_value (wrap64 (c + v.integer)) := by
        simp [aggregate_step, ha, int_value, Db_Value.integer]
      have hw : wrap64 (wrap64 (c + v.integer)) = wrap64 (c + v.integer) := by
        have := wrap64_wrap64_add (c + v.integer) 0
        simpa using this
      simp only [Bool.false_eq_true, if_false, h1, List.sum_cons]
      rw [ih _ hw, wrap64_wrap64_add, add_assoc]
    · simp only [if_true]
      exact ih c hc

theorem foldl_aggregate_round_count (a : Aggregate)
    (ha : a.tag = Aggregate_Tag.AGGREGATE_COUNT) :
    ∀ (rows : List Db_Row) (c : Int), 0 ≤ c → c + rows.length < 2 ^ 63 →
      rows.foldl (aggregate_round a) (int_value c)
        = int_value (c + (operand_values a.ref rows).length) := by
  intro rows
  induction rows with
  | nil => intro c _ _; simp [operand_values]
  | cons r rows ih =>
    intro c h0 h1
    have hstep : aggregate_round a (int_value c) r
        = if (r.getD a.ref Db_Value.null).is_null then int_value c
          else aggregate_step a.tag (int_value c) (r.getD a.ref Db_Value.null) := rfl
    rw [List.foldl_cons, operand_values_cons, hstep]
    simp only [List.length_cons] at h1
    push_cast at h1
    generalize r.getD a.ref Db_Value.null = v
    cases hn : v.is_null
    · have hw : wrap64 (c + 1) = c + 1 := wrap64_eq (by omega) (by omega)
      have h2 : aggregate_step a.tag (int_value c) v = int_value (c + 1) := by
        simp [aggregate_step, ha, int_value, Db_Value.integer, hw]
      simp only [Bool.false_eq_true, if_false, h2, List.length_cons]
      rw [ih (c + 1) (by omega) (by omega)]
      push_cast
      rw [add_assoc, add_comm 1]
    · simp only [if_true]
      exact ih c h0 (by omega)

theorem group_output_get? (aggs : List Aggregate) (group : List Sort_Item) (j : Nat)
    (a : Aggregate) (h : aggs.get? j = some a) :
    (group_output aggs group).get? j
      = some (aggregate_finish group.length a
          ((group.map Sort_Item.row).foldl (aggregate_round a) (int_value 0))) := by
  have hj : j < aggs.length := by
    rw [List.get?_eq_getElem?] at h
    exact (List.getElem?_eq_some_iff.mp h).1
  unfold group_output
  rw [List.get?_eq_getElem?, List.getElem?_append_left (by simpa using hj),
    List.getElem?_map, ← List.get?_eq_getElem?, h, List.foldl_map]
  rfl

/-! ### Lemmas about byte buffers -/

theorem rd_wr_same (b off len v : Nat) : rd (wr b off len v) off len = v % 256 ^ len := by
  unfold wr rd
  have hq : 0 < 256 ^ off := by positivity
  have hm : 0 < 256 ^ len := by positivity
  generalize 256 ^ off = q at *
  generalize 256 ^ len = m at *
  have h1 : b = (b / q / m) * m * q + (b / q % m) * q + b % q := by
    have e1 := Nat.div_add_mod b q
    have e2 := Nat.div_add_mod (b / q) m
    calc b = q * (b / q) + b % q := e1.symm
      _ = q * (m * (b / q / m) + b / q % m) + b % q := by rw [e2]
      _ = _ := by ring
  have h2 : b - b / q % m * q + v % m * q = (b / q / m * m + v % m) * q + b % q := by
    have : b - b / q % m * q = (b / q / m) * m * q + b % q := by
      conv => lhs; lhs; rw [h1]
      omega
    rw [this]
    ring
  rw [h2]
  have h3 : ((b / q / m * m + v % m) * q + b % q) / q = b / q / m * m + v % m := by
    rw [Nat.add_comm, Nat.add_mul_div_right _ _ hq, Nat.div_eq_of_lt (Nat.mod_lt _ hq)]
    simp
  rw [h3, Nat.add_comm, Nat.add_mul_mod_self_right, Nat.mod_mod]

theorem wr_eq (b off len v : Nat) :
    wr b off len v
      = (b / 256 ^ off / 256 ^ len * 256 ^ len + v % 256 ^ len) * 256 ^ off + b % 256 ^ off := by
  unfold wr rd
  have hq : 0 < 256 ^ off := by positivity
  generalize 256 ^ off = q at *
  generalize 256 ^ len = m at *
  have h1 : b = (b / q / m) * m * q + (b / q % m) * q + b % q := by
    have e1 := Nat.div_add_mod b q
    have e2 := Nat.div_add_mod (b / q) m
    calc b = q * (b / q) + b % q := e1.symm
      _ = q * (m * (b / q / m) + b / q % m) + b % q := by rw [e2]
      _ = _ := by ring
  have : b - b / q % m * q = (b / q / m) * m * q + b % q := by
    conv => lhs; lhs; rw [h1]
    omega
  rw [this]
  ring

theorem eq_decomp (b off len : Nat) :
    b = (b / 256 ^ off / 256 ^ len * 256 ^ len + b / 256 ^ off % 256 ^ len) * 256 ^ off
      + b % 256 ^ off := by
  generalize 256 ^ off = q at *
  generalize 256 ^ len = m at *
  have e1 := Nat.div_add_mod b q
  have e2 := Nat.div_add_mod (b / q) m
  calc b = q * (b / q) + b % q := e1.symm
    _ = q * (m * (b / q / m) + b / q % m) + b % q := by rw [e2]
    _ = _ := by ring

theorem rd_lt (b off len : Nat) : rd b off len < 256 ^ len := by
  unfold rd
  exact Nat.mod_lt _ (by positivity)

theorem rd_mod (b n off len : Nat) (h : off + len ≤ n) :
    rd (b % 256 ^ n) off len = rd b off len := by
  unfold rd
  obtain ⟨k, rfl⟩ := Nat.exists_eq_add_of_le h
  rw [pow_add, pow_add, Nat.mul_assoc, Nat.mod_mul_right_div_self, Nat.mod_mul_right_mod]

theorem rd_rd (b off n off2 len : Nat) (h : off2 + len ≤ n) :
    rd (rd b off n) off2 len = rd b (off + off2) len := by
  unfold rd
  obtain ⟨k, rfl⟩ := Nat.exists_eq_add_of_le h
  rw [pow_add, pow_add, Nat.mul_assoc, Nat.mod_mul_right_div_self, Nat.mod_mul_right_mod,
    pow_add, Nat.div_div_eq_div_mul]

theorem rd_wr_above (b off len v off2 len2 : Nat) (h : off + len ≤ off2) :
    rd (wr b off len v) off2 len2 = rd b off2 len2 := by
  have hq : 0 < 256 ^ off := by positivity
  have hm : 0 < 256 ^ len := by positivity
  have hv : v % 256 ^ len < 256 ^ len := Nat.mod_lt _ hm
  have hr : b / 256 ^ off % 256 ^ len < 256 ^ len := Nat.mod_lt _ hm
  have key : ∀ x, x < 256 ^ len →
      ((b / 256 ^ off / 256 ^ len * 256 ^ len + x) * 256 ^ off + b % 256 ^ off) / 256 ^ off2
        = b / 256 ^ off / 256 ^ len / 256 ^ (off2 - (off + len)) := by
    intro x hx
    have e : off2 = off + len + (off2 - (off + len)) := by omega
    conv => lhs; rw [e, pow_add, pow_add]
    rw [← Nat.div_div_eq_div_mul, ← Nat.div_div_eq_div_mul]
    congr 1
    rw [Nat.add_comm _ (b % 256 ^ off), Nat.add_mul_div_right _ _ hq,
      Nat.div_eq_of_lt (Nat.mod_lt _ hq), Nat.zero_add, Nat.add_comm,
      Nat.add_mul_div_right _ _ hm, Nat.div_eq_of_lt hx, Nat.zero_add]
  unfold rd
  rw [wr_eq, key _ hv]
  conv => rhs; rw [eq_decomp b off len, key _ hr]

theorem rd_wr_below (b off len v off2 len2 : Nat) (h : off2 + len2 ≤ off) :
    rd (wr b off len v) off2 len2 = rd b off2 len2 := by
  have key : ∀ x, rd (x * 256 ^ off + b % 256 ^ off) off2 len2 = rd (b % 256 ^ off) off2 len2 := by
    intro x
    unfold rd
    obtain ⟨k, rfl⟩ := Nat.exists_eq_add_of_le h
    have e : ∀ y, y / 256 ^ off2 % 256 ^ len2 = y % (256 ^ off2 * 256 ^ len2) / 256 ^ off2 := by
      intro y
      rw [Nat.mod_mul_right_div_self]
    rw [e, e (b % _)]
    congr 1
    rw [pow_add, pow_add]
    have : x * (256 ^ off2 * 256 ^ len2 * 256 ^ k) = (256 ^ off2 * 256 ^ len2) * (x * 256 ^ k) := by
      ring
    rw [this, Nat.mul_add_mod]
  rw [wr_eq, key, rd_mod _ _ _ _ h]

/-! ### Lemmas about the pager -/

namespace Paging

theorem hasFlag_setFlag (flags : Nat) :
    hasFlag (setFlag flags F_PAGE_HAS_MUTABLE_REF) F_PAGE_HAS_MUTABLE_REF = true := by
  unfold setFlag hasFlag F_PAGE_HAS_MUTABLE_REF
  split
  · assumption
  · rename_i h
    simp only [Nat.div_one, beq_iff_eq] at h ⊢
    omega

theorem page_of_get? {pager : Pager} {slot : Nat} {page : Page}
    (h : pager.pages.get? slot = some page) : pager.page slot = Res.ok page := by
  unfold Pager.page
  rw [h]

theorem setPage_get? {pager : Pager} {slot : Nat} {page : Page} (p : Page)
    (h : pager.pages.get? slot = some page) : (pager.setPage slot p).pages.get? slot = some p := by
  have hlt : slot < pager.pages.length := by
    rw [List.get?_eq_getElem?] at h
    exact (List.getElem?_eq_some_iff.mp h).1
  simp [Pager.setPage, List.getElem?_set, hlt]

theorem list_set_self {α : Type} (l : List α) (i : Nat) (h : i < l.length) :
    l.set i l[i] = l := by
  apply List.ext_getElem
  · simp
  · intro n h1 h2
    simp only [List.getElem_set]
    split
    · rename_i e
      subst e
      rfl
    · rfl

theorem setPage_same {pager : Pager} {slot : Nat} {page : Page}
    (h : pager.pages.get? slot = some page) : pager.setPage slot page = pager := by
  have hlt : slot < pager.pages.length := by
    rw [List.get?_eq_getElem?] at h
    exact (List.getElem?_eq_some_iff.mp h).1
  have he : pager.pages[slot] = page := by
    rw [List.get?_eq_getElem?] at h
    exact (List.getElem?_eq_some_iff.mp h).2
  unfold Pager.setPage
  rw [← he, list_set_self _ _ hlt]

theorem setPage_setPage (pager : Pager) (slot : Nat) (p q : Page) :
    (pager.setPage slot p).setPage slot q = pager.setPage slot q := by
  simp [Pager.setPage]

theorem pager_get_page_flagged {pager : Pager} {id slot : Nat} {page : Page}
    (hid : id ≠ 0) (hcount : id < pager.db_file_page_count)
    (hmap : map_get pager id = some slot) (hget : pager.pages.get? slot = some page)
    (hflag : hasFlag page.flags F_PAGE_HAS_MUTABLE_REF = true) :
    pager_get_page pager id = Res.ok (none, pager) := by
  simp [pager_get_page, ASSERT, hid, hcount, hmap, page_of_get? hget, hflag, Res.ok_bind, pure]

theorem pager_get_page_unused {pager : Pager} {id slot : Nat} {page : Page}
    (hid : id ≠ 0) (hcount : id < pager.db_file_page_count)
    (hmap : map_get pager id = some slot) (hget : pager.pages.get? slot = some page)
    (hflag : hasFlag page.flags F_PAGE_HAS_MUTABLE_REF = false) (hrc : page.ref_count = 0) :
    pager_get_page pager id
      = if slot ∈ pager.lru then
          Res.ok (some slot, ({ pager with lru := pager.lru.erase slot } : Pager).setPage slot
            { page with ref_count := 1 })
        else Res.fault := by
  simp only [pager_get_page, ASSERT, hid, hcount, hmap, page_of_get? hget, hflag, Res.ok_bind,
    pure, hrc, lru_remove, bne_iff_ne, ne_eq, not_false_eq_true, decide_True, if_true,
    Bool.false_eq_true, if_false, beq_self_eq_true, decide_eq_true_eq]
  split <;> rfl

theorem pager_get_page_used {pager : Pager} {id slot : Nat} {page : Page}
    (hid : id ≠ 0) (hcount : id < pager.db_file_page_count)
    (hmap : map_get pager id = some slot) (hget : pager.pages.get? slot = some page)
    (hflag : hasFlag page.flags F_PAGE_HAS_MUTABLE_REF = false) (hrc : page.ref_count ≠ 0) :
    pager_get_page pager id
      = Res.ok (some slot, pager.setPage slot
          { page with ref_count := u32 (page.ref_count + 1) }) := by
  simp [pager_get_page, ASSERT, hid, hcount, hmap, page_of_get? hget, hflag, Res.ok_bind,
    pure, hrc]

theorem pager_get_page_miss {pager : Pager} {id : Nat}
    (hid : id ≠ 0) (hcount : id < pager.db_file_page_count) (hmap : map_get pager id = none) :
    pager_get_page pager id
      = (get_empty_cache_slot pager id >>= fun r =>
          page_read_from_disk r.2 r.1 >>= fun pager => pure (some r.1, pager)) := by
  simp [pager_get_page, ASSERT, hid, hcount, hmap, Res.ok_bind]

theorem get_empty_cache_slot_fresh {pager : Pager} (id : Nat)
    (h : pager.pages.length < pager.capacity) :
    get_empty_cache_slot pager id
      = Res.ok (pager.pages.length, map_add { pager with
          pages := pager.pages ++ [⟨id, pager.raw_pages.headD 0, 0, 0, 1⟩],
          raw_pages := pager.raw_pages.tail } pager.pages.length id) := by
  simp [get_empty_cache_slot, h, Res.ok_bind, pure]

theorem lru_remove_eq_ok {pager P1 : Pager} {slot : Nat} (h : lru_remove pager slot = Res.ok P1) :
    slot ∈ pager.lru ∧ P1 = { pager with lru := pager.lru.erase slot } := by
  unfold lru_remove at h
  split at h
  · rename_i hm
    simp only [pure, Res.ok.injEq] at h
    exact ⟨hm, h.symm⟩
  · cases h

theorem map_remove_eq_ok {pager P1 : Pager} {slot : Nat} (h : map_remove pager slot = Res.ok P1) :
    P1.pages = pager.pages ∧ P1.lru = pager.lru ∧ P1.file = pager.file
      ∧ P1.file_size = pager.file_size ∧ P1.page_size = pager.page_size
      ∧ P1.free_page = pager.free_page ∧ P1.db_file_page_count = pager.db_file_page_count
      ∧ P1.capacity = pager.capacity := by
  unfold map_remove at h
  simp only [Res.bind_eq_ok] at h
  obtain ⟨p, _, h⟩ := h
  split at h
  · simp only [pure, Res.ok.injEq] at h
    subst h
    simp
  · cases h

theorem get_empty_cache_slot_eq_ok {pager P1 : Pager} {id slot : Nat}
    (h : get_empty_cache_slot pager id = Res.ok (slot, P1)) :
    P1.file = pager.file ∧ P1.file_size = pager.file_size ∧ P1.page_size = pager.page_size
      ∧ P1.free_page = pager.free_page ∧ P1.db_file_page_count = pager.db_file_page_count
      ∧ P1.capacity = pager.capacity
      ∧ ((pager.pages.length < pager.capacity ∧ slot = pager.pages.length
            ∧ P1.pages = pager.pages ++ [⟨id, pager.raw_pages.headD 0, 0, 0, 1⟩]
            ∧ P1.lru = pager.lru)
          ∨ (¬ pager.pages.length < pager.capacity ∧ pager.lru.getLast? = some slot
            ∧ slot ∈ pager.lru
            ∧ ∃ p, pager.pages.get? slot = some p ∧ p.ref_count = 0
              ∧ P1.pages = pager.pages.set slot ⟨id, p.buf, 0, 0, 1⟩
              ∧ P1.lru = pager.lru.erase slot)) := by
  by_cases hc : pager.pages.length < pager.capacity
  · rw [get_empty_cache_slot_fresh id hc] at h
    simp only [Res.ok.injEq, Prod.mk.injEq] at h
    obtain ⟨rfl, rfl⟩ := h
    simp [map_add, hc]
  · unfold get_empty_cache_slot at h
    simp only [hc, if_false] at h
    cases hl : pager.lru.getLast? with
    | none => rw [hl] at h; cases h
    | some v =>
      rw [hl] at h
      simp only [Res.bind_eq_ok, ASSERT_eq_ok, beq_iff_eq, Res.pure_eq_ok] at h
      obtain ⟨p, hp, _, hrc, P3, h3, P4, h4, _, rfl, h2⟩ := h
      simp only [Prod.mk.injEq] at h2
      obtain ⟨rfl, rfl⟩ := h2
      obtain ⟨hmem, rfl⟩ := lru_remove_eq_ok h3
      obtain ⟨e1, e2, e3, e4, e5, e6, e7, e8⟩ := map_remove_eq_ok h4
      have hget : pager.pages.get? v = some p := by
        unfold Pager.page at hp
        cases hg : pager.pages.get? v with
        | none => rw [hg] at hp; cases hp
        | some q => rw [hg] at hp; cases hp; rfl
      simp only [map_add, Pager.setPage, e1, e2, e3, e4, e5, e6, e7, e8, true_and, hc, false_and,
        false_or, not_false_eq_true]
      exact ⟨hmem, p, hget, hrc, rfl, trivial⟩

theorem page_eq_ok {pager : Pager} {slot : Nat} {p : Page} (h : pager.page slot = Res.ok p) :
    pager.pages.get? slot = some p := by
  unfold Pager.page at h
  cases hg : pager.pages.get? slot with
  | none => rw [hg] at h; cases h
  | some q => rw [hg] at h; cases h; rfl

theorem page_read_from_disk_eq_ok {pager P1 : Pager} {slot : Nat}
    (h : page_read_from_disk pager slot = Res.ok P1) :
    ∃ p buf, pager.pages.get? slot = some p ∧ P1 = pager.setPage slot { p with buf := buf } := by
  unfold page_read_from_disk at h
  simp only [Res.bind_eq_ok, Res.pure_eq_ok] at h
  obtain ⟨p, hp, buf, _, rfl⟩ := h
  exact ⟨p, buf, page_eq_ok hp, rfl⟩

theorem page_read_from_disk_ok {pager : Pager} {slot : Nat} {p : Page}
    (hget : pager.pages.get? slot = some p)
    (hfile : page_id_to_file_offset pager p.id + PSIZE pager ≤ pager.file_size) :
    page_read_from_disk pager slot
      = Res.ok (pager.setPage slot
          { p with buf := rd pager.file (page_id_to_file_offset pager p.id) (PSIZE pager) }) := by
  simp [page_read_from_disk, page_of_get? hget, fs_read_from_file, hfile, Res.ok_bind, pure]

theorem pager_make_page_mutable_one {pager : Pager} {slot : Nat} {p : Page}
    (hget : pager.pages.get? slot = some p) (hrc : p.ref_count = 1) :
    pager_make_page_mutable pager slot
      = Res.ok (true, pager.setPage slot
          { p with flags := setFlag p.flags F_PAGE_HAS_MUTABLE_REF }) := by
  simp [pager_make_page_mutable, page_of_get? hget, hrc, ASSERT, Res.ok_bind, pure]

theorem pager_make_page_mutable_more {pager : Pager} {slot : Nat} {p : Page}
    (hget : pager.pages.get? slot = some p) (h0 : 0 < p.ref_count) (h1 : p.ref_count ≠ 1) :
    pager_make_page_mutable pager slot = Res.ok (false, pager) := by
  simp [pager_make_page_mutable, page_of_get? hget, h0, h1, ASSERT, Res.ok_bind, pure]

theorem pager_make_page_mutable_zero {pager : Pager} {slot : Nat} {p : Page}
    (hget : pager.pages.get? slot = some p) (h0 : p.ref_count = 0) :
    pager_make_page_mutable pager slot = Res.assertFail := by
  unfold pager_make_page_mutable
  rw [page_of_get? hget, Res.ok_bind]
  simp only [h0, ASSERT, gt_iff_lt, lt_self_iff_false, decide_False, Bool.false_eq_true, if_false]
  rfl

theorem decrement_ref_count_pos {pager : Pager} {slot : Nat} {p : Page}
    (hget : pager.pages.get? slot = some p) (hrc : 0 < p.ref_count) :
    decrement_ref_count pager slot
      = Res.ok (if p.ref_count - 1 = 0 then
          lru_add (pager.setPage slot { p with ref_count := p.ref_count - 1 }) slot
        else pager.setPage slot { p with ref_count := p.ref_count - 1 }) := by
  unfold decrement_ref_count
  rw [page_of_get? hget, Res.ok_bind]
  simp only [ASSERT, gt_iff_lt, hrc, decide_True, if_true, Res.ok_bind, beq_iff_eq, pure]
  split <;> rfl

theorem pager_get_page_mutable_flagged {pager : Pager} {id slot : Nat} {page : Page}
    (hid : id ≠ 0) (hcount : id < pager.db_file_page_count)
    (hmap : map_get pager id = some slot) (hget : pager.pages.get? slot = some page)
    (hflag : hasFlag page.flags F_PAGE_HAS_MUTABLE_REF = true) :
    pager_get_page_mutable pager id = Res.ok (none, pager) := by
  unfold pager_get_page_mutable
  rw [pager_get_page_flagged hid hcount hmap hget hflag]
  rfl

theorem pager_get_page_mutable_unused {pager : Pager} {id slot : Nat} {page : Page}
    (hid : id ≠ 0) (hcount : id < pager.db_file_page_count)
    (hmap : map_get pager id = some slot) (hget : pager.pages.get? slot = some page)
    (hflag : hasFlag page.flags F_PAGE_HAS_MUTABLE_REF = false) (hrc : page.ref_count = 0) :
    pager_get_page_mutable pager id
      = if slot ∈ pager.lru then
          Res.ok (some slot, ({ pager with lru := pager.lru.erase slot } : Pager).setPage slot
            { page with ref_count := 1, flags := setFlag page.flags F_PAGE_HAS_MUTABLE_REF })
        else Res.fault := by
  unfold pager_get_page_mutable
  rw [pager_get_page_unused hid hcount hmap hget hflag hrc]
  split
  · have hg : (({ pager with lru := pager.lru.erase slot } : Pager).setPage slot
        { page with ref_count := 1 }).pages.get? slot = some { page with ref_count := 1 } :=
      @setPage_get? { pager with lru := pager.lru.erase slot } _ _ _ hget
    simp only [Res.ok_bind, pager_make_page_mutable_one hg rfl, if_true, pure,
      setPage_setPage]
  · rfl

theorem pager_get_page_mutable_used {pager : Pager} {id slot : Nat} {page : Page}
    (hid : id ≠ 0) (hcount : id < pager.db_file_page_count)
    (hmap : map_get pager id = some slot) (hget : pager.pages.get? slot = some page)
    (hflag : hasFlag page.flags F_PAGE_HAS_MUTABLE_REF = false) (hrc : 0 < page.ref_count)
    (hmax : page.ref_count + 1 < 2 ^ 32) :
    pager_get_page_mutable pager id = Res.ok (none, pager) := by
  have hu : u32 (page.ref_count + 1) = page.ref_count + 1 := u32_of_lt hmax
  unfold pager_get_page_mutable
  rw [pager_get_page_used hid hcount hmap hget hflag (by omega), hu]
  have hg : (pager.setPage slot { page with ref_count := page.ref_count + 1 }).pages.get? slot
      = some { page with ref_count := page.ref_count + 1 } := setPage_get? _ hget
  simp only [Res.ok_bind, pager_make_page_mutable_more hg (by simp) (by simp; omega),
    Bool.false_eq_true, if_false, pager_unref_page,
    decrement_ref_count_pos hg (by simp), Nat.add_sub_cancel, setPage_setPage]
  have hne : ¬ page.ref_count = 0 := by omega
  simp only [hne, if_false, setPage_same hget, page_of_get? hget, Res.ok_bind, hflag,
    Bool.false_eq_true, pure]

theorem pager_get_page_mutable_wrapped {pager : Pager} {id slot : Nat} {page : Page}
    (hid : id ≠ 0) (hcount : id < pager.db_file_page_count)
    (hmap : map_get pager id = some slot) (hget : pager.pages.get? slot = some page)
    (hflag : hasFlag page.flags F_PAGE_HAS_MUTABLE_REF = false)
    (hmax : page.ref_count + 1 = 2 ^ 32) :
    pager_get_page_mutable pager id = Res.assertFail := by
  have hu : u32 (page.ref_count + 1) = 0 := by
    unfold u32
    omega
  unfold pager_get_page_mutable
  rw [pager_get_page_used hid hcount hmap hget hflag (by omega), hu]
  have hg : (pager.setPage slot { page with ref_count := 0 }).pages.get? slot
      = some { page with ref_count := 0 } := setPage_get? _ hget
  simp only [Res.ok_bind, pager_make_page_mutable_zero hg rfl]
  rfl

theorem get_empty_cache_slot_evict {pager : Pager} (id : Nat) {v : Nat} {pv : Page}
    (hfull : ¬ pager.pages.length < pager.capacity) (hlast : pager.lru.getLast? = some v)
    (hget : pager.pages.get? v = some pv) (hrc : pv.ref_count = 0)
    (hchain : v ∈ pager.map.getD (map_get_slot pager pv.id) []) :
    ∃ P1, get_empty_cache_slot pager id = Res.ok (v, P1) := by
  have hmem : v ∈ pager.lru := List.mem_of_getLast?_eq_some hlast
  have h1 : lru_remove pager v = Res.ok { pager with lru := pager.lru.erase v } := by
    simp [lru_remove, hmem, pure]
  have h2 : map_remove { pager with lru := pager.lru.erase v } v
      = Res.ok { pager with
          lru := pager.lru.erase v,
          map := pager.map.set (map_get_slot pager pv.id)
            ((pager.map.getD (map_get_slot pager pv.id) []).erase v) } := by
    have hp : ({ pager with lru := pager.lru.erase v } : Pager).page v = Res.ok pv :=
      @page_of_get? { pager with lru := pager.lru.erase v } _ _ hget
    unfold map_remove
    rw [hp, Res.ok_bind]
    have hc : v ∈ ({ pager with lru := pager.lru.erase v } : Pager).map.getD
        (map_get_slot { pager with lru := pager.lru.erase v } pv.id) [] := hchain
    rw [if_pos hc]
    rfl
  unfold get_empty_cache_slot
  simp only [hfull, if_false, hlast]
  rw [page_of_get? hget]
  simp only [Res.ok_bind, hrc, ASSERT, beq_self_eq_true, if_true, h1, h2, pure]
  exact ⟨_, rfl⟩

theorem get_empty_cache_slot_page {pager P1 : Pager} {id slot : Nat}
    (h : get_empty_cache_slot pager id = Res.ok (slot, P1)) :
    ∃ buf, P1.pages.get? slot = some ⟨id, buf, 0, 0, 1⟩ := by
  obtain ⟨_, _, _, _, _, _, h1 | h1⟩ := get_empty_cache_slot_eq_ok h
  · obtain ⟨_, rfl, hp, _⟩ := h1
    refine ⟨pager.raw_pages.headD 0, ?_⟩
    rw [hp, List.get?_eq_getElem?, List.getElem?_append_right (le_refl _)]
    simp
  · obtain ⟨_, _, _, p, hget, _, hp, _⟩ := h1
    have hlt : slot < pager.pages.length := by
      rw [List.get?_eq_getElem?] at hget
      exact (List.getElem?_eq_some_iff.mp hget).1
    refine ⟨p.buf, ?_⟩
    rw [hp, List.get?_eq_getElem?, List.getElem?_set]
    simp [hlt]

theorem get_empty_cache_slot_available {pager : Pager} (id : Nat)
    (h : slot_available pager = true) :
    ∃ slot P1, get_empty_cache_slot pager id = Res.ok (slot, P1) := by
  by_cases hc : pager.pages.length < pager.capacity
  · exact ⟨_, _, get_empty_cache_slot_fresh id hc⟩
  · unfold slot_available at h
    simp only [hc, decide_False, Bool.false_or] at h
    cases hl : pager.lru.getLast? with
    | none => rw [hl] at h; cases h
    | some v =>
      rw [hl] at h
      simp only [] at h
      cases hg : pager.pages.get? v with
      | none => rw [hg] at h; cases h
      | some pv =>
        rw [hg] at h
        simp only [Bool.and_eq_true, beq_iff_eq, decide_eq_true_eq] at h
        obtain ⟨P1, h1⟩ := get_empty_cache_slot_evict id hc hl hg h.1 h.2
        exact ⟨v, P1, h1⟩

theorem pager_get_page_mutable_miss_eq_ok {pager P1 : Pager} {id : Nat} {r : Option Nat}
    (hid : id ≠ 0) (hcount : id < pager.db_file_page_count) (hmap : map_get pager id = none)
    (h : pager_get_page_mutable pager id = Res.ok (r, P1)) :
    ∃ slot page, r = some slot ∧ P1.pages.get? slot = some page ∧ page.id = id
      ∧ page.ref_count = 1 ∧ hasFlag page.flags F_PAGE_HAS_MUTABLE_REF = true := by
  unfold pager_get_page_mutable at h
  rw [pager_get_page_miss hid hcount hmap] at h
  simp only [Res.bind_eq_ok, Res.pure_eq_ok] at h
  obtain ⟨⟨r1, P2⟩, ⟨⟨slot, P3⟩, h3, P4, h4, h5⟩, h6⟩ := h
  simp only [Prod.mk.injEq] at h5
  obtain ⟨rfl, rfl⟩ := h5
  obtain ⟨buf, hp3⟩ := get_empty_cache_slot_page h3
  obtain ⟨p, buf1, hp, rfl⟩ := page_read_from_disk_eq_ok h4
  rw [hp3] at hp
  cases hp
  have hg := @setPage_get? P3 _ _ { (⟨id, buf, 0, 0, 1⟩ : Page) with buf := buf1 } hp3
  simp only [pager_make_page_mutable_one hg rfl, Res.ok_bind, if_true, pure, Res.ok.injEq,
    Prod.mk.injEq] at h6
  obtain ⟨rfl, rfl⟩ := h6
  exact ⟨slot, _, rfl, setPage_get? _ hg, rfl, rfl, hasFlag_setFlag 0⟩

theorem pager_get_page_mutable_miss_ok {pager : Pager} {id : Nat}
    (hid : id ≠ 0) (hcount : id < pager.db_file_page_count) (hmap : map_get pager id = none)
    (hfile : page_id_to_file_offset pager id + PSIZE pager ≤ pager.file_size)
    (hslot : slot_available pager = true) :
    ∃ slot P1, pager_get_page_mutable pager id = Res.ok (some slot, P1) := by
  obtain ⟨slot, P1, h1⟩ := get_empty_cache_slot_available id hslot
  obtain ⟨buf, hp1⟩ := get_empty_cache_slot_page h1
  obtain ⟨e1, e2, e3, _, _, _, _⟩ := get_empty_cache_slot_eq_ok h1
  have hfile1 : page_id_to_file_offset P1 (⟨id, buf, 0, 0, 1⟩ : Page).id + PSIZE P1
      ≤ P1.file_size := by
    simpa [page_id_to_file_offset, PSIZE, e2, e3] using hfile
  have h2 := page_read_from_disk_ok hp1 hfile1
  have hg := @setPage_get? P1 _ _ { (⟨id, buf, 0, 0, 1⟩ : Page) with
    buf := rd P1.file (page_id_to_file_offset P1 id) (PSIZE P1) } hp1
  refine ⟨slot, (P1.setPage slot { (⟨id, buf, 0, 0, 1⟩ : Page) with
    buf := rd P1.file (page_id_to_file_offset P1 id) (PSIZE P1) }).setPage slot
      { ({ (⟨id, buf, 0, 0, 1⟩ : Page) with
          buf := rd P1.file (page_id_to_file_offset P1 id) (PSIZE P1) } : Page) with
        flags := setFlag 0 F_PAGE_HAS_MUTABLE_REF }, ?_⟩
  unfold pager_get_page_mutable
  rw [pager_get_page_miss hid hcount hmap, h1]
  simp only [Res.ok_bind, h2, pure, pager_make_page_mutable_one hg rfl, if_true]

theorem pager_get_page_dangling {pager : Pager} {id slot : Nat}
    (hid : id ≠ 0) (hcount : id < pager.db_file_page_count)
    (hmap : map_get pager id = some slot) (hget : pager.pages.get? slot = none) :
    pager_get_page pager id = Res.fault := by
  have hp : pager.page slot = Res.fault := by
    unfold Pager.page
    rw [hget]
  unfold pager_get_page
  simp only [ASSERT, bne_iff_ne, ne_eq, hid, not_false_eq_true, decide_True, if_true, hcount,
    Res.ok_bind, hmap, hp]
  rfl

theorem pager_get_page_mutable_dangling {pager : Pager} {id slot : Nat}
    (hid : id ≠ 0) (hcount : id < pager.db_file_page_count)
    (hmap : map_get pager id = some slot) (hget : pager.pages.get? slot = none) :
    pager_get_page_mutable pager id = Res.fault := by
  unfold pager_get_page_mutable
  rw [pager_get_page_dangling hid hcount hmap hget]
  rfl

theorem map_get_id {pager : Pager} {id slot : Nat} {page : Page}
    (hmap : map_get pager id = some slot) (hget : pager.pages.get? slot = some page) :
    page.id = id := by
  unfold map_get at hmap
  have h := List.find?_some hmap
  rw [hget] at h
  simpa using h

theorem rd_wr_inside (b off n v o2 len : Nat) (h : o2 + len ≤ n) :
    rd (wr b off n v) (off + o2) len = rd v o2 len := by
  rw [← rd_rd _ _ n _ _ h, rd_wr_same, rd_mod _ _ _ _ h]

theorem pager_delete_page_one {pager : Pager} {ref : Nat} {page : Page} (stack : Nat)
    (hget : pager.pages.get? ref = some page) (hrc : page.ref_count = 1)
    (hps : 4 ≤ PSIZE pager) :
    pager_delete_page pager ref stack
      = Res.ok (true, lru_add ((header_write_to_disk
          (fs_write_to_file
            ({ pager.setPage ref
                { page with buf := wr page.buf (PSIZE pager - 4) 4 pager.free_page } with
              free_page := page.id })
            (wr page.buf (PSIZE pager - 4) 4 pager.free_page % 256 ^ PSIZE pager) (PSIZE pager)
            (page_id_to_file_offset pager page.id)) stack).setPage ref
          { page with buf := wr page.buf (PSIZE pager - 4) 4 pager.free_page,
                      ref_count := 0 }) ref) := by
  have hg1 : ({ pager.setPage ref
        { page with buf := wr page.buf (PSIZE pager - 4) 4 pager.free_page } with
      free_page := page.id } : Pager).pages.get? ref
      = some { page with buf := wr page.buf (PSIZE pager - 4) 4 pager.free_page } :=
    setPage_get? _ hget
  have hw : page_write_to_disk ({ pager.setPage ref
        { page with buf := wr page.buf (PSIZE pager - 4) 4 pager.free_page } with
      free_page := page.id } : Pager) ref
      = Res.ok (fs_write_to_file
          ({ pager.setPage ref
              { page with buf := wr page.buf (PSIZE pager - 4) 4 pager.free_page } with
            free_page := page.id })
          (wr page.buf (PSIZE pager - 4) 4 pager.free_page % 256 ^ PSIZE pager) (PSIZE pager)
          (page_id_to_file_offset pager page.id)) := by
    unfold page_write_to_disk
    rw [page_of_get? hg1]
    rfl
  have hg2 : (header_write_to_disk (fs_write_to_file
        ({ pager.setPage ref
            { page with buf := wr page.buf (PSIZE pager - 4) 4 pager.free_page } with
          free_page := page.id })
        (wr page.buf (PSIZE pager - 4) 4 pager.free_page % 256 ^ PSIZE pager) (PSIZE pager)
        (page_id_to_file_offset pager page.id)) stack).pages.get? ref
      = some { page with buf := wr page.buf (PSIZE pager - 4) 4 pager.free_page } := hg1
  have hd := decrement_ref_count_pos hg2 (by simp [hrc])
  unfold pager_delete_page
  rw [page_of_get? hget, Res.ok_bind, if_neg (by simp [hrc])]
  simp only [inBounds, hps, decide_True, if_true, Res.ok_bind, hw, hd, pure]
  simp [hrc]

theorem PSIZE_setPage (pager : Pager) (slot : Nat) (page : Page) :
    PSIZE (pager.setPage slot page) = PSIZE pager := rfl

theorem pager_alloc_page_free {pager : Pager} (hfree : pager.free_page ≠ 0)
    (hslot : slot_available pager = true) (hps : 4 ≤ PSIZE pager)
    (hfile : page_id_to_file_offset pager pager.free_page + PSIZE pager ≤ pager.file_size) :
    ∃ slot P1 page1, pager_alloc_page pager = Res.ok (slot, P1)
      ∧ P1.pages.get? slot = some page1 ∧ page1.id = pager.free_page ∧ page1.ref_count = 1
      ∧ hasFlag page1.flags F_PAGE_HAS_MUTABLE_REF = true
      ∧ P1.free_page
          = rd pager.file (page_id_to_file_offset pager pager.free_page + (PSIZE pager - 4)) 4
      ∧ P1.db_file_page_count = pager.db_file_page_count := by
  obtain ⟨slot, Pa, h1⟩ := get_empty_cache_slot_available pager.free_page hslot
  obtain ⟨buf, hpa⟩ := get_empty_cache_slot_page h1
  obtain ⟨e1, e2, e3, e4, e5, _, _⟩ := get_empty_cache_slot_eq_ok h1
  have hfile1 : page_id_to_file_offset Pa (⟨pager.free_page, buf, 0, 0, 1⟩ : Page).id + PSIZE Pa
      ≤ Pa.file_size := by
    simpa [page_id_to_file_offset, PSIZE, e2, e3] using hfile
  have h2 := page_read_from_disk_ok hpa hfile1
  have hg := @setPage_get? Pa _ _ { (⟨pager.free_page, buf, 0, 0, 1⟩ : Page) with
    buf := rd Pa.file (page_id_to_file_offset Pa pager.free_page) (PSIZE Pa) } hpa
  have hps1 : 4 ≤ PSIZE (Pa.setPage slot { (⟨pager.free_page, buf, 0, 0, 1⟩ : Page) with
      buf := rd Pa.file (page_id_to_file_offset Pa pager.free_page) (PSIZE Pa) }) := by
    simpa [PSIZE, Pager.setPage, e3] using hps
  have hg2 : ({ Pa.setPage slot { (⟨pager.free_page, buf, 0, 0, 1⟩ : Page) with
        buf := rd Pa.file (page_id_to_file_offset Pa pager.free_page) (PSIZE Pa) } with
      free_page := rd (rd Pa.file (page_id_to_file_offset Pa pager.free_page) (PSIZE Pa))
        (PSIZE Pa - 4) 4 } : Pager).pages.get? slot
      = some { (⟨pager.free_page, buf, 0, 0, 1⟩ : Page) with
          buf := rd Pa.file (page_id_to_file_offset Pa pager.free_page) (PSIZE Pa) } := hg
  have hfp : pager.free_page != 0 := by simpa using hfree
  refine ⟨slot, _, { ({ (⟨pager.free_page, buf, 0, 0, 1⟩ : Page) with
        buf := rd Pa.file (page_id_to_file_offset Pa pager.free_page) (PSIZE Pa) } : Page) with
      flags := setFlag 0 F_PAGE_HAS_MUTABLE_REF },
    ?_, setPage_get? _ hg2, rfl, rfl, hasFlag_setFlag 0, ?_, e5⟩
  · unfold pager_alloc_page
    have hpsa : 4 ≤ PSIZE Pa := hps1
    simp only [hfp, if_true, h1, Res.ok_bind, h2, page_of_get? hg, inBounds, hpsa, decide_True,
      pure, PSIZE_setPage, pager_make_page_mutable_one hg2 rfl]
  · show rd (rd Pa.file (page_id_to_file_offset Pa pager.free_page) (PSIZE Pa)) (PSIZE Pa - 4) 4
      = _
    rw [rd_rd _ _ _ _ _ (by have : 4 ≤ PSIZE Pa := by simpa [PSIZE, e3] using hps
                            omega)]
    simp [page_id_to_file_offset, PSIZE, e1, e3]

theorem slot_available_congr {pager P1 : Pager} (h1 : P1.pages = pager.pages)
    (h2 : P1.capacity = pager.capacity) (h3 : P1.lru = pager.lru) (h4 : P1.map = pager.map) :
    slot_available P1 = slot_available pager := by
  simp [slot_available, map_get_slot, h1, h2, h3, h4]

theorem pager_alloc_page_grow {pager : Pager} (hfree : pager.free_page = 0)
    (hslot : slot_available pager = true) :
    ∃ slot P1 page1, pager_alloc_page pager = Res.ok (slot, P1)
      ∧ P1.pages.get? slot = some page1 ∧ page1.id = pager.db_file_page_count
      ∧ page1.ref_count = 1 ∧ hasFlag page1.flags F_PAGE_HAS_MUTABLE_REF = true
      ∧ P1.db_file_page_count = u32 (pager.db_file_page_count + 1)
      ∧ P1.free_page = 0 := by
  have hslot1 : slot_available { pager with
      db_file_page_count := u32 (pager.db_file_page_count + 1) } = true := by
    rw [slot_available_congr rfl rfl rfl rfl]
    exact hslot
  obtain ⟨slot, Pa, h1⟩ := get_empty_cache_slot_available pager.db_file_page_count hslot1
  obtain ⟨buf, hpa⟩ := get_empty_cache_slot_page h1
  obtain ⟨e1, e2, e3, e4, e5, _, _⟩ := get_empty_cache_slot_eq_ok h1
  have hg : (fs_append_to_file Pa ((⟨pager.db_file_page_count, buf, 0, 0, 1⟩ : Page).buf
      % 256 ^ PSIZE Pa) (PSIZE Pa)).pages.get? slot
      = some ⟨pager.db_file_page_count, buf, 0, 0, 1⟩ := hpa
  have hfp : (pager.free_page != 0) = false := by simp [hfree]
  refine ⟨slot, _, { (⟨pager.db_file_page_count, buf, 0, 0, 1⟩ : Page) with
      flags := setFlag 0 F_PAGE_HAS_MUTABLE_REF },
    ?_, setPage_get? _ hg, rfl, rfl, hasFlag_setFlag 0, ?_, ?_⟩
  · unfold pager_alloc_page
    simp only [hfp, Bool.false_eq_true, if_false, h1, Res.ok_bind, page_of_get? hpa, pure,
      pager_make_page_mutable_one hg rfl]
  · simpa [Pager.setPage, fs_append_to_file, fs_write_to_file] using e5
  · simpa [Pager.setPage, fs_append_to_file, fs_write_to_file, hfree] using e4

theorem pager_delete_page_available {pager : Pager} {ref : Nat} {page : Page} (stack : Nat)
    (hget : pager.pages.get? ref = some page) (hrc : page.ref_count = 1)
    (hps : 4 ≤ PSIZE pager) (hlen : pager.pages.length < pager.capacity) {P1 : Pager}
    (h : pager_delete_page pager ref stack = Res.ok (true, P1)) :
    slot_available P1 = true := by
  rw [pager_delete_page_one stack hget hrc hps] at h
  simp only [Res.ok.injEq, Prod.mk.injEq, true_and] at h
  subst h
  simp [slot_available, lru_add, Pager.setPage, header_write_to_disk, fs_write_to_file, hlen]

end Paging

theorem header_bytes_fields (page_size free_page stack : Nat) :
    rd (Paging.header_bytes page_size free_page stack) 0 19
        = bytesToNat Paging.FILE_HEADER_TITLE
      ∧ rd (Paging.header_bytes page_size free_page stack) 19 2 = page_size % 2 ^ 16
      ∧ rd (Paging.header_bytes page_size free_page stack) 21 4 = free_page % 2 ^ 32
      ∧ rd (Paging.header_bytes page_size free_page stack) 25 39 = rd stack 25 39 := by
  unfold Paging.header_bytes Paging.FILE_HEADER_SIZE
  refine ⟨?_, ?_, ?_, ?_⟩
  · rw [rd_wr_below _ _ _ _ _ _ (by norm_num), rd_wr_below _ _ _ _ _ _ (by norm_num),
      rd_wr_same]
    decide
  · rw [rd_wr_below _ _ _ _ _ _ (by norm_num), rd_wr_same]
    norm_num
  · rw [rd_wr_same]
    norm_num
  · rw [rd_wr_above _ _ _ _ _ _ (by norm_num), rd_wr_above _ _ _ _ _ _ (by norm_num),
      rd_wr_above _ _ _ _ _ _ (by norm_num), rd_mod _ _ _ _ (by norm_num)]

/-! ### Lemmas about the cell-size check and the values of an insert -/

theorem page_size_eq (E : BEngine) (h1 : 12 ≤ E.full_page_size) (h2 : E.full_page_size < 65536) :
    E.page_size = E.full_page_size - 12 := by
  unfold BEngine.page_size sub16 NODE_HEADER_SIZE
  omega

theorem check_cell_size_eq_ok (E : BEngine) (key_size val_size : Nat)
    (hsize : key_size + max val_size 4 + 2 < 2 ^ 32) :
    check_cell_size E key_size val_size = Res.ok ()
      ↔ key_size + max val_size 4 + 2 < E.page_size / 2 := by
  unfold check_cell_size
  rw [ASSERT_eq_ok]
  have : u32 (key_size + max val_size 4 + 2) = key_size + max val_size 4 + 2 := by
    unfold u32
    exact Nat.mod_eq_of_lt hsize
  rw [this]
  simp

theorem check_cell_size_assertFail (E : BEngine) (key_size val_size : Nat)
    (h : check_cell_size E key_size val_size ≠ Res.ok ()) :
    check_cell_size E key_size val_size = Res.assertFail := by
  unfold check_cell_size ASSERT at h ⊢
  split
  · rename_i hc
    rw [if_pos hc] at h
    exact absurd rfl h
  · rfl

theorem plan_insert_values_step (table : Type_Table) (idx : Nat) (e : Plan) (es : List Plan)
    (row : List Db_Value) (ukey : Option UKey) (v : Db_Value) (c0 : Type_Column)
    (he : eval_expr none e = Res.ok v) (hc0 : table.cols.get? idx = some c0)
    (hnot : (c0.not_null && v.is_null) = false)
    (hf : idx = table.prim_key_col →
      c0.field = .TYPE_INT ∨ c0.field = .TYPE_BOOL ∨ c0.field = .TYPE_TEXT) :
    plan_insert_values table idx (e :: es) row ukey
      = plan_insert_values table (idx + 1) es (row ++ [v])
          (if idx = table.prim_key_col then some (insert_ukey c0.field v) else ukey) := by
  rw [plan_insert_values, he, Res.ok_bind]
  simp only [hc0, hnot, Bool.false_eq_true, if_false]
  by_cases hidx : idx = table.prim_key_col
  · have hb : (idx == table.prim_key_col) = true := by simpa using hidx
    rw [if_pos hb, if_pos hidx]
    rcases hf hidx with h | h | h <;> rw [h] <;> rfl
  · have hb : (idx == table.prim_key_col) = false := by simpa using hidx
    rw [hb, if_neg hidx]
    rfl

theorem plan_insert_values_stop (table : Type_Table) (idx : Nat) (e : Plan) (es : List Plan)
    (row : List Db_Value) (ukey : Option UKey) (v : Db_Value) (c0 : Type_Column)
    (he : eval_expr none e = Res.ok v) (hc0 : table.cols.get? idx = some c0)
    (hnull : (c0.not_null && v.is_null) = true) :
    plan_insert_values table idx (e :: es) row ukey = Res.ok (row, ukey, true) := by
  rw [plan_insert_values, he, Res.ok_bind]
  simp only [hc0, hnull, if_true]
  rfl

theorem plan_insert_values_ok (table : Type_Table)
    (hpk : ∀ c, table.cols.get? table.prim_key_col = some c →
      c.field = .TYPE_INT ∨ c.field = .TYPE_BOOL ∨ c.field = .TYPE_TEXT)
    (values : List Plan) (vals : List Db_Value)
    (heval : List.Forall₂ (fun e v => eval_expr none e = Res.ok v) values vals)
    (idx : Nat) (row : List Db_Value) (ukey : Option UKey)
    (hcols : idx + values.length ≤ table.cols.length)
    (hok : ∀ j v c, vals.get? j = some v → table.cols.get? (idx + j) = some c →
      ¬ (c.not_null = true ∧ v.is_null = true)) :
    ∃ u, plan_insert_values table idx values row ukey = Res.ok (row ++ vals, u, false)
      ∧ (∀ v c, idx ≤ table.prim_key_col → vals.get? (table.prim_key_col - idx) = some v →
          table.cols.get? table.prim_key_col = some c → u = some (insert_ukey c.field v))
      ∧ (table.prim_key_col < idx → u = ukey) := by
  induction heval generalizing idx row ukey with
  | nil =>
    refine ⟨ukey, ?_, ?_, fun _ => rfl⟩
    · rw [plan_insert_values, List.append_nil]
      rfl
    · intro v c _ h
      cases h
  | @cons e v es vs he _ ih =>
    have hlen : idx < table.cols.length := by
      rw [List.length_cons] at hcols
      omega
    obtain ⟨c0, hc0⟩ : ∃ c0, table.cols.get? idx = some c0 :=
      ⟨_, List.get?_eq_get hlen⟩
    have hnot : (c0.not_null && v.is_null) = false := by
      have h := hok 0 v c0 rfl hc0
      cases h1 : c0.not_null
      · rfl
      · cases h2 : v.is_null
        · rfl
        · exact absurd ⟨h1, h2⟩ h
    have hstep := plan_insert_values_step table idx e es row ukey v c0 he hc0 hnot
      (fun hidx => hpk c0 (hidx ▸ hc0))
    obtain ⟨u, h1, h2, h3⟩ := ih (idx + 1) (row ++ [v])
      (if idx = table.prim_key_col then some (insert_ukey c0.field v) else ukey)
      (by rw [List.length_cons] at hcols; omega)
      (fun j v1 c1 h1 h2 => hok (j + 1) v1 c1 h1
        (by rw [← h2]; congr 1; omega))
    refine ⟨u, ?_, ?_, ?_⟩
    · rw [hstep, h1, List.append_assoc]
      rfl
    · intro v1 c1 hle hv hc
      by_cases hidx : idx = table.prim_key_col
      · rw [← hidx, Nat.sub_self] at hv
        rw [← hidx, hc0] at hc
        cases hv
        cases hc
        rw [h3 (by omega), if_pos hidx]
      · have hlt : idx + 1 ≤ table.prim_key_col := by omega
        refine h2 v1 c1 hlt ?_ hc
        have e1 : table.prim_key_col - idx = (table.prim_key_col - (idx + 1)) + 1 := by omega
        rw [e1] at hv
        exact hv
    · intro h
      rw [h3 (by omega), if_neg (by omega)]

theorem plan_insert_values_null (table : Type_Table)
    (hpk : ∀ c, table.cols.get? table.prim_key_col = some c →
      c.field = .TYPE_INT ∨ c.field = .TYPE_BOOL ∨ c.field = .TYPE_TEXT)
    (values : List Plan) (vals : List Db_Value)
    (heval : List.Forall₂ (fun e v => eval_expr none e = Res.ok v) values vals)
    (idx : Nat) (row : List Db_Value) (ukey : Option UKey)
    (hcols : idx + values.length ≤ table.cols.length)
    (hnull : ∃ j v c, vals.get? j = some v ∧ table.cols.get? (idx + j) = some c
      ∧ c.not_null = true ∧ v.is_null = true) :
    ∃ row1 u, plan_insert_values table idx values row ukey = Res.ok (row1, u, true) := by
  induction heval generalizing idx row ukey with
  | nil =>
    obtain ⟨j, v, c, h, _⟩ := hnull
    cases h
  | @cons e v es vs he _ ih =>
    have hlen : idx < table.cols.length := by
      rw [List.length_cons] at hcols
      omega
    obtain ⟨c0, hc0⟩ : ∃ c0, table.cols.get? idx = some c0 :=
      ⟨_, List.get?_eq_get hlen⟩
    cases hnot : (c0.not_null && v.is_null) with
    | true => exact ⟨row, ukey, plan_insert_values_stop table idx e es row ukey v c0 he hc0 hnot⟩
    | false =>
      have hnull1 : ∃ j v1 c, vs.get? j = some v1 ∧ table.cols.get? (idx + 1 + j) = some c
          ∧ c.not_null = true ∧ v1.is_null = true := by
        obtain ⟨j, v1, c, h1, h2, h3, h4⟩ := hnull
        cases j with
        | zero =>
          cases h1
          rw [Nat.add_zero, hc0] at h2
          cases h2
          rw [h3, h4] at hnot
          cases hnot
        | succ j =>
          refine ⟨j, v1, c, h1, ?_, h3, h4⟩
          rw [← h2]
          congr 1
          omega
      obtain ⟨row1, u, h1⟩ := ih (idx + 1) (row ++ [v])
        (if idx = table.prim_key_col then some (insert_ukey c0.field v) else ukey)
        (by rw [List.length_cons] at hcols; omega) hnull1
      refine ⟨row1, u, ?_⟩
      rw [plan_insert_values_step table idx e es row ukey v c0 he hc0 hnot
        (fun hidx => hpk c0 (hidx ▸ hc0)), h1]

/-! ### Lemmas about the LRU list of the pager -/

namespace Paging

theorem lru_rule_mono {n m : Nat} {pager : Pager} (h : n ≤ m) (hr : lru_rule n pager) :
    lru_rule m pager :=
  ⟨hr.1, hr.2.1, fun p hp => le_trans (hr.2.2 p hp) h⟩

theorem lru_rule_congr {n : Nat} {pager P1 : Pager} (hp : P1.pages = pager.pages)
    (hl : P1.lru = pager.lru) (hr : lru_rule n pager) : lru_rule n P1 := by
  unfold lru_rule
  rw [hp, hl]
  exact hr

theorem get?_set_ne {α : Type} (l : List α) {s t : Nat} (a : α) (h : s ≠ t) :
    (l.set s a).get? t = l.get? t := by
  simp [List.get?_eq_getElem?, List.getElem?_set_ne h]

theorem get?_set_eq {α : Type} {l : List α} {s : Nat} {p : α} (a : α)
    (h : l.get? s = some p) : (l.set s a).get? s = some a := by
  have hlt : s < l.length := by
    by_contra hc
    rw [List.get?_eq_none.mpr (by omega)] at h
    cases h
  simp [List.get?_eq_getElem?, List.getElem?_set_self, hlt]

theorem lru_rule_set {n m : Nat} {pager P1 : Pager} {slot : Nat} {p q : Page}
    (hr : lru_rule n pager) (hget : pager.pages.get? slot = some p)
    (hpages : P1.pages = pager.pages.set slot q) (hq : q.ref_count ≤ m) (hnm : n ≤ m)
    (hlru : (p.ref_count = 0 ∧ q.ref_count = 0 ∧ P1.lru = pager.lru)
      ∨ (0 < p.ref_count ∧ 0 < q.ref_count ∧ P1.lru = pager.lru)
      ∨ (p.ref_count = 0 ∧ 0 < q.ref_count ∧ P1.lru = pager.lru.erase slot)
      ∨ (0 < p.ref_count ∧ q.ref_count = 0 ∧ P1.lru = slot :: pager.lru)) :
    lru_rule m P1 := by
  obtain ⟨hnd, hmem, hbound⟩ := hr
  have hslot : slot ∈ pager.lru ↔ p.ref_count = 0 := by
    rw [hmem slot, hget]
    constructor
    · rintro ⟨page, h1, h2⟩
      cases h1
      exact h2
    · intro h
      exact ⟨p, rfl, h⟩
  have hgs : P1.pages.get? slot = some q := by
    rw [hpages]
    exact get?_set_eq q hget
  have hgo : ∀ t, t ≠ slot → P1.pages.get? t = pager.pages.get? t := by
    intro t ht
    rw [hpages]
    exact get?_set_ne _ _ (Ne.symm ht)
  refine ⟨?_, ?_, ?_⟩
  · rcases hlru with ⟨_, _, h⟩ | ⟨_, _, h⟩ | ⟨_, _, h⟩ | ⟨hp, _, h⟩
    · rw [h]; exact hnd
    · rw [h]; exact hnd
    · rw [h]; exact hnd.erase slot
    · rw [h, List.nodup_cons]
      refine ⟨?_, hnd⟩
      rw [hslot]
      omega
  · intro t
    by_cases ht : t = slot
    · subst ht
      rw [hgs]
      rcases hlru with ⟨hp, hq0, h⟩ | ⟨hp, hq0, h⟩ | ⟨hp, hq0, h⟩ | ⟨hp, hq0, h⟩
      · rw [h, hslot]
        exact ⟨fun _ => ⟨q, rfl, hq0⟩, fun _ => hp⟩
      · rw [h, hslot]
        constructor
        · intro h0
          omega
        · rintro ⟨page, h1, h2⟩
          cases h1
          omega
      · rw [h, hnd.mem_erase_iff]
        constructor
        · rintro ⟨h0, _⟩
          exact absurd rfl h0
        · rintro ⟨page, h1, h2⟩
          cases h1
          omega
      · rw [h]
        exact ⟨fun _ => ⟨q, rfl, hq0⟩, fun _ => List.mem_cons_self _ _⟩
    · rw [hgo t ht, ← hmem t]
      rcases hlru with ⟨_, _, h⟩ | ⟨_, _, h⟩ | ⟨_, _, h⟩ | ⟨_, _, h⟩
      · rw [h]
      · rw [h]
      · rw [h, hnd.mem_erase_iff]
        exact ⟨fun h1 => h1.2, fun h1 => ⟨ht, h1⟩⟩
      · rw [h, List.mem_cons]
        exact ⟨fun h1 => h1.resolve_left ht, Or.inr⟩
  · intro page hpage
    rw [hpages] at hpage
    rcases List.mem_or_eq_of_mem_set hpage with h | h
    · exact le_trans (hbound page h) hnm
    · rw [h]
      exact hq

theorem lru_rule_set_same {n : Nat} {pager P1 : Pager} {slot : Nat} {p q : Page}
    (hr : lru_rule n pager) (hget : pager.pages.get? slot = some p)
    (hpages : P1.pages = pager.pages.set slot q) (hq : q.ref_count = p.ref_count)
    (hlru : P1.lru = pager.lru) : lru_rule n P1 := by
  have hb : q.ref_count ≤ n := by
    rw [hq]
    exact hr.2.2 p (List.get?_mem hget)
  refine lru_rule_set hr hget hpages hb (le_refl n) ?_
  by_cases h0 : p.ref_count = 0
  · exact Or.inl ⟨h0, by omega, hlru⟩
  · exact Or.inr (Or.inl ⟨by omega, by omega, hlru⟩)

theorem lru_rule_append {n m : Nat} {pager P1 : Pager} {q : Page}
    (hr : lru_rule n pager) (hpages : P1.pages = pager.pages ++ [q])
    (hq0 : 0 < q.ref_count) (hq : q.ref_count ≤ m) (hnm : n ≤ m)
    (hlru : P1.lru = pager.lru) : lru_rule m P1 := by
  obtain ⟨hnd, hmem, hbound⟩ := hr
  refine ⟨by rw [hlru]; exact hnd, ?_, ?_⟩
  · intro t
    rw [hlru, hmem t, hpages]
    by_cases ht : t < pager.pages.length
    · rw [List.get?_eq_getElem?, List.get?_eq_getElem?, List.getElem?_append_left ht]
    · have hnone : pager.pages.get? t = none := List.get?_eq_none.mpr (by omega)
      rw [hnone]
      constructor
      · rintro ⟨page, h1, _⟩
        cases h1
      · rintro ⟨page, h1, h2⟩
        by_cases hte : t = pager.pages.length
        · subst hte
          simp [List.get?_eq_getElem?] at h1
          subst h1
          omega
        · rw [List.get?_eq_none.mpr (by simp; omega)] at h1
          cases h1
  · intro page hpage
    rw [hpages, List.mem_append, List.mem_singleton] at hpage
    rcases hpage with h | h
    · exact le_trans (hbound page h) hnm
    · rw [h]
      exact hq

theorem decrement_ref_count_rule {n : Nat} {pager P1 : Pager} {slot : Nat}
    (hr : lru_rule n pager) (h : decrement_ref_count pager slot = Res.ok P1) :
    lru_rule n P1
      ∧ ∃ p, pager.pages.get? slot = some p ∧ 0 < p.ref_count
        ∧ P1.pages.get? slot = some { p with ref_count := p.ref_count - 1 } := by
  cases hget : pager.pages.get? slot with
  | none =>
    unfold decrement_ref_count Pager.page at h
    rw [hget] at h
    cases h
  | some p =>
    by_cases hrc : 0 < p.ref_count
    · rw [decrement_ref_count_pos hget hrc] at h
      have hb : p.ref_count - 1 ≤ n := le_trans (Nat.sub_le _ _) (hr.2.2 p (List.get?_mem hget))
      have hq : ({ p with ref_count := p.ref_count - 1 } : Page).ref_count ≤ n := hb
      split at h
      · rename_i h0
        cases h
        exact ⟨lru_rule_set hr hget rfl hq (le_refl n) (Or.inr (Or.inr (Or.inr ⟨hrc, h0, rfl⟩))),
          p, rfl, hrc, setPage_get? _ hget⟩
      · rename_i h0
        cases h
        exact ⟨lru_rule_set hr hget rfl hq (le_refl n)
            (Or.inr (Or.inl ⟨hrc, Nat.pos_of_ne_zero h0, rfl⟩)),
          p, rfl, hrc, setPage_get? _ hget⟩
    · unfold decrement_ref_count at h
      rw [page_of_get? hget, Res.ok_bind] at h
      simp only [ASSERT, gt_iff_lt, hrc, decide_False, Bool.false_eq_true, if_false] at h
      cases h

theorem page_write_to_disk_eq_ok {pager P1 : Pager} {slot : Nat}
    (h : page_write_to_disk pager slot = Res.ok P1) :
    P1.pages = pager.pages ∧ P1.lru = pager.lru := by
  unfold page_write_to_disk at h
  simp only [Res.bind_eq_ok, Res.pure_eq_ok] at h
  obtain ⟨p, _, rfl⟩ := h
  exact ⟨rfl, rfl⟩

theorem pager_unref_page_rule {n : Nat} {pager P1 : Pager} {slot : Nat}
    (hr : lru_rule n pager) (h : pager_unref_page pager slot = Res.ok P1) : lru_rule n P1 := by
  unfold pager_unref_page at h
  simp only [Res.bind_eq_ok] at h
  obtain ⟨Pa, hd, page, hpage, h⟩ := h
  obtain ⟨hra, _⟩ := decrement_ref_count_rule hr hd
  have hget := page_eq_ok hpage
  split at h
  · obtain ⟨e1, e2⟩ := page_write_to_disk_eq_ok h
    exact lru_rule_congr e1 e2
      (lru_rule_set_same (q := { page with
        flags := clearFlag page.flags F_PAGE_HAS_MUTABLE_REF }) hra hget rfl rfl rfl)
  · cases h
    exact hra

theorem pager_make_page_mutable_rule {n : Nat} {pager P1 : Pager} {slot : Nat} {made : Bool}
    (hr : lru_rule n pager) (h : pager_make_page_mutable pager slot = Res.ok (made, P1)) :
    lru_rule n P1 := by
  unfold pager_make_page_mutable at h
  simp only [Res.bind_eq_ok] at h
  obtain ⟨page, hpage, _, _, h⟩ := h
  have hget := page_eq_ok hpage
  split at h
  · cases h
    exact hr
  · cases h
    exact lru_rule_set_same (q := { page with
      flags := setFlag page.flags F_PAGE_HAS_MUTABLE_REF }) hr hget rfl rfl rfl

theorem page_read_from_disk_rule {n : Nat} {pager P1 : Pager} {slot : Nat}
    (hr : lru_rule n pager) (h : page_read_from_disk pager slot = Res.ok P1) :
    lru_rule n P1 := by
  obtain ⟨p, buf, hget, rfl⟩ := page_read_from_disk_eq_ok h
  exact lru_rule_set_same (q := { p with buf := buf }) hr hget rfl rfl rfl

theorem get_empty_cache_slot_rule {n m : Nat} {pager P1 : Pager} {id slot : Nat}
    (hr : lru_rule n pager) (hnm : n ≤ m) (hm : 1 ≤ m)
    (h : get_empty_cache_slot pager id = Res.ok (slot, P1)) : lru_rule m P1 := by
  obtain ⟨_, _, _, _, _, _, h1⟩ := get_empty_cache_slot_eq_ok h
  rcases h1 with ⟨_, _, hp, hl⟩ | ⟨_, _, _, p, hget, hrc, hp, hl⟩
  · exact lru_rule_append hr hp Nat.one_pos hm hnm hl
  · exact lru_rule_set (q := ⟨id, p.buf, 0, 0, 1⟩) hr hget hp hm hnm
      (Or.inr (Or.inr (Or.inl ⟨hrc, Nat.one_pos, hl⟩)))

theorem pager_get_page_rule {n : Nat} {pager P1 : Pager} {id : Nat} {r : Option Nat}
    (hr : lru_rule n pager) (hn : n + 1 < 2 ^ 32)
    (h : pager_get_page pager id = Res.ok (r, P1)) : lru_rule (n + 1) P1 := by
  unfold pager_get_page at h
  simp only [Res.bind_eq_ok] at h
  obtain ⟨_, _, _, _, h⟩ := h
  split at h
  · rename_i slot hmap
    simp only [Res.bind_eq_ok] at h
    obtain ⟨p, hpage, h⟩ := h
    have hget := page_eq_ok hpage
    have hpn : p.ref_count ≤ n := hr.2.2 p (List.get?_mem hget)
    have hu : u32 (p.ref_count + 1) = p.ref_count + 1 := by
      unfold u32
      exact Nat.mod_eq_of_lt (by omega)
    split at h
    · cases h
      exact lru_rule_mono (Nat.le_succ n) hr
    · have hq : ({ p with ref_count := u32 (p.ref_count + 1) } : Page).ref_count ≤ n + 1 := by
        show u32 (p.ref_count + 1) ≤ n + 1
        rw [hu]
        omega
      have hq0 : 0 < ({ p with ref_count := u32 (p.ref_count + 1) } : Page).ref_count := by
        show 0 < u32 (p.ref_count + 1)
        rw [hu]
        omega
      split at h
      · rename_i h0
        simp only [Res.bind_eq_ok, Res.pure_eq_ok, Prod.mk.injEq] at h
        obtain ⟨Pa, ha, _, rfl⟩ := h
        obtain ⟨_, rfl⟩ := lru_remove_eq_ok ha
        exact lru_rule_set hr hget rfl hq (Nat.le_succ n)
          (Or.inr (Or.inr (Or.inl ⟨by simpa using h0, hq0, rfl⟩)))
      · rename_i h0
        simp only [pure, Res.ok_bind, Res.ok.injEq, Prod.mk.injEq] at h
        obtain ⟨_, rfl⟩ := h
        exact lru_rule_set hr hget rfl hq (Nat.le_succ n)
          (Or.inr (Or.inl ⟨Nat.pos_of_ne_zero (by simpa using h0), hq0, rfl⟩))
  · simp only [Res.bind_eq_ok, Res.pure_eq_ok, Prod.mk.injEq] at h
    obtain ⟨⟨slot, Pa⟩, ha, Pb, hb, _, rfl⟩ := h
    exact page_read_from_disk_rule
      (get_empty_cache_slot_rule hr (Nat.le_succ n) (by omega) ha) hb

theorem pager_get_page_mutable_rule {n : Nat} {pager P1 : Pager} {id : Nat} {r : Option Nat}
    (hr : lru_rule n pager) (hn : n + 1 < 2 ^ 32)
    (h : pager_get_page_mutable pager id = Res.ok (r, P1)) : lru_rule (n + 1) P1 := by
  unfold pager_get_page_mutable at h
  simp only [Res.bind_eq_ok] at h
  obtain ⟨⟨page, Pa⟩, ha, h⟩ := h
  have hra := pager_get_page_rule hr hn ha
  cases page with
  | none =>
    cases h
    exact hra
  | some page =>
    simp only [Res.bind_eq_ok] at h
    obtain ⟨⟨made, Pb⟩, hb, h⟩ := h
    have hrb := pager_make_page_mutable_rule hra hb
    cases made with
    | true =>
      cases h
      exact hrb
    | false =>
      simp only [Bool.false_eq_true, if_false, Res.bind_eq_ok, Res.pure_eq_ok,
        Prod.mk.injEq] at h
      obtain ⟨Pc, hc, _, rfl⟩ := h
      exact pager_unref_page_rule hrb hc

theorem pager_alloc_page_rule {n : Nat} {pager P1 : Pager} {slot : Nat}
    (hr : lru_rule n pager) (h : pager_alloc_page pager = Res.ok (slot, P1)) :
    lru_rule (n + 1) P1 := by
  unfold pager_alloc_page at h
  split at h
  · simp only [Res.bind_eq_ok, Res.pure_eq_ok] at h
    obtain ⟨⟨s1, Pc⟩, hc, Pd, hd, p, _, _, _, y, rfl, ⟨made, Pb⟩, hb, h⟩ := h
    simp only [Prod.mk.injEq] at h
    obtain ⟨_, rfl⟩ := h
    refine pager_make_page_mutable_rule ?_ hb
    have h1 : lru_rule (n + 1) Pc :=
      get_empty_cache_slot_rule hr (Nat.le_succ n) (Nat.succ_le_succ (Nat.zero_le n)) hc
    have h2 : lru_rule (n + 1) Pd := page_read_from_disk_rule h1 hd
    exact @lru_rule_congr _ Pd _ rfl rfl h2
  · simp only [Res.bind_eq_ok, Res.pure_eq_ok] at h
    obtain ⟨⟨s1, Pc⟩, hc, p, _, y, rfl, ⟨made, Pb⟩, hb, h⟩ := h
    simp only [Prod.mk.injEq] at h
    obtain ⟨_, rfl⟩ := h
    refine pager_make_page_mutable_rule ?_ hb
    have h0 : lru_rule n { pager with
        db_file_page_count := u32 (pager.db_file_page_count + 1) } :=
      @lru_rule_congr _ pager _ rfl rfl hr
    have h1 : lru_rule (n + 1) Pc :=
      get_empty_cache_slot_rule h0 (Nat.le_succ n) (Nat.succ_le_succ (Nat.zero_le n)) hc
    exact @lru_rule_congr _ Pc _ rfl rfl h1

theorem pager_delete_page_rule {n : Nat} {pager P1 : Pager} {slot stack : Nat} {b : Bool}
    (hr : lru_rule n pager) (h : pager_delete_page pager slot stack = Res.ok (b, P1)) :
    lru_rule n P1 := by
  unfold pager_delete_page at h
  simp only [Res.bind_eq_ok] at h
  obtain ⟨page, hpage, h⟩ := h
  have hget := page_eq_ok hpage
  split at h
  · cases h
    exact hr
  · simp only [Res.bind_eq_ok, Res.pure_eq_ok, Prod.mk.injEq] at h
    obtain ⟨_, _, Pa, ha, Pb, hb, _, rfl⟩ := h
    obtain ⟨e1, e2⟩ := page_write_to_disk_eq_ok ha
    have hra : lru_rule n Pa := lru_rule_congr e1 e2
      (lru_rule_set_same (q := { page with
        buf := wr page.buf (PSIZE pager - 4) 4 pager.free_page }) hr hget rfl rfl rfl)
    exact (@decrement_ref_count_rule _ (header_write_to_disk Pa stack) _ _
      (lru_rule_congr rfl rfl hra) hb).1

theorem pager_op_rule {n : Nat} {pager P1 : Pager} (op : Pager_Op)
    (hr : lru_rule n pager) (hn : n + 1 < 2 ^ 32) (h : pager_op pager op = Res.ok P1) :
    lru_rule (n + 1) P1 := by
  cases op with
  | get_page id =>
    simp only [pager_op, Res.bind_eq_ok, Res.pure_eq_ok] at h
    obtain ⟨⟨r, Pa⟩, ha, rfl⟩ := h
    exact pager_get_page_rule hr hn ha
  | get_page_mutable id =>
    simp only [pager_op, Res.bind_eq_ok, Res.pure_eq_ok] at h
    obtain ⟨⟨r, Pa⟩, ha, rfl⟩ := h
    exact pager_get_page_mutable_rule hr hn ha
  | make_page_mutable ref =>
    simp only [pager_op, Res.bind_eq_ok, Res.pure_eq_ok] at h
    obtain ⟨⟨r, Pa⟩, ha, rfl⟩ := h
    exact lru_rule_mono (Nat.le_succ n) (pager_make_page_mutable_rule hr ha)
  | alloc_page =>
    simp only [pager_op, Res.bind_eq_ok, Res.pure_eq_ok] at h
    obtain ⟨⟨r, Pa⟩, ha, rfl⟩ := h
    exact pager_alloc_page_rule hr ha
  | unref_page ref =>
    exact lru_rule_mono (Nat.le_succ n) (pager_unref_page_rule hr h)
  | delete_page ref stack =>
    simp only [pager_op, Res.bind_eq_ok, Res.pure_eq_ok] at h
    obtain ⟨⟨r, Pa⟩, ha, rfl⟩ := h
    exact lru_rule_mono (Nat.le_succ n) (pager_delete_page_rule hr ha)

theorem pager_ops_rule (ops : List Pager_Op) {n : Nat} {pager P1 : Pager}
    (hr : lru_rule n pager) (hn : n + ops.length < 2 ^ 32)
    (h : pager_ops ops pager = Res.ok P1) : lru_rule (n + ops.length) P1 := by
  induction ops generalizing n pager with
  | nil =>
    simp only [pager_ops, Res.pure_eq_ok] at h
    subst h
    exact hr
  | cons op ops ih =>
    simp only [pager_ops, Res.bind_eq_ok] at h
    obtain ⟨Pa, ha, hb⟩ := h
    rw [List.length_cons] at hn ⊢
    have h1 := pager_op_rule op hr (by omega) ha
    have h2 := ih h1 (by omega) hb
    rw [show n + (ops.length + 1) = n + 1 + ops.length by omega]
    exact h2

theorem pager_new_rule {file file_size stack : Nat} {raw_pages : List Nat} {P0 : Pager}
    (h : pager_new file file_size raw_pages stack = Res.ok P0) : lru_rule 0 P0 := by
  have hp : P0.pages = [] ∧ P0.lru = [] := by
    unfold pager_new at h
    split at h
    · have e := Res.ok.inj h
      rw [← e]
      exact ⟨rfl, rfl⟩
    · rw [Res.bind_eq_ok] at h
      obtain ⟨Pa, ha, h⟩ := h
      unfold header_read_from_disk at ha
      rw [Res.bind_eq_ok] at ha
      obtain ⟨buf, _, ha⟩ := ha
      have ea := Res.ok.inj ha
      rw [Res.bind_eq_ok] at h
      obtain ⟨_, _, h⟩ := h
      split at h
      · cases h
      · rw [Res.bind_eq_ok] at h
        obtain ⟨_, _, h⟩ := h
        have e := Res.ok.inj h
        rw [← e, ← ea]
        exact ⟨rfl, rfl⟩
  refine ⟨by rw [hp.2]; exact List.nodup_nil, ?_, ?_⟩
  · intro slot
    rw [hp.1, hp.2]
    constructor
    · intro h1
      cases h1
    · rintro ⟨page, h1, _⟩
      cases h1
  · intro page hpage
    rw [hp.1] at hpage
    cases hpage

theorem length_filter_range {α : Type} (l : List α) (P : α → Bool) :
    ((List.range l.length).filter (fun i => (l.get? i).elim false P)).length = (l.filter P).length := by
  induction l using List.reverseRecOn with
  | nil => rfl
  | append_singleton l a ih =>
    rw [List.length_append, List.length_singleton, List.range_succ, List.filter_append,
      List.filter_append, List.length_append, List.length_append, ← ih]
    congr 1
    · congr 1
      apply List.filter_congr
      intro i hi
      rw [List.mem_range] at hi
      rw [List.get?_eq_getElem?, List.get?_eq_getElem?, List.getElem?_append_left hi]
    · have hlast : (l ++ [a]).get? l.length = some a := by
        simp [List.get?_eq_getElem?]
      simp only [List.filter_cons, List.filter_nil, hlast, Option.elim]
      split <;> rfl

theorem length_filter_add {α : Type} (l : List α) (P Q : α → Bool)
    (h : ∀ a, Q a = !P a) : (l.filter P).length + (l.filter Q).length = l.length := by
  induction l with
  | nil => rfl
  | cons a l ih =>
    rw [List.filter_cons, List.filter_cons, h a]
    cases P a <;> simp <;> omega

theorem lru_rule_count {n : Nat} {pager : Pager} (hr : lru_rule n pager) :
    referenced_slots pager + pager.lru.length = pager.pages.length := by
  obtain ⟨hnd, hmem, _⟩ := hr
  have hperm : pager.lru.Perm ((List.range pager.pages.length).filter (fun i =>
      (pager.pages.get? i).elim false (fun a => a.ref_count == 0))) := by
    rw [List.perm_ext_iff_of_nodup hnd (List.Nodup.filter _ (List.nodup_range _))]
    intro i
    rw [hmem i, List.mem_filter, List.mem_range]
    constructor
    · rintro ⟨page, h1, h2⟩
      have hlt : i < pager.pages.length := by
        by_contra hc
        rw [List.get?_eq_none.mpr (by omega)] at h1
        cases h1
      refine ⟨hlt, ?_⟩
      rw [h1]
      simpa [Option.elim] using h2
    · rintro ⟨_, h2⟩
      cases hg : pager.pages.get? i with
      | none =>
        rw [hg] at h2
        cases h2
      | some page =>
        rw [hg] at h2
        exact ⟨page, rfl, by simpa [Option.elim] using h2⟩
  rw [hperm.length_eq, length_filter_range pager.pages (fun a => a.ref_count == 0)]
  unfold referenced_slots
  apply length_filter_add
  intro a
  by_cases h0 : a.ref_count = 0
  · simp [h0]
  · have : 0 < a.ref_count := Nat.pos_of_ne_zero h0
    simp [h0, this]

end Paging

theorem Res.eq_ok_getD {α : Type} (x : Res α) (d : α) (h : x.isOk = true) :
    x = Res.ok (x.getD d) := by
  cases x <;> first | rfl | cases h

namespace Paging

theorem pager_ops_append (a b : List Pager_Op) (pager : Pager) :
    pager_ops (a ++ b) pager = pager_ops a pager >>= pager_ops b := by
  induction a generalizing pager with
  | nil => rfl
  | cons op a ih =>
    simp only [List.cons_append, pager_ops]
    cases pager_op pager op with
    | ok P1 => exact ih P1
    | assertFail => rfl
    | fault => rfl
    | outOfFuel => rfl

theorem run_on_new_pager_append {a : List Pager_Op} (b : List Pager_Op) {pager : Pager}
    (h : run_on_new_pager a = Res.ok pager) :
    run_on_new_pager (a ++ b) = pager_ops b pager := by
  unfold run_on_new_pager at h ⊢
  cases hn : new_pager with
  | ok P =>
    rw [hn, Res.ok_bind] at h
    rw [Res.ok_bind, pager_ops_append, h]
    rfl
  | assertFail => rw [hn] at h; cases h
  | fault => rw [hn] at h; cases h
  | outOfFuel => rw [hn] at h; cases h

theorem replicate_two_ends {α : Type} (n : Nat) (a : α) :
    List.replicate (n + 2) a = a :: (List.replicate n a ++ [a]) := by
  rw [List.replicate_succ, List.replicate_succ']

theorem map_get_setPage {pager : Pager} {slot : Nat} {p : Page} (q : Page)
    (hget : pager.pages.get? slot = some p) (hid : q.id = p.id) (id : Nat) :
    map_get (pager.setPage slot q) id = map_get pager id := by
  show List.find? (fun s => ((pager.pages.set slot q).get? s).map Page.id == some id)
      (pager.map.getD (id % pager.capacity) [])
    = List.find? (fun s => (pager.pages.get? s).map Page.id == some id)
      (pager.map.getD (id % pager.capacity) [])
  congr 1
  funext s
  by_cases hs : s = slot
  · subst hs
    rw [get?_set_eq q hget, hget, Option.map_some', Option.map_some', hid]
  · rw [get?_set_ne _ _ (Ne.symm hs)]

theorem pager_op_get_page (pager : Pager) (id : Nat) :
    pager_op pager (.get_page id) = pager_get_page pager id >>= fun r => pure r.2 := rfl

theorem pager_ops_get_page_repeat (id slot : Nat) (k : Nat) :
    ∀ (pager : Pager) (page : Page), id ≠ 0 → id < pager.db_file_page_count →
      map_get pager id = some slot → pager.pages.get? slot = some page →
      hasFlag page.flags F_PAGE_HAS_MUTABLE_REF = false → 0 < page.ref_count →
      page.ref_count + k < 2 ^ 32 →
      pager_ops (List.replicate k (.get_page id)) pager
        = Res.ok (pager.setPage slot { page with ref_count := page.ref_count + k }) := by
  induction k with
  | zero =>
    intro pager page _ _ _ hget _ _ _
    have e : ({ page with ref_count := page.ref_count + 0 } : Page) = page := by
      cases page
      rfl
    rw [e, setPage_same hget]
    rfl
  | succ k ih =>
    intro pager page hid hcount hmap hget hflag hrc hk
    have hu : u32 (page.ref_count + 1) = page.ref_count + 1 := by
      unfold u32
      exact Nat.mod_eq_of_lt (by omega)
    have h1 := pager_get_page_used hid hcount hmap hget hflag (by omega)
    rw [hu] at h1
    have h2 := ih (pager.setPage slot { page with ref_count := page.ref_count + 1 })
      { page with ref_count := page.ref_count + 1 } hid hcount
      ((map_get_setPage { page with ref_count := page.ref_count + 1 } hget rfl id).trans hmap)
      (setPage_get? _ hget) hflag
      (Nat.succ_pos _) (by show page.ref_count + 1 + k < 2 ^ 32; omega)
    rw [List.replicate_succ, pager_ops, pager_op_get_page, h1]
    simp only [Res.ok_bind, pure]
    rw [h2, setPage_setPage]
    have e : page.ref_count + 1 + k = page.ref_count + (k + 1) := by omega
    show Res.ok (pager.setPage slot { page with ref_count := page.ref_count + 1 + k }) = _
    rw [e]

theorem pager_get_page_wraps {pager : Pager} {id slot : Nat} {page : Page} (n : Nat)
    (hn : n + 2 = 2 ^ 32)
    (hid : id ≠ 0) (hcount : id < pager.db_file_page_count)
    (hmap : map_get pager id = some slot) (hget : pager.pages.get? slot = some page)
    (hflag : hasFlag page.flags F_PAGE_HAS_MUTABLE_REF = false) (hrc : page.ref_count = 0)
    (hlru : slot ∈ pager.lru) :
    pager_ops (List.replicate (n + 2) (.get_page id)) pager
      = Res.ok (({ pager with lru := pager.lru.erase slot } : Pager).setPage slot page) := by
  have h1 := pager_get_page_unused hid hcount hmap hget hflag hrc
  rw [if_pos hlru] at h1
  have hget0 : ({ pager with lru := pager.lru.erase slot } : Pager).pages.get? slot
      = some page := hget
  have hget1 := @setPage_get? { pager with lru := pager.lru.erase slot } _ _
    { page with ref_count := 1 } hget0
  have hmap1 : map_get (({ pager with lru := pager.lru.erase slot } : Pager).setPage slot
      { page with ref_count := 1 }) id = some slot :=
    (map_get_setPage { page with ref_count := 1 } hget0 rfl id).trans hmap
  have h2 := pager_ops_get_page_repeat id slot n
    (({ pager with lru := pager.lru.erase slot } : Pager).setPage slot
      { page with ref_count := 1 })
    { page with ref_count := 1 } hid hcount hmap1 hget1 hflag
    Nat.one_pos (by show 1 + n < 2 ^ 32; omega)
  rw [setPage_setPage] at h2
  have hget2 := @setPage_get? { pager with lru := pager.lru.erase slot } _ _
    { page with ref_count := 1 + n } hget0
  have hmap2 : map_get (({ pager with lru := pager.lru.erase slot } : Pager).setPage slot
      { page with ref_count := 1 + n }) id = some slot :=
    (map_get_setPage { page with ref_count := 1 + n } hget0 rfl id).trans hmap
  have h3 := @pager_get_page_used
    (({ pager with lru := pager.lru.erase slot } : Pager).setPage slot
      { page with ref_count := 1 + n })
    _ _ { page with ref_count := 1 + n }
    hid hcount hmap2 hget2 hflag (by show 1 + n ≠ 0; omega)
  rw [setPage_setPage] at h3
  have e : ({ page with ref_count := u32 (1 + n + 1) } : Page) = page := by
    have hz : u32 (1 + n + 1) = 0 := by
      unfold u32
      omega
    rw [hz, ← hrc]
  have h3a : pager_get_page (({ pager with lru := pager.lru.erase slot } : Pager).setPage slot
        { page with ref_count := 1 + n }) id
      = Res.ok (some slot, ({ pager with lru := pager.lru.erase slot } : Pager).setPage slot
          page) := by
    rw [h3]
    show Res.ok (some slot, ({ pager with lru := pager.lru.erase slot } : Pager).setPage slot
      { page with ref_count := u32 (1 + n + 1) }) = _
    rw [e]
  rw [replicate_two_ends, pager_ops, pager_op_get_page, h1]
  show pager_ops (List.replicate n (.get_page id) ++ [.get_page id])
      (({ pager with lru := pager.lru.erase slot } : Pager).setPage slot
        { page with ref_count := 1 }) = _
  rw [pager_ops_append, h2, Res.ok_bind, pager_ops, pager_op_get_page, h3a]
  rfl

theorem get_empty_cache_slot_no_assert {pager : Pager} (id : Nat) {v : Nat} {pv : Page}
    (hfull : ¬ pager.pages.length < pager.capacity) (hlast : pager.lru.getLast? = some v)
    (hget : pager.pages.get? v = some pv) (hrc : pv.ref_count = 0) :
    get_empty_cache_slot pager id ≠ Res.assertFail := by
  by_cases hchain : v ∈ pager.map.getD (map_get_slot pager pv.id) []
  · obtain ⟨P1, h⟩ := get_empty_cache_slot_evict id hfull hlast hget hrc hchain
    rw [h]
    intro hc
    cases hc
  · have hmem : v ∈ pager.lru := List.mem_of_getLast?_eq_some hlast
    have h1 : lru_remove pager v = Res.ok { pager with lru := pager.lru.erase v } := by
      simp [lru_remove, hmem, pure]
    have h2 : map_remove { pager with lru := pager.lru.erase v } v = Res.fault := by
      have hp : ({ pager with lru := pager.lru.erase v } : Pager).page v = Res.ok pv :=
        @page_of_get? { pager with lru := pager.lru.erase v } _ _ hget
      unfold map_remove
      rw [hp, Res.ok_bind]
      have hc : ¬ v ∈ ({ pager with lru := pager.lru.erase v } : Pager).map.getD
          (map_get_slot { pager with lru := pager.lru.erase v } pv.id) [] := hchain
      rw [if_neg hc]
    unfold get_empty_cache_slot
    simp only [hfull, if_false, hlast]
    rw [page_of_get? hget]
    simp only [Res.ok_bind, hrc, ASSERT, beq_self_eq_true, if_true, h1, h2, pure]
    intro hc
    cases hc

end Paging

/-! ### Lemmas about `btree_delete` -/

theorem engine_page_of_get? {E : BEngine} {id : Nat} {p : Page}
    (h : E.pages.get? id = some p) : E.page id = Res.ok p := by
  unfold BEngine.page
  rw [h]

theorem engine_node_of_get? {E : BEngine} {id : Nat} {p : Page}
    (h : E.pages.get? id = some p) : E.node id = Res.ok p.node := by
  unfold BEngine.node
  rw [engine_page_of_get? h]
  rfl

theorem list_get?_set_ne {α : Type} (l : List α) {s t : Nat} (a : α) (h : s ≠ t) :
    (l.set s a).get? t = l.get? t := by
  simp [List.get?_eq_getElem?, List.getElem?_set_ne h]

theorem list_get?_set_eq {α : Type} {l : List α} {s : Nat} {p : α} (a : α)
    (h : l.get? s = some p) : (l.set s a).get? s = some a := by
  have hlt : s < l.length := by
    by_contra hc
    rw [List.get?_eq_none.mpr (by omega)] at h
    cases h
  simp [List.get?_eq_getElem?, List.getElem?_set_self, hlt]

theorem ref_node_fields (E : BEngine) (id : Nat) :
    (ref_node E id).full_page_size = E.full_page_size
      ∧ (ref_node E id).page_count = E.page_count
      ∧ (ref_node E id).free_page = E.free_page := by
  unfold ref_node
  cases E.pages.get? id <;> exact ⟨rfl, rfl, rfl⟩

theorem ref_node_get?_ne (E : BEngine) {id j : Nat} (h : id ≠ j) :
    (ref_node E id).pages.get? j = E.pages.get? j := by
  unfold ref_node
  cases E.pages.get? id with
  | none => rfl
  | some p => exact list_get?_set_ne _ _ h

theorem ref_node_get?_eq {E : BEngine} {id : Nat} {p : Page} (h : E.pages.get? id = some p) :
    (ref_node E id).pages.get? id = some { p with ref_count := 1, mutable_ref := true } := by
  unfold ref_node
  rw [h]
  exact list_get?_set_eq _ h

theorem ref_nodes_fields (E : BEngine) (P : List Nat) :
    (ref_nodes E P).full_page_size = E.full_page_size
      ∧ (ref_nodes E P).page_count = E.page_count
      ∧ (ref_nodes E P).free_page = E.free_page := by
  induction P with
  | nil => exact ⟨rfl, rfl, rfl⟩
  | cons id P ih =>
    obtain ⟨h1, h2, h3⟩ := ref_node_fields (ref_nodes E P) id
    exact ⟨h1.trans ih.1, h2.trans ih.2.1, h3.trans ih.2.2⟩

theorem ref_nodes_get?_not_mem (E : BEngine) {P : List Nat} {j : Nat} (h : j ∉ P) :
    (ref_nodes E P).pages.get? j = E.pages.get? j := by
  induction P with
  | nil => rfl
  | cons id P ih =>
    rw [List.mem_cons, not_or] at h
    exact (ref_node_get?_ne _ (Ne.symm h.1)).trans (ih h.2)

/-- The node of a page is the same with and without the references of a path. -/
theorem ref_nodes_node (E : BEngine) (P : List Nat) (j : Nat) :
    ((ref_nodes E P).pages.get? j).map Page.node = (E.pages.get? j).map Page.node := by
  induction P with
  | nil => rfl
  | cons id P ih =>
    by_cases h : id = j
    · subst h
      cases hg : (ref_nodes E P).pages.get? id with
      | none =>
        have : (ref_node (ref_nodes E P) id) = ref_nodes E P := by
          unfold ref_node
          rw [hg]
        show ((ref_node (ref_nodes E P) id).pages.get? id).map Page.node = _
        rw [this]
        exact ih
      | some p =>
        show ((ref_node (ref_nodes E P) id).pages.get? id).map Page.node = _
        rw [ref_node_get?_eq hg, ← ih, hg]
        rfl
    · show ((ref_node (ref_nodes E P) id).pages.get? j).map Page.node = _
      rw [ref_node_get?_ne _ h]
      exact ih

theorem free_node_fields (E : BEngine) (id : Nat) :
    (free_node E id).full_page_size = E.full_page_size
      ∧ (free_node E id).page_count = E.page_count := by
  unfold free_node
  cases E.pages.get? id <;> exact ⟨rfl, rfl⟩

theorem free_node_get?_ne (E : BEngine) {id j : Nat} (h : id ≠ j) :
    (free_node E id).pages.get? j = E.pages.get? j := by
  unfold free_node
  cases E.pages.get? id with
  | none => rfl
  | some p => exact list_get?_set_ne _ _ h

theorem free_nodes_append (E : BEngine) (D1 D2 : List Nat) :
    free_nodes E (D1 ++ D2) = free_nodes (free_nodes E D1) D2 := by
  unfold free_nodes
  rw [List.foldl_append]

theorem free_nodes_fields (E : BEngine) (D : List Nat) :
    (free_nodes E D).full_page_size = E.full_page_size
      ∧ (free_nodes E D).page_count = E.page_count := by
  induction D generalizing E with
  | nil => exact ⟨rfl, rfl⟩
  | cons id D ih =>
    obtain ⟨h1, h2⟩ := free_node_fields E id
    obtain ⟨h3, h4⟩ := ih (free_node E id)
    exact ⟨h3.trans h1, h4.trans h2⟩

theorem free_nodes_get?_not_mem (E : BEngine) {D : List Nat} {j : Nat} (h : j ∉ D) :
    (free_nodes E D).pages.get? j = E.pages.get? j := by
  induction D generalizing E with
  | nil => rfl
  | cons id D ih =>
    rw [List.mem_cons, not_or] at h
    exact (ih (free_node E id) h.2).trans (free_node_get?_ne _ (Ne.symm h.1))

/-- Freeing a page and referencing another one can be done in either order. -/
theorem free_node_ref_node (E : BEngine) {a c : Nat} (h : a ≠ c) :
    free_node (ref_node E a) c = ref_node (free_node E c) a := by
  have h1 : (ref_node E a).pages.get? c = E.pages.get? c := ref_node_get?_ne E h
  have h2 : (free_node E c).pages.get? a = E.pages.get? a := free_node_get?_ne E (Ne.symm h)
  have h3 := ref_node_fields E a
  cases hc : E.pages.get? c with
  | none =>
    have e1 : free_node (ref_node E a) c = ref_node E a := by
      unfold free_node
      rw [h1, hc]
    have e2 : free_node E c = E := by
      unfold free_node
      rw [hc]
    rw [e1, e2]
  | some pc =>
    cases ha : E.pages.get? a with
    | none =>
      have e1 : ref_node E a = E := by
        unfold ref_node
        rw [ha]
      have e2 : ref_node (free_node E c) a = free_node E c := by
        unfold ref_node
        rw [h2, ha]
      rw [e1, e2]
    | some pa =>
      unfold free_node
      rw [h1, hc]
      unfold ref_node
      simp only [ha, BEngine.setPage]
      rw [list_get?_set_ne _ _ (Ne.symm h), ha]
      simp only [BEngine.mk.injEq, true_and, and_true]
      exact List.set_comm _ _ _ h

theorem free_node_ref_nodes (E : BEngine) {P : List Nat} {c : Nat} (h : c ∉ P) :
    free_node (ref_nodes E P) c = ref_nodes (free_node E c) P := by
  induction P with
  | nil => rfl
  | cons a P ih =>
    rw [List.mem_cons, not_or] at h
    show free_node (ref_node (ref_nodes E P) a) c = ref_node (ref_nodes (free_node E c) P) a
    rw [free_node_ref_node _ (Ne.symm h.1), ih h.2]

theorem node_from_page_id_unreferenced {X : BEngine} {c : Nat} {p : Page}
    (hget : X.pages.get? c = some p) (h0 : c ≠ 0) (hcount : c < X.page_count)
    (hrc : p.ref_count = 0) (hmut : p.mutable_ref = false)
    (hfree : hasFlag p.node.flags F_NODE_IS_FREE = false) :
    node_from_page_id X c = Res.ok (ref_node X c) := by
  have hg1 : (X.setPage c { p with ref_count := 1, mutable_ref := true }).pages.get? c
      = some { p with ref_count := 1, mutable_ref := true } := list_get?_set_eq _ hget
  have h1 : pager_get_page_mutable X c
      = Res.ok (some (X.setPage c { p with ref_count := 1, mutable_ref := true })) := by
    unfold pager_get_page_mutable
    simp only [ASSERT, bne_iff_ne, ne_eq, h0, not_false_eq_true, decide_True, if_true, hcount,
      Res.ok_bind, engine_page_of_get? hget, hmut, Bool.false_eq_true, if_false, hrc,
      Nat.zero_add, bne_self_eq_false, pure, not_true_eq_false]
  unfold node_from_page_id
  rw [h1, Res.ok_bind]
  simp only [engine_node_of_get? hg1, Res.ok_bind, ASSERT, hfree, Bool.not_false, if_true]
  unfold ref_node
  rw [hget]
  rfl

theorem node_delete_referenced {Y : BEngine} {c : Nat} {p : Page}
    (hget : Y.pages.get? c = some p) :
    node_delete (ref_node Y c) c = Res.ok (free_node Y c) := by
  have hg1 := ref_node_get?_eq hget
  have hf := ref_node_fields Y c
  have hpages : (ref_node Y c).pages = Y.pages.set c { p with ref_count := 1, mutable_ref := true } := by
    unfold ref_node
    rw [hget]
    rfl
  unfold node_delete
  rw [engine_node_of_get? hg1, Res.ok_bind]
  unfold BEngine.setNode
  rw [engine_page_of_get? hg1, Res.ok_bind]
  simp only [pure, Res.ok_bind]
  have hg2 : ((ref_node Y c).setPage c
      { ({ p with ref_count := 1, mutable_ref := true } : Page) with
        node := { p.node with flags := setFlag p.node.flags F_NODE_IS_FREE } }).pages.get? c
      = some { ({ p with ref_count := 1, mutable_ref := true } : Page) with
        node := { p.node with flags := setFlag p.node.flags F_NODE_IS_FREE } } :=
    list_get?_set_eq _ hg1
  unfold pager_delete_page
  rw [engine_page_of_get? hg2, Res.ok_bind]
  simp only [bne_self_eq_false, Bool.false_eq_true, if_false, pure, Res.ok_bind, ASSERT, if_true]
  unfold free_node
  rw [hget]
  simp only [BEngine.setPage, hpages, List.set_set, hf.1, hf.2.1, hf.2.2]

theorem child_of_congr {X E : BEngine} (h : X.full_page_size = E.full_page_size) (n : Node)
    (idx : Nat) : child_of X n idx = child_of E n idx := by
  unfold child_of node_get_cell cell_get_child Node.read
  rw [h]

theorem node_get_child_unreferenced {X : BEngine} {id idx c : Nat} {q p : Page}
    (hq : X.pages.get? id = some q) (hinner : node_is_inner q.node = true)
    (hidx : idx ≤ q.node.cell_count) (hchild : child_of X q.node idx = Res.ok c)
    (hget : X.pages.get? c = some p) (h0 : c ≠ 0) (hcount : c < X.page_count)
    (hrc : p.ref_count = 0) (hmut : p.mutable_ref = false)
    (hfree : hasFlag p.node.flags F_NODE_IS_FREE = false) :
    node_get_child X id idx = Res.ok (ref_node X c, c) := by
  have hr := node_from_page_id_unreferenced hget h0 hcount hrc hmut hfree
  unfold node_get_child
  rw [engine_node_of_get? hq, Res.ok_bind]
  simp only [ASSERT, hidx, decide_True, if_true, Res.ok_bind, hinner]
  unfold child_of at hchild
  by_cases hlt : idx < q.node.cell_count
  · rw [if_pos hlt] at hchild ⊢
    rw [Res.bind_eq_ok] at hchild
    obtain ⟨cell, h1, h2⟩ := hchild
    rw [h1, Res.ok_bind, h2, Res.ok_bind, hr]
    rfl
  · rw [if_neg hlt] at hchild ⊢
    cases hchild
    rw [hr]
    rfl

theorem cursor_push_ok (flags : Nat) (path : List (Nat × Nat)) (c : Nat)
    (h : path.length < MAX_BTREE_HEIGHT) :
    cursor_push ⟨flags, path⟩ c 0 = Res.ok ⟨flags, (c, 0) :: path⟩ := by
  unfold cursor_push
  simp only [ASSERT, h, decide_True, if_true, Res.ok_bind, pure]
  rfl

/-- The post-order lists of the children with index below `j`. -/
theorem post_order_inner {E : BEngine} {id : Nat} {p : Page} (d : Nat)
    (hget : E.pages.get? id = some p) (hleaf : node_is_leaf p.node = false) :
    post_order E (d + 1) id
      = children_post_order E d p.node (p.node.cell_count + 1) ++ [id] := by
  rw [post_order]
  simp only [hget, hleaf, Bool.false_eq_true, if_false]
  rfl

theorem post_order_leaf {E : BEngine} {id : Nat} {p : Page} (d : Nat)
    (hget : E.pages.get? id = some p) (hleaf : node_is_leaf p.node = true) :
    post_order E (d + 1) id = [id] := by
  rw [post_order]
  simp only [hget, hleaf, if_true]

theorem post_order_last (E : BEngine) (d id : Nat) :
    ∃ pre, post_order E d id = pre ++ [id] := by
  cases d with
  | zero => exact ⟨[], rfl⟩
  | succ d =>
    cases hget : E.pages.get? id with
    | none =>
      refine ⟨[], ?_⟩
      rw [post_order]
      simp only [hget]
      rfl
    | some p =>
      cases hleaf : node_is_leaf p.node with
      | true => exact ⟨[], post_order_leaf d hget hleaf⟩
      | false => exact ⟨_, post_order_inner d hget hleaf⟩

theorem deletable_cases {E : BEngine} {d id : Nat} (h : deletable E d id = true) :
    ∃ d1 p, d = d1 + 1 ∧ E.pages.get? id = some p ∧ id ≠ 0 ∧ id < E.page_count
      ∧ p.ref_count = 0 ∧ p.mutable_ref = false
      ∧ hasFlag p.node.flags F_NODE_IS_FREE = false
      ∧ (node_is_leaf p.node = true
        ∨ (node_is_leaf p.node = false ∧ 0 < p.node.cell_count
          ∧ p.node.cell_count + 1 < 65536
          ∧ ∀ idx, idx ≤ p.node.cell_count →
              ∃ c, child_of E p.node idx = Res.ok c ∧ deletable E d1 c = true)) := by
  cases d with
  | zero =>
    rw [deletable] at h
    cases h
  | succ d1 =>
    rw [deletable] at h
    cases hget : E.pages.get? id with
    | none =>
      simp only [hget] at h
      cases h
    | some p =>
      simp only [hget, Bool.and_eq_true, bne_iff_ne, ne_eq, decide_eq_true_eq, beq_iff_eq,
        Bool.not_eq_true', Bool.or_eq_true, List.all_eq_true, List.mem_range] at h
      obtain ⟨⟨⟨⟨⟨h0, hc⟩, hrc⟩, hm⟩, hf⟩, hs⟩ := h
      refine ⟨d1, p, rfl, rfl, h0, hc, hrc, hm, hf, ?_⟩
      rcases hs with hl | ⟨⟨hcc, h16⟩, hall⟩
      · exact Or.inl hl
      · cases hleaf : node_is_leaf p.node with
        | true => exact Or.inl rfl
        | false =>
          refine Or.inr ⟨rfl, hcc, h16, ?_⟩
          intro idx hidx
          have := hall idx (by omega)
          cases hch : child_of E p.node idx with
          | ok c =>
            rw [hch] at this
            exact ⟨c, rfl, this⟩
          | assertFail => rw [hch] at this; cases this
          | fault => rw [hch] at this; cases this
          | outOfFuel => rw [hch] at this; cases this

theorem children_post_order_succ (E : BEngine) (d : Nat) (n : Node) (j : Nat) :
    children_post_order E d n (j + 1)
      = children_post_order E d n j
        ++ Res.fold [] (fun c => post_order E d c) (child_of E n j) := by
  unfold children_post_order
  rw [List.range_succ, List.map_append, List.flatten_append]
  simp

theorem children_post_order_prefix (E : BEngine) (d : Nat) (n : Node) (a k : Nat) :
    ∃ suffix, children_post_order E d n (a + k) = children_post_order E d n a ++ suffix := by
  induction k with
  | zero => exact ⟨[], (List.append_nil _).symm⟩
  | succ k ih =>
    obtain ⟨s, hs⟩ := ih
    refine ⟨s ++ Res.fold [] (fun c => post_order E d c) (child_of E n (a + k)), ?_⟩
    rw [← Nat.add_assoc, children_post_order_succ, hs, List.append_assoc]

theorem mem_post_order_self (E : BEngine) (d id : Nat) : id ∈ post_order E d id := by
  obtain ⟨pre, h⟩ := post_order_last E d id
  rw [h]
  simp

theorem delete_flag : hasFlag 2 F_CURSOR_DELETE_NODE_ON_EXIT = true := by decide

theorem btree_delete_loop_leaf (tree : BTree) (f : Nat) {X : BEngine} {id j : Nat}
    {rest : List (Nat × Nat)} {q : Page} (hq : X.pages.get? id = some q)
    (hleaf : node_is_leaf q.node = true) :
    btree_delete_loop tree (f + 1) X ⟨2, (id, j) :: rest⟩
      = btree_delete_exit tree (MAX_BTREE_HEIGHT + 1) f X ⟨2, (id, j) :: rest⟩ id := by
  have hinner : node_is_inner q.node = false := by
    unfold node_is_inner
    unfold node_is_leaf at hleaf
    rw [hleaf]
    rfl
  have h : cursor_goto_next_node X tree ⟨2, (id, j) :: rest⟩
      = cursor_goto_next_node_loop (MAX_BTREE_HEIGHT + 1) X ⟨2, (id, j) :: rest⟩ id := by
    unfold cursor_goto_next_node
    simp only [cursor_node, List.head?_cons, Option.map_some', engine_node_of_get? hq,
      Res.ok_bind, hinner, Bool.false_eq_true, if_false]
  rw [btree_delete_loop, h]
  rfl

theorem btree_delete_loop_inner (tree : BTree) (f : Nat) {X X1 : BEngine} {id c : Nat}
    {rest : List (Nat × Nat)} {q : Page} (hq : X.pages.get? id = some q)
    (hleaf : node_is_leaf q.node = false) (hcc : 0 < q.node.cell_count)
    (hchild : node_get_child X id 0 = Res.ok (X1, c))
    (hlen : rest.length + 1 < MAX_BTREE_HEIGHT) :
    btree_delete_loop tree (f + 1) X ⟨2, (id, 0) :: rest⟩
      = btree_delete_loop tree f X1 ⟨2, (c, 0) :: (id, 0) :: rest⟩ := by
  have hinner : node_is_inner q.node = true := by
    unfold node_is_inner
    unfold node_is_leaf at hleaf
    rw [hleaf]
    rfl
  have h : cursor_goto_next_node X tree ⟨2, (id, 0) :: rest⟩
      = Res.ok (X1, ⟨2, (c, 0) :: (id, 0) :: rest⟩, true) := by
    unfold cursor_goto_next_node
    simp only [cursor_node, List.head?_cons, Option.map_some', engine_node_of_get? hq,
      Res.ok_bind, hinner, if_true, cursor_idx, pure, ASSERT, hcc, decide_True, hchild,
      cursor_push_ok 2 ((id, 0) :: rest) c (by simpa using hlen)]
  rw [btree_delete_loop, h]
  rfl

theorem btree_delete_exit_root (tree : BTree) (k f : Nat) {X X1 : BEngine} {c jc : Nat}
    (hdel : node_delete X c = Res.ok X1) :
    btree_delete_exit tree (k + 1) f X ⟨2, [(c, jc)]⟩ c = Res.ok (X1, ⟨2, []⟩) := by
  unfold btree_delete_exit
  rw [cursor_goto_next_node_loop]
  simp only [delete_flag, if_true, hdel, Res.ok_bind, pure, cursor_pop, List.tail_cons,
    List.length_nil, beq_self_eq_true]
  rfl

theorem btree_delete_exit_next (tree : BTree) (k f : Nat) {X X1 X2 : BEngine}
    {c jc id j c1 : Nat} {rest : List (Nat × Nat)} {q : Page}
    (hdel : node_delete X c = Res.ok X1) (hq : X1.pages.get? id = some q)
    (hj : j + 1 ≤ q.node.cell_count) (h16 : q.node.cell_count + 1 < 65536)
    (hchild : node_get_child X1 id (j + 1) = Res.ok (X2, c1))
    (hlen : rest.length + 1 < MAX_BTREE_HEIGHT) :
    btree_delete_exit tree (k + 1) f X ⟨2, (c, jc) :: (id, j) :: rest⟩ c
      = btree_delete_loop tree f X2 ⟨2, (c1, 0) :: (id, j + 1) :: rest⟩ := by
  have hu : u16 (j + 1) = j + 1 := by
    unfold u16
    exact Nat.mod_eq_of_lt (by omega)
  unfold btree_delete_exit
  rw [cursor_goto_next_node_loop]
  simp only [delete_flag, if_true, hdel, Res.ok_bind, pure, cursor_pop, List.tail_cons,
    List.length_cons, cursor_node_deref, engine_node_of_get? hq, cursor_idx, hu, hj,
    cursor_set_idx, hchild,
    cursor_push_ok 2 ((id, j + 1) :: rest) c1 (by simpa using hlen)]
  rfl

theorem btree_delete_exit_up (tree : BTree) (k f : Nat) {X X1 : BEngine}
    {c jc id j : Nat} {rest : List (Nat × Nat)} {q : Page}
    (hdel : node_delete X c = Res.ok X1) (hq : X1.pages.get? id = some q)
    (hj : j = q.node.cell_count) (h16 : q.node.cell_count + 1 < 65536) :
    btree_delete_exit tree (k + 1) f X ⟨2, (c, jc) :: (id, j) :: rest⟩ c
      = btree_delete_exit tree k f X1 ⟨2, (id, j) :: rest⟩ id := by
  have hu : u16 (j + 1) = j + 1 := by
    unfold u16
    exact Nat.mod_eq_of_lt (by omega)
  have hn : ¬ j + 1 ≤ q.node.cell_count := by omega
  unfold btree_delete_exit
  rw [cursor_goto_next_node_loop]
  simp only [delete_flag, if_true, hdel, Res.ok_bind, pure, cursor_pop, List.tail_cons,
    List.length_cons, cursor_node_deref, engine_node_of_get? hq, cursor_idx, hu, hn, if_false]
  rfl

theorem state_get? (E0 : BEngine) {D P : List Nat} {j : Nat} (hD : j ∉ D) (hP : j ∉ P) :
    (ref_nodes (free_nodes E0 D) P).pages.get? j = E0.pages.get? j :=
  (ref_nodes_get?_not_mem _ hP).trans (free_nodes_get?_not_mem _ hD)

theorem state_get?_top {E0 : BEngine} {D P : List Nat} {id : Nat} {p : Page}
    (hget : E0.pages.get? id = some p) (hD : id ∉ D) (hP : id ∉ P) :
    (ref_nodes (free_nodes E0 D) (id :: P)).pages.get? id
      = some { p with ref_count := 1, mutable_ref := true } :=
  ref_node_get?_eq ((state_get? E0 hD hP).trans hget)

theorem state_fields (E0 : BEngine) (D P : List Nat) :
    (ref_nodes (free_nodes E0 D) P).full_page_size = E0.full_page_size
      ∧ (ref_nodes (free_nodes E0 D) P).page_count = E0.page_count :=
  ⟨(ref_nodes_fields _ P).1.trans (free_nodes_fields E0 D).1,
    (ref_nodes_fields _ P).2.1.trans (free_nodes_fields E0 D).2⟩

theorem state_node_get_child {E0 : BEngine} {D P : List Nat} {id idx c : Nat} {p pc : Page}
    (hget : E0.pages.get? id = some p) (hidD : id ∉ D) (hidP : id ∉ P)
    (hleaf : node_is_leaf p.node = false) (hidx : idx ≤ p.node.cell_count)
    (hchild : child_of E0 p.node idx = Res.ok c)
    (hc : E0.pages.get? c = some pc) (h0 : c ≠ 0) (hcount : c < E0.page_count)
    (hrc : pc.ref_count = 0) (hmut : pc.mutable_ref = false)
    (hfree : hasFlag pc.node.flags F_NODE_IS_FREE = false)
    (hcD : c ∉ D) (hcP : c ∉ id :: P) :
    node_get_child (ref_nodes (free_nodes E0 D) (id :: P)) id idx
      = Res.ok (ref_nodes (free_nodes E0 D) (c :: id :: P), c) := by
  have hf := state_fields E0 D (id :: P)
  have hinner : node_is_inner ({ p with ref_count := 1, mutable_ref := true } : Page).node
      = true := by
    show node_is_inner p.node = true
    unfold node_is_inner
    unfold node_is_leaf at hleaf
    rw [hleaf]
    rfl
  exact node_get_child_unreferenced (state_get?_top hget hidD hidP) hinner hidx
    ((child_of_congr hf.1 _ _).trans hchild) ((state_get? E0 hcD hcP).trans hc) h0
    (by rw [hf.2]; exact hcount) hrc hmut hfree

theorem state_node_delete {E0 : BEngine} {D P : List Nat} {c : Nat} {pc : Page}
    (hc : E0.pages.get? c = some pc) (hcD : c ∉ D) (hcP : c ∉ P) :
    node_delete (ref_nodes (free_nodes E0 D) (c :: P)) c
      = Res.ok (ref_nodes (free_nodes E0 (D ++ [c])) P) := by
  have h := node_delete_referenced (Y := ref_nodes (free_nodes E0 D) P)
    ((state_get? E0 hcD hcP).trans hc)
  rw [free_node_ref_nodes _ hcP] at h
  rw [free_nodes_append]
  exact h

theorem nodup_append_left_of {α : Type} {a b : List α} (h : (a ++ b).Nodup) : a.Nodup :=
  (List.nodup_append.mp h).1

theorem not_mem_left_of_nodup_append {α : Type} {a b : List α} {x : α} (h : (a ++ b).Nodup)
    (hx : x ∈ b) : x ∉ a := fun ha => (List.nodup_append.mp h).2.2 ha hx

theorem siblings_deleted (E0 : BEngine) (tree : BTree) (d : Nat)
    (IH : Subtree_Deleted E0 tree d) (id : Nat) (p : Page)
    (hget : E0.pages.get? id = some p) (hleaf : node_is_leaf p.node = false)
    (h16 : p.node.cell_count + 1 < 65536)
    (hchildren : ∀ idx, idx ≤ p.node.cell_count →
      ∃ c, child_of E0 p.node idx = Res.ok c ∧ deletable E0 d c = true)
    (D P : List Nat) (rest : List (Nat × Nat))
    (hnd : (children_post_order E0 d p.node (p.node.cell_count + 1) ++ [id]).Nodup)
    (hout : ∀ x ∈ children_post_order E0 d p.node (p.node.cell_count + 1) ++ [id],
      x ∉ D ∧ x ∉ P)
    (hlen : rest.length + (d + 1) ≤ MAX_BTREE_HEIGHT) :
    ∀ (r j c : Nat), j + r = p.node.cell_count → child_of E0 p.node j = Res.ok c →
      ∃ K N, rest.length + 2 ≤ K
        ∧ N + (children_post_order E0 d p.node j).length
            = (children_post_order E0 d p.node (p.node.cell_count + 1)).length
        ∧ ∀ f,
          btree_delete_loop tree (N + f)
              (ref_nodes (free_nodes E0 (D ++ children_post_order E0 d p.node j))
                (c :: id :: P))
              ⟨2, (c, 0) :: (id, j) :: rest⟩
            = btree_delete_exit tree K f
                (ref_nodes (free_nodes E0
                  (D ++ children_post_order E0 d p.node (p.node.cell_count + 1))) (id :: P))
                ⟨2, (id, p.node.cell_count) :: rest⟩ id := by
  have hndall : (children_post_order E0 d p.node (p.node.cell_count + 1)).Nodup :=
    nodup_append_left_of hnd
  have hidout : id ∉ children_post_order E0 d p.node (p.node.cell_count + 1) :=
    not_mem_left_of_nodup_append hnd (List.mem_singleton.mpr rfl)
  have hidD : id ∉ D := (hout id (by simp)).1
  have hidP : id ∉ P := (hout id (by simp)).2
  -- facts about the child in slot `j`
  have hslot : ∀ j c, j ≤ p.node.cell_count → child_of E0 p.node j = Res.ok c →
      children_post_order E0 d p.node (j + 1)
          = children_post_order E0 d p.node j ++ post_order E0 d c
        ∧ (children_post_order E0 d p.node (j + 1)).Nodup
        ∧ (∀ x ∈ children_post_order E0 d p.node (j + 1),
            x ∈ children_post_order E0 d p.node (p.node.cell_count + 1)) := by
    intro j c hj hc
    have e := children_post_order_succ E0 d p.node j
    rw [hc] at e
    obtain ⟨s, hs⟩ := children_post_order_prefix E0 d p.node (j + 1) (p.node.cell_count - j)
    have e2 : j + 1 + (p.node.cell_count - j) = p.node.cell_count + 1 := by omega
    rw [e2] at hs
    refine ⟨e, ?_, ?_⟩
    · rw [hs] at hndall
      exact nodup_append_left_of hndall
    · intro x hx
      rw [hs]
      exact List.mem_append_left _ hx
  intro r
  induction r with
  | zero =>
    intro j c hj hc
    have hjcc : j = p.node.cell_count := by omega
    obtain ⟨e, hnd1, hsub⟩ := hslot j c (by omega) hc
    obtain ⟨c1, hc1, hdel⟩ := hchildren j (by omega)
    rw [hc] at hc1
    cases hc1
    obtain ⟨pre, hpre⟩ := post_order_last E0 d c
    have hndc : (post_order E0 d c).Nodup := by
      rw [e] at hnd1
      exact (List.nodup_append.mp hnd1).2.1
    have hcmem : ∀ x ∈ post_order E0 d c,
        x ∈ children_post_order E0 d p.node (p.node.cell_count + 1) := by
      intro x hx
      exact hsub x (by rw [e]; exact List.mem_append_right _ hx)
    have houtc : ∀ x ∈ post_order E0 d c,
        x ∉ D ++ children_post_order E0 d p.node j ∧ x ∉ id :: P := by
      intro x hx
      have hx1 := hcmem x hx
      have hx2 := hout x (List.mem_append_left _ hx1)
      refine ⟨?_, ?_⟩
      · rw [List.mem_append, not_or]
        refine ⟨hx2.1, ?_⟩
        rw [e] at hnd1
        exact not_mem_left_of_nodup_append hnd1 hx
      · rw [List.mem_cons, not_or]
        exact ⟨fun h => hidout (h ▸ hx1), hx2.2⟩
    obtain ⟨K, jc, hK, hrun⟩ := IH c (D ++ children_post_order E0 d p.node j) (id :: P)
      ((id, j) :: rest) hdel hndc houtc (by simp only [List.length_cons]; omega)
    -- the node `c` itself
    obtain ⟨d1, pc, _, hpc, _, _, _, _, _, _⟩ := deletable_cases hdel
    have hdrop : (post_order E0 d c).dropLast = pre := by
      rw [hpre, List.dropLast_concat]
    have hcD : c ∉ D ++ children_post_order E0 d p.node j ++ pre := by
      have hc0 := houtc c (mem_post_order_self E0 d c)
      rw [List.mem_append, not_or]
      refine ⟨hc0.1, ?_⟩
      rw [hpre] at hndc
      exact not_mem_left_of_nodup_append hndc (List.mem_singleton.mpr rfl)
    have hcP : c ∉ id :: P := (houtc c (mem_post_order_self E0 d c)).2
    have hdelete := state_node_delete (D := D ++ children_post_order E0 d p.node j ++ pre)
      (P := id :: P) hpc hcD hcP
    have hD1 : D ++ children_post_order E0 d p.node j ++ pre ++ [c]
        = D ++ children_post_order E0 d p.node (p.node.cell_count + 1) := by
      rw [← hjcc, e, hpre]
      simp only [List.append_assoc]
    rw [hD1] at hdelete
    have hid1 : id ∉ D ++ children_post_order E0 d p.node (p.node.cell_count + 1) := by
      rw [List.mem_append, not_or]
      exact ⟨hidD, hidout⟩
    have hq := state_get?_top hget hid1 hidP
    cases K with
    | zero => omega
    | succ k =>
      refine ⟨k, (post_order E0 d c).length, by simp only [List.length_cons] at hK; omega,
        ?_, ?_⟩
      · rw [← hjcc, e, List.length_append]
        omega
      · intro f
        rw [hrun f, hdrop, ← hjcc]
        rw [← hjcc] at hdelete hq
        exact btree_delete_exit_up tree k f hdelete hq hjcc h16
  | succ r ih =>
    intro j c hj hc
    have hjcc : j + 1 ≤ p.node.cell_count := by omega
    obtain ⟨e, hnd1, hsub⟩ := hslot j c (by omega) hc
    obtain ⟨c1, hc1, hdel⟩ := hchildren j (by omega)
    rw [hc] at hc1
    cases hc1
    obtain ⟨pre, hpre⟩ := post_order_last E0 d c
    have hndc : (post_order E0 d c).Nodup := by
      rw [e] at hnd1
      exact (List.nodup_append.mp hnd1).2.1
    have hcmem : ∀ x ∈ post_order E0 d c,
        x ∈ children_post_order E0 d p.node (p.node.cell_count + 1) := by
      intro x hx
      exact hsub x (by rw [e]; exact List.mem_append_right _ hx)
    have houtc : ∀ x ∈ post_order E0 d c,
        x ∉ D ++ children_post_order E0 d p.node j ∧ x ∉ id :: P := by
      intro x hx
      have hx1 := hcmem x hx
      have hx2 := hout x (List.mem_append_left _ hx1)
      refine ⟨?_, ?_⟩
      · rw [List.mem_append, not_or]
        refine ⟨hx2.1, ?_⟩
        rw [e] at hnd1
        exact not_mem_left_of_nodup_append hnd1 hx
      · rw [List.mem_cons, not_or]
        exact ⟨fun h => hidout (h ▸ hx1), hx2.2⟩
    obtain ⟨K, jc, hK, hrun⟩ := IH c (D ++ children_post_order E0 d p.node j) (id :: P)
      ((id, j) :: rest) hdel hndc houtc (by simp only [List.length_cons]; omega)
    obtain ⟨d1, pc, _, hpc, _, _, _, _, _, _⟩ := deletable_cases hdel
    have hdrop : (post_order E0 d c).dropLast = pre := by
      rw [hpre, List.dropLast_concat]
    have hcD : c ∉ D ++ children_post_order E0 d p.node j ++ pre := by
      have hc0 := houtc c (mem_post_order_self E0 d c)
      rw [List.mem_append, not_or]
      refine ⟨hc0.1, ?_⟩
      rw [hpre] at hndc
      exact not_mem_left_of_nodup_append hndc (List.mem_singleton.mpr rfl)
    have hcP : c ∉ id :: P := (houtc c (mem_post_order_self E0 d c)).2
    have hdelete := state_node_delete (D := D ++ children_post_order E0 d p.node j ++ pre)
      (P := id :: P) hpc hcD hcP
    have hD1 : D ++ children_post_order E0 d p.node j ++ pre ++ [c]
        = D ++ children_post_order E0 d p.node (j + 1) := by
      rw [e, hpre]
      simp only [List.append_assoc]
    rw [hD1] at hdelete
    have hid1 : id ∉ D ++ children_post_order E0 d p.node (j + 1) := by
      rw [List.mem_append, not_or]
      exact ⟨hidD, fun h => hidout (hsub id h)⟩
    have hq := state_get?_top hget hid1 hidP
    -- the next child
    obtain ⟨c2, hc2, hdel2⟩ := hchildren (j + 1) hjcc
    obtain ⟨e2, hnd2, hsub2⟩ := hslot (j + 1) c2 hjcc hc2
    obtain ⟨d2, pc2, _, hpc2, h0, hcount, hrc, hmut, hfree, _⟩ := deletable_cases hdel2
    have hc2mem : c2 ∈ children_post_order E0 d p.node (p.node.cell_count + 1) :=
      hsub2 c2 (by rw [e2]; exact List.mem_append_right _ (mem_post_order_self E0 d c2))
    have hc2D : c2 ∉ D ++ children_post_order E0 d p.node (j + 1) := by
      rw [List.mem_append, not_or]
      refine ⟨(hout c2 (List.mem_append_left _ hc2mem)).1, ?_⟩
      rw [e2] at hnd2
      exact not_mem_left_of_nodup_append hnd2 (mem_post_order_self E0 d c2)
    have hc2P : c2 ∉ id :: P := by
      rw [List.mem_cons, not_or]
      exact ⟨fun h => hidout (h ▸ hc2mem), (hout c2 (List.mem_append_left _ hc2mem)).2⟩
    have hchild := state_node_get_child hget hid1 hidP hleaf hjcc hc2 hpc2 h0 hcount hrc hmut
      hfree hc2D hc2P
    obtain ⟨K2, N2, hK2, hN2, hrun2⟩ := ih (j + 1) c2 (by omega) hc2
    cases K with
    | zero => omega
    | succ k =>
      refine ⟨K2, (post_order E0 d c).length + N2, hK2, ?_, ?_⟩
      · rw [e, List.length_append] at hN2
        omega
      · intro f
        rw [Nat.add_assoc, hrun (N2 + f), hdrop]
        rw [btree_delete_exit_next tree k (N2 + f) hdelete hq hjcc h16 hchild
          (by unfold MAX_BTREE_HEIGHT at hlen ⊢; omega)]
        exact hrun2 f

theorem subtree_deleted (E0 : BEngine) (tree : BTree) : ∀ d, Subtree_Deleted E0 tree d := by
  intro d
  induction d with
  | zero =>
    intro id D P rest hok
    rw [deletable] at hok
    cases hok
  | succ d ih =>
    intro id D P rest hok hnd hout hlen
    obtain ⟨d1, p, hd1, hget, h0, hcount, hrc, hmut, hfree, hshape⟩ := deletable_cases hok
    cases hd1
    have hidD : id ∉ D := (hout id (mem_post_order_self E0 _ id)).1
    have hidP : id ∉ P := (hout id (mem_post_order_self E0 _ id)).2
    have hq := state_get?_top hget hidD hidP
    rcases hshape with hleaf | ⟨hleaf, hcc, h16, hchildren⟩
    · -- a leaf
      have hpost := post_order_leaf d hget hleaf
      refine ⟨MAX_BTREE_HEIGHT + 1, 0, by unfold MAX_BTREE_HEIGHT at hlen ⊢; omega, ?_⟩
      intro f
      rw [hpost]
      show btree_delete_loop tree (1 + f) _ _ = _
      rw [Nat.add_comm 1 f, List.dropLast_single, List.append_nil]
      exact btree_delete_loop_leaf tree f hq hleaf
    · -- an inner node
      have hpost := post_order_inner d hget hleaf
      rw [hpost] at hnd hout
      obtain ⟨c, hc, hdel⟩ := hchildren 0 (Nat.zero_le _)
      obtain ⟨K, N, hK, hN, hrun⟩ := siblings_deleted E0 tree d ih id p hget hleaf h16
        hchildren D P rest hnd hout hlen p.node.cell_count 0 c (by omega) hc
      have hpre0 : children_post_order E0 d p.node 0 = [] := rfl
      rw [hpre0, List.append_nil] at hrun
      rw [hpre0, List.length_nil, Nat.add_zero] at hN
      -- the first child
      obtain ⟨d2, pc, _, hpc, hc0, hccount, hcrc, hcmut, hcfree, _⟩ := deletable_cases hdel
      have hidout : id ∉ children_post_order E0 d p.node (p.node.cell_count + 1) :=
        not_mem_left_of_nodup_append hnd (List.mem_singleton.mpr rfl)
      have hcmem : c ∈ children_post_order E0 d p.node (p.node.cell_count + 1) := by
        obtain ⟨s, hs⟩ := children_post_order_prefix E0 d p.node 1 p.node.cell_count
        rw [Nat.add_comm 1] at hs
        rw [hs]
        apply List.mem_append_left
        rw [children_post_order_succ, hpre0, hc, List.nil_append]
        exact mem_post_order_self E0 d c
      have hcD : c ∉ D := (hout c (List.mem_append_left _ hcmem)).1
      have hcP : c ∉ id :: P := by
        rw [List.mem_cons, not_or]
        exact ⟨fun h => hidout (h ▸ hcmem), (hout c (List.mem_append_left _ hcmem)).2⟩
      have hchild := state_node_get_child hget hidD hidP hleaf (Nat.zero_le _) hc hpc hc0
        hccount hcrc hcmut hcfree hcD hcP
      refine ⟨K, p.node.cell_count, hK, ?_⟩
      intro f
      rw [hpost, List.length_append, List.length_singleton, List.dropLast_concat, ← hN]
      have e : N + 1 + f = (N + f) + 1 := by omega
      rw [e, btree_delete_loop_inner tree (N + f) hq hleaf hcc hchild
        (by unfold MAX_BTREE_HEIGHT at hlen ⊢; omega)]
      exact hrun f

theorem btree_delete_eq (E : BEngine) (tree : BTree) (fuel : Nat)
    (hok : deletable E MAX_BTREE_HEIGHT tree.root = true)
    (hnd : (post_order E MAX_BTREE_HEIGHT tree.root).Nodup)
    (hfuel : (post_order E MAX_BTREE_HEIGHT tree.root).length < fuel) :
    btree_delete fuel E tree
      = Res.ok (free_nodes E (post_order E MAX_BTREE_HEIGHT tree.root)) := by
  obtain ⟨d1, p, _, hget, h0, hcount, hrc, hmut, hfree, _⟩ := deletable_cases hok
  obtain ⟨K, j, hK, hrun⟩ := subtree_deleted E tree MAX_BTREE_HEIGHT tree.root [] [] [] hok hnd
    (fun x _ => ⟨List.not_mem_nil x, List.not_mem_nil x⟩) (by simp)
  obtain ⟨pre, hpre⟩ := post_order_last E MAX_BTREE_HEIGHT tree.root
  have hroot := node_from_page_id_unreferenced hget h0 hcount hrc hmut hfree
  have hfirst : cursor_goto_next_node E tree ⟨2, []⟩
      = Res.ok (ref_node E tree.root, ⟨2, [(tree.root, 0)]⟩, true) := by
    unfold cursor_goto_next_node
    simp only [cursor_node, List.head?_nil, Option.map_none', hroot, Res.ok_bind,
      cursor_push_ok 2 [] tree.root (by decide), pure]
  have hrootD : tree.root ∉ [] ++ pre := by
    rw [List.nil_append]
    rw [hpre] at hnd
    exact not_mem_left_of_nodup_append hnd (List.mem_singleton.mpr rfl)
  have hdelete := @state_node_delete E ([] ++ pre) [] _ _ hget hrootD
    (List.not_mem_nil _)
  obtain ⟨f, hf⟩ : ∃ f, fuel = ((post_order E MAX_BTREE_HEIGHT tree.root).length + f) + 1 :=
    ⟨fuel - (post_order E MAX_BTREE_HEIGHT tree.root).length - 1, by omega⟩
  have hloop : btree_delete_loop tree fuel E ⟨2, []⟩
      = Res.ok (free_nodes E (post_order E MAX_BTREE_HEIGHT tree.root), ⟨2, []⟩) := by
    rw [hf, btree_delete_loop, hfirst]
    simp only [Res.ok_bind, if_true]
    have h1 := hrun f
    simp only [List.length_nil, Nat.zero_add] at hK
    show btree_delete_loop tree ((post_order E MAX_BTREE_HEIGHT tree.root).length + f)
      (ref_nodes (free_nodes E []) [tree.root]) ⟨2, [(tree.root, 0)]⟩ = _
    rw [h1]
    have hdrop : (post_order E MAX_BTREE_HEIGHT tree.root).dropLast = pre := by
      rw [hpre, List.dropLast_concat]
    rw [hdrop]
    cases K with
    | zero => omega
    | succ k =>
      rw [btree_delete_exit_root tree k f hdelete, hpre]
      rfl
  unfold btree_delete
  show (btree_delete_loop tree fuel E ⟨2, []⟩ >>= fun r => bcursor_close r.1 r.2) = _
  rw [hloop]
  rfl

theorem deletable_all {E : BEngine} : ∀ {d id : Nat}, deletable E d id = true →
    ∀ x ∈ post_order E d id, ∃ p, E.pages.get? x = some p ∧ x ≠ 0 ∧ x < E.page_count
      ∧ p.ref_count = 0 ∧ p.mutable_ref = false
      ∧ hasFlag p.node.flags F_NODE_IS_FREE = false := by
  intro d
  induction d with
  | zero =>
    intro id hok
    rw [deletable] at hok
    cases hok
  | succ d ih =>
    intro id hok x hx
    obtain ⟨d1, p, hd1, hget, h0, hcount, hrc, hmut, hfree, hshape⟩ := deletable_cases hok
    cases hd1
    rcases hshape with hleaf | ⟨hleaf, hcc, h16, hchildren⟩
    · rw [post_order_leaf d hget hleaf, List.mem_singleton] at hx
      subst hx
      exact ⟨p, hget, h0, hcount, hrc, hmut, hfree⟩
    · rw [post_order_inner d hget hleaf, List.mem_append, List.mem_singleton] at hx
      rcases hx with hx | hx
      · unfold children_post_order at hx
        rw [List.mem_flatten] at hx
        obtain ⟨l, hl, hxl⟩ := hx
        rw [List.mem_map] at hl
        obtain ⟨idx, hidx, rfl⟩ := hl
        rw [List.mem_range] at hidx
        obtain ⟨c, hc, hdel⟩ := hchildren idx (by omega)
        rw [hc] at hxl
        exact ih hdel x hxl
      · subst hx
        exact ⟨p, hget, h0, hcount, hrc, hmut, hfree⟩

theorem delete_nodes_eq (E : BEngine) : ∀ (S D : List Nat), (D ++ S).Nodup →
    (∀ x ∈ S, ∃ p, E.pages.get? x = some p ∧ x ≠ 0 ∧ x < E.page_count
      ∧ p.ref_count = 0 ∧ p.mutable_ref = false
      ∧ hasFlag p.node.flags F_NODE_IS_FREE = false) →
    delete_nodes S (free_nodes E D) = Res.ok (free_nodes E (D ++ S)) := by
  intro S
  induction S with
  | nil =>
    intro D _ _
    rw [List.append_nil]
    rfl
  | cons x S ih =>
    intro D hnd hall
    obtain ⟨p, hget, h0, hcount, hrc, hmut, hfree⟩ := hall x (List.mem_cons_self _ _)
    have hxD : x ∉ D := not_mem_left_of_nodup_append hnd (List.mem_cons_self _ _)
    have hg : (free_nodes E D).pages.get? x = some p :=
      (free_nodes_get?_not_mem E hxD).trans hget
    have h1 := node_from_page_id_unreferenced hg h0
      (by rw [(free_nodes_fields E D).2]; exact hcount) hrc hmut hfree
    have h2 := node_delete_referenced hg
    have e : D ++ x :: S = (D ++ [x]) ++ S := by simp
    rw [delete_nodes, h1, Res.ok_bind, h2, Res.ok_bind, e]
    have h3 : free_node (free_nodes E D) x = free_nodes E (D ++ [x]) := by
      rw [free_nodes_append]
      rfl
    rw [h3]
    exact ih (D ++ [x]) (by rw [← e]; exact hnd)
      (fun y hy => hall y (List.mem_cons_of_mem _ hy))

theorem hasFlag_setFlag_free (flags : Nat) :
    hasFlag (setFlag flags F_NODE_IS_FREE) F_NODE_IS_FREE = true := by
  unfold setFlag
  split
  · assumption
  · rename_i h
    unfold hasFlag F_NODE_IS_FREE at h ⊢
    simp only [beq_iff_eq] at h ⊢
    omega

theorem free_list_congr {Y Y1 : BEngine} (hf : Y1.full_page_size = Y.full_page_size) :
    ∀ (k s : Nat), (∀ y ∈ free_list Y k s, Y1.pages.get? y = Y.pages.get? y) →
      free_list Y1 k s = free_list Y k s := by
  intro k
  induction k with
  | zero =>
    intro s _
    rfl
  | succ k ih =>
    intro s hp
    by_cases hs : (s == 0) = true
    · rw [free_list, free_list, if_pos hs, if_pos hs]
    · rw [free_list, if_neg hs] at hp
      rw [free_list, free_list, if_neg hs, if_neg hs]
      unfold BEngine.page at hp ⊢
      cases hg : Y.pages.get? s with
      | none =>
        rw [hg] at hp
        have := hp s (by simp)
        rw [this, hg]
      | some p =>
        rw [hg] at hp
        have h1 := hp s (List.mem_cons_self _ _)
        rw [h1, hg]
        simp only []
        rw [hf, ih _ (fun y hy => hp y (List.mem_cons_of_mem _ hy))]

theorem free_node_get?_eq {Y : BEngine} {x : Nat} {p : Page} (h : Y.pages.get? x = some p) :
    (free_node Y x).pages.get? x
      = some ⟨{ p.node with flags := setFlag p.node.flags F_NODE_IS_FREE,
                            buf := wr p.node.buf (Y.full_page_size - 4) 4 Y.free_page },
          0, true⟩ := by
  unfold free_node
  rw [h]
  exact list_get?_set_eq _ h

theorem free_node_free_page {Y : BEngine} {x : Nat} {p : Page} (h : Y.pages.get? x = some p) :
    (free_node Y x).free_page = x := by
  unfold free_node
  rw [h]

theorem free_list_free_nodes (E : BEngine) (k : Nat) (hfree : E.free_page < 2 ^ 32) :
    ∀ (S : List Nat), S.Nodup →
      (∀ x ∈ S, x ≠ 0 ∧ x < 2 ^ 32 ∧ ∃ p, E.pages.get? x = some p) →
      (∀ x ∈ free_list E k E.free_page, x ∉ S) →
      free_list (free_nodes E S) (S.length + k) (free_nodes E S).free_page
          = S.reverse ++ free_list E k E.free_page
        ∧ (free_nodes E S).free_page < 2 ^ 32 := by
  intro S
  induction S using List.reverseRecOn with
  | nil =>
    intro _ _ _
    exact ⟨by simp [free_nodes], hfree⟩
  | append_singleton S x ih =>
    intro hnd hall hold
    have hndS : S.Nodup := nodup_append_left_of hnd
    have hxS : x ∉ S := not_mem_left_of_nodup_append hnd (List.mem_singleton.mpr rfl)
    obtain ⟨ih1, ih2⟩ := ih hndS (fun y hy => hall y (List.mem_append_left _ hy))
      (fun y hy hyS => hold y hy (List.mem_append_left _ hyS))
    obtain ⟨hx0, hx32, p, hp⟩ := hall x (List.mem_append_right _ (List.mem_singleton.mpr rfl))
    have hg : (free_nodes E S).pages.get? x = some p :=
      (free_nodes_get?_not_mem E hxS).trans hp
    have hfn : free_nodes E (S ++ [x]) = free_node (free_nodes E S) x := by
      rw [free_nodes_append]
      rfl
    have hfp := free_node_free_page hg
    have hpage := free_node_get?_eq hg
    have hfull := (free_node_fields (free_nodes E S) x).1
    refine ⟨?_, by rw [hfn, hfp]; exact hx32⟩
    rw [hfn, hfp, List.length_append, List.length_singleton, List.reverse_append,
      List.reverse_singleton, List.singleton_append, List.cons_append]
    have e : S.length + 1 + k = (S.length + k) + 1 := by omega
    rw [e, free_list]
    have hx0b : (x == 0) = false := by simpa using hx0
    rw [hx0b]
    simp only [Bool.false_eq_true, if_false, BEngine.page, hpage]
    rw [hfull, rd_wr_same, Nat.mod_eq_of_lt (by simpa using ih2)]
    congr 1
    rw [← ih1]
    apply free_list_congr hfull
    intro y hy
    rw [ih1] at hy
    have hyx : x ≠ y := by
      intro h
      subst h
      rw [List.mem_append, List.mem_reverse] at hy
      rcases hy with hy | hy
      · exact hxS hy
      · exact hold x hy (List.mem_append_right _ (List.mem_singleton.mpr rfl))
    exact free_node_get?_ne _ hyx

theorem free_nodes_pages (E : BEngine) : ∀ (S : List Nat), S.Nodup →
    (∀ x ∈ S, ∃ p, E.pages.get? x = some p) →
    ∀ x ∈ S, ∃ p, (free_nodes E S).pages.get? x = some p ∧ p.ref_count = 0
      ∧ hasFlag p.node.flags F_NODE_IS_FREE = true := by
  intro S
  induction S using List.reverseRecOn with
  | nil =>
    intro _ _ x hx
    cases hx
  | append_singleton S y ih =>
    intro hnd hall x hx
    have hndS : S.Nodup := nodup_append_left_of hnd
    have hyS : y ∉ S := not_mem_left_of_nodup_append hnd (List.mem_singleton.mpr rfl)
    have hfn : free_nodes E (S ++ [y]) = free_node (free_nodes E S) y := by
      rw [free_nodes_append]
      rfl
    rw [hfn]
    by_cases hxy : y = x
    · subst hxy
      obtain ⟨p, hp⟩ := hall y (List.mem_append_right _ (List.mem_singleton.mpr rfl))
      have hg : (free_nodes E S).pages.get? y = some p :=
        (free_nodes_get?_not_mem E hyS).trans hp
      exact ⟨_, free_node_get?_eq hg, rfl, hasFlag_setFlag_free _⟩
    · rw [free_node_get?_ne _ hxy]
      rw [List.mem_append, List.mem_singleton] at hx
      rcases hx with hx | hx
      · exact ih hndS (fun z hz => hall z (List.mem_append_left _ hz)) x hx
      · exact absurd hx.symm hxy

/-! ### Lemmas about the length field of a serialised row -/

theorem serialize_row_length_congr (cols : List Type_Column) (row : List Db_Value) :
    ∀ (idx len L : Nat) (body : List Nat),
      serialize_row_length cols idx len row = Res.ok L →
      serialize_row_body cols idx row = Res.ok body →
      L % 2 ^ 32 = (len + body.length) % 2 ^ 32 ∧ (len < 2 ^ 32 → L < 2 ^ 32) := by
  induction row with
  | nil =>
    intro idx len L body hl hb
    simp only [serialize_row_length, serialize_row_body, Res.pure_eq_ok] at hl hb
    subst hl; subst hb; simp
  | cons v vs ih =>
    intro idx len L body hl hb
    unfold serialize_row_length at hl
    unfold serialize_row_body at hb
    by_cases hnull : v.is_null = true
    · simp only [hnull, if_true, Res.bind_eq_ok, Res.pure_eq_ok] at hl hb
      obtain ⟨tail, ht, rfl⟩ := hb
      obtain ⟨h1, h2⟩ := ih _ _ _ _ hl ht
      simp only [List.length_cons]
      unfold u32 at h1 h2
      refine ⟨?_, fun hlt => ?_⟩ <;> omega
    · simp only [hnull, typer_get_col_type, if_false] at hl hb
      cases hc : cols.get? idx with
      | none => rw [hc] at hl; simp at hl
      | some c =>
        rw [hc] at hl hb
        simp only at hl hb
        cases hf : c.field <;> rw [hf] at hl hb <;>
          simp only [Res.bind_eq_ok, Res.pure_eq_ok, Bool.false_eq_true, if_false] at hl hb
        all_goals first
          | (obtain ⟨tail, ht, rfl⟩ := hb
             obtain ⟨h1, h2⟩ := ih _ _ _ _ hl ht
             simp only [List.length_cons, List.length_append, natToBytes_length]
             unfold u32 at h1 h2
             refine ⟨?_, fun hlt => ?_⟩ <;> omega)
          | (simp at hl)

theorem bytesToNat_natToBytes_append (n x : Nat) (rest : List Nat) :
    bytesToNat (natToBytes n x ++ rest) = x % 256 ^ n + 256 ^ n * bytesToNat rest := by
  induction n generalizing x with
  | zero => simp [natToBytes, Nat.mod_one]
  | succ k ih =>
    have h : x % 256 ^ (k + 1) = x % 256 + 256 * (x / 256 % 256 ^ k) := by
      rw [pow_succ, Nat.mul_comm, Nat.mod_mul]
    show bytesToNat (x % 256 :: (natToBytes k (x / 256) ++ rest)) = _
    rw [bytesToNat, ih, Nat.mod_mod, h, pow_succ]
    ring

theorem serialize_row_length_ok (cols : List Type_Column) (row : List Db_Value) :
    ∀ (idx len : Nat), row_has_type (cols.drop idx) row = true →
      ∃ L, serialize_row_length cols idx len row = Res.ok L := by
  induction row with
  | nil => intro idx len _; exact ⟨len, by simp [serialize_row_length, pure]⟩
  | cons v vs ih =>
    intro idx len h
    cases hd : cols.drop idx with
    | nil => rw [hd] at h; simp [row_has_type] at h
    | cons c cs =>
      obtain ⟨hget, hdrop⟩ := drop_eq_cons hd
      rw [hd] at h
      simp only [row_has_type, Bool.and_eq_true] at h
      obtain ⟨hv, hrest⟩ := h
      rw [← hdrop] at hrest
      unfold serialize_row_length
      by_cases hnull : v.is_null = true
      · simp only [hnull, if_true]
        exact ih (idx + 1) _ hrest
      · simp only [hnull, typer_get_col_type, hget]
        simp only [Bool.not_eq_true] at hnull
        rcases c with ⟨nn, field⟩
        rcases v with ⟨isn, val⟩
        simp only at hnull
        subst hnull
        cases field <;> cases val <;> simp [value_has_type] at hv <;>
          simp only [Bool.false_eq_true, if_false] <;> exact ih (idx + 1) _ hrest

theorem round_trip_of_wrapping_row (cols : List Type_Column) (row : List Db_Value)
    (htype : row_has_type cols row = true) (hsize : 2 ^ 32 ≤ row_size row) :
    round_trip cols row
      = if row_size row % 2 ^ 32 = 0 then Res.assertFail else Res.fault := by
  obtain ⟨L, hl⟩ := serialize_row_length_ok cols row 0 4 (by simpa using htype)
  obtain ⟨body, hb, hblen, _⟩ := serialize_row_body_round_trip cols row 0 (by simpa using htype)
  obtain ⟨hc, hL⟩ := serialize_row_length_congr cols row 0 4 L body hl hb
  replace hL := hL (by norm_num)
  unfold row_size at hsize ⊢
  rw [hblen] at hc
  have hLeq : L = (4 + (row.map value_size).sum) % 2 ^ 32 := by
    rw [← hc]; exact (Nat.mod_eq_of_lt hL).symm
  unfold round_trip serialize_row
  simp only [hl, Res.ok_bind]
  by_cases h0 : (4 + (row.map value_size).sum) % 2 ^ 32 = 0
  · have hz : L = 0 := by rw [hLeq, h0]
    simp only [hz, MEM_ALLOC, h0, if_true]
    rfl
  · have hz : L ≠ 0 := by rw [hLeq]; exact h0
    have hlen : ¬ ((natToBytes 4 L ++ body).length ≤ L) := by
      simp only [List.length_append, natToBytes_length, hblen]
      omega
    simp only [MEM_ALLOC, hz, h0, if_false, Res.ok_bind, hb, inBounds, hlen, decide_False,
      Bool.false_eq_true]
    rfl

theorem round_trip_of_ten_integers_and_a_long_text (s : List Nat)
    (hs : s.length = 4294967206) :
    row_has_type (List.replicate 10 ⟨false, .TYPE_INT⟩ ++ [⟨false, .TYPE_TEXT⟩])
        (List.replicate 10 ⟨false, .integer 1⟩ ++ [⟨false, .string s⟩]) = true
      ∧ row_size (List.replicate 10 ⟨false, .integer 1⟩ ++ [⟨false, .string s⟩]) = 2 ^ 32 + 9
      ∧ round_trip (List.replicate 10 ⟨false, .TYPE_INT⟩ ++ [⟨false, .TYPE_TEXT⟩])
          (List.replicate 10 ⟨false, .integer 1⟩ ++ [⟨false, .string s⟩]) = Res.fault := by
  have htype : row_has_type (List.replicate 10 ⟨false, .TYPE_INT⟩ ++ [⟨false, .TYPE_TEXT⟩])
      (List.replicate 10 ⟨false, .integer 1⟩ ++ [⟨false, .string s⟩]) = true := by
    simp only [List.replicate, List.cons_append, List.nil_append, row_has_type, value_has_type,
      Bool.and_true, Bool.false_or, Bool.true_and, decide_eq_true_eq, Bool.and_eq_true]
    refine ⟨by decide, by decide, by decide, by decide, by decide, by decide, by decide,
      by decide, by decide, by decide, ?_⟩
    omega
  have hsz : row_size (List.replicate 10 ⟨false, .integer 1⟩ ++ [⟨false, .string s⟩])
      = 2 ^ 32 + 9 := by
    simp only [row_size, List.replicate, List.cons_append, List.nil_append, List.map_cons,
      List.map_nil, List.sum_cons, List.sum_nil, value_size, Bool.false_eq_true, if_false, hs]
    norm_num
  refine ⟨htype, hsz, ?_⟩
  rw [round_trip_of_wrapping_row _ _ htype (by rw [hsz]; omega), hsz]
  rfl

/-! ### Lemmas about the root page of a tree and the rule of the file -/

theorem Node_Writes_refl (ids : List Nat) (E : BEngine) : Node_Writes ids E E :=
  ⟨rfl, rfl, rfl, rfl, fun _ => ⟨fun _ => rfl, fun p hp => ⟨p.node, hp⟩⟩⟩

theorem Node_Writes_trans {ids : List Nat} {E E1 E2 : BEngine}
    (h1 : Node_Writes ids E E1) (h2 : Node_Writes ids E1 E2) : Node_Writes ids E E2 := by
  obtain ⟨a1, b1, c1, d1, e1⟩ := h1
  obtain ⟨a2, b2, c2, d2, e2⟩ := h2
  refine ⟨a2.trans a1, b2.trans b1, c2.trans c1, d2.trans d1, fun j => ⟨fun hj => ?_, fun p hp => ?_⟩⟩
  · rw [(e2 j).1 hj, (e1 j).1 hj]
  · obtain ⟨n, hn⟩ := (e1 j).2 p hp
    obtain ⟨m, hm⟩ := (e2 j).2 _ hn
    exact ⟨m, hm⟩

theorem Node_Writes_mono {ids ids1 : List Nat} {E E1 : BEngine}
    (h : Node_Writes ids E E1) (hs : ∀ x ∈ ids, x ∈ ids1) : Node_Writes ids1 E E1 := by
  obtain ⟨a1, b1, c1, d1, e1⟩ := h
  exact ⟨a1, b1, c1, d1, fun j => ⟨fun hj => (e1 j).1 (fun hc => hj (hs j hc)), (e1 j).2⟩⟩

theorem engine_page_eq_ok {E : BEngine} {id : Nat} {p : Page} (h : E.page id = Res.ok p) :
    E.pages.get? id = some p := by
  unfold BEngine.page at h
  split at h
  · rename_i q hq
    cases h
    exact hq
  · cases h

theorem setPage_get?_ne (E : BEngine) {id j : Nat} (q : Page) (h : id ≠ j) :
    (E.setPage id q).pages.get? j = E.pages.get? j :=
  list_get?_set_ne _ _ h

theorem setPage_get?_eq {E : BEngine} {id : Nat} {p : Page} (q : Page)
    (h : E.pages.get? id = some p) : (E.setPage id q).pages.get? id = some q :=
  list_get?_set_eq _ h

theorem setPage_length (E : BEngine) (id : Nat) (q : Page) :
    (E.setPage id q).pages.length = E.pages.length := by
  simp [BEngine.setPage]

theorem Node_Writes_setNode {E E1 : BEngine} {id : Nat} {n : Node} {ids : List Nat}
    (h : E.setNode id n = Res.ok E1) (hid : id ∈ ids) : Node_Writes ids E E1 := by
  unfold BEngine.setNode at h
  simp only [Res.bind_eq_ok, Res.pure_eq_ok] at h
  obtain ⟨p, hp, h⟩ := h
  subst h
  have hg := engine_page_eq_ok hp
  refine ⟨rfl, rfl, rfl, setPage_length _ _ _, fun j => ⟨fun hj => ?_, fun q hq => ?_⟩⟩
  · exact setPage_get?_ne E _ (fun hc => hj (hc ▸ hid))
  · by_cases hj : id = j
    · subst hj
      rw [hg] at hq
      cases hq
      exact ⟨n, setPage_get?_eq _ hg⟩
    · exact ⟨q.node, by rw [setPage_get?_ne E _ hj, hq]⟩

theorem free_list_not_held {E : BEngine} {root : Nat} (hr : File_Rule E root) {x : Nat}
    (hx : held E x) (k : Nat) : x ∉ free_list E k E.free_page := by
  intro hc
  obtain ⟨_, p, hp, h0, _⟩ := hr.free k x hc
  obtain ⟨q, hq, h1, _⟩ := hx
  rw [hp] at hq
  cases hq
  omega

/-- A change of one page that is not on the free list keeps the rule of the file. -/
theorem File_Rule_setPage {E : BEngine} {root c : Nat} {p : Page} (q : Page)
    (hr : File_Rule E root) (hget : E.pages.get? c = some p)
    (hq : q.ref_count = 0 ∨ (q.ref_count = 1 ∧ q.mutable_ref = true))
    (hc : ∀ k, c ∉ free_list E k E.free_page) : File_Rule (E.setPage c q) root := by
  have hfl : ∀ k, free_list (E.setPage c q) k E.free_page = free_list E k E.free_page :=
    fun k => @free_list_congr E (E.setPage c q) rfl k E.free_page (fun y hy =>
      setPage_get?_ne E q (fun (h : c = y) => hc k (by rw [h]; exact hy)))
  refine ⟨?_, ?_, hr.free_lt, ?_, ?_, ?_⟩
  · rw [setPage_length]; exact hr.count
  · rw [setPage_length]; exact hr.root_lt
  · intro j r hj
    by_cases hcj : c = j
    · subst hcj
      rw [setPage_get?_eq q hget] at hj
      cases hj
      exact hq
    · rw [setPage_get?_ne E q hcj] at hj
      exact hr.states j r hj
  · intro k
    have := hfl k
    simp only [BEngine.setPage] at this ⊢
    rw [this]
    exact hr.free_nodup k
  · intro k x hx
    have h1 := hfl k
    simp only [BEngine.setPage] at h1 hx ⊢
    rw [h1] at hx
    obtain ⟨h2, r, hr1, hr2⟩ := hr.free k x hx
    refine ⟨h2, r, ?_, hr2⟩
    have : c ≠ x := fun (h : c = x) => hc k (by rw [h]; exact hx)
    have h3 := setPage_get?_ne E q this
    simp only [BEngine.setPage] at h3
    rw [h3]
    exact hr1

theorem held_setPage_ne {E : BEngine} {c x : Nat} (q : Page) (h : c ≠ x) :
    held (E.setPage c q) x ↔ held E x := by
  unfold held
  rw [setPage_get?_ne E q h]

theorem Held_Pages_perm {E : BEngine} {root : Nat} {H H1 : List Nat} (hp : H.Perm H1)
    (h : Held_Pages E root H) : Held_Pages E root H1 := by
  rcases h with h | ⟨h1, h2, h3⟩
  · exact Or.inl h
  · exact Or.inr ⟨h1, hp.nodup_iff.mp h2, fun x hx => h3 x (hp.mem_iff.mpr hx)⟩

theorem Unfreed_refl (E : BEngine) : Unfreed E E := ⟨Nat.le_refl _, fun _ h => h⟩

theorem Unfreed_trans {E E1 E2 : BEngine} (h1 : Unfreed E E1) (h2 : Unfreed E1 E2) :
    Unfreed E E2 :=
  ⟨Nat.le_trans h1.1 h2.1, fun x hx => h2.2 x (h1.2 x hx)⟩

theorem held_unfreed {E : BEngine} {x : Nat} (h : held E x) : unfreed E x := by
  obtain ⟨p, hp, h1, _⟩ := h
  intro q hq hc
  rw [hp] at hq
  cases hq
  omega

theorem Unfreed_node_writes {E E1 : BEngine} {ids : List Nat} (hw : Node_Writes ids E E1) :
    Unfreed E E1 := by
  obtain ⟨a1, b1, c1, d1, e1⟩ := hw
  refine ⟨by omega, fun x hx q hq => ?_⟩
  have hlt : x < E.pages.length := by
    by_contra hc
    rw [List.get?_eq_none.mpr (by omega)] at hq
    cases hq
  obtain ⟨p, hp⟩ : ∃ p, E.pages.get? x = some p := by
    cases hg : E.pages.get? x with
    | none => rw [List.get?_eq_none] at hg; omega
    | some p => exact ⟨p, rfl⟩
  obtain ⟨n, hn⟩ := (e1 x).2 p hp
  rw [hn] at hq
  cases hq
  exact hx p hp

/-- Writes into pages that are not free keep the rule of the file. -/
theorem Held_Pages_node_writes_unfreed {E E1 : BEngine} {root : Nat} {ids H : List Nat}
    (hw : Node_Writes ids E E1) (hs : E.pages.length < 2 ^ 32 → ∀ x ∈ ids, unfreed E x)
    (h : Held_Pages E root H) : Held_Pages E1 root H := by
  obtain ⟨a1, b1, c1, d1, e1⟩ := hw
  rcases h with h | ⟨hr, h2, h3⟩
  · exact Or.inl (d1 ▸ h)
  · by_cases hov : 2 ^ 32 ≤ E.pages.length
    · exact Or.inl (d1 ▸ hov)
    have hs := hs (by omega)
    have hids : ∀ k, ∀ y ∈ free_list E k E.free_page, y ∉ ids := fun k y hy hc => by
      obtain ⟨_, p, hp, hp1⟩ := hr.free k y hy
      exact hs y hc p hp hp1
    have hfl : ∀ k, free_list E1 k E.free_page = free_list E k E.free_page :=
      fun k => @free_list_congr E E1 a1 k E.free_page (fun y hy => (e1 y).1 (hids k y hy))
    refine Or.inr ⟨⟨?_, ?_, ?_, ?_, ?_, ?_⟩, h2, ?_⟩
    · rw [b1, d1]; exact hr.count
    · rw [d1]; exact hr.root_lt
    · rw [c1]; exact hr.free_lt
    · intro j r hj
      have hlt : j < E.pages.length := by
        by_contra hc
        rw [List.get?_eq_none.mpr (by omega)] at hj
        cases hj
      obtain ⟨p, hp⟩ : ∃ p, E.pages.get? j = some p := by
        cases hg : E.pages.get? j with
        | none => rw [List.get?_eq_none] at hg; omega
        | some p => exact ⟨p, rfl⟩
      obtain ⟨n, hn⟩ := (e1 j).2 p hp
      rw [hn] at hj
      cases hj
      exact hr.states j p hp
    · intro k
      rw [c1, hfl]
      exact hr.free_nodup k
    · intro k x hx
      rw [c1, hfl] at hx
      obtain ⟨hx1, p, hp1, hp2⟩ := hr.free k x hx
      refine ⟨hx1, p, ?_, hp2⟩
      rw [(e1 x).1 (hids k x hx)]
      exact hp1
    · intro x hx
      obtain ⟨p, hp, hp1, hp2⟩ := h3 x hx
      obtain ⟨n, hn⟩ := (e1 x).2 p hp
      exact ⟨_, hn, hp1, hp2⟩

theorem Held_Pages_node_writes {E E1 : BEngine} {root : Nat} {ids H : List Nat}
    (hw : Node_Writes ids E E1) (hs : ∀ x ∈ ids, x ∈ H)
    (h : Held_Pages E root H) : Held_Pages E1 root H := by
  rcases h with h | ⟨hr, h2, h3⟩
  · exact Or.inl (hw.2.2.2.1 ▸ h)
  · exact Held_Pages_node_writes_unfreed hw (fun _ x hx => held_unfreed (h3 x (hs x hx)))
      (Or.inr ⟨hr, h2, h3⟩)

theorem get?_lt {α : Type} {l : List α} {j : Nat} {a : α} (h : l.get? j = some a) : j < l.length := by
  by_contra hc
  rw [List.get?_eq_none.mpr (by omega)] at h
  cases h

theorem held_lt {E : BEngine} {x : Nat} (h : held E x) : x < E.pages.length := by
  obtain ⟨p, hp, _⟩ := h
  exact get?_lt hp

theorem node_from_page_id_eq_ok {E E1 : BEngine} {c : Nat}
    (h : node_from_page_id E c = Res.ok E1) :
    ∃ p, E.pages.get? c = some p ∧ p.ref_count = 0 ∧ p.mutable_ref = false
      ∧ E1 = E.setPage c { p with ref_count := 1, mutable_ref := true } := by
  unfold node_from_page_id at h
  simp only [Res.bind_eq_ok] at h
  obtain ⟨r, hr, h⟩ := h
  cases r with
  | none => cases h
  | some E2 =>
    simp only [Res.bind_eq_ok, Res.pure_eq_ok] at h
    obtain ⟨n, _, _, _, h⟩ := h
    subst h
    unfold pager_get_page_mutable at hr
    simp only [Res.bind_eq_ok] at hr
    obtain ⟨_, _, _, _, p, hp, hr⟩ := hr
    split at hr
    · cases hr
    · rename_i hm
      split at hr
      · cases hr
      · rename_i hc
        simp only [Res.pure_eq_ok, Option.some.injEq] at hr
        refine ⟨p, engine_page_eq_ok hp, ?_, by simpa using hm, hr.symm⟩
        simp only [bne_iff_ne, ne_eq, not_not] at hc
        omega

theorem Held_Pages_node_from_page_id {E E1 : BEngine} {root c : Nat} {H : List Nat}
    (h : node_from_page_id E c = Res.ok E1) (hw : Held_Pages E root H) :
    Held_Pages E1 root (c :: H) := by
  obtain ⟨p, hp, hrc, hmut, rfl⟩ := node_from_page_id_eq_ok h
  rcases hw with hw | ⟨hr, h2, h3⟩
  · exact Or.inl (by rw [setPage_length]; exact hw)
  · have hc : ∀ k, c ∉ free_list E k E.free_page := by
      intro k hc
      obtain ⟨_, q, hq, _, hq2⟩ := hr.free k c hc
      rw [hp] at hq
      cases hq
      rw [hmut] at hq2
      cases hq2
    have hnh : c ∉ H := by
      intro hc
      obtain ⟨q, hq, hq1, _⟩ := h3 c hc
      rw [hp] at hq
      cases hq
      omega
    refine Or.inr ⟨File_Rule_setPage _ hr hp (Or.inr ⟨rfl, rfl⟩) hc, List.nodup_cons.mpr ⟨hnh, h2⟩, ?_⟩
    intro x hx
    rcases List.mem_cons.mp hx with rfl | hx
    · exact ⟨_, setPage_get?_eq _ hp, rfl, rfl⟩
    · exact (held_setPage_ne _ (fun (hc : c = x) => hnh (by rw [hc]; exact hx))).mpr (h3 x hx)

theorem pager_unref_page_eq_ok {E E1 : BEngine} {x : Nat} (h : pager_unref_page E x = Res.ok E1) :
    ∃ p, E.pages.get? x = some p ∧ 0 < p.ref_count
      ∧ E1 = E.setPage x { p with ref_count := p.ref_count - 1, mutable_ref := false } := by
  unfold pager_unref_page at h
  simp only [Res.bind_eq_ok, Res.pure_eq_ok, ASSERT_eq_ok, decide_eq_true_eq] at h
  obtain ⟨p, hp, _, hrc, h⟩ := h
  exact ⟨p, engine_page_eq_ok hp, hrc, h.symm⟩

theorem Held_Pages_unref_page {E E1 : BEngine} {root x : Nat} {H : List Nat}
    (h : pager_unref_page E x = Res.ok E1) (hw : Held_Pages E root (x :: H)) :
    Held_Pages E1 root H := by
  obtain ⟨p, hp, hrc, rfl⟩ := pager_unref_page_eq_ok h
  rcases hw with hw | ⟨hr, h2, h3⟩
  · exact Or.inl (by rw [setPage_length]; exact hw)
  · have hx := h3 x (List.mem_cons_self _ _)
    obtain ⟨hxH, h2⟩ := List.nodup_cons.mp h2
    obtain ⟨q, hq, hq1, _⟩ := id hx
    rw [hp] at hq
    cases hq
    refine Or.inr ⟨File_Rule_setPage _ hr hp (Or.inl (by simp [hq1])) (free_list_not_held hr hx), h2, ?_⟩
    intro y hy
    exact (held_setPage_ne _ (fun (hc : x = y) => hxH (by rw [hc]; exact hy))).mpr
      (h3 y (List.mem_cons_of_mem _ hy))

theorem Held_Pages_setNode {E E1 : BEngine} {root x : Nat} {n : Node} {H : List Nat}
    (h : E.setNode x n = Res.ok E1) (hx : x ∈ H) (hw : Held_Pages E root H) :
    Held_Pages E1 root H :=
  Held_Pages_node_writes (Node_Writes_setNode h (List.mem_singleton_self x))
    (fun y hy => by rw [List.mem_singleton.mp hy]; exact hx) hw

theorem Held_Pages_node_unref {E E1 : BEngine} {root x : Nat} {H : List Nat}
    (h : node_unref E x = Res.ok E1) (hw : Held_Pages E root (x :: H)) :
    Held_Pages E1 root H := by
  unfold node_unref at h
  simp only [Res.bind_eq_ok] at h
  obtain ⟨n, _, Ea, hset, h⟩ := h
  exact Held_Pages_unref_page h (Held_Pages_setNode hset (List.mem_cons_self _ _) hw)

theorem free_list_succ {E : BEngine} {k id : Nat} {p : Page} (h0 : id ≠ 0)
    (hp : E.pages.get? id = some p) :
    free_list E (k + 1) id = id :: free_list E k (rd p.node.buf (E.full_page_size - 4) 4) := by
  rw [free_list, if_neg (by simpa using h0), engine_page_of_get? hp]

theorem free_list_zero (E : BEngine) (k : Nat) : free_list E k 0 = [] := by
  cases k <;> simp [free_list]

theorem Held_Pages_alloc_page {E E1 : BEngine} {root id : Nat} {H : List Nat}
    (h : pager_alloc_page E = Res.ok (E1, id)) (hw : Held_Pages E root H) :
    Held_Pages E1 root (id :: H) := by
  unfold pager_alloc_page at h
  split at h
  · rename_i hfree
    simp only [Res.bind_eq_ok, Res.pure_eq_ok, Prod.mk.injEq] at h
    obtain ⟨p, hp, rfl, rfl⟩ := h
    have hg := engine_page_eq_ok hp
    rcases hw with hw | ⟨hr, h2, h3⟩
    · exact Or.inl (by simpa [BEngine.setPage] using hw)
    · have hnd := hr.free_nodup
      have hmem := hr.free
      have hnh : E.free_page ∉ H := by
        intro hc
        have := free_list_not_held hr (h3 _ hc) 1
        rw [free_list_succ hfree hg] at this
        simp at this
      have hfl : ∀ k, free_list
          { E.setPage E.free_page ⟨{ emptyNode with buf := p.node.buf }, 1, true⟩ with
            free_page := rd p.node.buf (E.full_page_size - 4) 4 } k
            (rd p.node.buf (E.full_page_size - 4) 4)
          = free_list E k (rd p.node.buf (E.full_page_size - 4) 4) := by
        intro k
        refine @free_list_congr E _ ?_ k _ (fun y hy => ?_)
        · rfl
        have h1 := hnd (k + 1)
        rw [free_list_succ hfree hg, List.nodup_cons] at h1
        exact setPage_get?_ne E _ (fun (hc : E.free_page = y) => h1.1 (by rw [hc]; exact hy))
      refine Or.inr ⟨⟨?_, ?_, ?_, ?_, ?_, ?_⟩, List.nodup_cons.mpr ⟨hnh, h2⟩, ?_⟩
      · show E.page_count = (E.setPage _ _).pages.length
        rw [setPage_length]; exact hr.count
      · show root < (E.setPage _ _).pages.length
        rw [setPage_length]; exact hr.root_lt
      · exact rd_lt _ _ 4
      · intro j r hj
        change (E.setPage _ _).pages.get? j = some r at hj
        by_cases hcj : E.free_page = j
        · subst hcj
          rw [setPage_get?_eq _ hg] at hj
          cases hj
          exact Or.inr ⟨rfl, rfl⟩
        · rw [setPage_get?_ne E _ hcj] at hj
          exact hr.states j r hj
      · intro k
        rw [hfl k]
        have h1 := hnd (k + 1)
        rw [free_list_succ hfree hg, List.nodup_cons] at h1
        exact h1.2
      · intro k x hx
        rw [hfl k] at hx
        have h1 := hnd (k + 1)
        rw [free_list_succ hfree hg, List.nodup_cons] at h1
        have h4 := hmem (k + 1) x (by rw [free_list_succ hfree hg]; exact List.mem_cons_of_mem _ hx)
        obtain ⟨h5, q, hq, hq2⟩ := h4
        refine ⟨h5, q, ?_, hq2⟩
        change (E.setPage _ _).pages.get? x = some q
        rw [setPage_get?_ne E _ (fun (hc : E.free_page = x) => h1.1 (by rw [hc]; exact hx))]
        exact hq
      · intro x hx
        rcases List.mem_cons.mp hx with rfl | hx
        · exact ⟨_, setPage_get?_eq _ hg, rfl, rfl⟩
        · have := (held_setPage_ne (E := E) ⟨{ emptyNode with buf := p.node.buf }, 1, true⟩
            (fun (hc : E.free_page = x) => hnh (by rw [hc]; exact hx))).mpr (h3 x hx)
          exact this
  · rename_i hfree
    simp only [ne_eq, not_not] at hfree
    simp only [Res.pure_eq_ok, Prod.mk.injEq, pure] at h
    have h := Res.ok.inj h
    simp only [Prod.mk.injEq] at h
    obtain ⟨rfl, rfl⟩ := h
    rcases hw with hw | ⟨hr, h2, h3⟩
    · exact Or.inl (by simp only [List.length_append]; omega)
    · by_cases hov : E.pages.length + 1 < 2 ^ 32
      · have hnh : E.page_count ∉ H := by
          intro hc
          have := held_lt (h3 _ hc)
          have := hr.count
          omega
        have hold : ∀ j q, E.pages.get? j = some q
            → (E.pages ++ [(⟨emptyNode, 1, true⟩ : Page)]).get? j = some q := by
          intro j q hq
          rw [List.get?_eq_getElem?, List.getElem?_append_left (get?_lt hq), ← List.get?_eq_getElem?]
          exact hq
        refine Or.inr ⟨⟨?_, ?_, ?_, ?_, ?_, ?_⟩, List.nodup_cons.mpr ⟨hnh, h2⟩, ?_⟩
        · show u32 (E.page_count + 1) = (E.pages ++ [_]).length
          have := hr.count
          simp only [List.length_append, List.length_singleton, u32]
          omega
        · show root < (E.pages ++ [_]).length
          have := hr.root_lt
          simp only [List.length_append, List.length_singleton]
          omega
        · exact hr.free_lt
        · intro j r hj
          change (E.pages ++ [_]).get? j = some r at hj
          by_cases hlt : j < E.pages.length
          · rw [List.get?_eq_getElem?, List.getElem?_append_left hlt, ← List.get?_eq_getElem?] at hj
            exact hr.states j r hj
          · have hj2 := get?_lt hj
            simp only [List.length_append, List.length_singleton] at hj2
            have : j = E.pages.length := by omega
            subst this
            simp at hj
            subst hj
            exact Or.inr ⟨rfl, rfl⟩
        · intro k
          show (free_list _ k E.free_page).Nodup
          rw [hfree, free_list_zero]
          exact List.nodup_nil
        · intro k x hx
          change x ∈ free_list _ k E.free_page at hx
          rw [hfree, free_list_zero] at hx
          cases hx
        · intro x hx
          rcases List.mem_cons.mp hx with rfl | hx
          · refine ⟨⟨emptyNode, 1, true⟩, ?_, rfl, rfl⟩
            show (E.pages ++ [_]).get? E.page_count = _
            rw [hr.count]
            simp
          · obtain ⟨q, hq, hq1, hq2⟩ := h3 x hx
            exact ⟨q, hold x q hq, hq1, hq2⟩
      · exact Or.inl (by simp only [List.length_append, List.length_singleton]; omega)

theorem Held_Pages_node_new {E E1 : BEngine} {root id flags : Nat} {H : List Nat}
    (h : node_new E flags = Res.ok (E1, id)) (hw : Held_Pages E root H) :
    Held_Pages E1 root (id :: H) := by
  unfold node_new at h
  simp only [Res.bind_eq_ok, Res.pure_eq_ok, Prod.mk.injEq] at h
  obtain ⟨⟨Ea, ida⟩, halloc, n, _, Eb, hset, rfl, rfl⟩ := h
  exact Held_Pages_setNode hset (List.mem_cons_self _ _) (Held_Pages_alloc_page halloc hw)

theorem pager_delete_page_eq_ok {E E1 : BEngine} {x : Nat}
    (h : pager_delete_page E x = Res.ok (E1, true)) :
    ∃ p, E.pages.get? x = some p ∧ p.ref_count = 1
      ∧ E1.full_page_size = E.full_page_size ∧ E1.page_count = E.page_count
      ∧ E1.free_page = x
      ∧ E1.pages = E.pages.set x { p with node := { p.node with
                  buf := wr p.node.buf (E.full_page_size - 4) 4 E.free_page }, ref_count := 0 } := by
  unfold pager_delete_page at h
  simp only [Res.bind_eq_ok] at h
  obtain ⟨p, hp, h⟩ := h
  split at h
  · simp only [Res.pure_eq_ok, Prod.mk.injEq] at h
    cases h.2
  · rename_i hrc
    simp only [bne_iff_ne, ne_eq, not_not] at hrc
    simp only [Res.pure_eq_ok, Prod.mk.injEq, and_true] at h
    subst h
    exact ⟨p, engine_page_eq_ok hp, hrc, rfl, rfl, rfl, rfl⟩

theorem Held_Pages_delete_page {E E1 : BEngine} {root x : Nat} {H : List Nat}
    (h : pager_delete_page E x = Res.ok (E1, true)) (hroot : root ∈ H)
    (hw : Held_Pages E root (x :: H)) : Held_Pages E1 root H := by
  obtain ⟨p, hp, hrc, hfps, hcount, hfree, hpages⟩ := pager_delete_page_eq_ok h
  have hlen : E1.pages.length = E.pages.length := by rw [hpages, List.length_set]
  have hne : ∀ y, x ≠ y → E1.pages.get? y = E.pages.get? y := by
    intro y hy
    rw [hpages]
    exact list_get?_set_ne _ _ hy
  have hgx : E1.pages.get? x = some { p with node := { p.node with
                  buf := wr p.node.buf (E.full_page_size - 4) 4 E.free_page }, ref_count := 0 } := by
    rw [hpages]
    exact list_get?_set_eq _ hp
  rcases hw with hw | ⟨hr, h2, h3⟩
  · exact Or.inl (by rw [hlen]; exact hw)
  · by_cases hov : 2 ^ 32 ≤ E.pages.length
    · exact Or.inl (by rw [hlen]; exact hov)
    · have hx := h3 x (List.mem_cons_self _ _)
      obtain ⟨hxH, h2⟩ := List.nodup_cons.mp h2
      have hroot : x ≠ root := fun hc => hxH (hc ▸ hroot)
      obtain ⟨q, hq, hq1, hq2⟩ := id hx
      rw [hp] at hq
      cases hq
      have hxl := get?_lt hp
      have hnot := free_list_not_held hr hx
      have hfl : ∀ k, free_list E1 k E.free_page = free_list E k E.free_page := by
        intro k
        refine @free_list_congr E E1 hfps k _ (fun y hy => ?_)
        exact hne y (fun (hc : x = y) => hnot k (by rw [hc]; exact hy))
      have hlist : ∀ k, x ≠ 0 → free_list E1 (k + 1) x = x :: free_list E k E.free_page := by
        intro k h0
        rw [free_list_succ h0 hgx, hfps]
        show x :: free_list _ k (rd (wr p.node.buf (E.full_page_size - 4) 4 E.free_page)
          (E.full_page_size - 4) 4) = _
        rw [rd_wr_same, Nat.mod_eq_of_lt (by have := hr.free_lt; omega), hfl]
      refine Or.inr ⟨⟨?_, ?_, ?_, ?_, ?_, ?_⟩, h2, ?_⟩
      · rw [hlen, hcount]; exact hr.count
      · rw [hlen]; exact hr.root_lt
      · rw [hfree]; omega
      · intro j r hj
        by_cases hcj : x = j
        · subst hcj
          rw [hgx] at hj
          cases hj
          exact Or.inl rfl
        · rw [hne j hcj] at hj
          exact hr.states j r hj
      · intro k
        rw [hfree]
        by_cases h0 : x = 0
        · rw [h0, free_list_zero]; exact List.nodup_nil
        · cases k with
          | zero => exact List.nodup_nil
          | succ k =>
            rw [hlist k h0]
            exact List.nodup_cons.mpr ⟨hnot k, hr.free_nodup k⟩
      · intro k y hy
        rw [hfree] at hy
        by_cases h0 : x = 0
        · rw [h0, free_list_zero] at hy; cases hy
        · cases k with
          | zero => cases hy
          | succ k =>
            rw [hlist k h0] at hy
            rcases List.mem_cons.mp hy with rfl | hy
            · exact ⟨hroot, _, hgx, rfl, hq2⟩
            · obtain ⟨h5, q, hq, hq3⟩ := hr.free k y hy
              refine ⟨h5, q, ?_, hq3⟩
              rw [hne y (fun (hc : x = y) => hnot k (by rw [hc]; exact hy))]
              exact hq
      · intro y hy
        obtain ⟨q, hq, hq3, hq4⟩ := h3 y (List.mem_cons_of_mem _ hy)
        refine ⟨q, ?_, hq3, hq4⟩
        rw [hne y (fun (hc : x = y) => hxH (by rw [hc]; exact hy))]
        exact hq

theorem Held_Pages_node_delete {E E1 : BEngine} {root x : Nat} {H : List Nat}
    (h : node_delete E x = Res.ok E1) (hroot : root ∈ H)
    (hw : Held_Pages E root (x :: H)) : Held_Pages E1 root H := by
  unfold node_delete at h
  simp only [Res.bind_eq_ok, Res.pure_eq_ok, ASSERT_eq_ok] at h
  obtain ⟨n, _, Ea, hset, ⟨Eb, s⟩, hdel, _, hs, rfl⟩ := h
  simp only at hs
  subst hs
  exact Held_Pages_delete_page hdel hroot (Held_Pages_setNode hset (List.mem_cons_self _ _) hw)

theorem Unfreed_setPage {E : BEngine} {c : Nat} (q : Page)
    (hq : ¬(q.ref_count = 0 ∧ q.mutable_ref = true)) : Unfreed E (E.setPage c q) := by
  refine ⟨by rw [setPage_length], fun x hx r hr => ?_⟩
  by_cases hc : c = x
  · subst hc
    have hlt := get?_lt hr
    rw [setPage_length] at hlt
    have : (E.setPage c q).pages.get? c = some q := by
      simp [BEngine.setPage, List.get?_eq_getElem?, List.getElem?_set_self, hlt]
    rw [this] at hr
    cases hr
    exact hq
  · rw [setPage_get?_ne E q hc] at hr
    exact hx r hr

theorem Unfreed_node_from_page_id {E E1 : BEngine} {c : Nat}
    (h : node_from_page_id E c = Res.ok E1) : Unfreed E E1 := by
  obtain ⟨p, hp, hrc, hmut, rfl⟩ := node_from_page_id_eq_ok h
  exact Unfreed_setPage _ (by simp)

theorem Unfreed_unref_page {E E1 : BEngine} {x : Nat}
    (h : pager_unref_page E x = Res.ok E1) : Unfreed E E1 := by
  obtain ⟨p, hp, hrc, rfl⟩ := pager_unref_page_eq_ok h
  exact Unfreed_setPage _ (by simp)

theorem Unfreed_setNode {E E1 : BEngine} {x : Nat} {n : Node}
    (h : E.setNode x n = Res.ok E1) : Unfreed E E1 :=
  Unfreed_node_writes (Node_Writes_setNode h (List.mem_singleton_self x))

theorem Unfreed_node_unref {E E1 : BEngine} {x : Nat}
    (h : node_unref E x = Res.ok E1) : Unfreed E E1 := by
  unfold node_unref at h
  simp only [Res.bind_eq_ok] at h
  obtain ⟨n, _, Ea, hset, h⟩ := h
  exact Unfreed_trans (Unfreed_setNode hset) (Unfreed_unref_page h)

theorem Unfreed_alloc_page {E E1 : BEngine} {id : Nat}
    (h : pager_alloc_page E = Res.ok (E1, id)) : Unfreed E E1 := by
  unfold pager_alloc_page at h
  split at h
  · simp only [Res.bind_eq_ok, Res.pure_eq_ok, Prod.mk.injEq] at h
    obtain ⟨p, hp, rfl, rfl⟩ := h
    exact @Unfreed_setPage E E.free_page ⟨{ emptyNode with buf := p.node.buf }, 1, true⟩ (by simp)
  · have h := Res.ok.inj h
    simp only [Prod.mk.injEq] at h
    obtain ⟨rfl, rfl⟩ := h
    refine ⟨by simp, fun x hx r hr => ?_⟩
    change (E.pages ++ [_]).get? x = some r at hr
    by_cases hlt : x < E.pages.length
    · rw [List.get?_eq_getElem?, List.getElem?_append_left hlt, ← List.get?_eq_getElem?] at hr
      exact hx r hr
    · have hj2 := get?_lt hr
      simp only [List.length_append, List.length_singleton] at hj2
      have : x = E.pages.length := by omega
      subst this
      simp at hr
      subst hr
      simp

theorem Unfreed_node_new {E E1 : BEngine} {id flags : Nat}
    (h : node_new E flags = Res.ok (E1, id)) : Unfreed E E1 := by
  unfold node_new at h
  simp only [Res.bind_eq_ok, Res.pure_eq_ok, Prod.mk.injEq] at h
  obtain ⟨⟨Ea, ida⟩, halloc, n, _, Eb, hset, rfl, rfl⟩ := h
  exact Unfreed_trans (Unfreed_alloc_page halloc) (Unfreed_setNode hset)

theorem Node_Writes_defragment_loop (tree : BTree) {id : Nat} {ids : List Nat} (hid : id ∈ ids) :
    ∀ (k idx : Nat) (E : BEngine) (offset scratch : Nat) (r : BEngine × Nat × Nat),
      node_defragment_loop tree id k idx E offset scratch = Res.ok r → Node_Writes ids E r.1 := by
  intro k
  induction k with
  | zero =>
    intro idx E offset scratch r h
    simp only [node_defragment_loop, Res.pure_eq_ok] at h
    subst h
    exact Node_Writes_refl _ _
  | succ k ih =>
    intro idx E offset scratch r h
    simp only [node_defragment_loop, Res.bind_eq_ok] at h
    obtain ⟨n, _, cell, _, cs, _, bytes, _, _, _, n1, _, E1, hset, h⟩ := h
    exact Node_Writes_trans (Node_Writes_setNode hset hid) (ih _ _ _ _ _ h)

theorem Node_Writes_defragment {E E1 : BEngine} {tree : BTree} {id : Nat} {ids : List Nat}
    (hid : id ∈ ids) (h : node_defragment E tree id = Res.ok E1) : Node_Writes ids E E1 := by
  unfold node_defragment at h
  simp only [Res.bind_eq_ok] at h
  obtain ⟨n, _, h⟩ := h
  split at h
  · simp only [Res.pure_eq_ok] at h
    subst h
    exact Node_Writes_refl _ _
  · simp only [Res.bind_eq_ok, Res.pure_eq_ok] at h
    obtain ⟨⟨Ea, offset, scratch⟩, hloop, n1, _, n2, _, _, _, E2, hset, _, _, rfl⟩ := h
    exact Node_Writes_trans (Node_Writes_defragment_loop tree hid _ _ _ _ _ _ hloop) (Node_Writes_setNode hset hid)

theorem Node_Writes_alloc_cell {E E1 : BEngine} {tree : BTree} {id size cell : Nat}
    {ids : List Nat} (hid : id ∈ ids)
    (h : node_alloc_cell E tree id size = Res.ok (E1, cell)) : Node_Writes ids E E1 := by
  unfold node_alloc_cell at h
  simp only [Res.bind_eq_ok] at h
  obtain ⟨n, _, _, _, h⟩ := h
  split at h <;> simp only [Res.bind_eq_ok, Res.pure_eq_ok, Prod.mk.injEq] at h
  · obtain ⟨Ea, hd, n1, _, E2, hset, rfl, _⟩ := h
    exact Node_Writes_trans (Node_Writes_defragment hid hd) (Node_Writes_setNode hset hid)
  · obtain ⟨Ea, hd, n1, _, E2, hset, rfl, _⟩ := h
    subst hd
    exact Node_Writes_setNode hset hid

theorem Node_Writes_add_cell_pointer {E E1 : BEngine} {id idx offset : Nat}
    {ids : List Nat} (hid : id ∈ ids)
    (h : node_add_cell_pointer E id idx offset = Res.ok E1) : Node_Writes ids E E1 := by
  unfold node_add_cell_pointer at h
  simp only [Res.bind_eq_ok] at h
  obtain ⟨n, _, _, _, _, _, n2, _, h⟩ := h
  exact Node_Writes_setNode h hid

theorem Node_Writes_add_cell {E E1 : BEngine} {tree : BTree} {id idx size cell : Nat}
    {ids : List Nat} (hid : id ∈ ids)
    (h : node_add_cell E tree id idx size = Res.ok (E1, cell)) : Node_Writes ids E E1 := by
  unfold node_add_cell at h
  simp only [Res.bind_eq_ok, Res.pure_eq_ok, Prod.mk.injEq] at h
  obtain ⟨⟨Ea, c⟩, h1, E2, h2, rfl, _⟩ := h
  exact Node_Writes_trans (Node_Writes_alloc_cell hid h1) (Node_Writes_add_cell_pointer hid h2)

theorem Node_Writes_delete_cell {E E1 : BEngine} {tree : BTree} {id idx : Nat}
    {ids : List Nat} (hid : id ∈ ids)
    (h : node_delete_cell E tree id idx = Res.ok E1) : Node_Writes ids E E1 := by
  unfold node_delete_cell at h
  simp only [Res.bind_eq_ok, Res.pure_eq_ok] at h
  obtain ⟨n, _, cell, _, size, _, _, _, Ea, hset, _, _, rfl⟩ := h
  exact Node_Writes_setNode hset hid

theorem Node_Writes_add_inner_cell {E E1 : BEngine} {tree : BTree} {id idx child : Nat}
    {key : Key} {ids : List Nat} (hid : id ∈ ids)
    (h : node_add_inner_cell E tree id idx key child = Res.ok E1) : Node_Writes ids E E1 := by
  unfold node_add_inner_cell at h
  simp only [Res.bind_eq_ok, Res.pure_eq_ok] at h
  obtain ⟨n, _, _, _, ks, _, ⟨Ea, c⟩, h1, n1, _, n2, _, E2, hs2, kb, _, n3, _, E3, hs3, E4, h4,
    _, _, rfl⟩ := h
  exact Node_Writes_trans (Node_Writes_alloc_cell hid h1) (Node_Writes_trans (Node_Writes_setNode hs2 hid)
    (Node_Writes_trans (Node_Writes_setNode hs3 hid) (Node_Writes_add_cell_pointer hid h4)))

theorem Node_Writes_move_cells_left_loop (tree : BTree) {left right n : Nat} {ids : List Nat}
    (hl : left ∈ ids) (hr : right ∈ ids) :
    ∀ (k idx : Nat) (E : BEngine) (a : Nat) (E1 : BEngine),
      node_move_cells_left_loop tree left right n k idx E a = Res.ok E1 → Node_Writes ids E E1 := by
  intro k
  induction k with
  | zero =>
    intro idx E a E1 h
    simp only [node_move_cells_left_loop, Res.pure_eq_ok] at h
    subst h
    exact Node_Writes_refl _ _
  | succ k ih =>
    intro idx E a E1 h
    simp only [node_move_cells_left_loop, Res.bind_eq_ok] at h
    obtain ⟨r, _, cell, _, h⟩ := h
    split at h
    · simp only [Res.pure_eq_ok] at h
      subst h
      exact Node_Writes_refl _ _
    · simp only [Res.bind_eq_ok] at h
      obtain ⟨cs, _, ⟨Ea, lc⟩, h1, r1, _, bytes, _, l1, _, l2, _, l3, _, E2, hs2, r2, _, E3, hs3, h⟩ := h
      exact Node_Writes_trans (Node_Writes_alloc_cell hl h1) (Node_Writes_trans (Node_Writes_setNode hs2 hl)
        (Node_Writes_trans (Node_Writes_setNode hs3 hr) (ih _ _ _ _ h)))

theorem Node_Writes_move_cells_left {E E1 : BEngine} {tree : BTree} {left right n : Nat}
    {ids : List Nat} (hl : left ∈ ids) (hr : right ∈ ids)
    (h : node_move_cells_left E tree left right n = Res.ok E1) : Node_Writes ids E E1 := by
  unfold node_move_cells_left at h
  simp only [Res.bind_eq_ok] at h
  obtain ⟨r, _, l, _, _, _, h⟩ := h
  split at h
  · simp only [Res.pure_eq_ok] at h
    subst h
    exact Node_Writes_refl _ _
  · simp only [Res.bind_eq_ok, Res.pure_eq_ok] at h
    obtain ⟨Ea, hloop, r1, _, _, _, _, _, E2, hs2, l1, _, E3, hs3, r3, _, E4, hs4, _, _, _, _, rfl⟩ := h
    exact Node_Writes_trans (Node_Writes_move_cells_left_loop tree hl hr _ _ _ _ _ hloop)
      (Node_Writes_trans (Node_Writes_setNode hs2 hr) (Node_Writes_trans (Node_Writes_setNode hs3 hl)
        (Node_Writes_setNode hs4 hr)))

theorem Node_Writes_move_cells_right_loop (tree : BTree) {left right : Nat} {ids : List Nat}
    (hl : left ∈ ids) (hr : right ∈ ids) :
    ∀ (k idx : Nat) (E : BEngine) (a : Nat) (E1 : BEngine),
      node_move_cells_right_loop tree left right k idx E a = Res.ok E1 → Node_Writes ids E E1 := by
  intro k
  induction k with
  | zero =>
    intro idx E a E1 h
    simp only [node_move_cells_right_loop, Res.pure_eq_ok] at h
    subst h
    exact Node_Writes_refl _ _
  | succ k ih =>
    intro idx E a E1 h
    simp only [node_move_cells_right_loop, Res.bind_eq_ok] at h
    obtain ⟨l, _, cell, _, cs, _, ⟨Ea, rc⟩, h1, l1, _, bytes, _, r1, _, r2, _, r3, _, E2, hs2,
      l2, _, E3, hs3, h⟩ := h
    exact Node_Writes_trans (Node_Writes_alloc_cell hr h1) (Node_Writes_trans (Node_Writes_setNode hs2 hr)
      (Node_Writes_trans (Node_Writes_setNode hs3 hl) (ih _ _ _ _ h)))

theorem Node_Writes_move_cells_right {E E1 : BEngine} {tree : BTree} {left right n : Nat}
    {ids : List Nat} (hl : left ∈ ids) (hr : right ∈ ids)
    (h : node_move_cells_right E tree left right n = Res.ok E1) : Node_Writes ids E E1 := by
  unfold node_move_cells_right at h
  simp only [Res.bind_eq_ok] at h
  obtain ⟨l, _, r, _, _, _, h⟩ := h
  split at h
  · simp only [Res.pure_eq_ok] at h
    subst h
    exact Node_Writes_refl _ _
  · simp only [Res.bind_eq_ok, Res.pure_eq_ok] at h
    obtain ⟨Ea, hloop, l1, _, E2, hs2, l2, _, r2, _, moved, _, l3, _, old, _, r3, _, tmp, _,
      r4, _, E3, hs3, E4, hs4, _, _, _, _, rfl⟩ := h
    exact Node_Writes_trans (Node_Writes_move_cells_right_loop tree hl hr _ _ _ _ _ hloop)
      (Node_Writes_trans (Node_Writes_setNode hs2 hl) (Node_Writes_trans (Node_Writes_setNode hs3 hl)
        (Node_Writes_setNode hs4 hr)))

theorem Node_Writes_node_copy {E E1 : BEngine} {dst src : Nat} {ids : List Nat}
    (hd : dst ∈ ids) (h : node_copy E dst src = Res.ok E1) : Node_Writes ids E E1 := by
  unfold node_copy at h
  simp only [Res.bind_eq_ok] at h
  obtain ⟨f, _, t, _, h⟩ := h
  exact Node_Writes_setNode h hd

theorem root_last_cons {root : Nat} {P : List (Nat × Nat)} (a : Nat × Nat)
    (h : root_last root P) : root_last root (a :: P) := by
  obtain ⟨i, hi⟩ := h
  cases P with
  | nil => cases hi
  | cons b P => exact ⟨i, by rw [List.getLast?_cons_cons]; exact hi⟩

theorem root_last_tail {root : Nat} {a b : Nat × Nat} {P : List (Nat × Nat)}
    (h : root_last root (a :: b :: P)) : root_last root (b :: P) := by
  obtain ⟨i, hi⟩ := h
  exact ⟨i, by rw [List.getLast?_cons_cons] at hi; exact hi⟩

theorem root_last_idx {root id i : Nat} (j : Nat) {P : List (Nat × Nat)}
    (h : root_last root ((id, i) :: P)) : root_last root ((id, j) :: P) := by
  cases P with
  | nil =>
    obtain ⟨k, hk⟩ := h
    simp only [List.getLast?_singleton, Option.some.injEq, Prod.mk.injEq] at hk
    exact ⟨j, by simp [hk.1]⟩
  | cons b P => exact root_last_cons _ (root_last_tail h)

theorem root_last_mem {root : Nat} {P : List (Nat × Nat)} (h : root_last root P) :
    root ∈ P.map Prod.fst := by
  obtain ⟨i, hi⟩ := h
  exact List.mem_map.mpr ⟨(root, i), List.mem_of_getLast?_eq_some hi, rfl⟩

theorem cursor_node_deref_eq_ok {C : BCursor} {id : Nat} (h : cursor_node_deref C = Res.ok id) :
    ∃ i rest, C.path = (id, i) :: rest := by
  unfold cursor_node_deref at h
  split at h
  · rename_i a i rest hp
    simp only [Res.pure_eq_ok] at h
    exact ⟨i, rest, by rw [hp, h]⟩
  · cases h

theorem cursor_idx_eq_ok {C : BCursor} {idx : Nat} (h : cursor_idx C = Res.ok idx) :
    ∃ id rest, C.path = (id, idx) :: rest := by
  unfold cursor_idx at h
  split at h
  · rename_i a i rest hp
    simp only [Res.pure_eq_ok] at h
    exact ⟨a, rest, by rw [hp, h]⟩
  · cases h

theorem cursor_prev_cell_eq_ok {C C1 : BCursor} (h : cursor_prev_cell C = Res.ok C1) :
    ∃ id i rest, C.path = (id, i) :: rest ∧ C1.path = (id, sub16 i 1) :: rest := by
  unfold cursor_prev_cell at h
  split at h
  · rename_i a i rest hp
    simp only [Res.pure_eq_ok] at h
    subst h
    exact ⟨a, i, rest, hp, rfl⟩
  · cases h

theorem cursor_next_cell_eq_ok {C C1 : BCursor} (h : cursor_next_cell C = Res.ok C1) :
    ∃ id i rest, C.path = (id, i) :: rest ∧ C1.path = (id, u16 (i + 1)) :: rest := by
  unfold cursor_next_cell at h
  split at h
  · rename_i a i rest hp
    simp only [Res.pure_eq_ok] at h
    subst h
    exact ⟨a, i, rest, hp, rfl⟩
  · cases h

theorem cursor_set_idx_eq_ok {C C1 : BCursor} {idx : Nat} (h : cursor_set_idx C idx = Res.ok C1) :
    ∃ id i rest, C.path = (id, i) :: rest ∧ C1.path = (id, u16 idx) :: rest := by
  unfold cursor_set_idx at h
  split at h
  · rename_i a i rest hp
    simp only [Res.pure_eq_ok] at h
    subst h
    exact ⟨a, i, rest, hp, rfl⟩
  · cases h

theorem cursor_set_node_eq_ok {C C1 : BCursor} {node : Nat}
    (h : cursor_set_node C node = Res.ok C1) :
    ∃ id i rest, C.path = (id, i) :: rest ∧ C1.path = (node, i) :: rest := by
  unfold cursor_set_node at h
  split at h
  · rename_i a i rest hp
    simp only [Res.pure_eq_ok] at h
    subst h
    exact ⟨a, i, rest, hp, rfl⟩
  · cases h

theorem cursor_pop_get_eq_ok {C C1 : BCursor} {node idx : Nat}
    (h : cursor_pop_get C = Res.ok (C1, node, idx)) :
    C.path = (node, idx) :: C1.path := by
  unfold cursor_pop_get at h
  split at h
  · rename_i a i rest hp
    simp only [Res.pure_eq_ok, Prod.mk.injEq] at h
    obtain ⟨rfl, rfl, rfl⟩ := h
    exact hp
  · cases h

theorem cursor_push_eq_ok {C C1 : BCursor} {node idx : Nat}
    (h : cursor_push C node idx = Res.ok C1) : C1.path = (node, u16 idx) :: C.path := by
  unfold cursor_push at h
  simp only [Res.bind_eq_ok, Res.pure_eq_ok] at h
  obtain ⟨_, _, rfl⟩ := h
  rfl

theorem Held_Pages_get_child {E E1 : BEngine} {root id idx c : Nat} {H : List Nat}
    (h : node_get_child E id idx = Res.ok (E1, c)) (hw : Held_Pages E root H) :
    Held_Pages E1 root (c :: H) := by
  unfold node_get_child at h
  simp only [Res.bind_eq_ok] at h
  obtain ⟨n, _, _, _, _, _, h⟩ := h
  split at h <;> simp only [Res.bind_eq_ok, Res.pure_eq_ok, Prod.mk.injEq] at h
  · obtain ⟨cell, _, child, _, Ea, h1, rfl, rfl⟩ := h
    exact Held_Pages_node_from_page_id h1 hw
  · obtain ⟨Ea, h1, rfl, rfl⟩ := h
    exact Held_Pages_node_from_page_id h1 hw

theorem Held_Pages_left_sibling {E E1 : BEngine} {root : Nat} {C : BCursor} {o : Option Nat}
    {H : List Nat} (h : cursor_try_get_left_sibling E C = Res.ok (E1, o))
    (hw : Held_Pages E root H) :
    Held_Pages E1 root (o.toList ++ H) ∧ (o ≠ none → ∃ a b rest, C.path = a :: b :: rest) := by
  unfold cursor_try_get_left_sibling at h
  split at h
  · rename_i a parent idx rest hp
    split at h
    · simp only [Res.pure_eq_ok, Prod.mk.injEq] at h
      obtain ⟨rfl, rfl⟩ := h
      exact ⟨hw, fun hc => (hc rfl).elim⟩
    · simp only [Res.bind_eq_ok, Res.pure_eq_ok, Prod.mk.injEq] at h
      obtain ⟨⟨Ea, c⟩, h1, rfl, rfl⟩ := h
      exact ⟨Held_Pages_get_child h1 hw, fun _ => ⟨_, _, _, hp⟩⟩
  · simp only [Res.pure_eq_ok, Prod.mk.injEq] at h
    obtain ⟨rfl, rfl⟩ := h
    exact ⟨hw, fun hc => (hc rfl).elim⟩

theorem Held_Pages_right_sibling {E E1 : BEngine} {root : Nat} {C : BCursor} {o : Option Nat}
    {H : List Nat} (h : cursor_try_get_right_sibling E C = Res.ok (E1, o))
    (hw : Held_Pages E root H) :
    Held_Pages E1 root (o.toList ++ H) ∧ (o ≠ none → ∃ a b rest, C.path = a :: b :: rest) := by
  unfold cursor_try_get_right_sibling at h
  split at h
  · rename_i a parent idx rest hp
    simp only [Res.bind_eq_ok] at h
    obtain ⟨p, _, h⟩ := h
    split at h
    · simp only [Res.pure_eq_ok, Prod.mk.injEq] at h
      obtain ⟨rfl, rfl⟩ := h
      exact ⟨hw, fun hc => (hc rfl).elim⟩
    · simp only [Res.bind_eq_ok, Res.pure_eq_ok, Prod.mk.injEq] at h
      obtain ⟨⟨Ea, c⟩, h1, rfl, rfl⟩ := h
      exact ⟨Held_Pages_get_child h1 hw, fun _ => ⟨_, _, _, hp⟩⟩
  · simp only [Res.pure_eq_ok, Prod.mk.injEq] at h
    obtain ⟨rfl, rfl⟩ := h
    exact ⟨hw, fun hc => (hc rfl).elim⟩

theorem Held_Pages_unref_opt {E E1 : BEngine} {root : Nat} {o : Option Nat} {H : List Nat}
    (h : node_unref_opt E o = Res.ok E1) (hw : Held_Pages E root (o.toList ++ H)) :
    Held_Pages E1 root H := by
  cases o with
  | none =>
    simp only [node_unref_opt, Res.pure_eq_ok] at h
    subst h
    exact hw
  | some x => exact Held_Pages_node_unref h hw

theorem Held_Pages_pop_unref {E E1 : BEngine} {root : Nat} {C C1 : BCursor} {T : List Nat}
    (h : cursor_pop_unref E C = Res.ok (E1, C1))
    (hw : Held_Pages E root (C.path.map Prod.fst ++ T)) :
    Held_Pages E1 root (C1.path.map Prod.fst ++ T) ∧ C1.path = C.path.tail := by
  unfold cursor_pop_unref at h
  split at h
  · rename_i id i rest hp
    simp only [Res.bind_eq_ok, Res.pure_eq_ok, Prod.mk.injEq] at h
    obtain ⟨Ea, h1, rfl, rfl⟩ := h
    rw [hp] at hw
    exact ⟨Held_Pages_node_unref h1 hw, by rw [hp]; rfl⟩
  · rename_i hp
    simp only [Res.pure_eq_ok, Prod.mk.injEq] at h
    obtain ⟨rfl, rfl⟩ := h
    exact ⟨hw, by rw [hp]; rfl⟩

theorem Held_Pages_reset_loop {root : Nat} {T : List Nat} (flags : Nat) :
    ∀ (P : List (Nat × Nat)) (E E1 : BEngine) (C1 : BCursor),
      bcursor_reset_loop E flags P = Res.ok (E1, C1) →
      Held_Pages E root (P.map Prod.fst ++ T) → Held_Pages E1 root T ∧ C1.path = [] := by
  intro P
  induction P with
  | nil =>
    intro E E1 C1 h hw
    simp only [bcursor_reset_loop, Res.pure_eq_ok, Prod.mk.injEq] at h
    obtain ⟨rfl, rfl⟩ := h
    exact ⟨hw, rfl⟩
  | cons a P ih =>
    intro E E1 C1 h hw
    obtain ⟨id, i⟩ := a
    simp only [bcursor_reset_loop, Res.bind_eq_ok] at h
    obtain ⟨Ea, h1, h⟩ := h
    exact ih _ _ _ h (Held_Pages_node_unref h1 hw)

theorem Held_Pages_drop {E : BEngine} {root : Nat} {H H1 : List Nat}
    (hs : H1.Subperm H) (h : Held_Pages E root H) : Held_Pages E root H1 := by
  rcases h with h | ⟨h1, h2, h3⟩
  · exact Or.inl h
  · obtain ⟨l, hl, hsub⟩ := id hs
    exact Or.inr ⟨h1, hl.nodup_iff.mp (h2.sublist hsub), fun x hx => h3 x (hs.subset hx)⟩

theorem Unfreed_get_child {E E1 : BEngine} {id idx c : Nat}
    (h : node_get_child E id idx = Res.ok (E1, c)) : Unfreed E E1 := by
  unfold node_get_child at h
  simp only [Res.bind_eq_ok] at h
  obtain ⟨n, _, _, _, _, _, h⟩ := h
  split at h <;> simp only [Res.bind_eq_ok, Res.pure_eq_ok, Prod.mk.injEq] at h
  · obtain ⟨cell, _, child, _, Ea, h1, rfl, rfl⟩ := h
    exact Unfreed_node_from_page_id h1
  · obtain ⟨Ea, h1, rfl, rfl⟩ := h
    exact Unfreed_node_from_page_id h1

theorem Unfreed_left_sibling {E E1 : BEngine} {C : BCursor} {o : Option Nat}
    (h : cursor_try_get_left_sibling E C = Res.ok (E1, o)) : Unfreed E E1 := by
  unfold cursor_try_get_left_sibling at h
  split at h
  · split at h
    · simp only [Res.pure_eq_ok, Prod.mk.injEq] at h
      obtain ⟨rfl, rfl⟩ := h
      exact Unfreed_refl _
    · simp only [Res.bind_eq_ok, Res.pure_eq_ok, Prod.mk.injEq] at h
      obtain ⟨⟨Ea, c⟩, h1, rfl, rfl⟩ := h
      exact Unfreed_get_child h1
  · simp only [Res.pure_eq_ok, Prod.mk.injEq] at h
    obtain ⟨rfl, rfl⟩ := h
    exact Unfreed_refl _

theorem Unfreed_right_sibling {E E1 : BEngine} {C : BCursor} {o : Option Nat}
    (h : cursor_try_get_right_sibling E C = Res.ok (E1, o)) : Unfreed E E1 := by
  unfold cursor_try_get_right_sibling at h
  split at h
  · simp only [Res.bind_eq_ok] at h
    obtain ⟨p, _, h⟩ := h
    split at h
    · simp only [Res.pure_eq_ok, Prod.mk.injEq] at h
      obtain ⟨rfl, rfl⟩ := h
      exact Unfreed_refl _
    · simp only [Res.bind_eq_ok, Res.pure_eq_ok, Prod.mk.injEq] at h
      obtain ⟨⟨Ea, c⟩, h1, rfl, rfl⟩ := h
      exact Unfreed_get_child h1
  · simp only [Res.pure_eq_ok, Prod.mk.injEq] at h
    obtain ⟨rfl, rfl⟩ := h
    exact Unfreed_refl _

theorem Unfreed_unref_opt {E E1 : BEngine} {o : Option Nat}
    (h : node_unref_opt E o = Res.ok E1) : Unfreed E E1 := by
  cases o with
  | none =>
    simp only [node_unref_opt, Res.pure_eq_ok] at h
    subst h
    exact Unfreed_refl _
  | some x => exact Unfreed_node_unref h

theorem Keeps_writes {root : Nat} {T : List Nat} {E E1 : BEngine} {C : BCursor} {ids : List Nat}
    (hw : Node_Writes ids E E1) (hs : ∀ x ∈ ids, x ∈ C.path.map Prod.fst ++ T) :
    Keeps root T E C E1 C :=
  fun h hl => ⟨Held_Pages_node_writes hw hs h, hl, Unfreed_node_writes hw⟩

theorem Keeps_trans {root : Nat} {T : List Nat} {E E1 E2 : BEngine} {C C1 C2 : BCursor}
    (h1 : Keeps root T E C E1 C1) (h2 : Keeps root T E1 C1 E2 C2) : Keeps root T E C E2 C2 :=
  fun h hl => ⟨(h2 (h1 h hl).1 (h1 h hl).2.1).1, (h2 (h1 h hl).1 (h1 h hl).2.1).2.1,
    Unfreed_trans (h1 h hl).2.2 (h2 (h1 h hl).1 (h1 h hl).2.1).2.2⟩

theorem Keeps_refl (root : Nat) (T : List Nat) (E : BEngine) (C : BCursor) : Keeps root T E C E C :=
  fun h hl => ⟨h, hl, Unfreed_refl _⟩

theorem deref_mem {C : BCursor} {id : Nat} {T : List Nat} (h : cursor_node_deref C = Res.ok id) :
    id ∈ C.path.map Prod.fst ++ T := by
  obtain ⟨i, rest, hp⟩ := cursor_node_deref_eq_ok h
  rw [hp]
  simp

theorem copy_key_step {root k : Nat} (ih : Spec_ensure root k) : Spec_copy root (k + 1) := by
  intro E tree C key E1 C1 T h
  rw [copy_key_into_inner_cell] at h
  simp only [Res.bind_eq_ok] at h
  obtain ⟨idx, _, id, hid, n, _, cell, _, cs, _, ks, _, _, _, h⟩ := h
  split at h <;> simp only [Res.bind_eq_ok, Res.pure_eq_ok, Prod.mk.injEq] at h
  · obtain ⟨child, _, Ea, hdel, ⟨Eb, Cb⟩, hens, id2, hid2, idx2, _, E3, hadd, rfl, rfl⟩ := h
    refine Keeps_trans (Keeps_writes (Node_Writes_delete_cell (List.mem_singleton_self _) hdel) ?_)
      (Keeps_trans (ih _ _ _ _ _ _ T hens)
        (Keeps_writes (Node_Writes_add_inner_cell (List.mem_singleton_self _) hadd) ?_))
    · intro x hx
      rw [List.mem_singleton.mp hx]
      exact deref_mem hid
    · intro x hx
      rw [List.mem_singleton.mp hx]
      exact deref_mem hid2
  · obtain ⟨kb, _, n1, _, Ea, hset, _, _, rfl, rfl⟩ := h
    refine Keeps_writes (Node_Writes_setNode hset (List.mem_singleton_self _)) ?_
    intro x hx
    rw [List.mem_singleton.mp hx]
    exact deref_mem hid

theorem ensure_tail {root k : Nat} (ih3 : Spec_split root k) (ih4 : Spec_ensure root k)
    {E4 E5 E6 : BEngine} {tree : BTree} {C4 C5 : BCursor} {left right : Option Nat}
    {node idx1 : Nat} {rotated : Bool} {size : Nat} {E1 : BEngine} {C1 : BCursor} {T : List Nat}
    (h5 : node_unref_opt E4 left = Res.ok E5) (h6 : node_unref_opt E5 right = Res.ok E6)
    (h7 : cursor_push C4 node idx1 = Res.ok C5)
    (h : (if !rotated then (do
            let y ← split_node k E6 tree C5
            node_ensure_cell_space k y.1 tree y.2 size)
          else (do
            let y ← (pure (E6, C5) : Res (BEngine × BCursor))
            node_ensure_cell_space k y.1 tree y.2 size)) = Res.ok (E1, C1))
    (hw : Held_Pages E4 root (C4.path.map Prod.fst ++ (right.toList ++ (left.toList ++ node :: T))))
    (hl : ∀ i, root_last root ((node, i) :: C4.path)) :
    Held_Pages E1 root (C1.path.map Prod.fst ++ T) ∧ root_last root C1.path ∧ Unfreed E4 E1 := by
  have hp5 := cursor_push_eq_ok h7
  have hu6 : Unfreed E4 E6 := Unfreed_trans (Unfreed_unref_opt h5) (Unfreed_unref_opt h6)
  have hw5 : Held_Pages E5 root (right.toList ++ (node :: (C4.path.map Prod.fst ++ T))) :=
    Held_Pages_unref_opt h5 (Held_Pages_perm (List.perm_iff_count.mpr (fun a => by
      simp only [List.count_append, List.count_cons]; omega)) hw)
  have hw6 : Held_Pages E6 root (C5.path.map Prod.fst ++ T) := by
    rw [hp5]
    exact Held_Pages_unref_opt h6 hw5
  have hl5 : root_last root C5.path := by rw [hp5]; exact hl _
  split at h <;> simp only [Res.bind_eq_ok, Res.pure_eq_ok] at h
  · obtain ⟨⟨E7, C7⟩, hs, h⟩ := h
    obtain ⟨a1, a2, a3⟩ := ih3 _ _ _ _ _ T hs hw6 hl5
    obtain ⟨b1, b2, b3⟩ := ih4 _ _ _ _ _ _ T h a1 a2
    exact ⟨b1, b2, Unfreed_trans hu6 (Unfreed_trans a3 b3)⟩
  · obtain ⟨⟨E7, C7⟩, hs, h⟩ := h
    cases hs
    obtain ⟨b1, b2, b3⟩ := ih4 _ _ _ _ _ _ T h hw6 hl5
    exact ⟨b1, b2, Unfreed_trans hu6 b3⟩

theorem Keeps_prev_cell {root : Nat} {T : List Nat} {E : BEngine} {C C1 : BCursor}
    (h : cursor_prev_cell C = Res.ok C1) : Keeps root T E C E C1 := by
  obtain ⟨id, i, rest, h1, h2⟩ := cursor_prev_cell_eq_ok h
  intro hw hl
  rw [h1] at hw hl
  rw [h2]
  simp only [List.map_cons] at hw ⊢
  exact ⟨hw, root_last_idx _ hl, Unfreed_refl _⟩

theorem Keeps_next_cell {root : Nat} {T : List Nat} {E : BEngine} {C C1 : BCursor}
    (h : cursor_next_cell C = Res.ok C1) : Keeps root T E C E C1 := by
  obtain ⟨id, i, rest, h1, h2⟩ := cursor_next_cell_eq_ok h
  intro hw hl
  rw [h1] at hw hl
  rw [h2]
  simp only [List.map_cons] at hw ⊢
  exact ⟨hw, root_last_idx _ hl, Unfreed_refl _⟩

theorem Keeps_set_idx {root : Nat} {T : List Nat} {E : BEngine} {C C1 : BCursor} {idx : Nat}
    (h : cursor_set_idx C idx = Res.ok C1) : Keeps root T E C E C1 := by
  obtain ⟨id, i, rest, h1, h2⟩ := cursor_set_idx_eq_ok h
  intro hw hl
  rw [h1] at hw hl
  rw [h2]
  simp only [List.map_cons] at hw ⊢
  exact ⟨hw, root_last_idx _ hl, Unfreed_refl _⟩

theorem ensure_step {root k : Nat} (ih1 : Spec_try_left root k) (ih2 : Spec_try_right root k)
    (ih3 : Spec_split root k) (ih4 : Spec_ensure root k) : Spec_ensure root (k + 1) := by
  intro E tree C size E1 C1 T h
  rw [node_ensure_cell_space] at h
  simp only [Res.bind_eq_ok] at h
  obtain ⟨id, hid, n, _, h⟩ := h
  split at h
  · simp only [Res.pure_eq_ok, Prod.mk.injEq] at h
    obtain ⟨rfl, rfl⟩ := h
    exact Keeps_refl _ _ _ _
  · simp only [Res.bind_eq_ok] at h
    obtain ⟨⟨Ea, left⟩, hleft, ⟨Eb, right⟩, hright, ⟨Ca, node, idx⟩, hpop, h⟩ := h
    intro hw hl
    have hub : Unfreed E Eb := Unfreed_trans (Unfreed_left_sibling hleft) (Unfreed_right_sibling hright)
    have hp := cursor_pop_get_eq_ok hpop
    rw [hp] at hw hl
    obtain ⟨hwa, hsa⟩ := Held_Pages_left_sibling hleft hw
    obtain ⟨hwb, hsb⟩ := Held_Pages_right_sibling hright hwa
    have hwb1 : Held_Pages Eb root
        (Ca.path.map Prod.fst ++ (right.toList ++ (left.toList ++ node :: T))) :=
      Held_Pages_perm (List.perm_iff_count.mpr (fun a => by
        simp only [List.count_append, List.count_cons, List.map_cons]; omega)) hwb
    have hlast : ∀ i, root_last root ((node, i) :: Ca.path) := fun i => root_last_idx i hl
    have hrest : left ≠ none ∨ right ≠ none → root_last root Ca.path := by
      intro hc
      obtain ⟨a, b, rest, hab⟩ : ∃ a b rest, C.path = a :: b :: rest := by
        rcases hc with hc | hc
        · exact hsa hc
        · exact hsb hc
      rw [hp] at hab
      simp only [List.cons.injEq] at hab
      rw [hab.2] at hl ⊢
      exact root_last_tail hl
    have hnode : node ∈ right.toList ++ (left.toList ++ node :: T) := by simp
    cases right with
    | some r =>
      have hr : r ∈ (some r).toList ++ (left.toList ++ node :: T) := by simp
      simp only [Res.bind_eq_ok] at h
      obtain ⟨⟨E3, C3, rot1⟩, htr, h⟩ := h
      obtain ⟨hw3, hl3, hu3⟩ := ih2 _ _ _ _ _ _ _ _ _ _ _ _ htr hnode hr hwb1 (hrest (Or.inr (by simp)))
      cases left with
      | some l =>
        have hlm : l ∈ (some r).toList ++ ((some l).toList ++ node :: T) := by simp
        simp only at h
        split at h
        · simp only [Res.bind_eq_ok, Res.pure_eq_ok] at h
          obtain ⟨nd, _, Ca1, hprev, ⟨Eb1, Cb, rot⟩, htl, Cc, hnext, nd1, _, a, rfl, E5, h5, E6, h6,
            C5, h7, h⟩ := h
          obtain ⟨hw4, hl4, _⟩ := Keeps_prev_cell hprev hw3 hl3
          obtain ⟨hw5, hl5, hu5⟩ := ih1 _ _ _ _ _ _ _ _ _ _ _ _ htl hlm hnode hw4 hl4
          obtain ⟨hw6, hl6, _⟩ := Keeps_next_cell hnext hw5 hl5
          obtain ⟨c1, c2, c3⟩ := ensure_tail ih3 ih4 h5 h6 h7 h hw6 (fun i => root_last_cons _ hl6)
          exact ⟨c1, c2, Unfreed_trans hub (Unfreed_trans hu3 (Unfreed_trans hu5 c3))⟩
        · simp only [Res.bind_eq_ok, Res.pure_eq_ok] at h
          obtain ⟨a, rfl, E5, h5, E6, h6, C5, h7, h⟩ := h
          obtain ⟨c1, c2, c3⟩ := ensure_tail ih3 ih4 h5 h6 h7 h hw3 (fun i => root_last_cons _ hl3)
          exact ⟨c1, c2, Unfreed_trans hub (Unfreed_trans hu3 c3)⟩
      | none =>
        simp only [Res.bind_eq_ok, Res.pure_eq_ok] at h
        obtain ⟨a, rfl, E5, h5, E6, h6, C5, h7, h⟩ := h
        obtain ⟨c1, c2, c3⟩ := ensure_tail ih3 ih4 h5 h6 h7 h hw3 (fun i => root_last_cons _ hl3)
        exact ⟨c1, c2, Unfreed_trans hub (Unfreed_trans hu3 c3)⟩
    | none =>
      cases left with
      | some l =>
        have hlm : l ∈ (none : Option Nat).toList ++ ((some l).toList ++ node :: T) := by simp
        have hl3 := hrest (Or.inl (by simp))
        simp only [Res.bind_eq_ok, Res.pure_eq_ok] at h
        obtain ⟨⟨E3, C3, rot1⟩, htr, h⟩ := h
        simp only [Prod.mk.injEq] at htr
        obtain ⟨rfl, rfl, rfl⟩ := htr
        simp only [Bool.not_false, if_true, Res.bind_eq_ok, Res.pure_eq_ok] at h
        obtain ⟨nd, _, Ca1, hprev, ⟨Eb1, Cb, rot⟩, htl, Cc, hnext, nd1, _, a, rfl, E5, h5, E6, h6,
            C5, h7, h⟩ := h
        obtain ⟨hw4, hl4, _⟩ := Keeps_prev_cell hprev hwb1 hl3
        obtain ⟨hw5, hl5, hu5⟩ := ih1 _ _ _ _ _ _ _ _ _ _ _ _ htl hlm hnode hw4 hl4
        obtain ⟨hw6, hl6, _⟩ := Keeps_next_cell hnext hw5 hl5
        obtain ⟨c1, c2, c3⟩ := ensure_tail ih3 ih4 h5 h6 h7 h hw6 (fun i => root_last_cons _ hl6)
        exact ⟨c1, c2, Unfreed_trans hub (Unfreed_trans hu5 c3)⟩
      | none =>
        simp only [Res.bind_eq_ok, Res.pure_eq_ok] at h
        obtain ⟨a, rfl, b, rfl, E5, h5, E6, h6, C5, h7, h⟩ := h
        obtain ⟨c1, c2, c3⟩ := ensure_tail ih3 ih4 h5 h6 h7 h hwb1 hlast
        exact ⟨c1, c2, Unfreed_trans hub c3⟩

theorem mem_right {T : List Nat} {x : Nat} (P : List Nat) (h : x ∈ T) : ∀ y ∈ [x], y ∈ P ++ T := by
  intro y hy
  rw [List.mem_singleton.mp hy]
  exact List.mem_append_right _ h

theorem mem_right2 {T : List Nat} {x z : Nat} (P : List Nat) (h : x ∈ T) (hz : z ∈ T) :
    ∀ y ∈ [x, z], y ∈ P ++ T := by
  intro y hy
  simp only [List.mem_cons, List.mem_singleton, List.not_mem_nil, or_false] at hy
  rcases hy with rfl | rfl
  · exact List.mem_append_right _ h
  · exact List.mem_append_right _ hz

theorem rotate_left_step {root k : Nat} (ih : Spec_copy root k) : Spec_rotate_left root (k + 1) := by
  intro E tree C left right n E1 C1 T h hl hr
  rw [node_rotate_cells_left] at h
  simp only [Res.bind_eq_ok] at h
  obtain ⟨_, _, r, _, _, _, l, _, h⟩ := h
  split at h <;> simp only [Res.bind_eq_ok, Res.pure_eq_ok] at h
  · obtain ⟨idx, _, parent, _, p, _, pc, _, Ea, h1, Eb, h2, r2, _, cc, _, ⟨Ec, Cc⟩, h3, r3, _,
      child, _, l3, _, Ed, h4, Ee, h5, y, rfl, _, _, _, _, hfin⟩ := h
    simp only [Prod.mk.injEq] at hfin
    obtain ⟨rfl, rfl⟩ := hfin
    exact Keeps_trans (Keeps_writes (Node_Writes_add_inner_cell (List.mem_singleton_self _) h1)
        (mem_right _ hl))
      (Keeps_trans (Keeps_writes (Node_Writes_move_cells_left (List.mem_cons_self _ _)
          (List.mem_cons_of_mem _ (List.mem_singleton_self _)) h2) (mem_right2 _ hl hr))
      (Keeps_trans (ih _ _ _ _ _ _ T h3)
      (Keeps_trans (Keeps_writes (Node_Writes_setNode h4 (List.mem_singleton_self _)) (mem_right _ hl))
        (Keeps_writes (Node_Writes_delete_cell (List.mem_singleton_self _) h5) (mem_right _ hr)))))
  · obtain ⟨Ea, h1, l1, _, cc, _, ⟨Ec, Cc⟩, h3, _, _, _, _, hfin⟩ := h
    simp only [Prod.mk.injEq] at hfin
    obtain ⟨rfl, rfl⟩ := hfin
    exact Keeps_trans (Keeps_writes (Node_Writes_move_cells_left (List.mem_cons_self _ _)
          (List.mem_cons_of_mem _ (List.mem_singleton_self _)) h1) (mem_right2 _ hl hr))
      (ih _ _ _ _ _ _ T h3)

theorem rotate_right_step {root k : Nat} (ih : Spec_copy root k) :
    Spec_rotate_right root (k + 1) := by
  intro E tree C left right n E1 C1 T h hl hr
  rw [node_rotate_cells_right] at h
  simp only [Res.bind_eq_ok] at h
  obtain ⟨_, _, l, _, _, _, h⟩ := h
  split at h <;> simp only [Res.bind_eq_ok, Res.pure_eq_ok] at h
  · obtain ⟨idx, _, parent, _, p, _, pc, _, Ea, h1, Eb, h2, l2, _, cc, _, ⟨Ec, Cc⟩, h3, l3, _,
      child, _, Ed, h4, Ee, h5, y, rfl, _, _, _, _, hfin⟩ := h
    simp only [Prod.mk.injEq] at hfin
    obtain ⟨rfl, rfl⟩ := hfin
    exact Keeps_trans (Keeps_writes (Node_Writes_add_inner_cell (List.mem_singleton_self _) h1)
        (mem_right _ hr))
      (Keeps_trans (Keeps_writes (Node_Writes_move_cells_right (List.mem_cons_self _ _)
          (List.mem_cons_of_mem _ (List.mem_singleton_self _)) h2) (mem_right2 _ hl hr))
      (Keeps_trans (ih _ _ _ _ _ _ T h3)
      (Keeps_trans (Keeps_writes (Node_Writes_setNode h4 (List.mem_singleton_self _)) (mem_right _ hl))
        (Keeps_writes (Node_Writes_delete_cell (List.mem_singleton_self _) h5) (mem_right _ hl)))))
  · obtain ⟨Ea, h1, l1, _, cc, _, ⟨Ec, Cc⟩, h3, _, _, _, _, hfin⟩ := h
    simp only [Prod.mk.injEq] at hfin
    obtain ⟨rfl, rfl⟩ := hfin
    exact Keeps_trans (Keeps_writes (Node_Writes_move_cells_right (List.mem_cons_self _ _)
          (List.mem_cons_of_mem _ (List.mem_singleton_self _)) h1) (mem_right2 _ hl hr))
      (ih _ _ _ _ _ _ T h3)

theorem try_left_step {root k : Nat} (ih : Spec_rotate_left root k) :
    Spec_try_left root (k + 1) := by
  intro E tree C left right a b c E1 C1 r T h hl hr
  rw [node_try_rotate_bytes_left] at h
  simp only [Res.bind_eq_ok] at h
  obtain ⟨_, _, l, _, rn, _, ⟨cells, bytes⟩, _, h⟩ := h
  simp only at h
  split_ifs at h
  all_goals simp only [Res.bind_eq_ok, Res.pure_eq_ok, Prod.mk.injEq] at h
  · obtain ⟨rfl, rfl, _⟩ := h; exact Keeps_refl _ _ _ _
  · obtain ⟨rfl, rfl, _⟩ := h; exact Keeps_refl _ _ _ _
  · obtain ⟨rfl, rfl, _⟩ := h; exact Keeps_refl _ _ _ _
  · obtain ⟨rfl, rfl, _⟩ := h; exact Keeps_refl _ _ _ _
  · obtain ⟨⟨Ea, Ca⟩, h1, rfl, rfl, _⟩ := h
    exact ih _ _ _ _ _ _ _ _ T h1 hl hr

theorem try_right_step {root k : Nat} (ih : Spec_rotate_right root k) :
    Spec_try_right root (k + 1) := by
  intro E tree C left right a b c E1 C1 r T h hl hr
  rw [node_try_rotate_bytes_right] at h
  simp only [Res.bind_eq_ok] at h
  obtain ⟨_, _, l, _, rn, _, ⟨cells, bytes⟩, _, h⟩ := h
  simp only at h
  split_ifs at h
  all_goals simp only [Res.bind_eq_ok, Res.pure_eq_ok, Prod.mk.injEq] at h
  · obtain ⟨rfl, rfl, _⟩ := h; exact Keeps_refl _ _ _ _
  · obtain ⟨rfl, rfl, _⟩ := h; exact Keeps_refl _ _ _ _
  · obtain ⟨rfl, rfl, _⟩ := h; exact Keeps_refl _ _ _ _
  · obtain ⟨rfl, rfl, _⟩ := h; exact Keeps_refl _ _ _ _
  · obtain ⟨⟨Ea, Ca⟩, h1, rfl, rfl, _⟩ := h
    exact ih _ _ _ _ _ _ _ _ T h1 hl hr

theorem split_finish {root : Nat} {E6 : BEngine} {C5 : BCursor} {left right cidx n j : Nat}
    {P4 : List (Nat × Nat)} {E1 : BEngine} {C1 : BCursor} {T : List Nat}
    (h : (if cidx < n then (do
            let C6 ← cursor_set_node C5 left
            let E7 ← node_unref E6 right
            pure (E7, C6))
          else (do
            let C6 ← cursor_set_idx C5 (sub16 cidx n)
            let E7 ← node_unref E6 left
            pure (E7, C6))) = Res.ok (E1, C1))
    (hw : Held_Pages E6 root (P4.map Prod.fst ++ (right :: left :: T)))
    (hp : C5.path = (right, j) :: P4) (hl : root_last root P4) :
    Held_Pages E1 root (C1.path.map Prod.fst ++ T) ∧ root_last root C1.path ∧ Unfreed E6 E1 := by
  split at h <;> simp only [Res.bind_eq_ok, Res.pure_eq_ok, Prod.mk.injEq] at h
  · obtain ⟨C6, h1, E7, h2, rfl, rfl⟩ := h
    obtain ⟨id, i, rest, hp1, hp2⟩ := cursor_set_node_eq_ok h1
    rw [hp] at hp1
    simp only [List.cons.injEq, Prod.mk.injEq] at hp1
    obtain ⟨⟨rfl, rfl⟩, rfl⟩ := hp1
    rw [hp2]
    refine ⟨?_, root_last_cons _ hl, Unfreed_node_unref h2⟩
    exact Held_Pages_node_unref h2 (Held_Pages_perm (List.perm_iff_count.mpr (fun a => by
      simp only [List.count_append, List.count_cons, List.map_cons]; omega)) hw)
  · obtain ⟨C6, h1, E7, h2, rfl, rfl⟩ := h
    obtain ⟨id, i, rest, hp1, hp2⟩ := cursor_set_idx_eq_ok h1
    rw [hp] at hp1
    simp only [List.cons.injEq, Prod.mk.injEq] at hp1
    obtain ⟨⟨rfl, rfl⟩, rfl⟩ := hp1
    rw [hp2]
    refine ⟨?_, root_last_cons _ hl, Unfreed_node_unref h2⟩
    exact Held_Pages_node_unref h2 (Held_Pages_perm (List.perm_iff_count.mpr (fun a => by
      simp only [List.count_append, List.count_cons, List.map_cons]; omega)) hw)

theorem split_rest {root k : Nat} (ih : Spec_ensure root k)
    (E2 : BEngine) (tree : BTree) (C2 : BCursor) (right left : Nat)
    {E1 : BEngine} {C1 : BCursor} {T : List Nat}
    (h : (do
      ASSERT (C2.path.length > 1)
      let r ← E2.node right
      let n_cells_to_move ← split_scan E2 tree right (E2.page_size / 2) r.cell_count 0 0 0
      ASSERT (n_cells_to_move != 0)
      ASSERT (n_cells_to_move < r.cell_count)
      let (C3, node, idx) ← cursor_pop_get C2
      let cell ← node_get_cell E2 r (n_cells_to_move - 1)
      let key := Key.page right (cell_get_key cell r)
      let ks ← sizeof_key E2 tree.type key
      let (E3, C4) ← node_ensure_cell_space k E2 tree C3 (u32 (4 + ks))
      let pid ← cursor_node_deref C4
      let pidx ← cursor_idx C4
      let E4 ← node_add_inner_cell E3 tree pid pidx key left
      let C5 ← cursor_push C4 node idx
      let E5 ← node_move_cells_left E4 tree left right n_cells_to_move
      let l ← E5.node left
      let E6 ←
        if node_is_inner l then do
          let lcell ← node_get_cell E5 l (sub16 l.cell_count 1)
          let child ← cell_get_child E5 l lcell
          let Ea ← E5.setNode left { l with rightmost_child := child }
          node_delete_cell Ea tree left (sub16 l.cell_count 1)
        else pure E5
      CHECK E6 tree left
      let cidx ← cursor_idx C5
      if cidx < n_cells_to_move then do
        let C6 ← cursor_set_node C5 left
        let E7 ← node_unref E6 right
        pure (E7, C6)
      else do
        let C6 ← cursor_set_idx C5 (sub16 cidx n_cells_to_move)
        let E7 ← node_unref E6 left
        pure (E7, C6)) = Res.ok (E1, C1))
    (hw : Held_Pages E2 root (C2.path.map Prod.fst ++ left :: T))
    (hl : root_last root C2.path)
    (htop : cursor_node_deref C2 = Res.ok right) :
    Held_Pages E1 root (C1.path.map Prod.fst ++ T) ∧ root_last root C1.path ∧ Unfreed E2 E1 := by
  simp only [Res.bind_eq_ok, ASSERT_eq_ok, decide_eq_true_eq] at h
  obtain ⟨_, hlen, r, _, n, _, _, _, _, _, ⟨C3, node, idx⟩, hpop, cell, _, ks, _, ⟨E3, C4⟩, hens,
    pid, hpid, pidx, _, E4, hadd, C5, hpush, E5, hmove, l, _, h⟩ := h
  have hp2 := cursor_pop_get_eq_ok hpop
  obtain ⟨i, rest, hp⟩ := cursor_node_deref_eq_ok htop
  rw [hp2] at hp
  simp only [List.cons.injEq, Prod.mk.injEq] at hp
  obtain ⟨⟨rfl, _⟩, _⟩ := hp
  rw [hp2] at hw hl hlen
  have hl3 : root_last root C3.path := by
    cases hc : C3.path with
    | nil => rw [hc] at hlen; simp at hlen
    | cons b P => rw [hc] at hl; exact root_last_tail hl
  have hw2 : Held_Pages E2 root (C3.path.map Prod.fst ++ (node :: left :: T)) :=
    Held_Pages_perm (List.perm_iff_count.mpr (fun a => by
      simp only [List.count_append, List.count_cons, List.map_cons]; omega)) hw
  obtain ⟨hw3, hl4, hu3⟩ := ih _ _ _ _ _ _ _ hens hw2 hl3
  have hu5 : Unfreed E2 E5 := Unfreed_trans hu3 (Unfreed_trans (Unfreed_node_writes
    (Node_Writes_add_inner_cell (List.mem_singleton_self _) hadd)) (Unfreed_node_writes
    (Node_Writes_move_cells_left (List.mem_cons_self _ _)
      (List.mem_cons_of_mem _ (List.mem_singleton_self _)) hmove)))
  have hw4 := Held_Pages_node_writes (Node_Writes_add_inner_cell (List.mem_singleton_self _) hadd)
    (fun x hx => by rw [List.mem_singleton.mp hx]; exact deref_mem hpid) hw3
  have hw5 := Held_Pages_node_writes (Node_Writes_move_cells_left (List.mem_cons_self _ _)
      (List.mem_cons_of_mem _ (List.mem_singleton_self _)) hmove)
    (mem_right2 _ (by simp) (by simp)) hw4
  have hp5 := cursor_push_eq_ok hpush
  split at h <;> simp only [Res.bind_eq_ok, Res.pure_eq_ok] at h
  · obtain ⟨lcell, _, child, _, Ea, hset, E6, hdel, _, _, cidx, _, h⟩ := h
    have hw6 := Held_Pages_node_writes (Node_Writes_setNode hset (List.mem_singleton_self _))
      (mem_right _ (by simp)) hw5
    have hw7 := Held_Pages_node_writes (Node_Writes_delete_cell (List.mem_singleton_self _) hdel)
      (mem_right _ (by simp)) hw6
    obtain ⟨c1, c2, c3⟩ := split_finish h hw7 hp5 hl4
    exact ⟨c1, c2, Unfreed_trans hu5 (Unfreed_trans (Unfreed_setNode hset) (Unfreed_trans (Unfreed_node_writes
      (Node_Writes_delete_cell (List.mem_singleton_self _) hdel)) c3))⟩
  · obtain ⟨E6, rfl, _, _, cidx, _, h⟩ := h
    obtain ⟨c1, c2, c3⟩ := split_finish h hw5 hp5 hl4
    exact ⟨c1, c2, Unfreed_trans hu5 c3⟩

theorem split_step {root k : Nat} (ih : Spec_ensure root k) : Spec_split root (k + 1) := by
  intro E tree C E1 C1 T h
  rw [split_node] at h
  obtain ⟨right0, hr0, h⟩ := Res.bind_eq_ok.mp h
  obtain ⟨r0, _, h⟩ := Res.bind_eq_ok.mp h
  obtain ⟨⟨Ea, left⟩, hnew, h⟩ := Res.bind_eq_ok.mp h
  intro hw hl
  have hwa := Held_Pages_node_new hnew hw
  obtain ⟨i0, rest0, hp0⟩ := cursor_node_deref_eq_ok hr0
  simp only at h
  split at h
  · rename_i hlen
    obtain ⟨⟨Eb, right⟩, hnew2, h⟩ := Res.bind_eq_ok.mp h
    obtain ⟨Ec, hcopy, h⟩ := Res.bind_eq_ok.mp h
    obtain ⟨nr, _, h⟩ := Res.bind_eq_ok.mp h
    obtain ⟨Ed, hset, h⟩ := Res.bind_eq_ok.mp h
    obtain ⟨idx, _, h⟩ := Res.bind_eq_ok.mp h
    obtain ⟨Cb, hpush1, h⟩ := Res.bind_eq_ok.mp h
    obtain ⟨Cc, hpush2, h⟩ := Res.bind_eq_ok.mp h
    obtain ⟨_, _, h⟩ := Res.bind_eq_ok.mp h
    obtain ⟨_, _, h⟩ := Res.bind_eq_ok.mp h
    obtain ⟨y, hy, h⟩ := Res.bind_eq_ok.mp h
    cases hy
    have hwb := Held_Pages_node_new hnew2 hwa
    have hwc := Held_Pages_node_writes (Node_Writes_node_copy (List.mem_singleton_self _) hcopy)
      (fun x hx => by rw [List.mem_singleton.mp hx]; exact List.mem_cons_self _ _) hwb
    have hwd := Held_Pages_node_writes (Node_Writes_setNode hset (List.mem_singleton_self _))
      (fun x hx => by rw [List.mem_singleton.mp hx, hp0]; simp) hwc
    have hpb := cursor_push_eq_ok hpush1
    have hpc := cursor_push_eq_ok hpush2
    have hrest0 : rest0 = [] := by
      rw [hp0] at hlen
      simpa using hlen
    subst hrest0
    have hroot : right0 = root := by
      rw [hp0] at hl
      obtain ⟨i, hi⟩ := hl
      simp only [List.getLast?_singleton, Option.some.injEq, Prod.mk.injEq] at hi
      exact hi.1
    have hpath : Cc.path = [(right, u16 idx), (right0, u16 0)] := by
      rw [hpc, hpb]
      simp [cursor_pop, hp0]
    have hud : Unfreed E Ed := Unfreed_trans (Unfreed_node_new hnew) (Unfreed_trans (Unfreed_node_new hnew2)
      (Unfreed_trans (Unfreed_node_writes (Node_Writes_node_copy (List.mem_singleton_self _) hcopy))
        (Unfreed_setNode hset)))
    suffices hs : Held_Pages E1 root (C1.path.map Prod.fst ++ T) ∧ root_last root C1.path
        ∧ Unfreed Ed E1 from ⟨hs.1, hs.2.1, Unfreed_trans hud hs.2.2⟩
    refine split_rest ih Ed tree Cc right left h ?_ ?_ ?_
    · rw [hpath]
      rw [hp0] at hwd
      exact Held_Pages_perm (List.perm_iff_count.mpr (fun a => by
        simp only [List.count_append, List.count_cons, List.map_cons, List.map_nil,
          List.count_nil]; omega)) hwd
    · rw [hpath, hroot]
      exact ⟨u16 0, rfl⟩
    · unfold cursor_node_deref
      rw [hpath]
      rfl
  · obtain ⟨y, hy, h⟩ := Res.bind_eq_ok.mp h
    cases hy
    suffices hs : Held_Pages E1 root (C1.path.map Prod.fst ++ T) ∧ root_last root C1.path
        ∧ Unfreed Ea E1 from ⟨hs.1, hs.2.1, Unfreed_trans (Unfreed_node_new hnew) hs.2.2⟩
    refine split_rest ih Ea tree C right0 left h ?_ hl hr0
    exact Held_Pages_perm (List.perm_iff_count.mpr (fun a => by
        simp only [List.count_append, List.count_cons]; omega)) hwa

theorem block_one (root : Nat) : ∀ k, Spec_copy root k ∧ Spec_rotate_left root k
    ∧ Spec_rotate_right root k ∧ Spec_try_left root k ∧ Spec_try_right root k
    ∧ Spec_ensure root k ∧ Spec_split root k := by
  intro k
  induction k with
  | zero =>
    refine ⟨?_, ?_, ?_, ?_, ?_, ?_, ?_⟩
    · intro E tree C key E1 C1 T h
      rw [copy_key_into_inner_cell] at h
      cases h
    · intro E tree C left right n E1 C1 T h
      rw [node_rotate_cells_left] at h
      cases h
    · intro E tree C left right n E1 C1 T h
      rw [node_rotate_cells_right] at h
      cases h
    · intro E tree C left right a b c E1 C1 r T h
      rw [node_try_rotate_bytes_left] at h
      cases h
    · intro E tree C left right a b c E1 C1 r T h
      rw [node_try_rotate_bytes_right] at h
      cases h
    · intro E tree C size E1 C1 T h
      rw [node_ensure_cell_space] at h
      cases h
    · intro E tree C E1 C1 T h
      rw [split_node] at h
      cases h
  | succ k ih =>
    obtain ⟨h1, h2, h3, h4, h5, h6, h7⟩ := ih
    exact ⟨copy_key_step h6, rotate_left_step h1, rotate_right_step h1, try_left_step h2,
      try_right_step h3, ensure_step h4 h5 h7 h6, split_step h6⟩

theorem merge_rest {root k : Nat} (ih : Spec_remove root k)
    (E1 : BEngine) (tree : BTree) (C : BCursor) (left right parent : Nat)
    {E9 : BEngine} {C9 : BCursor} {merged null : Bool} {T : List Nat}
    (h : (do
      let l1 ← E1.node left
      let E2 ← node_move_cells_right E1 tree left right l1.cell_count
      let E3 ← node_delete E2 left
      CHECK E3 tree right
      CHECK E3 tree parent
      let p3 ← E3.node parent
      if C.path.length == 1 && p3.cell_count == 1 then do
        let E4 ← node_copy E3 parent right
        let E5 ← node_delete E4 right
        let (E6, C6) ← cursor_pop_unref E5 C
        pure (E6, C6, true, true)
      else do
        let (E4, C4) ← cursor_remove k E3 tree C
        pure (E4, C4, true, false)) = Res.ok (E9, C9, merged, null))
    (hw : Held_Pages E1 root (C.path.map Prod.fst ++ left :: right :: T))
    (hl : root_last root C.path) (hparent : cursor_node_deref C = Res.ok parent) :
    Held_Pages E9 root (C9.path.map Prod.fst ++
        (if merged then (if null then T else right :: T) else left :: right :: T))
      ∧ (root_last root C9.path ∨ C9.path = []) := by
  simp only [Res.bind_eq_ok] at h
  obtain ⟨l1, _, E2, hmove, E3, hdel, _, _, _, _, p3, _, h⟩ := h
  have hw2 := Held_Pages_node_writes (Node_Writes_move_cells_right (List.mem_cons_self _ _)
      (List.mem_cons_of_mem _ (List.mem_singleton_self _)) hmove)
    (mem_right2 _ (by simp) (by simp)) hw
  have hw3 : Held_Pages E3 root (C.path.map Prod.fst ++ right :: T) :=
    Held_Pages_node_delete hdel (List.mem_append_left _ (root_last_mem hl))
      (Held_Pages_perm (List.perm_iff_count.mpr (fun a => by
        simp only [List.count_append, List.count_cons]; omega)) hw2)
  split at h <;> simp only [Res.bind_eq_ok, Res.pure_eq_ok, Prod.mk.injEq] at h
  · rename_i hc
    obtain ⟨E4, hcopy, E5, hdel2, ⟨E6, C6⟩, hpop, rfl, rfl, rfl, rfl⟩ := h
    have hw4 := Held_Pages_node_writes (Node_Writes_node_copy (List.mem_singleton_self _) hcopy)
      (fun x hx => by rw [List.mem_singleton.mp hx]; exact deref_mem hparent) hw3
    have hw5 : Held_Pages E5 root (C.path.map Prod.fst ++ T) :=
      Held_Pages_node_delete hdel2 (List.mem_append_left _ (root_last_mem hl))
        (Held_Pages_perm (List.perm_iff_count.mpr (fun a => by
          simp only [List.count_append, List.count_cons]; omega)) hw4)
    obtain ⟨hw6, hp6⟩ := Held_Pages_pop_unref hpop hw5
    simp only [if_true]
    refine ⟨hw6, Or.inr ?_⟩
    simp only [Bool.and_eq_true, beq_iff_eq] at hc
    rw [hp6]
    cases hq : C.path with
    | nil => rfl
    | cons a P =>
      rw [hq] at hc
      simp only [List.length_cons, Nat.add_eq_right, List.length_eq_zero] at hc
      rw [hc.1]
      rfl
  · obtain ⟨⟨E4, C4⟩, hrem, rfl, rfl, rfl, rfl⟩ := h
    simp only [if_true, Bool.false_eq_true, if_false]
    exact ih _ _ _ _ _ _ hrem hw3 hl

theorem merge_mid {root k : Nat} (ih : Spec_remove root k)
    (E : BEngine) (tree : BTree) (C : BCursor) (left right parent bytes_to_move parent_cell : Nat)
    (p l r : Node)
    {E9 : BEngine} {C9 : BCursor} {merged null : Bool} {T : List Nat}
    (h : (if bytes_to_move > node_get_logical_free_space r then pure (E, C, false, false)
      else do
        let parent_key := Key.page parent (cell_get_key parent_cell p)
        let E1 ←
          if node_is_inner l then node_add_inner_cell E tree right 0 parent_key l.rightmost_child
          else pure E
        let l1 ← E1.node left
        let E2 ← node_move_cells_right E1 tree left right l1.cell_count
        let E3 ← node_delete E2 left
        CHECK E3 tree right
        CHECK E3 tree parent
        let p3 ← E3.node parent
        if C.path.length == 1 && p3.cell_count == 1 then do
          let E4 ← node_copy E3 parent right
          let E5 ← node_delete E4 right
          let (E6, C6) ← cursor_pop_unref E5 C
          pure (E6, C6, true, true)
        else do
          let (E4, C4) ← cursor_remove k E3 tree C
          pure (E4, C4, true, false)) = Res.ok (E9, C9, merged, null))
    (hw : Held_Pages E root (C.path.map Prod.fst ++ left :: right :: T))
    (hl : root_last root C.path) (hparent : cursor_node_deref C = Res.ok parent) :
    Held_Pages E9 root (C9.path.map Prod.fst ++
        (if merged then (if null then T else right :: T) else left :: right :: T))
      ∧ (root_last root C9.path ∨ C9.path = []) := by
  split at h
  · simp only [Res.pure_eq_ok, Prod.mk.injEq] at h
    obtain ⟨rfl, rfl, rfl, rfl⟩ := h
    simp only [Bool.false_eq_true, if_false]
    exact ⟨hw, Or.inl hl⟩
  · simp only at h
    split at h
    · obtain ⟨E1, hadd, h⟩ := Res.bind_eq_ok.mp h
      refine merge_rest ih E1 tree C left right parent h ?_ hl hparent
      exact Held_Pages_node_writes (Node_Writes_add_inner_cell (List.mem_singleton_self _) hadd)
        (mem_right _ (by simp)) hw
    · obtain ⟨E1, hadd, h⟩ := Res.bind_eq_ok.mp h
      cases hadd
      exact merge_rest ih E tree C left right parent h hw hl hparent

theorem merge_step {root k : Nat} (ih : Spec_remove root k) : Spec_merge root (k + 1) := by
  intro E tree C left right E1 C1 merged null T h hw hl
  rw [try_merge_right] at h
  obtain ⟨idx, _, h⟩ := Res.bind_eq_ok.mp h
  obtain ⟨parent, hparent, h⟩ := Res.bind_eq_ok.mp h
  obtain ⟨p, _, h⟩ := Res.bind_eq_ok.mp h
  obtain ⟨parent_cell, _, h⟩ := Res.bind_eq_ok.mp h
  obtain ⟨l, _, h⟩ := Res.bind_eq_ok.mp h
  obtain ⟨r, _, h⟩ := Res.bind_eq_ok.mp h
  simp only at h
  by_cases hin : node_is_inner l = true
  · rw [if_pos hin] at h
    obtain ⟨size, _, h⟩ := Res.bind_eq_ok.mp h
    obtain ⟨b, hb, h⟩ := Res.bind_eq_ok.mp h
    cases hb
    exact merge_mid ih E tree C left right parent _ parent_cell p l r h hw hl hparent
  · rw [if_neg hin] at h
    obtain ⟨b, hb, h⟩ := Res.bind_eq_ok.mp h
    cases hb
    exact merge_mid ih E tree C left right parent _ parent_cell p l r h hw hl hparent

theorem Held_Pages_unref_opt_perm {E E1 : BEngine} {root : Nat} {o : Option Nat} {H H1 : List Nat}
    (h : node_unref_opt E o = Res.ok E1) (hw : Held_Pages E root H)
    (hp : H.Perm (o.toList ++ H1)) : Held_Pages E1 root H1 :=
  Held_Pages_unref_opt h (Held_Pages_perm hp hw)

theorem Held_Pages_node_unref_perm {E E1 : BEngine} {root x : Nat} {H H1 : List Nat}
    (h : node_unref E x = Res.ok E1) (hw : Held_Pages E root H)
    (hp : H.Perm (x :: H1)) : Held_Pages E1 root H1 :=
  Held_Pages_node_unref h (Held_Pages_perm hp hw)

theorem remove_left_merge {root k : Nat} (ih : Spec_merge root k)
    {E6 Eb Ec Ed Ee : BEngine} {tree : BTree} {C6 Ca Cb : BCursor} {l node : Nat}
    {right : Option Nat} {merged2 nnull : Bool} {T : List Nat}
    (hprev : cursor_prev_cell C6 = Res.ok Ca)
    (hm : try_merge_right k E6 tree Ca l node = Res.ok (Eb, Cb, merged2, nnull))
    (hc : node_unref_opt Eb (if nnull then none else some node) = Res.ok Ec)
    (hd : node_unref_opt Ec (if merged2 then none else some l) = Res.ok Ed)
    (he : node_unref_opt Ed right = Res.ok Ee)
    (hw : Held_Pages E6 root (C6.path.map Prod.fst ++ (l :: node :: (right.toList ++ T))))
    (hl : root_last root C6.path ∨ C6.path = []) :
    Held_Pages Ee root (Cb.path.map Prod.fst ++ T) ∧ (root_last root Cb.path ∨ Cb.path = []) := by
  obtain ⟨id, i, rest, hp1, hp2⟩ := cursor_prev_cell_eq_ok hprev
  have hl6 : root_last root C6.path := by
    rcases hl with hl | hl
    · exact hl
    · rw [hl] at hp1; cases hp1
  have hla : root_last root Ca.path := by
    rw [hp1] at hl6
    rw [hp2]
    exact root_last_idx _ hl6
  have hwa : Held_Pages E6 root (Ca.path.map Prod.fst ++ (l :: node :: (right.toList ++ T))) := by
    rw [hp1] at hw
    rw [hp2]
    simp only [List.map_cons] at hw ⊢
    exact hw
  obtain ⟨hwb, hlb⟩ := ih _ _ _ _ _ _ _ _ _ _ hm hwa hla
  refine ⟨?_, hlb⟩
  cases merged2 <;> cases nnull <;>
    simp only [if_true, if_false, Bool.false_eq_true] at hwb hc hd
  · have h1 : Held_Pages Ec root (Cb.path.map Prod.fst ++ (l :: (right.toList ++ T))) :=
      Held_Pages_unref_opt_perm hc hwb (List.perm_iff_count.mpr (fun a => by
        simp only [List.count_append, List.count_cons, List.count_nil, Option.toList_some,
          Option.toList_none]; omega))
    have h2 : Held_Pages Ed root (Cb.path.map Prod.fst ++ (right.toList ++ T)) :=
      Held_Pages_unref_opt_perm hd h1 (List.perm_iff_count.mpr (fun a => by
        simp only [List.count_append, List.count_cons, List.count_nil, Option.toList_some,
          Option.toList_none]; omega))
    exact Held_Pages_unref_opt_perm he h2 (List.perm_iff_count.mpr (fun a => by
        simp only [List.count_append, List.count_cons, List.count_nil, Option.toList_some,
          Option.toList_none]; omega))
  · have h1 : Held_Pages Ec root (Cb.path.map Prod.fst ++ (l :: node :: (right.toList ++ T))) :=
      Held_Pages_unref_opt hc hwb
    have h2 : Held_Pages Ed root (Cb.path.map Prod.fst ++ (node :: (right.toList ++ T))) :=
      Held_Pages_unref_opt_perm hd h1 (List.perm_iff_count.mpr (fun a => by
        simp only [List.count_append, List.count_cons, List.count_nil, Option.toList_some,
          Option.toList_none]; omega))
    have h3 : Held_Pages Ee root (Cb.path.map Prod.fst ++ (node :: T)) :=
      Held_Pages_unref_opt_perm he h2 (List.perm_iff_count.mpr (fun a => by
        simp only [List.count_append, List.count_cons, List.count_nil, Option.toList_some,
          Option.toList_none]; omega))
    exact Held_Pages_drop ((List.Sublist.append (List.Sublist.refl _)
      (List.sublist_cons_self node T)).subperm) h3
  · have h1 : Held_Pages Ec root (Cb.path.map Prod.fst ++ (right.toList ++ T)) :=
      Held_Pages_unref_opt_perm hc hwb (List.perm_iff_count.mpr (fun a => by
        simp only [List.count_append, List.count_cons, List.count_nil, Option.toList_some,
          Option.toList_none]; omega))
    have h2 : Held_Pages Ed root (Cb.path.map Prod.fst ++ (right.toList ++ T)) :=
      Held_Pages_unref_opt hd h1
    exact Held_Pages_unref_opt_perm he h2 (List.perm_iff_count.mpr (fun a => by
        simp only [List.count_append, List.count_cons, List.count_nil, Option.toList_some,
          Option.toList_none]; omega))
  · have h1 : Held_Pages Ec root (Cb.path.map Prod.fst ++ (right.toList ++ T)) :=
      Held_Pages_unref_opt hc hwb
    have h2 : Held_Pages Ed root (Cb.path.map Prod.fst ++ (right.toList ++ T)) :=
      Held_Pages_unref_opt hd h1
    exact Held_Pages_unref_opt_perm he h2 (List.perm_iff_count.mpr (fun a => by
        simp only [List.count_append, List.count_cons, List.count_nil, Option.toList_some,
          Option.toList_none]; omega))

theorem remove_tail {root k : Nat} (ih : Spec_merge root k)
    (E5 : BEngine) (tree : BTree) (C5 : BCursor) (rotated : Bool) (left right : Option Nat)
    (node : Nat) {E9 : BEngine} {C9 : BCursor} {T : List Nat}
    (h : (if rotated then do
        let E6 ← node_unref E5 node
        let E7 ← node_unref_opt E6 left
        let E8 ← node_unref_opt E7 right
        pure (E8, C5)
      else do
        let (E6, C6, merged, right_null) ←
          match right with
          | some r => try_merge_right k E5 tree C5 node r
          | none => pure (E5, C5, false, false)
        if merged then do
          let E7 ← node_unref_opt E6 left
          let E8 ← node_unref_opt E7 (if right_null then none else right)
          pure (E8, C6)
        else
          match left with
          | some l => do
            let Ca ← cursor_prev_cell C6
            let (Eb, Cb, merged2, node_null) ← try_merge_right k E6 tree Ca l node
            let Ec ← node_unref_opt Eb (if node_null then none else some node)
            let Ed ← node_unref_opt Ec (if merged2 then none else some l)
            let Ee ← node_unref_opt Ed right
            pure (Ee, Cb)
          | none => do
            let E7 ← node_unref E6 node
            let E8 ← node_unref_opt E7 right
            pure (E8, C6)) = Res.ok (E9, C9))
    (hw : Held_Pages E5 root (C5.path.map Prod.fst ++ (right.toList ++ (left.toList ++ node :: T))))
    (hl : root_last root C5.path ∨ C5.path = [])
    (hne : left ≠ none ∨ right ≠ none → root_last root C5.path) :
    Held_Pages E9 root (C9.path.map Prod.fst ++ T) ∧ (root_last root C9.path ∨ C9.path = []) := by
  split at h
  · simp only [Res.bind_eq_ok, Res.pure_eq_ok, Prod.mk.injEq] at h
    obtain ⟨E6, h6, E7, h7, E8, h8, rfl, rfl⟩ := h
    have h1 : Held_Pages E6 root (C5.path.map Prod.fst ++ (right.toList ++ (left.toList ++ T))) :=
      Held_Pages_node_unref_perm h6 hw (List.perm_iff_count.mpr (fun a => by
        simp only [List.count_append, List.count_cons]; omega))
    have h2 : Held_Pages E7 root (C5.path.map Prod.fst ++ (right.toList ++ T)) :=
      Held_Pages_unref_opt_perm h7 h1 (List.perm_iff_count.mpr (fun a => by
        simp only [List.count_append]; omega))
    exact ⟨Held_Pages_unref_opt_perm h8 h2 (List.perm_iff_count.mpr (fun a => by
        simp only [List.count_append]; omega)), hl⟩
  · cases right with
    | some r =>
      simp only [Res.bind_eq_ok] at h
      obtain ⟨⟨E6, C6, merged, rnull⟩, hm, h⟩ := h
      have hl5 := hne (Or.inr (by simp))
      obtain ⟨hw6, hl6⟩ := ih _ _ _ _ _ _ _ _ _ (left.toList ++ T) hm
        (Held_Pages_perm (List.perm_iff_count.mpr (fun a => by
          simp only [List.count_append, List.count_cons, List.count_nil, Option.toList_some];
          omega)) hw) hl5
      cases merged with
      | true =>
        simp only [if_true, Res.bind_eq_ok, Res.pure_eq_ok, Prod.mk.injEq] at h hw6
        obtain ⟨E7, h7, E8, h8, rfl, rfl⟩ := h
        refine ⟨?_, hl6⟩
        cases rnull with
        | true =>
          simp only [if_true] at h8 hw6
          have h1 : Held_Pages E7 root (C6.path.map Prod.fst ++ T) :=
            Held_Pages_unref_opt_perm h7 hw6 (List.perm_iff_count.mpr (fun a => by
              simp only [List.count_append]; omega))
          exact Held_Pages_unref_opt h8 h1
        | false =>
          simp only [Bool.false_eq_true, if_false] at h8 hw6
          have h1 : Held_Pages E7 root (C6.path.map Prod.fst ++ r :: T) :=
            Held_Pages_unref_opt_perm h7 hw6 (List.perm_iff_count.mpr (fun a => by
              simp only [List.count_append, List.count_cons]; omega))
          exact Held_Pages_unref_opt_perm h8 h1 (List.perm_iff_count.mpr (fun a => by
              simp only [List.count_append, List.count_cons, List.count_nil, Option.toList_some];
              omega))
      | false =>
        simp only [Bool.false_eq_true, if_false] at h hw6
        cases left with
        | some l =>
          simp only [Res.bind_eq_ok, Res.pure_eq_ok, Prod.mk.injEq] at h
          obtain ⟨Ca, hprev, ⟨Eb, Cb, merged2, nnull⟩, hm2, Ec, hc, Ed, hd, Ee, he, rfl, rfl⟩ := h
          exact remove_left_merge ih hprev hm2 hc hd he
            (Held_Pages_perm (List.perm_iff_count.mpr (fun a => by
              simp only [List.count_append, List.count_cons, List.count_nil, Option.toList_some];
              omega)) hw6) hl6
        | none =>
          simp only [Res.bind_eq_ok, Res.pure_eq_ok, Prod.mk.injEq] at h
          obtain ⟨E7, h7, E8, h8, rfl, rfl⟩ := h
          have h1 : Held_Pages E7 root (C6.path.map Prod.fst ++ r :: T) :=
            Held_Pages_node_unref_perm h7 hw6 (List.perm_iff_count.mpr (fun a => by
              simp only [List.count_append, List.count_cons, List.count_nil, Option.toList_none];
              omega))
          exact ⟨Held_Pages_unref_opt_perm h8 h1 (List.perm_iff_count.mpr (fun a => by
              simp only [List.count_append, List.count_cons, List.count_nil, Option.toList_some];
              omega)), hl6⟩
    | none =>
      simp only [Res.bind_eq_ok, Res.pure_eq_ok] at h
      obtain ⟨y, rfl, h⟩ := h
      simp only [Bool.false_eq_true, if_false] at h
      cases left with
      | some l =>
        simp only [Res.bind_eq_ok, Res.pure_eq_ok, Prod.mk.injEq] at h
        obtain ⟨Ca, hprev, ⟨Eb, Cb, merged2, nnull⟩, hm2, Ec, hc, Ed, hd, Ee, he, rfl, rfl⟩ := h
        exact remove_left_merge ih hprev hm2 hc hd he
          (Held_Pages_perm (List.perm_iff_count.mpr (fun a => by
            simp only [List.count_append, List.count_cons, List.count_nil, Option.toList_some,
              Option.toList_none]; omega)) hw) hl
      | none =>
        simp only [Res.bind_eq_ok, Res.pure_eq_ok, Prod.mk.injEq] at h
        obtain ⟨E7, h7, E8, h8, rfl, rfl⟩ := h
        have h1 : Held_Pages E7 root (C5.path.map Prod.fst ++ T) :=
          Held_Pages_node_unref_perm h7 hw (List.perm_iff_count.mpr (fun a => by
            simp only [List.count_append, List.count_cons, List.count_nil, Option.toList_none];
            omega))
        exact ⟨Held_Pages_unref_opt h8 h1, hl⟩

theorem remove_step {root k : Nat} (ih : Spec_merge root k) : Spec_remove root (k + 1) := by
  intro E tree C E9 C9 T h hw hl
  have hb := block_one root (k + 1)
  have ihl : Spec_try_left root (k + 1) := hb.2.2.2.1
  have ihr : Spec_try_right root (k + 1) := hb.2.2.2.2.1
  rw [cursor_remove] at h
  obtain ⟨node, hnode, h⟩ := Res.bind_eq_ok.mp h
  obtain ⟨n, _, h⟩ := Res.bind_eq_ok.mp h
  obtain ⟨idx, _, h⟩ := Res.bind_eq_ok.mp h
  obtain ⟨E1, hdel, h⟩ := Res.bind_eq_ok.mp h
  have hw1 := Held_Pages_node_writes (Node_Writes_delete_cell (List.mem_singleton_self _) hdel)
    (fun x hx => by rw [List.mem_singleton.mp hx]; exact deref_mem hnode) hw
  simp only at h
  split at h
  · simp only [Res.pure_eq_ok, Prod.mk.injEq] at h
    obtain ⟨rfl, rfl⟩ := h
    exact ⟨hw1, Or.inl hl⟩
  · obtain ⟨⟨Ea, left⟩, hleft, h⟩ := Res.bind_eq_ok.mp h
    obtain ⟨⟨Eb, right⟩, hright, h⟩ := Res.bind_eq_ok.mp h
    obtain ⟨i0, rest, hp⟩ := cursor_node_deref_eq_ok hnode
    rw [hp] at hw1 hl
    obtain ⟨hwa, hsa⟩ := Held_Pages_left_sibling hleft hw1
    obtain ⟨hwb, hsb⟩ := Held_Pages_right_sibling hright hwa
    have hpop : (cursor_pop C).path = rest := by simp [cursor_pop, hp]
    have hwb1 : Held_Pages Eb root
        ((cursor_pop C).path.map Prod.fst ++ (right.toList ++ (left.toList ++ node :: T))) := by
      rw [hpop]
      exact Held_Pages_perm (List.perm_iff_count.mpr (fun a => by
        simp only [List.count_append, List.count_cons, List.map_cons]; omega)) hwb
    have hrest : left ≠ none ∨ right ≠ none → root_last root (cursor_pop C).path := by
      intro hc
      obtain ⟨a, b, rest1, hab⟩ : ∃ a b rest1, C.path = a :: b :: rest1 := by
        rcases hc with hc | hc
        · exact hsa hc
        · exact hsb hc
      rw [hp] at hab
      simp only [List.cons.injEq] at hab
      rw [hpop]
      rw [hab.2] at hl ⊢
      exact root_last_tail hl
    have hl0 : root_last root (cursor_pop C).path ∨ (cursor_pop C).path = [] := by
      rw [hpop]
      cases rest with
      | nil => exact Or.inr rfl
      | cons b rest1 => exact Or.inl (root_last_tail hl)
    have hnodem : node ∈ right.toList ++ (left.toList ++ node :: T) := by simp
    simp only at h
    cases right with
    | some r =>
      have hr : r ∈ (some r).toList ++ (left.toList ++ node :: T) := by simp
      simp only at h
      obtain ⟨⟨E4, C4, rot1⟩, htl, h⟩ := Res.bind_eq_ok.mp h
      obtain ⟨hw4, hl4, _⟩ := ihl _ _ _ _ _ _ _ _ _ _ _ _ htl hnodem hr hwb1
        (hrest (Or.inr (by simp)))
      simp only at h
      cases left with
      | some l =>
        have hlm : l ∈ (some r).toList ++ ((some l).toList ++ node :: T) := by simp
        simp only at h
        by_cases hrot : (!rot1) = true
        · rw [if_pos hrot] at h
          obtain ⟨Ca, hprev, h⟩ := Res.bind_eq_ok.mp h
          obtain ⟨⟨Ec, Cb, rot⟩, htr, h⟩ := Res.bind_eq_ok.mp h
          obtain ⟨Cc, hnext, h⟩ := Res.bind_eq_ok.mp h
          obtain ⟨y, hy, h⟩ := Res.bind_eq_ok.mp h
          cases hy
          obtain ⟨hw5, hl5, _⟩ := Keeps_prev_cell hprev hw4 hl4
          obtain ⟨hw6, hl6, _⟩ := ihr _ _ _ _ _ _ _ _ _ _ _ _ htr hlm hnodem hw5 hl5
          obtain ⟨hw7, hl7, _⟩ := Keeps_next_cell hnext hw6 hl6
          exact remove_tail ih Ec tree Cc rot (some l) (some r) node h hw7 (Or.inl hl7)
            (fun _ => hl7)
        · rw [if_neg hrot] at h
          obtain ⟨y, hy, h⟩ := Res.bind_eq_ok.mp h
          cases hy
          exact remove_tail ih E4 tree C4 rot1 (some l) (some r) node h hw4 (Or.inl hl4)
            (fun _ => hl4)
      | none =>
        simp only at h
        obtain ⟨y, hy, h⟩ := Res.bind_eq_ok.mp h
        cases hy
        exact remove_tail ih E4 tree C4 rot1 none (some r) node h hw4 (Or.inl hl4)
          (fun _ => hl4)
    | none =>
      simp only at h
      obtain ⟨y, hy, h⟩ := Res.bind_eq_ok.mp h
      cases hy
      simp only at h
      cases left with
      | some l =>
        have hlm : l ∈ (none : Option Nat).toList ++ ((some l).toList ++ node :: T) := by simp
        have hl3 := hrest (Or.inl (by simp))
        simp only at h
        rw [if_pos (by rfl)] at h
        obtain ⟨Ca, hprev, h⟩ := Res.bind_eq_ok.mp h
        obtain ⟨⟨Ec, Cb, rot⟩, htr, h⟩ := Res.bind_eq_ok.mp h
        obtain ⟨Cc, hnext, h⟩ := Res.bind_eq_ok.mp h
        obtain ⟨y, hy, h⟩ := Res.bind_eq_ok.mp h
        cases hy
        obtain ⟨hw5, hl5, _⟩ := Keeps_prev_cell hprev hwb1 hl3
        obtain ⟨hw6, hl6, _⟩ := ihr _ _ _ _ _ _ _ _ _ _ _ _ htr hlm hnodem hw5 hl5
        obtain ⟨hw7, hl7, _⟩ := Keeps_next_cell hnext hw6 hl6
        exact remove_tail ih Ec tree Cc rot (some l) none node h hw7 (Or.inl hl7)
          (fun _ => hl7)
      | none =>
        simp only at h
        obtain ⟨y, hy, h⟩ := Res.bind_eq_ok.mp h
        cases hy
        exact remove_tail ih Eb tree (cursor_pop C) false none none node h hwb1 hl0 hrest

theorem block_two (root : Nat) : ∀ k, Spec_merge root k ∧ Spec_remove root k := by
  intro k
  induction k with
  | zero =>
    refine ⟨?_, ?_⟩
    · intro E tree C left right E1 C1 merged null T h
      rw [try_merge_right] at h
      cases h
    · intro E tree C E1 C1 T h
      rw [cursor_remove] at h
      cases h
  | succ k ih => exact ⟨merge_step ih.2, remove_step ih.1⟩

theorem Held_Pages_goto_key_loop {root : Nat} (cmp : BEngine → Key → Res Int) {T : List Nat} :
    ∀ (k : Nat) (E : BEngine) (C : BCursor) (node : Nat) (E1 : BEngine) (C1 : BCursor)
      (found : Bool),
      cursor_goto_key_loop cmp k E C node = Res.ok (E1, C1, found) →
      Held_Pages E root (node :: (C.path.map Prod.fst ++ T)) →
      root_last root ((node, 0) :: C.path) →
      Held_Pages E1 root (C1.path.map Prod.fst ++ T) ∧ root_last root C1.path := by
  intro k
  induction k with
  | zero =>
    intro E C node E1 C1 found h
    simp only [cursor_goto_key_loop] at h
    cases h
  | succ k ih =>
    intro E C node E1 C1 found h hw hl
    simp only [cursor_goto_key_loop, Res.bind_eq_ok] at h
    obtain ⟨n, _, hit, _, h⟩ := h
    split at h
    · split at h
      · simp only [Res.bind_eq_ok] at h
        obtain ⟨Ca, hpush, child, _, Ea, href, h⟩ := h
        have hp := cursor_push_eq_ok hpush
        refine ih _ _ _ _ _ _ h ?_ ?_
        · rw [hp]
          exact Held_Pages_node_from_page_id href hw
        · rw [hp]
          exact root_last_cons _ (root_last_idx _ hl)
      · simp only [Res.bind_eq_ok] at h
        obtain ⟨Ca, hpush, Ea, href, h⟩ := h
        have hp := cursor_push_eq_ok hpush
        refine ih _ _ _ _ _ _ h ?_ ?_
        · rw [hp]
          exact Held_Pages_node_from_page_id href hw
        · rw [hp]
          exact root_last_cons _ (root_last_idx _ hl)
    · split at h
      · simp only [Res.bind_eq_ok, Res.pure_eq_ok, Prod.mk.injEq] at h
        obtain ⟨Ca, hpush, rfl, rfl, _⟩ := h
        have hp := cursor_push_eq_ok hpush
        rw [hp]
        exact ⟨hw, root_last_idx _ hl⟩
      · simp only [Res.bind_eq_ok, Res.pure_eq_ok, Prod.mk.injEq] at h
        obtain ⟨Ca, hpush, rfl, rfl, _⟩ := h
        have hp := cursor_push_eq_ok hpush
        rw [hp]
        exact ⟨hw, root_last_idx _ hl⟩

theorem Held_Pages_goto_key {E E1 : BEngine} {tree : BTree} {C C1 : BCursor}
    {cmp : BEngine → Key → Res Int} {found : Bool} {T : List Nat}
    (h : cursor_goto_key E tree C cmp = Res.ok (E1, C1, found))
    (hw : Held_Pages E tree.root (C.path.map Prod.fst ++ T)) :
    Held_Pages E1 tree.root (C1.path.map Prod.fst ++ T) ∧ root_last tree.root C1.path := by
  unfold cursor_goto_key at h
  simp only [Res.bind_eq_ok] at h
  obtain ⟨⟨Ea, Ca⟩, hreset, Eb, href, h⟩ := h
  obtain ⟨hwa, hpa⟩ := Held_Pages_reset_loop 0 _ _ _ _ hreset hw
  refine Held_Pages_goto_key_loop cmp _ _ _ _ _ _ _ h ?_ ?_
  · rw [hpa]
    exact Held_Pages_node_from_page_id href hwa
  · rw [hpa]
    exact ⟨0, rfl⟩

theorem Held_Pages_insert {root fuel : Nat} {E E1 : BEngine} {tree : BTree} {C C1 : BCursor}
    {key : UKey} {val : Val} {T : List Nat}
    (h : bcursor_insert fuel E tree C key val = Res.ok (E1, C1))
    (hw : Held_Pages E root (C.path.map Prod.fst ++ T)) (hl : root_last root C.path) :
    Held_Pages E1 root (C1.path.map Prod.fst ++ T) ∧ root_last root C1.path := by
  unfold bcursor_insert at h
  simp only [Res.bind_eq_ok, Res.pure_eq_ok, Prod.mk.injEq] at h
  obtain ⟨_, _, ⟨Ea, Ca⟩, hens, node, hnode, idx, _, ⟨Eb, cell⟩, hadd, n, _, n1, _, Ec, hs1,
    v, _, n2, _, Ed, hs2, _, _, rfl, rfl⟩ := h
  obtain ⟨hwa, hla, _⟩ := (block_one root fuel).2.2.2.2.2.1 _ _ _ _ _ _ T hens hw hl
  have hm : ∀ x ∈ [node], x ∈ Ca.path.map Prod.fst ++ T :=
    fun x hx => by rw [List.mem_singleton.mp hx]; exact deref_mem hnode
  exact ⟨Held_Pages_node_writes (Node_Writes_trans (Node_Writes_trans (Node_Writes_add_cell (List.mem_singleton_self _) hadd)
    (Node_Writes_setNode hs1 (List.mem_singleton_self _)))
    (Node_Writes_setNode hs2 (List.mem_singleton_self _))) hm hwa, hla⟩

theorem Held_Pages_update {root fuel : Nat} {E E1 : BEngine} {tree : BTree} {C C1 : BCursor}
    {val : Val} {T : List Nat}
    (h : bcursor_update fuel E tree C val = Res.ok (E1, C1))
    (hw : Held_Pages E root (C.path.map Prod.fst ++ T)) (hl : root_last root C.path) :
    Held_Pages E1 root (C1.path.map Prod.fst ++ T) ∧ root_last root C1.path := by
  unfold bcursor_update at h
  simp only [Res.bind_eq_ok] at h
  obtain ⟨idx, _, node, hnode, n, _, cell, _, ovs, _, h⟩ := h
  have hm : ∀ x ∈ [node], x ∈ C.path.map Prod.fst ++ T :=
    fun x hx => by rw [List.mem_singleton.mp hx]; exact deref_mem hnode
  split at h <;> simp only [Res.bind_eq_ok, Res.pure_eq_ok, Prod.mk.injEq] at h
  · obtain ⟨ov, _, n1, _, Ea, hs, rfl, rfl⟩ := h
    exact ⟨Held_Pages_node_writes (Node_Writes_setNode hs (List.mem_singleton_self _)) hm hw, hl⟩
  · obtain ⟨ks, _, kb, _, _, _, Ea, hdel, ⟨Eb, Cb⟩, hens, idx2, _, ⟨Ec, ncell⟩, hadd, n3, _,
      skb, _, n4, _, Ed, hs1, v, _, n5, _, Ee, hs2, _, _, rfl, rfl⟩ := h
    have hda := Node_Writes_delete_cell (List.mem_singleton_self node) hdel
    have hwa := Held_Pages_node_writes hda hm hw
    obtain ⟨hwb, hlb, hub⟩ := (block_one root fuel).2.2.2.2.2.1 _ _ _ _ _ _ T hens hwa hl
    refine ⟨Held_Pages_node_writes_unfreed
      (Node_Writes_trans (Node_Writes_trans (Node_Writes_add_cell (List.mem_singleton_self node) hadd)
        (Node_Writes_setNode hs1 (List.mem_singleton_self _)))
        (Node_Writes_setNode hs2 (List.mem_singleton_self _))) ?_ hwb, hlb⟩
    intro hlen x hx
    rw [List.mem_singleton.mp hx]
    have hlen : Eb.pages.length < 2 ^ 32 := hlen
    have hlen0 : E.pages.length < 2 ^ 32 := by
      have h1 := (Unfreed_node_writes hda).1
      have h2 := hub.1
      omega
    refine hub.2 _ ((Unfreed_node_writes hda).2 _ ?_)
    rcases hw with hw | ⟨_, _, h3⟩
    · omega
    · exact held_unfreed (h3 node (deref_mem hnode))

theorem Held_Pages_remove {fuel : Nat} {E E1 : BEngine} {tree : BTree} {C C1 : BCursor}
    {T : List Nat}
    (h : bcursor_remove fuel E tree C = Res.ok (E1, C1))
    (hw : Held_Pages E tree.root (C.path.map Prod.fst ++ T)) (hl : root_last tree.root C.path) :
    Held_Pages E1 tree.root (C1.path.map Prod.fst ++ T) ∧ root_last tree.root C1.path := by
  unfold bcursor_remove at h
  simp only [Res.bind_eq_ok] at h
  obtain ⟨idx, _, node, hnode, n, _, cell, _, size, _, h⟩ := h
  have hm : ∀ x ∈ [node], x ∈ C.path.map Prod.fst ++ T :=
    fun x hx => by rw [List.mem_singleton.mp hx]; exact deref_mem hnode
  split at h <;> simp only [Res.bind_eq_ok, Res.pure_eq_ok] at h
  · obtain ⟨Ea, hdel, y, rfl, idx2, _, node2, _, n2, _, h⟩ := h
    have hwa := Held_Pages_node_writes (Node_Writes_delete_cell (List.mem_singleton_self node) hdel)
      hm hw
    split at h <;> simp only [Res.pure_eq_ok, Prod.mk.injEq] at h
    · obtain ⟨rfl, rfl⟩ := h
      exact ⟨hwa, hl⟩
    · obtain ⟨rfl, rfl⟩ := h
      exact ⟨hwa, hl⟩
  · obtain ⟨ks, _, kb, _, ⟨Ea, Ca⟩, hrem, ⟨Eb, Cb, f⟩, hgoto, y, rfl, idx2, _, node2, _, n2, _,
      h⟩ := h
    obtain ⟨hwa, _⟩ := (block_two tree.root fuel).2 _ _ _ _ _ T hrem hw hl
    obtain ⟨hwb, hlb⟩ := Held_Pages_goto_key hgoto hwa
    split at h <;> simp only [Res.pure_eq_ok, Prod.mk.injEq] at h
    · obtain ⟨rfl, rfl⟩ := h
      exact ⟨hwb, hlb⟩
    · obtain ⟨rfl, rfl⟩ := h
      exact ⟨hwb, hlb⟩

theorem Held_Pages_close {root : Nat} {E E1 : BEngine} {C : BCursor} {T : List Nat}
    (h : bcursor_close E C = Res.ok E1)
    (hw : Held_Pages E root (C.path.map Prod.fst ++ T)) : Held_Pages E1 root T := by
  unfold bcursor_close at h
  simp only [Res.bind_eq_ok, Res.pure_eq_ok] at h
  obtain ⟨⟨Ea, Ca⟩, hreset, rfl⟩ := h
  exact (Held_Pages_reset_loop 0 _ _ _ _ hreset hw).1

theorem Held_Pages_run_op {fuel : Nat} {tree : BTree} {E E1 : BEngine} {op : Op}
    (h : run_op fuel tree E op = Res.ok E1) (hw : Held_Pages E tree.root []) :
    Held_Pages E1 tree.root [] := by
  have hw0 : Held_Pages E tree.root (bcursor_new.path.map Prod.fst ++ []) := hw
  cases op with
  | insert key val =>
    simp only [run_op, Res.bind_eq_ok] at h
    obtain ⟨⟨Ea, Ca, f⟩, hgoto, ⟨Eb, Cb⟩, hins, h⟩ := h
    obtain ⟨hwa, hla⟩ := Held_Pages_goto_key hgoto hw0
    exact Held_Pages_close h (Held_Pages_insert hins hwa hla).1
  | update key val =>
    simp only [run_op, Res.bind_eq_ok] at h
    obtain ⟨⟨Ea, Ca, f⟩, hgoto, h⟩ := h
    obtain ⟨hwa, hla⟩ := Held_Pages_goto_key hgoto hw0
    split at h
    · simp only [Res.bind_eq_ok] at h
      obtain ⟨⟨Eb, Cb⟩, hupd, h⟩ := h
      exact Held_Pages_close h (Held_Pages_update hupd hwa hla).1
    · exact Held_Pages_close h hwa
  | remove key =>
    simp only [run_op, Res.bind_eq_ok] at h
    obtain ⟨⟨Ea, Ca, f⟩, hgoto, h⟩ := h
    obtain ⟨hwa, hla⟩ := Held_Pages_goto_key hgoto hw0
    split at h
    · simp only [Res.bind_eq_ok] at h
      obtain ⟨⟨Eb, Cb⟩, hrem, h⟩ := h
      exact Held_Pages_close h (Held_Pages_remove hrem hwa hla).1
    · exact Held_Pages_close h hwa

theorem Held_Pages_run_ops {fuel : Nat} {tree : BTree} :
    ∀ (ops : List Op) (E E1 : BEngine), run_ops fuel tree ops E = Res.ok E1 →
      Held_Pages E tree.root [] → Held_Pages E1 tree.root [] := by
  intro ops
  induction ops with
  | nil =>
    intro E E1 h hw
    simp only [run_ops, Res.pure_eq_ok] at h
    subst h
    exact hw
  | cons op ops ih =>
    intro E E1 h hw
    simp only [run_ops, Res.bind_eq_ok] at h
    obtain ⟨Ea, hop, h⟩ := h
    exact ih _ _ h (Held_Pages_run_op hop hw)

theorem File_Rule_run_ops {fuel : Nat} {tree : BTree} {ops : List Op} {E E1 : BEngine}
    (h : run_ops fuel tree ops E = Res.ok E1) (hr : File_Rule E tree.root)
    (hlen : E1.pages.length < 2 ^ 32) : File_Rule E1 tree.root := by
  rcases Held_Pages_run_ops ops E E1 h (Or.inr ⟨hr, List.nodup_nil, fun x hx => by cases hx⟩) with
    h1 | ⟨h1, _, _⟩
  · omega
  · exact h1

theorem new_tree_eq (type : BType) : new_tree type = Res.ok (new_tree_engine, ⟨type, 1⟩) := by
  cases type <;> decide!

theorem File_Rule_new_tree {type : BType} {E : BEngine} {tree : BTree}
    (h : new_tree type = Res.ok (E, tree)) : File_Rule E tree.root := by
  rw [new_tree_eq] at h
  cases h
  have hp : new_tree_engine.pages.length = 2 := by decide!
  have hfree : new_tree_engine.free_page = 0 := by decide!
  have hall : new_tree_engine.pages.all (fun p => p.ref_count == 0) = true := by decide!
  refine ⟨by decide!, by rw [hp]; exact Nat.lt_succ_self 1, by rw [hfree]; decide, ?_, ?_, ?_⟩
  · intro j p hj
    left
    have := List.all_eq_true.mp hall p (List.get?_mem hj)
    simpa using this
  · intro k
    rw [hfree, free_list_zero]
    exact List.nodup_nil
  · intro k x hx
    rw [hfree, free_list_zero] at hx
    cases hx

theorem File_Rule_run_on_new_tree {fuel : Nat} {type : BType} {ops : List Op} {E : BEngine}
    {tree : BTree} (h : run_on_new_tree fuel type ops = Res.ok (E, tree))
    (hlen : E.pages.length < 2 ^ 32) : File_Rule E tree.root := by
  unfold run_on_new_tree at h
  simp only [Res.bind_eq_ok, Res.pure_eq_ok, Prod.mk.injEq] at h
  obtain ⟨⟨E0, tree0⟩, hnew, Ea, hrun, rfl, rfl⟩ := h
  exact File_Rule_run_ops hrun (File_Rule_new_tree hnew) hlen

theorem File_Rule_goto_ukey {E E1 : BEngine} {tree : BTree} {C1 : BCursor} {key : UKey}
    {found : Bool} (h : bcursor_goto_ukey E tree bcursor_new key = Res.ok (E1, C1, found))
    (hr : File_Rule E tree.root) (hlen : E1.pages.length < 2 ^ 32) :
    File_Rule E1 tree.root ∧ ∀ x ∈ C1.path.map Prod.fst, held E1 x := by
  have hw0 : Held_Pages E tree.root (bcursor_new.path.map Prod.fst ++ []) :=
    Or.inr ⟨hr, List.nodup_nil, fun x hx => by cases hx⟩
  rcases (Held_Pages_goto_key h hw0).1 with h1 | ⟨h1, _, h3⟩
  · omega
  · exact ⟨h1, fun x hx => h3 x (by simpa using hx)⟩

/-- A split leaves a leaf below half occupancy: after inserting the keys 1, 2, 3 with values of
3204 bytes the root has split, and the new left leaf (page 2) holds one cell: its logical free
space is 4966, above half of the usable page size, 4090. -/
theorem split_leaves_a_leaf_below_half_occupancy :
    (run_on_new_tree 64 .int
        [.insert (.int 1) (mk_val 3200 0), .insert (.int 2) (mk_val 3200 0),
         .insert (.int 3) (mk_val 3200 0)]).toOption.map
          (fun s => (non_root_free_space s.1 s.2, s.1.page_size / 2))
      = some ([(2, 4966), (3, 1752)], 4090) := by
  decide!

/-- What `pager_get_page` and `pager_get_page_mutable` answer, by the flag of the slot: for
a pager whose reference counts are 32-bit values and a page id that passes the two assertions
of `pager_get_page`: `pager_get_page` returns `NULL` exactly when the id is cached in a slot
whose flag `F_PAGE_HAS_MUTABLE_REF` is set (with or without a reference outstanding), and the
pager is then unchanged. `pager_get_page_mutable` that returns `NULL` leaves
the pager unchanged, and the page was cached with the flag or with a reference; when it returns
a reference, the slot holds the page with reference count 1 and the flag, and before the call
the page was not cached or cached without reference and flag. Conversely a flagged or
referenced page gives `NULL`, an unreferenced cached page gives a reference, and so does a miss
when the file holds the page and `get_empty_cache_slot` finds a slot. -/
theorem get_page_fails_exactly_on_the_mutable_flag (pager : Paging.Pager) (id : Nat)
    (hid : id ≠ 0) (hcount : id < pager.db_file_page_count)
    (htype : ∀ page ∈ pager.pages, page.ref_count < 2 ^ 32) :
    (∀ P1, Paging.pager_get_page pager id = Res.ok (none, P1) ↔
        (P1 = pager ∧ ∃ slot page, Paging.map_get pager id = some slot
          ∧ pager.pages.get? slot = some page
          ∧ hasFlag page.flags Paging.F_PAGE_HAS_MUTABLE_REF = true))
      ∧ (∀ P1, Paging.pager_get_page_mutable pager id = Res.ok (none, P1) →
          P1 = pager ∧ ∃ slot page, Paging.map_get pager id = some slot
            ∧ pager.pages.get? slot = some page
            ∧ (hasFlag page.flags Paging.F_PAGE_HAS_MUTABLE_REF = true ∨ 0 < page.ref_count))
      ∧ (∀ ref P1, Paging.pager_get_page_mutable pager id = Res.ok (some ref, P1) →
          (∃ page1, P1.pages.get? ref = some page1 ∧ page1.id = id ∧ page1.ref_count = 1
            ∧ hasFlag page1.flags Paging.F_PAGE_HAS_MUTABLE_REF = true)
          ∧ (Paging.map_get pager id = none
            ∨ ∃ page, Paging.map_get pager id = some ref ∧ pager.pages.get? ref = some page
                ∧ page.ref_count = 0
                ∧ hasFlag page.flags Paging.F_PAGE_HAS_MUTABLE_REF = false))
      ∧ (∀ slot page, Paging.map_get pager id = some slot → pager.pages.get? slot = some page →
          (hasFlag page.flags Paging.F_PAGE_HAS_MUTABLE_REF = true
            ∨ (0 < page.ref_count ∧ page.ref_count + 1 < 2 ^ 32)) →
          Paging.pager_get_page_mutable pager id = Res.ok (none, pager))
      ∧ (∀ slot page, Paging.map_get pager id = some slot → pager.pages.get? slot = some page →
          hasFlag page.flags Paging.F_PAGE_HAS_MUTABLE_REF = false → page.ref_count = 0 →
          slot ∈ pager.lru →
          ∃ P1, Paging.pager_get_page_mutable pager id = Res.ok (some slot, P1))
      ∧ (Paging.map_get pager id = none →
          Paging.page_id_to_file_offset pager id + Paging.PSIZE pager ≤ pager.file_size →
          Paging.slot_available pager = true →
          ∃ slot P1, Paging.pager_get_page_mutable pager id = Res.ok (some slot, P1)) := by
  have hcases : ∀ slot page, Paging.map_get pager id = some slot →
      pager.pages.get? slot = some page →
      hasFlag page.flags Paging.F_PAGE_HAS_MUTABLE_REF = false →
      (page.ref_count = 0 ∨ (0 < page.ref_count ∧ page.ref_count + 1 < 2 ^ 32)
        ∨ page.ref_count + 1 = 2 ^ 32) := by
    intro slot page _ hget _
    have := htype page (List.get?_mem hget)
    omega
  refine ⟨?_, ?_, ?_, ?_, ?_, ?_⟩
  · intro P1
    constructor
    · intro h
      cases hmap : Paging.map_get pager id with
      | none =>
        rw [Paging.pager_get_page_miss hid hcount hmap] at h
        simp only [Res.bind_eq_ok, Res.pure_eq_ok, Prod.mk.injEq] at h
        obtain ⟨_, _, _, _, h1, _⟩ := h
        cases h1
      | some slot =>
        cases hget : pager.pages.get? slot with
        | none =>
          rw [Paging.pager_get_page_dangling hid hcount hmap hget] at h
          cases h
        | some page =>
          cases hflag : hasFlag page.flags Paging.F_PAGE_HAS_MUTABLE_REF with
          | true =>
            rw [Paging.pager_get_page_flagged hid hcount hmap hget hflag] at h
            simp only [Res.ok.injEq, Prod.mk.injEq, true_and] at h
            exact ⟨h.symm, slot, page, rfl, hget, hflag⟩
          | false =>
            by_cases hrc : page.ref_count = 0
            · rw [Paging.pager_get_page_unused hid hcount hmap hget hflag hrc] at h
              split at h
              · simp at h
              · cases h
            · rw [Paging.pager_get_page_used hid hcount hmap hget hflag hrc] at h
              simp at h
    · rintro ⟨rfl, slot, page, hmap, hget, hflag⟩
      exact Paging.pager_get_page_flagged hid hcount hmap hget hflag
  · intro P1 h
    cases hmap : Paging.map_get pager id with
    | none =>
      obtain ⟨slot, _, h1, _⟩ := Paging.pager_get_page_mutable_miss_eq_ok hid hcount hmap h
      cases h1
    | some slot =>
      cases hget : pager.pages.get? slot with
      | none =>
        rw [Paging.pager_get_page_mutable_dangling hid hcount hmap hget] at h
        cases h
      | some page =>
        cases hflag : hasFlag page.flags Paging.F_PAGE_HAS_MUTABLE_REF with
        | true =>
          rw [Paging.pager_get_page_mutable_flagged hid hcount hmap hget hflag] at h
          simp only [Res.ok.injEq, Prod.mk.injEq, true_and] at h
          exact ⟨h.symm, slot, page, rfl, hget, Or.inl hflag⟩
        | false =>
          rcases hcases slot page hmap hget hflag with hrc | ⟨h0, hmax⟩ | hmax
          · rw [Paging.pager_get_page_mutable_unused hid hcount hmap hget hflag hrc] at h
            split at h
            · simp at h
            · cases h
          · rw [Paging.pager_get_page_mutable_used hid hcount hmap hget hflag h0 hmax] at h
            simp only [Res.ok.injEq, Prod.mk.injEq, true_and] at h
            exact ⟨h.symm, slot, page, rfl, hget, Or.inr h0⟩
          · rw [Paging.pager_get_page_mutable_wrapped hid hcount hmap hget hflag hmax] at h
            cases h
  · intro ref P1 h
    cases hmap : Paging.map_get pager id with
    | none =>
      obtain ⟨slot, page1, h1, h2, h3, h4, h5⟩ :=
        Paging.pager_get_page_mutable_miss_eq_ok hid hcount hmap h
      cases h1
      exact ⟨⟨page1, h2, h3, h4, h5⟩, Or.inl rfl⟩
    | some slot =>
      cases hget : pager.pages.get? slot with
      | none =>
        rw [Paging.pager_get_page_mutable_dangling hid hcount hmap hget] at h
        cases h
      | some page =>
        cases hflag : hasFlag page.flags Paging.F_PAGE_HAS_MUTABLE_REF with
        | true =>
          rw [Paging.pager_get_page_mutable_flagged hid hcount hmap hget hflag] at h
          simp at h
        | false =>
          rcases hcases slot page hmap hget hflag with hrc | ⟨h0, hmax⟩ | hmax
          · rw [Paging.pager_get_page_mutable_unused hid hcount hmap hget hflag hrc] at h
            split at h
            · simp only [Res.ok.injEq, Prod.mk.injEq, Option.some.injEq] at h
              obtain ⟨rfl, rfl⟩ := h
              refine ⟨⟨_, @Paging.setPage_get?
                { pager with lru := pager.lru.erase slot } _ _ _ hget,
                (Paging.map_get_id hmap hget : page.id = id), rfl,
                Paging.hasFlag_setFlag _⟩,
                Or.inr ⟨page, rfl, hget, hrc, hflag⟩⟩
            · cases h
          · rw [Paging.pager_get_page_mutable_used hid hcount hmap hget hflag h0 hmax] at h
            simp at h
          · rw [Paging.pager_get_page_mutable_wrapped hid hcount hmap hget hflag hmax] at h
            cases h
  · intro slot page hmap hget h
    cases hflag : hasFlag page.flags Paging.F_PAGE_HAS_MUTABLE_REF with
    | true => exact Paging.pager_get_page_mutable_flagged hid hcount hmap hget hflag
    | false =>
      rcases h with h | ⟨h0, hmax⟩
      · rw [hflag] at h; cases h
      · exact Paging.pager_get_page_mutable_used hid hcount hmap hget hflag h0 hmax
  · intro slot page hmap hget hflag hrc hlru
    rw [Paging.pager_get_page_mutable_unused hid hcount hmap hget hflag hrc, if_pos hlru]
    exact ⟨_, rfl⟩
  · intro hmap hfile hslot
    exact Paging.pager_get_page_mutable_miss_ok hid hcount hmap hfile hslot

/-- An instance of the answers by the flag: page 1 of `one_page_pager` is cached without reference, and
`pager_get_page_mutable` returns its slot with reference count 1 and the flag set. -/
theorem get_page_mutable_on_one_page_pager :
    ((1 : Nat) ≠ 0 ∧ 1 < Paging.one_page_pager.db_file_page_count
        ∧ ∀ page ∈ Paging.one_page_pager.pages, page.ref_count < 2 ^ 32)
      ∧ ∃ P1, Paging.pager_get_page_mutable Paging.one_page_pager 1 = Res.ok (some 0, P1)
        ∧ ∃ page1, P1.pages.get? 0 = some page1 ∧ page1.id = 1 ∧ page1.ref_count = 1
          ∧ hasFlag page1.flags Paging.F_PAGE_HAS_MUTABLE_REF = true := by
  have hyp : (1 : Nat) ≠ 0 ∧ 1 < Paging.one_page_pager.db_file_page_count
      ∧ ∀ page ∈ Paging.one_page_pager.pages, page.ref_count < 2 ^ 32 := by
    refine ⟨by decide, by decide, ?_⟩
    have hp : Paging.one_page_pager.pages = [⟨1, 0, 0, 0, 0⟩] := by decide
    rw [hp]
    decide
  have h := get_page_fails_exactly_on_the_mutable_flag Paging.one_page_pager 1
    hyp.1 hyp.2.1 hyp.2.2
  obtain ⟨P1, h1⟩ := h.2.2.2.2.1 0 ⟨1, 0, 0, 0, 0⟩ (by decide) (by decide) (by decide)
    (by decide) (by decide)
  exact ⟨hyp, P1, h1, (h.2.2.1 0 P1 h1).1⟩

/-- The walk of `btree_delete` over a tree whose inner nodes all have a cell: for a tree on
which no cursor is open (`deletable`: every page of the tree is a page of the file, has no
reference and is not marked free, inner nodes have a cell, and the tree is
at most `MAX_BTREE_HEIGHT` levels deep) whose nodes are distinct pages, `btree_delete` with more
rounds than the tree has nodes returns, and the file it leaves is the one that
`node_from_page_id` and `node_delete` on every node in turn leave, in the order children first
and the root last: every node is freed exactly once. Afterwards every page of the tree is
marked free and has no reference, and the free list is the tree's pages, the root first,
followed by the free list from before. -/
theorem btree_delete_frees_every_node_in_post_order (E : BEngine) (tree : BTree) (fuel : Nat)
    (hok : deletable E MAX_BTREE_HEIGHT tree.root = true)
    (hnd : (post_order E MAX_BTREE_HEIGHT tree.root).Nodup)
    (hfuel : (post_order E MAX_BTREE_HEIGHT tree.root).length < fuel) :
    ∃ E1, btree_delete fuel E tree = Res.ok E1
      ∧ delete_nodes (post_order E MAX_BTREE_HEIGHT tree.root) E = Res.ok E1
      ∧ (∀ x ∈ post_order E MAX_BTREE_HEIGHT tree.root,
          ∃ p, E1.pages.get? x = some p ∧ p.ref_count = 0
            ∧ hasFlag p.node.flags F_NODE_IS_FREE = true)
      ∧ (∀ k, E.page_count ≤ 2 ^ 32 → E.free_page < 2 ^ 32 →
          (∀ x ∈ free_list E k E.free_page, x ∉ post_order E MAX_BTREE_HEIGHT tree.root) →
          free_list E1 ((post_order E MAX_BTREE_HEIGHT tree.root).length + k) E1.free_page
            = (post_order E MAX_BTREE_HEIGHT tree.root).reverse
              ++ free_list E k E.free_page) := by
  have hall := deletable_all hok
  refine ⟨free_nodes E (post_order E MAX_BTREE_HEIGHT tree.root),
    btree_delete_eq E tree fuel hok hnd hfuel, ?_, ?_, ?_⟩
  · have h := delete_nodes_eq E (post_order E MAX_BTREE_HEIGHT tree.root) []
      (by rw [List.nil_append]; exact hnd) hall
    rw [List.nil_append] at h
    exact h
  · exact free_nodes_pages E _ hnd (fun x hx => by
      obtain ⟨p, hp, _⟩ := hall x hx
      exact ⟨p, hp⟩)
  · intro k hcount hfree hold
    exact (free_list_free_nodes E k hfree _ hnd (fun x hx => by
      obtain ⟨p, hp, h0, hc, _⟩ := hall x hx
      exact ⟨h0, by omega, p, hp⟩) hold).1

/-- An instance of the walk of `btree_delete`: the root (page 1) with the leaves 2 and 3 is freed in the order 2, 3, 1,
and the free list, empty before, is 1, 3, 2. -/
theorem btree_delete_of_split_tree :
    (deletable split_tree.1 MAX_BTREE_HEIGHT split_tree.2.root = true
        ∧ (post_order split_tree.1 MAX_BTREE_HEIGHT split_tree.2.root).Nodup
        ∧ (post_order split_tree.1 MAX_BTREE_HEIGHT split_tree.2.root).length < 64)
      ∧ post_order split_tree.1 MAX_BTREE_HEIGHT split_tree.2.root = [2, 3, 1]
      ∧ free_list split_tree.1 0 split_tree.1.free_page = []
      ∧ ∃ E1, btree_delete 64 split_tree.1 split_tree.2 = Res.ok E1
        ∧ delete_nodes [2, 3, 1] split_tree.1 = Res.ok E1
        ∧ free_list E1 3 E1.free_page = [1, 3, 2] := by
  have h1 : deletable split_tree.1 MAX_BTREE_HEIGHT split_tree.2.root = true := by decide!
  have h2 : post_order split_tree.1 MAX_BTREE_HEIGHT split_tree.2.root = [2, 3, 1] := by
    decide!
  have h3 : (post_order split_tree.1 MAX_BTREE_HEIGHT split_tree.2.root).Nodup := by
    rw [h2]
    decide
  have h4 : (post_order split_tree.1 MAX_BTREE_HEIGHT split_tree.2.root).length < 64 := by
    rw [h2]
    decide
  obtain ⟨E1, h5, h6, _, h7⟩ :=
    btree_delete_frees_every_node_in_post_order split_tree.1 split_tree.2 64 h1 h3 h4
  have h8 := h7 0 (by decide!) (by decide!) (fun x hx => by cases hx)
  rw [h2] at h6 h8
  exact ⟨⟨h1, h3, h4⟩, h2, rfl, E1, h5, h6, h8⟩

/-- The limit of `check_cell_size` seen from the statement: on the new table `t (id INT
PRIMARY KEY, name TEXT)` the statement `INSERT INTO t VALUES (1, 'a')` stores the row, but with a text of 5000
bytes, where no `NOT NULL` column receives null either, the row is not inserted: the statement
ends in the failed `ASSERT` of `check_cell_size`. -/
theorem oversized_row_is_not_inserted :
    insert_then_scan 64 cols_id_name [.PLAN_LITERAL_INT 1, .PLAN_LITERAL_STRING [97]]
        = Res.ok (false, [[⟨false, .integer 1⟩, ⟨false, .string [97]⟩]])
      ∧ insert_then_scan 64 cols_id_name
          [.PLAN_LITERAL_INT 1, .PLAN_LITERAL_STRING (List.replicate 5000 97)]
        = Res.assertFail := by
  constructor <;> decide!

/-- The two branches of `PLAN_INSERT`: for a table whose primary-key column is INT, BOOL or
TEXT and value expressions (at most one per column) that evaluate to `vals`: when some value is null in a
column declared `NOT NULL`, `PLAN_INSERT` ends in `error()` with the engine as it was, no engine
function having been called; when no such value exists, `PLAN_INSERT` is `bcursor_goto_ukey`
with the value of the primary-key column, `serialize_row`, `bcursor_insert` of that key with the
serialised row, and `bcursor_close`, and reports no error when these return. -/
theorem plan_insert_rejects_null_or_calls_bcursor_insert (fuel : Nat) (E : BEngine) (table : Type_Table) (values : List Plan)
    (junk : Nat) (vals : List Db_Value)
    (heval : List.Forall₂ (fun e v => eval_expr none e = Res.ok v) values vals)
    (hcols : values.length ≤ table.cols.length)
    (hpk : ∀ c, table.cols.get? table.prim_key_col = some c →
      c.field = .TYPE_INT ∨ c.field = .TYPE_BOOL ∨ c.field = .TYPE_TEXT) :
    ((∃ j v c, vals.get? j = some v ∧ table.cols.get? j = some c
          ∧ c.not_null = true ∧ v.is_null = true) →
        plan_insert fuel E table values junk = Res.ok ⟨E, true⟩)
      ∧ ((∀ j v c, vals.get? j = some v → table.cols.get? j = some c →
          ¬ (c.not_null = true ∧ v.is_null = true)) →
        ∀ v c, vals.get? table.prim_key_col = some v →
          table.cols.get? table.prim_key_col = some c →
          plan_insert fuel E table values junk
            = (do
                let (E1, C1, _) ←
                  bcursor_goto_ukey E table.tree bcursor_new (insert_ukey c.field v)
                let bytes ← serialize_row table.cols vals
                let (E2, C2) ← bcursor_insert fuel E1 table.tree C1 (insert_ukey c.field v)
                  (row_val bytes junk)
                let E3 ← bcursor_close E2 C2
                pure ⟨E3, false⟩)) := by
  constructor
  · intro hnull
    obtain ⟨row1, u, h⟩ := plan_insert_values_null table hpk values vals heval 0 [] none
      (by omega) (by simpa using hnull)
    unfold plan_insert
    rw [h]
    rfl
  · intro hok v c hv hc
    obtain ⟨u, h1, h2, _⟩ := plan_insert_values_ok table hpk values vals heval 0 [] none
      (by omega) (by simpa using hok)
    have hu := h2 v c (Nat.zero_le _) hv hc
    unfold plan_insert
    rw [h1, hu]
    rfl

/-- An instance of the branches of `PLAN_INSERT`: on the table `t (id INT PRIMARY KEY, name TEXT)` the values `(NULL, 'a')`
end in `error()` with the engine unchanged, and the values `(1, 'a')` go to `bcursor_insert`
with the key 1. -/
theorem plan_insert_rejects_null_instance :
    (List.Forall₂ (fun e v => eval_expr none e = Res.ok v)
          [Plan.PLAN_LITERAL_NULL, .PLAN_LITERAL_STRING [97]]
          [Db_Value.null, ⟨false, .string [97]⟩]
        ∧ ([Plan.PLAN_LITERAL_NULL, Plan.PLAN_LITERAL_STRING [97]]).length
            ≤ (Type_Table.mk cols_id_name 0 ⟨.int, 1⟩).cols.length
        ∧ (∃ j v c, [Db_Value.null, ⟨false, .string [97]⟩].get? j = some v
            ∧ (Type_Table.mk cols_id_name 0 ⟨.int, 1⟩).cols.get? j = some c
            ∧ c.not_null = true ∧ v.is_null = true))
      ∧ plan_insert 64 (bengine_new PAGE_SIZE) (Type_Table.mk cols_id_name 0 ⟨.int, 1⟩)
          [.PLAN_LITERAL_NULL, .PLAN_LITERAL_STRING [97]] 0
        = Res.ok ⟨bengine_new PAGE_SIZE, true⟩ :=
  have heval : List.Forall₂ (fun e v => eval_expr none e = Res.ok v)
      [Plan.PLAN_LITERAL_NULL, .PLAN_LITERAL_STRING [97]]
      [Db_Value.null, ⟨false, .string [97]⟩] :=
    List.Forall₂.cons rfl (List.Forall₂.cons rfl List.Forall₂.nil)
  have hnull : ∃ j v c, [Db_Value.null, ⟨false, .string [97]⟩].get? j = some v
      ∧ (Type_Table.mk cols_id_name 0 ⟨.int, 1⟩).cols.get? j = some c
      ∧ c.not_null = true ∧ v.is_null = true :=
    ⟨0, Db_Value.null, ⟨true, .TYPE_INT⟩, rfl, rfl, rfl, rfl⟩
  ⟨⟨heval, by decide, hnull⟩,
    (plan_insert_rejects_null_or_calls_bcursor_insert 64 (bengine_new PAGE_SIZE)
      (Type_Table.mk cols_id_name 0 ⟨.int, 1⟩)
      [.PLAN_LITERAL_NULL, .PLAN_LITERAL_STRING [97]] 0
      [Db_Value.null, ⟨false, .string [97]⟩] heval (by decide)
      (fun c hc => Or.inl (by cases hc; rfl))).1 hnull⟩

/-! ### The properties -/

/-- C1 (fails on the code): after inserting the keys 15 and 14 into an empty tree the scan
yields 14, 15, and the value of the third pair passes `check_cell_size`, but inserting the
third distinct key 2 ends in a failed `ASSERT` (`n_cells_to_move < right->cell_count` in
`split_node`), so no scan of the three keys exists. -/
theorem C1_third_insert_fails_in_split_node :
    build_scan 64 [(15, mk_val 4060 0), (14, mk_val 4 0)]
        = Res.ok [(int_key 14, val_bytes (mk_val 4 0)), (int_key 15, val_bytes (mk_val 4060 0))]
      ∧ passes_check_cell_size (mk_val 4075 0) = true
      ∧ build 64 [(15, mk_val 4060 0), (14, mk_val 4 0), (2, mk_val 4075 0)] = Res.assertFail := by
  decide!

/-- C2 (fails on the code): the tree built by inserting 18, 33 and 16 holds exactly these keys,
key 23 is not in it and its value passes `check_cell_size`, but `bcursor_goto_ukey(23)`
followed by `bcursor_insert(23, v)` ends in a failed `ASSERT` (`node_from_page_id` is asked for
the page the cursor itself holds), so the cursor never points at an inserted cell. -/
theorem C2_insert_fails_on_second_round_of_ensure_cell_space :
    build_scan 64 [(18, mk_val 4072 0), (33, mk_val 3321 0), (16, mk_val 2 0)]
        = Res.ok [(int_key 16, val_bytes (mk_val 2 0)), (int_key 18, val_bytes (mk_val 4072 0)),
                  (int_key 33, val_bytes (mk_val 3321 0))]
      ∧ lookup 64 [(18, mk_val 4072 0), (33, mk_val 3321 0), (16, mk_val 2 0)] 23 = Res.ok false
      ∧ passes_check_cell_size (mk_val 1083 0) = true
      ∧ insert_protocol 64 [(18, mk_val 4072 0), (33, mk_val 3321 0), (16, mk_val 2 0)] 23
          (mk_val 1083 0) = Res.assertFail := by
  decide!

/-- C3 (fails on the code): the tree built by inserting 14, 0, 12 and 9 scans as 0, 9, 12, 14
and `bcursor_goto_key(14)` returns true, but the following `bcursor_remove` writes outside the
page buffer (`node_defragment` leaves the emptied right leaf with its old `cell_area`, and the
merge allocates below it), so there is no state in which key 14 is gone and the rest is kept. -/
theorem C3_remove_writes_outside_the_page :
    build_scan 64 [(14, mk_val 3032 0), (0, mk_val 3290 0), (12, mk_val 7 0), (9, mk_val 3156 0)]
        = Res.ok [(int_key 0, val_bytes (mk_val 3290 0)), (int_key 9, val_bytes (mk_val 3156 0)),
                  (int_key 12, val_bytes (mk_val 7 0)), (int_key 14, val_bytes (mk_val 3032 0))]
      ∧ lookup 64 [(14, mk_val 3032 0), (0, mk_val 3290 0), (12, mk_val 7 0), (9, mk_val 3156 0)]
          14 = Res.ok true
      ∧ remove_protocol 64
          [(14, mk_val 3032 0), (0, mk_val 3290 0), (12, mk_val 7 0), (9, mk_val 3156 0)] 14
          = Res.fault := by
  decide!

/-- C4 (fails on the code): in the tree holding keys 1 and 2 with 14-byte values, updating key
2 to a 22-byte value (which passes `check_cell_size`) returns normally and key 2 then reads
the new value, but the copy ran over the end of the cell: the entry that held key 1 now carries
the key -1 (the last 8 payload bytes), so key 1 no longer maps to its value. -/
theorem C4_update_overwrites_the_next_cell :
    passes_check_cell_size (mk_val 18 (256 ^ 18 - 1)) = true
      ∧ build_scan 64 [(1, mk_val 10 0), (2, mk_val 10 0)]
          = Res.ok [(int_key 1, val_bytes (mk_val 10 0)), (int_key 2, val_bytes (mk_val 10 0))]
      ∧ update_protocol 64 [(1, mk_val 10 0), (2, mk_val 10 0)] 2 (mk_val 18 (256 ^ 18 - 1))
          = Res.ok ⟨true, true, val_bytes (mk_val 18 (256 ^ 18 - 1)),
              [(int_key (-1), val_bytes (mk_val 10 0)),
               (int_key 2, val_bytes (mk_val 18 (256 ^ 18 - 1)))]⟩ := by
  decide!

/-- C5 (fails on the code): on the rows 1, 2, 3 `DELETE ... WHERE id = 2` leaves 1 and 3, but
on the empty table `PLAN_DELETE` returns without closing its cursor, the root page stays
referenced, and the scan that follows ends in a failed `ASSERT` (`node_from_page_id`) instead
of yielding the remaining (zero) rows. On the rows 14, 0, 12, 9 with texts of 3014, 3272, 0
and 3138 bytes, `DELETE ... WHERE id = 14` writes outside a page during the merge of two
leaves, so no scan of the remaining rows exists either. -/
theorem C5_delete_leaves_its_cursor_open_or_faults :
    (insert_delete_select 64 cols_id_name
        [[.PLAN_LITERAL_INT 1, .PLAN_LITERAL_STRING [97]],
         [.PLAN_LITERAL_INT 2, .PLAN_LITERAL_STRING [98]],
         [.PLAN_LITERAL_INT 3, .PLAN_LITERAL_STRING [99]]] (id_equals 2)).toOption.map
          (List.map (row_int 0)) = some [1, 3]
      ∧ insert_delete_select 64 cols_id_name [] (id_equals 2) = Res.assertFail
      ∧ (do let (E, table) ← new_table cols_id_name 0
            let r ← plan_delete 64 E table (id_equals 2)
            let root ← r.engine.page table.tree.root
            pure (root.ref_count, root.mutable_ref)) = Res.ok (1, true)
      ∧ (insert_delete_select 64 cols_id_name
          [id_text_row 14 3014, id_text_row 0 3272, id_text_row 12 0, id_text_row 9 3138]
          (id_equals 1000)).toOption.map (List.map (row_int 0)) = some [0, 9, 12, 14]
      ∧ insert_delete_select 64 cols_id_name
          [id_text_row 14 3014, id_text_row 0 3272, id_text_row 12 0, id_text_row 9 3138]
          (id_equals 14) = Res.fault := by
  decide!

/-- C6 (counterexample): the row of ten integers and one text of 2^32 - 90 bytes has the type
of its table (ten `INT` columns and a `TEXT` column), and the statement `INSERT INTO t VALUES
(1, ..., 1, "...")` that holds it has fewer than 2^32 characters. Its serialised form has
2^32 + 9 bytes, so the `u32` length is 9: `serialize_row` allocates 9 bytes, writes past them,
and the round trip yields no row. -/
theorem C6_text_near_4GiB_wraps_the_length :
    row_has_type (List.replicate 10 ⟨false, .TYPE_INT⟩ ++ [⟨false, .TYPE_TEXT⟩])
        (List.replicate 10 ⟨false, .integer 1⟩
          ++ [⟨false, .string (List.replicate 4294967206 97)⟩]) = true
      ∧ row_size (List.replicate 10 ⟨false, .integer 1⟩
          ++ [⟨false, .string (List.replicate 4294967206 97)⟩]) = 2 ^ 32 + 9
      ∧ round_trip (List.replicate 10 ⟨false, .TYPE_INT⟩ ++ [⟨false, .TYPE_TEXT⟩])
          (List.replicate 10 ⟨false, .integer 1⟩
            ++ [⟨false, .string (List.replicate 4294967206 97)⟩]) = Res.fault :=
  round_trip_of_ten_integers_and_a_long_text _ (List.length_replicate _ _)

/-- C6 (amended): for every row that has one value per column, each null or of the type of
its column (`INT`, `BOOL` or `TEXT`), and whose serialised form is shorter than 2^32 bytes,
`serialize_row` returns a buffer and `deserialize_row` on that buffer returns a row with the
same number of values, the same null flags and the same payload for every non-null value. -/
theorem C6_round_trip_of_rows_below_the_u32_range (cols : List Type_Column)
    (row : List Db_Value) (htype : row_has_type cols row = true)
    (hsize : row_size row < 2 ^ 32) :
    (round_trip cols row).toOption.map (same_rows row) = some true := by
  unfold row_size at hsize
  have hlen := serialize_row_length_eq cols row 0 4 (by simpa using htype) hsize
  obtain ⟨body, hbody, hblen, hdes⟩ :=
    serialize_row_body_round_trip cols row 0 (by simpa using htype)
  obtain ⟨out, hout, hsame⟩ := hdes []
  simp only [List.append_nil, List.drop_zero] at hout
  have hb : inBounds (decide ((natToBytes 4 (4 + (row.map value_size).sum) ++ body).length
      ≤ 4 + (row.map value_size).sum)) = Res.ok () := by
    simp [inBounds, natToBytes_length, hblen]
  have hdrop : (natToBytes 4 (4 + (row.map value_size).sum) ++ body).drop 4 = body := by
    rw [List.drop_append_of_le_length (by simp [natToBytes_length])]
    simp [List.drop_of_length_le, natToBytes_length]
  have hm : MEM_ALLOC (4 + (row.map value_size).sum) = Res.ok () := by
    unfold MEM_ALLOC
    rw [if_neg (by omega)]
  unfold round_trip serialize_row deserialize_row
  simp only [hlen, hm, hbody, Res.ok_bind, hb, pure, hdrop, hout, Res.toOption, Option.map_some',
    hsame]

/-- C6 (amended), an instance: the row (-5, true, "hi", null) of a table with columns
`INT`, `BOOL`, `TEXT`, `INT`. -/
theorem C6_round_trip_witness :
    row_has_type [⟨true, .TYPE_INT⟩, ⟨false, .TYPE_BOOL⟩, ⟨false, .TYPE_TEXT⟩, ⟨false, .TYPE_INT⟩]
        [⟨false, .integer (-5)⟩, ⟨false, .boolean true⟩, ⟨false, .string [104, 105]⟩,
         ⟨true, .integer 7⟩] = true
      ∧ (round_trip
          [⟨true, .TYPE_INT⟩, ⟨false, .TYPE_BOOL⟩, ⟨false, .TYPE_TEXT⟩, ⟨false, .TYPE_INT⟩]
          [⟨false, .integer (-5)⟩, ⟨false, .boolean true⟩, ⟨false, .string [104, 105]⟩,
           ⟨true, .integer 7⟩]).toOption.map
            (same_rows [⟨false, .integer (-5)⟩, ⟨false, .boolean true⟩,
              ⟨false, .string [104, 105]⟩, ⟨true, .integer 7⟩]) = some true :=
  ⟨by decide, C6_round_trip_of_rows_below_the_u32_range _ _ (by decide) (by decide)⟩

/-- C7 (fails on the code): eleven calls on a tree of text keys, each returning normally. The
root ends with one cell whose child pointer is 655360 while the file has 6 pages: the root
lost two separators to merges, the last one was replaced by a longer key, and
`node_alloc_cell` placed the new cell at offset 10 under the slot array (`node_defragment`
returns early on the emptied root). The reachable ids are 1, 655360 and 3, the free list is
4, 2, and page 5, the leaf the cell pointed to, is in neither set. -/
theorem C7_root_cell_allocated_under_the_slot_array :
    (run_on_new_tree 64 .str
        [.insert (text_key 10 3492) (mk_val 0 0), .insert (text_key 20 3492) (mk_val 0 0),
         .insert (text_key 60 100) (mk_val 3892 0), .insert (text_key 15 100) (mk_val 592 0),
         .insert (text_key 50 492) (mk_val 500 0), .insert (text_key 30 92) (mk_val 3400 0),
         .remove (text_key 10 3492), .remove (text_key 15 100), .remove (text_key 20 3492),
         .insert (text_key 40 1174) (mk_val 1600 0),
         .insert (text_key 35 100) (mk_val 792 0)]).toOption.map
          (fun s => (page_sets s.1 [s.2], page_discipline s.1 [s.2]))
      = some (([1, 655360, 3], [4, 2], 6), false) := by
  decide!

/-- C8 (fails on the code): the keys 1 to 6, inserted with cells of 2052 bytes, sit in the
leaves 2 and 3 (three cells and 2018 free bytes each; half of the usable page size is 4090).
Removing key 3 leaves page 2 with 4072 free bytes. Removing key 2 then would leave 6126, so
`bcursor_remove` calls `cursor_remove`; that one tests the free space it measured before
`node_delete_cell` (4072, not above 4090) and returns right after deleting the cell: its result
is the one of `node_delete_cell`, no rotation or merge is tried although page 3 holds three
cells, and page 2 stays a child of the root with 6126 free bytes. -/
theorem C8_removal_leaves_a_leaf_below_half_occupancy :
    (run_on_new_tree 64 .int six_inserts).toOption.map
        (fun s => (non_root_free_space s.1 s.2, s.1.page_size / 2))
      = some ([(2, 2018), (3, 2018)], 4090)
    ∧ (run_on_new_tree 64 .int (six_inserts ++ [Op.remove (.int 3)])).toOption.map
        (fun s => non_root_free_space s.1 s.2) = some [(2, 4072), (3, 2018)]
    ∧ (run_on_new_tree 64 .int
        (six_inserts ++ [Op.remove (.int 3), Op.remove (.int 2)])).toOption.map
        (fun s => non_root_free_space s.1 s.2) = some [(2, 6126), (3, 2018)]
    ∧ (do
        let (E, tree) ← run_on_new_tree 64 .int (six_inserts ++ [Op.remove (.int 3)])
        let (E1, C1, found) ← bcursor_goto_ukey E tree bcursor_new (.int 2)
        let n ← E1.node 2
        let free ← removal_free_space E1 tree C1
        let r ← cursor_remove 64 E1 tree C1
        let E2 ← node_delete_cell E1 tree 2 1
        pure (found, C1.path, node_get_logical_free_space n, free, decide (r = (E2, C1))))
      = Res.ok (true, [(2, 1), (1, 0)], 4072, 6126, true) := by
  refine ⟨by decide!, by decide!, by decide!, by decide!⟩

/-- C9 (fails on the code): the root leaf that held the keys 1, 2, 3 and lost them again has
no cells, `cell_area` 2792 and `cell_area_logical` 8192; it satisfies the inequality and
`node_can_fit_cell` for a cell of 3012 bytes, but `node_add_cell` leaves `cell_area` at 65316
(2792 - 3012 in `u16`) above `cell_area_logical` 5180, because `node_defragment` returns early
on an empty node without setting `cell_area`. -/
theorem C9_add_cell_to_an_emptied_node_breaks_the_layout :
    (do let (E, tree) ← run_on_new_tree 64 .int
          [.insert (.int 1) (mk_val 2688 0), .insert (.int 2) (mk_val 2688 0),
           .insert (.int 3) (mk_val 2688 0), .remove (.int 1), .remove (.int 2),
           .remove (.int 3)]
        add_cell_layouts E tree tree.root 0 3012)
      = Res.ok ((0, 2792, 8192), true, true, (1, 65316, 5180), false) := by
  decide!

/-- C10 (fails on the code): after `INSERT` of the rows (1, 10) and (2, 20),
`UPDATE g SET id = 9 WHERE id = 1` rewrites the row but not the B-tree key: the stored cells
have the keys 1 and 2 while their rows have the primary-key values 9 and 2, and the scan yields
9 before 2. -/
theorem C10_update_of_primary_key_leaves_the_tree_key :
    (insert_update_select 64 cols_id_k
        [[.PLAN_LITERAL_INT 1, .PLAN_LITERAL_INT 10], [.PLAN_LITERAL_INT 2, .PLAN_LITERAL_INT 20]]
        (id_equals 1) [0] [.PLAN_LITERAL_INT 9]).toOption.map
          (fun r => (r.1, r.2.map (row_int 0), r.2.map (row_int 1)))
      = some ([int_key 1, int_key 2], [9, 2], [10, 20]) := by
  decide!

/-- C11 (fails on the code): `PLAN_INSERT` does not look at what `bcursor_goto_ukey` returns.
After `INSERT INTO g VALUES (1, 10)` and `INSERT INTO g VALUES (1, 20)` the B-tree holds two
cells with key 1 (the second row in front of the first), so the keys in scan order are not
strictly ascending and two stored rows have the same primary-key value. -/
theorem C11_insert_of_a_present_key_stores_a_second_cell :
    (insert_select 64 cols_id_k
        [[.PLAN_LITERAL_INT 1, .PLAN_LITERAL_INT 10],
         [.PLAN_LITERAL_INT 1, .PLAN_LITERAL_INT 20]]).toOption.map
          (fun r => (r.1, r.2.map (row_int 0), r.2.map (row_int 1)))
      = some ([int_key 1, int_key 1], [1, 1], [20, 10]) := by
  decide!

/-- C12 (fails on the code): in a tree of text keys that holds only "abc",
`bcursor_goto_ukey` returns true for "abc", false for "abd", and also true for "ab" (a proper
prefix of the stored key) and for "abcd" (which has the stored key as a proper prefix), two keys
that were never inserted: `str_key_cmp` compares only as many bytes as the shorter key has. -/
theorem C12_goto_ukey_finds_a_prefix_of_a_stored_key :
    goto_ukey_after 64 .str [.insert (.str [97, 98, 99]) (mk_val 0 0)] (.str [97, 98, 99])
        = Res.ok true
      ∧ goto_ukey_after 64 .str [.insert (.str [97, 98, 99]) (mk_val 0 0)] (.str [97, 98, 100])
        = Res.ok false
      ∧ goto_ukey_after 64 .str [.insert (.str [97, 98, 99]) (mk_val 0 0)] (.str [97, 98])
        = Res.ok true
      ∧ goto_ukey_after 64 .str [.insert (.str [97, 98, 99]) (mk_val 0 0)]
          (.str [97, 98, 99, 100]) = Res.ok true := by
  decide!

/-- C13: when the operands `a` and `b` of a node evaluate to `va` and `vb` on a row, `NOT` and
unary minus of a null operand are null; `+`, `-`, `*`, `/`, `<`, `>`, `<=`, `>=`, `=` and `!=`
are null whenever one operand is null; `AND` is the non-null false when an operand is the
non-null false, else null when an operand is null, else the conjunction; `OR` is the non-null
true when an operand is the non-null true, else null when an operand is null, else the
disjunction; `IS NULL` is a non-null boolean, true exactly when its operand is null. -/
theorem C13_eval_expr_follows_three_valued_logic (row : Option (List Db_Value)) (a b : Plan)
    (type : Type_Tag) (va vb : Db_Value)
    (ha : eval_expr row a = Res.ok va) (hb : eval_expr row b = Res.ok vb) :
    (va.is_null = true → ∀ op ∈ unary_operators, yields_null (eval_expr row (op a)) = true)
      ∧ (va.is_null = true ∨ vb.is_null = true →
          ∀ op ∈ binary_operators type, yields_null (eval_expr row (op a b)) = true)
      ∧ ((va.is_null = false ∧ va.boolean = false) ∨ (vb.is_null = false ∧ vb.boolean = false) →
          yields_bool (eval_expr row (.PLAN_AND a b)) false = true)
      ∧ (¬ ((va.is_null = false ∧ va.boolean = false) ∨ (vb.is_null = false ∧ vb.boolean = false)) →
          va.is_null = true ∨ vb.is_null = true →
          yields_null (eval_expr row (.PLAN_AND a b)) = true)
      ∧ (va.is_null = false → vb.is_null = false →
          yields_bool (eval_expr row (.PLAN_AND a b)) (va.boolean && vb.boolean) = true)
      ∧ ((va.is_null = false ∧ va.boolean = true) ∨ (vb.is_null = false ∧ vb.boolean = true) →
          yields_bool (eval_expr row (.PLAN_OR a b)) true = true)
      ∧ (¬ ((va.is_null = false ∧ va.boolean = true) ∨ (vb.is_null = false ∧ vb.boolean = true)) →
          va.is_null = true ∨ vb.is_null = true →
          yields_null (eval_expr row (.PLAN_OR a b)) = true)
      ∧ (va.is_null = false → vb.is_null = false →
          yields_bool (eval_expr row (.PLAN_OR a b)) (va.boolean || vb.boolean) = true)
      ∧ yields_bool (eval_expr row (.PLAN_IS_NULL a)) va.is_null = true := by
  refine ⟨?_, ?_, ?_, ?_, ?_, ?_, ?_, ?_, ?_⟩
  · intro h op hop
    simp only [unary_operators, List.mem_cons, List.mem_singleton, List.not_mem_nil, or_false] at hop
    rcases hop with rfl | rfl <;> simp [eval_expr, ha, Res.ok_bind, h, yields_null, pure]
  · intro h op hop
    simp only [binary_operators, List.mem_cons, List.mem_singleton, List.not_mem_nil, or_false] at hop
    rcases hop with rfl | rfl | rfl | rfl | rfl | rfl | rfl | rfl | rfl | rfl <;>
      simp only [eval_expr, ha, hb, Res.ok_bind] <;> exact eval2_null _ h
  all_goals
    cases hna : va.is_null <;> cases hnb : vb.is_null <;> cases hba : va.boolean <;>
      cases hbb : vb.boolean <;>
      simp [eval_expr, ha, hb, Res.ok_bind, yields_null, yields_bool, pure, boolean_mk, hna, hnb,
        hba, hbb]

/-- C13, an instance: the operands `NULL` and `false`; `NULL AND false` is false, `NULL OR false`
is null, `NOT NULL` and `NULL = false` are null, `NULL IS NULL` is true. -/
theorem C13_three_valued_logic_witness :
    eval_expr none .PLAN_LITERAL_NULL = Res.ok Db_Value.null
      ∧ eval_expr none (.PLAN_LITERAL_BOOL false) = Res.ok ⟨false, .boolean false⟩
      ∧ yields_bool (eval_expr none (.PLAN_AND .PLAN_LITERAL_NULL (.PLAN_LITERAL_BOOL false)))
          false = true
      ∧ yields_null (eval_expr none (.PLAN_OR .PLAN_LITERAL_NULL (.PLAN_LITERAL_BOOL false)))
          = true
      ∧ yields_null (eval_expr none (.PLAN_NOT .PLAN_LITERAL_NULL)) = true
      ∧ yields_null (eval_expr none
          (.PLAN_EQUAL .TYPE_BOOL .PLAN_LITERAL_NULL (.PLAN_LITERAL_BOOL false))) = true
      ∧ yields_bool (eval_expr none (.PLAN_IS_NULL .PLAN_LITERAL_NULL)) true = true :=
  have h := C13_eval_expr_follows_three_valued_logic none .PLAN_LITERAL_NULL
    (.PLAN_LITERAL_BOOL false) .TYPE_BOOL Db_Value.null ⟨false, .boolean false⟩ rfl rfl
  ⟨rfl, rfl, h.2.2.1 (Or.inr ⟨rfl, rfl⟩), h.2.2.2.2.2.2.1 (by decide) (Or.inl rfl),
    h.1 rfl _ (by simp [unary_operators]), h.2.1 (Or.inl rfl) _ (by simp [binary_operators]),
    h.2.2.2.2.2.2.2.2⟩

/-- C14 (counterexample): on the tokens of `SELECT 1 + NULL IS NULL` the parser builds the
projection of `1 + (NULL IS NULL)`, and the type checker rejects the statement: the second
operand of `+` has type `BOOL` where `INT` is expected. No row is produced. -/
theorem C14_is_null_binds_tighter_than_plus :
    parse_statements 16 16 tokens_select_1_plus_null_is_null
        = Front.ok [.PLAN_PROJECTION
            [.PLAN_ADD (.PLAN_LITERAL_INT 1) (.PLAN_IS_NULL .PLAN_LITERAL_NULL)]
            .PLAN_SCAN_DUMMY]
      ∧ db_run_query 16 tokens_select_1_plus_null_is_null
        = Front.error (.type_mismatch .TYPE_INT .TYPE_BOOL) := by
  decide

/-- C14 (amended): `precedence_of` gives `IS` (7) a higher precedence than `+` (5), so
`parse_expr` groups `1 + NULL IS NULL` as `1 + (NULL IS NULL)`; with the parentheses written,
`SELECT (1 + NULL) IS NULL` is accepted by the parser and the type checker and yields exactly one
row whose single value is the non-null boolean true. -/
theorem C14_parenthesised_sum_is_null_yields_true :
    precedence_of false .TOKEN_IS = 7 ∧ precedence_of false .TOKEN_PLUS = 5
      ∧ parse_expr 16 0 tokens_select_1_plus_null_is_null.tail
        = Front.ok (.PLAN_ADD (.PLAN_LITERAL_INT 1) (.PLAN_IS_NULL .PLAN_LITERAL_NULL), [])
      ∧ db_run_query 16 tokens_select_paren_1_plus_null_is_null
        = Front.ok [(.PLAN_PROJECTION
            [.PLAN_IS_NULL (.PLAN_ADD (.PLAN_LITERAL_INT 1) .PLAN_LITERAL_NULL)]
            .PLAN_SCAN_DUMMY, Res.ok [[⟨false, .boolean true⟩]])] := by
  decide

/-- C15: over an operand that yields `rows`, with integer or boolean keys that evaluate on every
row and one direction per key, the calls of `next` on a `PLAN_ORDER` node return a permutation
of `rows` in which no row comes after a row that `a_before_b` places strictly after it; on the
rows, `a_before_b` is the lexicographic "less than" of the rank vectors of the keys (null in the
middle, non-null values above it for an ascending key and below it, reversed, for a descending
one); and on a single key `a_before_b` puts null before every non-null value for an ascending
key and after it for a descending key. -/
theorem C15_order_yields_the_rows_in_the_order_of_their_keys {σ : Type} (I : Input σ)
    (keys : List Plan) (key_types : List Type_Tag)
    (directions : List Bool) (rows : List Db_Row) (fuel : Nat) (s : σ)
    (htypes : ∀ t ∈ key_types, t = Type_Tag.TYPE_INT ∨ t = Type_Tag.TYPE_BOOL)
    (hlen : key_types.length = keys.length) (hdir : directions.length = keys.length)
    (hrows : I.yields s rows = true)
    (hkeys : ∀ r ∈ rows, (sort_item_keys r keys).isOk = true)
    (hfuel : rows.length < fuel) :
    is_sorted_permutation (row_before keys key_types (some directions)) rows
        (order_rows fuel I keys key_types directions s) = true
      ∧ (∀ x ∈ rows, ∀ y ∈ rows, row_before keys key_types (some directions) x y
          = Res.ok (rank_lt (key_ranks key_types (some directions) (row_keys keys x))
              (key_ranks key_types (some directions) (row_keys keys y))))
      ∧ ∀ (t : Type_Tag) (a b : Db_Value), t = Type_Tag.TYPE_INT ∨ t = Type_Tag.TYPE_BOOL →
          a.is_null = true → b.is_null = false →
          a_before_b [t] (some [true]) [a] [b] = Res.ok true
            ∧ a_before_b [t] (some [true]) [b] [a] = Res.ok false
            ∧ a_before_b [t] (some [false]) [b] [a] = Res.ok true
            ∧ a_before_b [t] (some [false]) [a] [b] = Res.ok false := by
  have hd : ∀ ds, some directions = some ds → ds.length = key_types.length := by
    intro ds h
    cases h
    omega
  have hcmp : ∀ x ∈ rows, ∀ y ∈ rows, row_before keys key_types (some directions) x y
      = Res.ok (rank_lt (key_ranks key_types (some directions) (row_keys keys x))
          (key_ranks key_types (some directions) (row_keys keys y))) := by
    intro x hx y hy
    exact a_before_b_rank key_types (some directions) _ _ htypes
      (by rw [hlen]; exact (row_keys_of_ok (hkeys x hx)).2)
      (by rw [hlen]; exact (row_keys_of_ok (hkeys y hy)).2) hd
  refine ⟨?_, hcmp, ?_⟩
  swap
  · intro t a b ht ha hb
    rcases ht with rfl | rfl <;> simp [a_before_b, Res.ok_bind, pure, ha, hb]
  obtain ⟨sorted, s1, hnew, hperm, hsort⟩ := sorter_new_sorted I keys key_types
    (some directions) rows fuel s htypes hlen hd hrows hkeys hfuel
  cases fuel with
  | zero => omega
  | succ fuel =>
    have hl : sorted.length = rows.length := by simpa using hperm.length_eq
    obtain ⟨P1, hdrain⟩ := plan_order_drain_sorted (fuel + 1) I sorted sorted.length 0 (fuel + 1)
      (⟨directions, keys, key_types, some ⟨0, sorted⟩, s1⟩ : Plan_Order σ) rfl rfl
      (Nat.zero_le _) (by omega)
    have hout : order_rows (fuel + 1) I keys key_types directions s
        = Res.ok (sorted.map Sort_Item.row) := by
      unfold order_rows
      rw [drain_congr _ _ _ (⟨directions, keys, key_types, some ⟨0, sorted⟩, s1⟩ : Plan_Order σ),
        hdrain]
      · simp [Res.ok_bind, pure]
      · simp [plan_order, plan_order_new, hnew, Res.ok_bind, pure]
    have hperm1 : (sorted.map Sort_Item.row).Perm rows := by
      have := hperm.map Sort_Item.row
      simpa [List.map_map, Function.comp_def] using this
    have hmem : ∀ x ∈ sorted, x.row ∈ rows ∧ x.keys = row_keys keys x.row := by
      intro x hx
      obtain ⟨r, hr, rfl⟩ := List.mem_map.mp (hperm.subset hx)
      exact ⟨hr, rfl⟩
    have hpair : (sorted.map Sort_Item.row).Pairwise
        (fun x y => row_before keys key_types (some directions) y x = Res.ok false) := by
      rw [List.pairwise_map]
      refine hsort.imp_of_mem ?_
      intro a b ha hb hab
      rw [hcmp b.row (hmem b hb).1 a.row (hmem a ha).1, ← (hmem a ha).2, ← (hmem b hb).2, hab]
    rw [hout]
    simp [is_sorted_permutation, hperm1, hpair]

/-- C15, an instance: four rows ordered by the second column ascending and then by the first
column descending; the row with the null key comes first. -/
theorem C15_order_witness :
    (rows_input [[int_value 1, int_value 20], [int_value 2, Db_Value.null],
        [int_value 3, int_value 10], [int_value 4, int_value 20]]).yields
        [[int_value 1, int_value 20], [int_value 2, Db_Value.null],
          [int_value 3, int_value 10], [int_value 4, int_value 20]]
        [[int_value 1, int_value 20], [int_value 2, Db_Value.null],
          [int_value 3, int_value 10], [int_value 4, int_value 20]] = true
      ∧ order_rows 5 (rows_input [[int_value 1, int_value 20], [int_value 2, Db_Value.null],
          [int_value 3, int_value 10], [int_value 4, int_value 20]])
          [.PLAN_COLUMN_REF 1, .PLAN_COLUMN_REF 0] [.TYPE_INT, .TYPE_INT] [true, false]
          [[int_value 1, int_value 20], [int_value 2, Db_Value.null],
            [int_value 3, int_value 10], [int_value 4, int_value 20]]
        = Res.ok [[int_value 2, Db_Value.null], [int_value 3, int_value 10],
            [int_value 4, int_value 20], [int_value 1, int_value 20]]
      ∧ is_sorted_permutation
          (row_before [.PLAN_COLUMN_REF 1, .PLAN_COLUMN_REF 0] [.TYPE_INT, .TYPE_INT]
            (some [true, false]))
          [[int_value 1, int_value 20], [int_value 2, Db_Value.null],
            [int_value 3, int_value 10], [int_value 4, int_value 20]]
          (order_rows 5 (rows_input [[int_value 1, int_value 20], [int_value 2, Db_Value.null],
              [int_value 3, int_value 10], [int_value 4, int_value 20]])
            [.PLAN_COLUMN_REF 1, .PLAN_COLUMN_REF 0] [.TYPE_INT, .TYPE_INT] [true, false]
            [[int_value 1, int_value 20], [int_value 2, Db_Value.null],
              [int_value 3, int_value 10], [int_value 4, int_value 20]]) = true :=
  ⟨by decide, by decide,
    (C15_order_yields_the_rows_in_the_order_of_their_keys
      (rows_input [[int_value 1, int_value 20], [int_value 2, Db_Value.null],
        [int_value 3, int_value 10], [int_value 4, int_value 20]])
      [.PLAN_COLUMN_REF 1, .PLAN_COLUMN_REF 0] [.TYPE_INT, .TYPE_INT] [true, false]
      [[int_value 1, int_value 20], [int_value 2, Db_Value.null],
        [int_value 3, int_value 10], [int_value 4, int_value 20]] 5
      [[int_value 1, int_value 20], [int_value 2, Db_Value.null],
        [int_value 3, int_value 10], [int_value 4, int_value 20]]
      (by decide) (by decide) (by decide) (by decide) (by decide) (by decide)).1⟩

/-- C16 (counterexample): the rows (9223372036854775807, 10) and (1, 10), grouped by the second
column, are one group whose first column sums up to 9223372036854775808; the `SUM` accumulator
of the output row holds -9223372036854775808, the sum in the 64 bits of `s64`. -/
theorem C16_sum_of_a_group_wraps_in_64_bits :
    (rows_input [[int_value 9223372036854775807, int_value 10], [int_value 1, int_value 10]]).yields
        [[int_value 9223372036854775807, int_value 10], [int_value 1, int_value 10]]
        [[int_value 9223372036854775807, int_value 10], [int_value 1, int_value 10]] = true
      ∧ group_rows 3 [1] [⟨.AGGREGATE_COUNT, 0⟩, ⟨.AGGREGATE_SUM, 0⟩]
          [[int_value 9223372036854775807, int_value 10], [int_value 1, int_value 10]]
        = Res.ok [[int_value 2, int_value (-9223372036854775808), int_value 10]]
      ∧ (operand_values 0 (rows_of_key [1] [10]
          [[int_value 9223372036854775807, int_value 10], [int_value 1, int_value 10]])).sum
        = 9223372036854775808 := by
  refine ⟨by decide, by decide, by decide⟩

/-- C16 (amended): over an operand that yields `rows`, with a non-empty list of key columns that hold
non-null integers in every row and aggregates over columns of the rows, the calls of `next` on a
`PLAN_GROUP` node return output rows (the accumulators, then the key values) whose key vectors
are strictly ascending, so no key vector comes twice; every key vector of a row of the operand
has its output row and every output row has the key vector of a row of the operand; and in the
output row of a key vector every `SUM` accumulator holds the sum (modulo 2^64, as `s64`) of the
non-null values of its column over the rows with that key vector and every `COUNT` accumulator
holds the number of those values. -/
theorem C16_group_yields_one_row_per_key_vector_with_sum_and_count {σ : Type} (I : Input σ)
    (key_cols : List Nat) (aggs : List Aggregate)
    (rows : List Db_Row) (fuel : Nat) (s : σ)
    (hne : key_cols ≠ [])
    (hrows : I.yields s rows = true)
    (hkeys : ∀ r ∈ rows, ∀ i ∈ key_cols,
      i < r.length ∧ (r.getD i Db_Value.null).is_null = false)
    (hrefs : ∀ r ∈ rows, ∀ a ∈ aggs, a.ref < r.length)
    (hfuel : rows.length < fuel) (hlen : rows.length < 2 ^ 63) :
    ∃ out, plan_group_rows fuel I (key_cols.map Plan.PLAN_COLUMN_REF)
        (key_cols.map (fun _ => Type_Tag.TYPE_INT)) aggs s = Res.ok out
      ∧ out.Pairwise (fun o1 o2 => key_vector_lt (output_key_vector aggs.length o1)
          (output_key_vector aggs.length o2) = true)
      ∧ (∀ r ∈ rows, ∃ o ∈ out, output_key_vector aggs.length o = key_vector key_cols r)
      ∧ ∀ o ∈ out, (∃ r ∈ rows, key_vector key_cols r = output_key_vector aggs.length o)
          ∧ ∀ (j : Nat) (a : Aggregate), aggs.get? j = some a →
            (a.tag = Aggregate_Tag.AGGREGATE_SUM → o.get? j = some (int_value (wrap64
              (operand_values a.ref
                (rows_of_key key_cols (output_key_vector aggs.length o) rows)).sum)))
            ∧ (a.tag = Aggregate_Tag.AGGREGATE_COUNT → o.get? j = some (int_value
              (operand_values a.ref
                (rows_of_key key_cols (output_key_vector aggs.length o) rows)).length)) := by
  have hsk : ∀ r ∈ rows, sort_item_keys r (key_cols.map Plan.PLAN_COLUMN_REF)
      = Res.ok (key_cols.map (fun i => r.getD i Db_Value.null)) :=
    fun r hr => sort_item_keys_cols r key_cols (fun i hi => (hkeys r hr i hi).1)
  have hrk : ∀ r ∈ rows, row_keys (key_cols.map Plan.PLAN_COLUMN_REF) r
      = key_cols.map (fun i => r.getD i Db_Value.null) := by
    intro r hr
    unfold row_keys
    rw [hsk r hr]
    rfl
  have hkv : ∀ r ∈ rows, (row_keys (key_cols.map Plan.PLAN_COLUMN_REF) r).map Db_Value.integer
      = key_vector key_cols r := by
    intro r hr
    rw [hrk r hr, List.map_map]
    rfl
  have htypes : ∀ t ∈ key_cols.map (fun _ => Type_Tag.TYPE_INT), t = Type_Tag.TYPE_INT := by
    intro t ht
    obtain ⟨_, _, rfl⟩ := List.mem_map.mp ht
    rfl
  obtain ⟨sorted, s1, hnew, hperm, hsort⟩ := sorter_new_sorted I
    (key_cols.map Plan.PLAN_COLUMN_REF) (key_cols.map (fun _ => Type_Tag.TYPE_INT)) none rows
    fuel s (fun t ht => Or.inl (htypes t ht)) (by simp) (by intro ds h; cases h) hrows
    (by intro r hr; rw [hsk r hr]; rfl) hfuel
  have hmem : ∀ x ∈ sorted, ∃ r ∈ rows,
      x = ⟨r, row_keys (key_cols.map Plan.PLAN_COLUMN_REF) r⟩ := by
    intro x hx
    obtain ⟨r, hr, rfl⟩ := List.mem_map.mp (hperm.subset hx)
    exact ⟨r, hr, rfl⟩
  have hwf : ∀ x ∈ sorted, x.keys = key_cols.map (fun i => x.row.getD i Db_Value.null)
      ∧ (∀ i ∈ key_cols, i < x.row.length) ∧ ∀ a ∈ aggs, a.ref < x.row.length := by
    intro x hx
    obtain ⟨r, hr, rfl⟩ := hmem x hx
    exact ⟨hrk r hr, fun i hi => (hkeys r hr i hi).1, hrefs r hr⟩
  have hl : sorted.length = rows.length := by simpa using hperm.length_eq
  have hs : sorted.Pairwise (fun a b => key_vector_lt (b.keys.map Db_Value.integer)
      (a.keys.map Db_Value.integer) = false) := by
    refine hsort.imp_of_mem ?_
    intro a b ha hb hab
    have hnn : ∀ x ∈ sorted, ∀ v ∈ x.keys, v.is_null = false := by
      intro x hx v hv
      obtain ⟨r, hr, rfl⟩ := hmem x hx
      simp only [hrk r hr] at hv
      obtain ⟨i, hi, rfl⟩ := List.mem_map.mp hv
      exact (hkeys r hr i hi).2
    have hkl : ∀ x ∈ sorted, x.keys.length
        = (key_cols.map (fun _ => Type_Tag.TYPE_INT)).length := by
      intro x hx
      rw [(hwf x hx).1]
      simp
    rw [← rank_lt_key_vector _ b.keys a.keys htypes (hkl b hb) (hkl a ha) (hnn b hb) (hnn a ha)]
    exact hab
  cases fuel with
  | zero => omega
  | succ fuel =>
    obtain ⟨out, P1, hd, q1, q2, q3⟩ := plan_group_drain_sorted (fuel + 1) I key_cols aggs sorted
      s1 hne hwf (by omega) hs sorted.length 0 (fuel + 1) (by omega) (Nat.zero_le _) (by omega)
    simp only [List.drop_zero] at q1 q2
    have hout : plan_group_rows (fuel + 1) I (key_cols.map Plan.PLAN_COLUMN_REF)
        (key_cols.map (fun _ => Type_Tag.TYPE_INT)) aggs s = Res.ok out := by
      unfold plan_group_rows
      rw [drain_congr _ _ _ (⟨key_cols.map Plan.PLAN_COLUMN_REF,
        key_cols.map (fun _ => Type_Tag.TYPE_INT), aggs, some ⟨0, sorted⟩, s1⟩ : Plan_Group σ),
        hd]
      · rfl
      · have hk : ((key_cols.map Plan.PLAN_COLUMN_REF).length == 0) = false := by
          cases key_cols with
          | nil => exact absurd rfl hne
          | cons a l => rfl
        simp only [plan_group, plan_group_next, plan_group_new, hk, hnew, Res.ok_bind, pure,
          Bool.false_eq_true, if_false]
    have hgroup : ∀ r ∈ rows,
        ((sorted.filter (fun w => w.keys.map Db_Value.integer
          == (row_keys (key_cols.map Plan.PLAN_COLUMN_REF) r).map Db_Value.integer)).map
            Sort_Item.row).Perm (rows_of_key key_cols (key_vector key_cols r) rows) := by
      intro r hr
      have h1 := (hperm.filter (fun w => w.keys.map Db_Value.integer
        == (row_keys (key_cols.map Plan.PLAN_COLUMN_REF) r).map Db_Value.integer)).map
          Sort_Item.row
      refine h1.trans ?_
      rw [List.filter_map, List.map_map]
      have e1 : (Sort_Item.row ∘ fun r => (⟨r, row_keys (key_cols.map Plan.PLAN_COLUMN_REF) r⟩
          : Sort_Item)) = id := rfl
      rw [e1, List.map_id]
      unfold rows_of_key
      rw [← hkv r hr]
      refine List.Perm.of_eq (List.filter_congr ?_)
      intro x hx
      simp only [Function.comp, hkv x hx]
    refine ⟨out, hout, q3, ?_, ?_⟩
    · intro r hr
      have hx : (⟨r, row_keys (key_cols.map Plan.PLAN_COLUMN_REF) r⟩ : Sort_Item) ∈ sorted :=
        hperm.symm.subset (List.mem_map.mpr ⟨r, hr, rfl⟩)
      refine ⟨_, q2 _ hx, ?_⟩
      rw [output_key_vector_filter aggs sorted _ hx]
      exact hkv r hr
    · intro o ho
      obtain ⟨x, hx, hox⟩ := q1 o ho
      obtain ⟨r, hr, rfl⟩ := hmem x hx
      have hok : output_key_vector aggs.length o = key_vector key_cols r := by
        rw [hox, output_key_vector_filter aggs sorted _ hx]
        exact hkv r hr
      refine ⟨⟨r, hr, hok.symm⟩, ?_⟩
      intro j a hja
      have hg := hgroup r hr
      have hov : ∀ ref, (operand_values ref ((sorted.filter (fun w => w.keys.map Db_Value.integer
          == (row_keys (key_cols.map Plan.PLAN_COLUMN_REF) r).map Db_Value.integer)).map
            Sort_Item.row)).Perm
          (operand_values ref (rows_of_key key_cols (key_vector key_cols r) rows)) := by
        intro ref
        unfold operand_values
        exact ((hg.map _).filter _).map _
      have hglen : (sorted.filter (fun w => w.keys.map Db_Value.integer
          == (row_keys (key_cols.map Plan.PLAN_COLUMN_REF) r).map Db_Value.integer)).length
          ≤ rows.length := by
        rw [← hl]
        exact List.length_filter_le _ _
      rw [hok, hox, group_output_get? aggs _ j a hja]
      constructor
      · intro ht
        rw [foldl_aggregate_round_sum a ht _ 0 (by decide), (hov a.ref).sum_eq]
        simp [aggregate_finish, ht]
      · intro ht
        rw [foldl_aggregate_round_count a ht _ 0 (le_refl _)
          (by simp only [List.length_map]; omega), (hov a.ref).length_eq]
        simp [aggregate_finish, ht]

/-- C16 (amended), an instance: the rows (1,10), (2,20), (3,10) grouped by the second column give count 2
and sum 4 for the key 10 and count 1 and sum 2 for the key 20. -/
theorem C16_group_witness :
    (rows_input [[int_value 1, int_value 10], [int_value 2, int_value 20], [int_value 3, int_value 10]]).yields
        [[int_value 1, int_value 10], [int_value 2, int_value 20], [int_value 3, int_value 10]]
        [[int_value 1, int_value 10], [int_value 2, int_value 20], [int_value 3, int_value 10]] = true
      ∧ group_rows 4 [1] [⟨.AGGREGATE_COUNT, 0⟩, ⟨.AGGREGATE_SUM, 0⟩]
          [[int_value 1, int_value 10], [int_value 2, int_value 20], [int_value 3, int_value 10]]
        = Res.ok [[int_value 2, int_value 4, int_value 10], [int_value 1, int_value 2, int_value 20]]
      ∧ ∃ out, plan_group_rows 4
          (rows_input [[int_value 1, int_value 10], [int_value 2, int_value 20], [int_value 3, int_value 10]])
          ([1].map Plan.PLAN_COLUMN_REF) ([1].map (fun _ => Type_Tag.TYPE_INT))
          [⟨.AGGREGATE_COUNT, 0⟩, ⟨.AGGREGATE_SUM, 0⟩]
          [[int_value 1, int_value 10], [int_value 2, int_value 20], [int_value 3, int_value 10]]
          = Res.ok out
        ∧ out.Pairwise (fun o1 o2 => key_vector_lt
            (output_key_vector ([⟨.AGGREGATE_COUNT, 0⟩, ⟨.AGGREGATE_SUM, 0⟩] : List Aggregate).length o1)
            (output_key_vector ([⟨.AGGREGATE_COUNT, 0⟩, ⟨.AGGREGATE_SUM, 0⟩] : List Aggregate).length o2) = true)
        ∧ (∀ r ∈ ([[int_value 1, int_value 10], [int_value 2, int_value 20], [int_value 3, int_value 10]] : List Db_Row),
            ∃ o ∈ out, output_key_vector ([⟨.AGGREGATE_COUNT, 0⟩, ⟨.AGGREGATE_SUM, 0⟩] : List Aggregate).length o = key_vector [1] r)
        ∧ ∀ o ∈ out,
          (∃ r ∈ ([[int_value 1, int_value 10], [int_value 2, int_value 20], [int_value 3, int_value 10]] : List Db_Row),
            key_vector [1] r = output_key_vector ([⟨.AGGREGATE_COUNT, 0⟩, ⟨.AGGREGATE_SUM, 0⟩] : List Aggregate).length o)
          ∧ ∀ (j : Nat) (a : Aggregate),
            ([⟨.AGGREGATE_COUNT, 0⟩, ⟨.AGGREGATE_SUM, 0⟩] : List Aggregate).get? j = some a →
            (a.tag = Aggregate_Tag.AGGREGATE_SUM → o.get? j = some (int_value (wrap64
              (operand_values a.ref (rows_of_key [1]
                (output_key_vector ([⟨.AGGREGATE_COUNT, 0⟩, ⟨.AGGREGATE_SUM, 0⟩] : List Aggregate).length o)
                [[int_value 1, int_value 10], [int_value 2, int_value 20], [int_value 3, int_value 10]])).sum)))
            ∧ (a.tag = Aggregate_Tag.AGGREGATE_COUNT → o.get? j = some (int_value
              (operand_values a.ref (rows_of_key [1]
                (output_key_vector ([⟨.AGGREGATE_COUNT, 0⟩, ⟨.AGGREGATE_SUM, 0⟩] : List Aggregate).length o)
                [[int_value 1, int_value 10], [int_value 2, int_value 20], [int_value 3, int_value 10]])).length)) :=
  ⟨by decide, by decide,
    C16_group_yields_one_row_per_key_vector_with_sum_and_count
      (rows_input [[int_value 1, int_value 10], [int_value 2, int_value 20], [int_value 3, int_value 10]])
      [1] [⟨.AGGREGATE_COUNT, 0⟩, ⟨.AGGREGATE_SUM, 0⟩]
      [[int_value 1, int_value 10], [int_value 2, int_value 20], [int_value 3, int_value 10]] 4
      [[int_value 1, int_value 10], [int_value 2, int_value 20], [int_value 3, int_value 10]]
      (by decide) (by decide) (by decide) (by decide) (by decide) (by decide)⟩

/-- C17 (fails on the code): over the rows with operand 5 and 7 in one group (key 1) the `MIN`
aggregate yields 0 and the `MAX` aggregate yields 0, not 5 and 7: the accumulators start at 0
and both cases of the macro `AGGREGATE` replace the accumulator only by a smaller value. Over
the operands -3 and -1 `MIN` yields -3 and `MAX` yields -3 as well. -/
theorem C17_min_and_max_keep_the_smaller_of_zero_and_the_values :
    group_rows 16 [1] [⟨.AGGREGATE_MIN, 0⟩, ⟨.AGGREGATE_MAX, 0⟩]
        [[int_value 5, int_value 1], [int_value 7, int_value 1]]
        = Res.ok [[int_value 0, int_value 0, int_value 1]]
      ∧ group_rows 16 [1] [⟨.AGGREGATE_MIN, 0⟩, ⟨.AGGREGATE_MAX, 0⟩]
        [[int_value (-3), int_value 1], [int_value (-1), int_value 1]]
        = Res.ok [[int_value (-3), int_value (-3), int_value 1]] := by
  decide

/-- C18 (fails on the code): of three rows with the keys NULL, 0 and 5, the rows with the keys
NULL and 0 end up in one group (count 2, emitted with key 0) and only the key 5 gets a group of
its own: `value_match` compares the integer members and does not look at `is_null`. -/
theorem C18_null_key_is_grouped_with_key_zero :
    group_rows 16 [1] [⟨.AGGREGATE_COUNT, 0⟩]
        [[int_value 1, Db_Value.null], [int_value 2, int_value 0], [int_value 3, int_value 5]]
      = Res.ok [[int_value 2, int_value 0], [int_value 1, int_value 5]] := by
  decide

/-- C19 (fails on the code): with two outer rows and an inner operand without rows the cross
join and the inner join do not return "nothing": after `reset(run, op2)` the row of the inner
operand is used without a test for `NULL`. With one inner row the two outer rows give the two
concatenations in order, and with one outer row and no inner row the result is empty. -/
theorem C19_join_with_empty_inner_dereferences_null :
    cross_join_rows 16 [[int_value 1], [int_value 2]] [] = Res.fault
      ∧ inner_join_rows 16 (.PLAN_LITERAL_BOOL true) [[int_value 1], [int_value 2]] []
        = Res.fault
      ∧ cross_join_rows 16 [[int_value 1], [int_value 2]] [[int_value 7]]
        = Res.ok [[int_value 1, int_value 7], [int_value 2, int_value 7]]
      ∧ cross_join_rows 16 [[int_value 1]] [] = Res.ok [] := by
  decide

/-- C20: over an operand that yields the rows `r_1 .. r_N` and then `NULL`, with a limit
`0 <= limit < 2^63` and an offset (`offset.toNat` is the offset when it is not negative), the
calls of `next` on `PLAN_LIMIT` return the rows `r_(offset+1) .. r_(min(N, offset+limit))` in
order, then `NULL`, and every one of `n` further calls returns `NULL` too. More than `N` calls
are allowed for (`fuel`). -/
theorem C20_limit_yields_the_rows_after_the_offset {σ : Type} (I : Input σ) (s : σ)
    (rows : List Db_Row) (offset limit : Int) (fuel n : Nat)
    (hrows : I.yields s rows = true) (hlimit : 0 ≤ limit)
    (hs64 : limit < 2 ^ 63) (hfuel : rows.length < fuel) :
    (plan_limit I).drain_and_more fuel n (plan_limit_new offset limit s)
      = Res.ok ((rows.drop offset.toNat).take limit.toNat, List.replicate n none) := by
  obtain ⟨s1, hskip, hy⟩ := plan_limit_skip_yields I offset.toNat s rows hrows
  cases fuel with
  | zero => omega
  | succ fuel =>
    have key : ∃ P1, (plan_limit I).drain (fuel + 1) (plan_limit_new offset limit s)
        = Res.ok ((rows.drop offset.toNat).take limit.toNat, P1) ∧ P1.state = 2 := by
      by_cases hk : offset.toNat ≤ rows.length
      · have hn : (plan_limit I).next (plan_limit_new offset limit s)
            = (plan_limit I).next ⟨limit, offset, 0, 1, s1⟩ := by
          rw [plan_limit_next_emit I ⟨limit, offset, 0, 1, s1⟩ rfl]
          show plan_limit_next I (plan_limit_new offset limit s) = _
          simp [plan_limit_next, plan_limit_new, hskip, hk, Res.ok_bind]
        rw [drain_congr _ _ _ _ hn]
        obtain ⟨P1, hd, hs1⟩ := plan_limit_emitting I (rows.drop offset.toNat) (fuel + 1)
          ⟨limit, offset, 0, 1, s1⟩ rfl (le_refl _) hlimit hs64 (hy hk)
          (by simp only [List.length_drop]; omega)
        exact ⟨P1, by simpa using hd, hs1⟩
      · refine ⟨⟨limit, offset, 0, 2, s1⟩, ?_, rfl⟩
        rw [drain_none _ _ _ ⟨limit, offset, 0, 2, s1⟩]
        · rw [List.drop_eq_nil_of_le (by omega)]
          simp
        · show plan_limit_next I (plan_limit_new offset limit s) = _
          simp [plan_limit_next, plan_limit_new, hskip, hk, Res.ok_bind, pure]
    obtain ⟨P1, hd, hs1⟩ := key
    unfold Input.drain_and_more
    rw [hd]
    simp only [Res.ok_bind, plan_limit_done I P1 hs1 n, pure]

/-- C20, an instance: three rows with offset 1 and limit 1 give the second row, and two further
calls give nothing. -/
theorem C20_limit_witness :
    (rows_input [[int_value 1], [int_value 2], [int_value 3]]).yields
        [[int_value 1], [int_value 2], [int_value 3]]
        [[int_value 1], [int_value 2], [int_value 3]] = true
      ∧ (plan_limit (rows_input [[int_value 1], [int_value 2], [int_value 3]])).drain_and_more
          4 2 (plan_limit_new 1 1 [[int_value 1], [int_value 2], [int_value 3]])
        = Res.ok ([[int_value 2]], [none, none]) :=
  ⟨by decide,
    C20_limit_yields_the_rows_after_the_offset
      (rows_input [[int_value 1], [int_value 2], [int_value 3]])
      [[int_value 1], [int_value 2], [int_value 3]]
      [[int_value 1], [int_value 2], [int_value 3]] 1 1 4 2 (by decide) (by decide) (by decide)
      (by decide)⟩

/-- C22: on a new database file the page returned by `pager_alloc_page` has the flag
`F_PAGE_HAS_MUTABLE_REF` and reference count 1; after `pager_delete_page` on it the slot still
has the flag, with reference count 0 and on the LRU list, so the rule "flag set implies
reference count 1" does not hold in that state. -/
theorem C22_deleted_page_keeps_the_mutable_flag :
    (Paging.run_on_new_pager [.alloc_page]).toOption.map
        (fun P => (Paging.slots P, P.lru, P.free_page, Paging.mutable_flag_rule P))
      = some ([(1, true, 1)], [], 0, true)
    ∧ (Paging.run_on_new_pager [.alloc_page, .delete_page 0 0]).toOption.map
        (fun P => (Paging.slots P, P.lru, P.free_page, Paging.mutable_flag_rule P))
      = some ([(1, true, 0)], [0], 1, false) := by
  constructor <;> decide

/-- C23: `pager_alloc_page` with a non-zero free-list head `f` (in a file that holds page `f`,
when `get_empty_cache_slot` finds a slot) returns a slot with id `f`, reference count 1 and the
mutable flag; the new head is the little-endian u32 in the last 4 bytes of page `f` in the
file and the page count is unchanged. With head 0 the id is the page count, which is
incremented (in 32 bits), and the head stays 0. `pager_delete_page` on a page with one
reference and a non-zero id (page size at least 68, head a 32-bit value) returns true and
makes that id the head; `pager_alloc_page` right after it returns a slot with that id and
restores the head. -/
theorem C23_alloc_page_takes_the_free_list_head_or_appends (pager : Paging.Pager) :
    (pager.free_page ≠ 0 → Paging.slot_available pager = true → 4 ≤ Paging.PSIZE pager →
        Paging.page_id_to_file_offset pager pager.free_page + Paging.PSIZE pager
          ≤ pager.file_size →
        ∃ slot P1 page1, Paging.pager_alloc_page pager = Res.ok (slot, P1)
          ∧ P1.pages.get? slot = some page1 ∧ page1.id = pager.free_page
          ∧ page1.ref_count = 1
          ∧ hasFlag page1.flags Paging.F_PAGE_HAS_MUTABLE_REF = true
          ∧ P1.free_page = rd pager.file
              (Paging.page_id_to_file_offset pager pager.free_page + (Paging.PSIZE pager - 4)) 4
          ∧ P1.db_file_page_count = pager.db_file_page_count)
      ∧ (pager.free_page = 0 → Paging.slot_available pager = true →
        ∃ slot P1 page1, Paging.pager_alloc_page pager = Res.ok (slot, P1)
          ∧ P1.pages.get? slot = some page1 ∧ page1.id = pager.db_file_page_count
          ∧ page1.ref_count = 1
          ∧ hasFlag page1.flags Paging.F_PAGE_HAS_MUTABLE_REF = true
          ∧ P1.db_file_page_count = u32 (pager.db_file_page_count + 1)
          ∧ P1.free_page = 0)
      ∧ (∀ (ref stack : Nat) (page : Paging.Page), pager.pages.get? ref = some page →
        page.ref_count = 1 → page.id ≠ 0 → 68 ≤ Paging.PSIZE pager →
        pager.free_page < 2 ^ 32 →
        ∃ P1, Paging.pager_delete_page pager ref stack = Res.ok (true, P1)
          ∧ P1.free_page = page.id
          ∧ (Paging.slot_available P1 = true →
            ∃ slot P2 page2, Paging.pager_alloc_page P1 = Res.ok (slot, P2)
              ∧ P2.pages.get? slot = some page2 ∧ page2.id = page.id
              ∧ page2.ref_count = 1
              ∧ hasFlag page2.flags Paging.F_PAGE_HAS_MUTABLE_REF = true
              ∧ P2.free_page = pager.free_page)) := by
  refine ⟨Paging.pager_alloc_page_free, Paging.pager_alloc_page_grow, ?_⟩
  intro ref stack page hget hrc hid hps hfp
  refine ⟨_, Paging.pager_delete_page_one stack hget hrc (by omega), rfl, ?_⟩
  intro hslot
  obtain ⟨slot, P2, page2, h1, h2, h3, h4, h5, h6, _⟩ := Paging.pager_alloc_page_free
    (by simpa [Paging.lru_add, Paging.Pager.setPage, Paging.header_write_to_disk,
      Paging.fs_write_to_file] using hid) hslot
    (by simpa [Paging.lru_add, Paging.Pager.setPage, Paging.header_write_to_disk,
      Paging.fs_write_to_file, Paging.PSIZE] using (show 4 ≤ pager.page_size by
        unfold Paging.PSIZE at hps; omega))
    (by simp [Paging.lru_add, Paging.Pager.setPage, Paging.header_write_to_disk,
      Paging.fs_write_to_file, Paging.PSIZE, Paging.page_id_to_file_offset])
  refine ⟨slot, P2, page2, h1, h2, h3, h4, h5, ?_⟩
  rw [h6]
  have hps' : 68 ≤ pager.page_size := hps
  simp only [Paging.lru_add, Paging.Pager.setPage, Paging.header_write_to_disk,
    Paging.fs_write_to_file, Paging.PSIZE, Paging.page_id_to_file_offset,
    Paging.FILE_HEADER_SIZE]
  rw [rd_wr_above _ _ _ _ _ _ (by omega), Paging.rd_wr_inside _ _ _ _ _ _ (by omega),
    rd_mod _ _ _ _ (by omega), rd_wr_same]
  exact Nat.mod_eq_of_lt hfp

/-- C23, an instance: on `allocated_page_pager` (page 1 in slot 0 with one reference, head 0)
`pager_delete_page` makes 1 the head, a slot is available, and `pager_alloc_page` returns a
slot that holds page 1 and sets the head back to 0. -/
theorem C23_alloc_page_witness :
    (Paging.allocated_page_pager.pages.get? 0 = some ⟨1, 0, 0, 1, 1⟩
        ∧ 68 ≤ Paging.PSIZE Paging.allocated_page_pager
        ∧ Paging.allocated_page_pager.free_page < 2 ^ 32)
      ∧ ∃ P1, Paging.pager_delete_page Paging.allocated_page_pager 0 0 = Res.ok (true, P1)
        ∧ P1.free_page = 1 ∧ Paging.slot_available P1 = true
        ∧ ∃ slot P2 page2, Paging.pager_alloc_page P1 = Res.ok (slot, P2)
          ∧ P2.pages.get? slot = some page2 ∧ page2.id = 1 ∧ page2.ref_count = 1
          ∧ hasFlag page2.flags Paging.F_PAGE_HAS_MUTABLE_REF = true
          ∧ P2.free_page = 0 := by
  have hyp : Paging.allocated_page_pager.pages.get? 0 = some ⟨1, 0, 0, 1, 1⟩
      ∧ 68 ≤ Paging.PSIZE Paging.allocated_page_pager
      ∧ Paging.allocated_page_pager.free_page < 2 ^ 32 := by
    refine ⟨by decide, by decide, by decide⟩
  have hfree : Paging.allocated_page_pager.free_page = 0 := by decide
  obtain ⟨P1, h1, h2, h3⟩ :=
    (C23_alloc_page_takes_the_free_list_head_or_appends Paging.allocated_page_pager).2.2
      0 0 ⟨1, 0, 0, 1, 1⟩ hyp.1 rfl (by decide) hyp.2.1 hyp.2.2
  have hslot : Paging.slot_available P1 = true :=
    Paging.pager_delete_page_available 0 hyp.1 rfl (by decide) (by decide) h1
  obtain ⟨slot, P2, page2, h4, h5, h6, h7, h8, h9⟩ := h3 hslot
  exact ⟨hyp, P1, h1, h2, hslot, slot, P2, page2, h4, h5, h6, h7, h8, by rw [h9, hfree]⟩

/-- C24 (the claim without a bound on the run): on a new database file, after
`pager_alloc_page` and `pager_unref_page` the one slot in use has no reference and is on the
LRU list; after 2^32 further calls of `pager_get_page(1)` the 32-bit reference count of the slot
is 0 again, but the slot is not on the LRU list: no slot has a reference, the LRU list is
empty, and one slot is in use. -/
theorem C24_reference_count_wraps_to_zero_off_the_lru_list :
    (Paging.run_on_new_pager [.alloc_page, .unref_page 0]).toOption.map
        (fun P => (Paging.slots P, P.lru, Paging.referenced_slots P))
      = some ([(1, false, 0)], [0], 0)
    ∧ (Paging.run_on_new_pager
        ([.alloc_page, .unref_page 0] ++ List.replicate (4294967294 + 2) (.get_page 1))).toOption.map
        (fun P => (Paging.slots P, P.lru, Paging.referenced_slots P))
      = some ([(1, false, 0)], [], 0) := by
  have h0 : Paging.run_on_new_pager [.alloc_page, .unref_page 0]
      = Res.ok Paging.one_page_pager :=
    Res.eq_ok_getD (Paging.run_on_new_pager [.alloc_page, .unref_page 0])
      ⟨0, 0, 0, 0, 0, 0, [], [], [], 0, []⟩ (by decide)
  have hw := @Paging.pager_get_page_wraps Paging.one_page_pager 1 0
      ⟨1, 0, 0, 0, 0⟩ 4294967294 (by norm_num) (by decide) (by decide) (by decide)
      (by decide) (by decide) rfl (by decide)
  have e := (Paging.run_on_new_pager_append
    (List.replicate (4294967294 + 2) (Paging.Pager_Op.get_page 1)) h0).trans hw
  exact ⟨by decide, (congrArg (fun r => r.toOption.map
    (fun P => (Paging.slots P, P.lru, Paging.referenced_slots P))) e).trans (by decide)⟩

/-- C24, amended: in every state that `pager_new` followed by fewer than 2^32 public
operations which return reaches, the number of slots with a reference plus the length of the
LRU list is the number of slots in use, every slot on the LRU list has reference count 0, and
so has the LRU tail, the victim of `get_empty_cache_slot` on a full cache, which therefore does
not fail an `ASSERT` while the list is not empty. -/
theorem C24_lru_rule_holds_below_2_pow_32_operations (file file_size stack : Nat) (raw_pages : List Nat)
    (ops : List Paging.Pager_Op) (pager : Paging.Pager)
    (hrun : (Paging.pager_new file file_size raw_pages stack >>= Paging.pager_ops ops)
      = Res.ok pager)
    (hlen : ops.length < 2 ^ 32) :
    Paging.referenced_slots pager + pager.lru.length = pager.pages.length
      ∧ (∀ slot ∈ pager.lru,
          ∃ page, pager.pages.get? slot = some page ∧ page.ref_count = 0)
      ∧ (∀ v, pager.lru.getLast? = some v →
          (∃ page, pager.pages.get? v = some page ∧ page.ref_count = 0)
            ∧ (¬ pager.pages.length < pager.capacity →
                ∀ id, Paging.get_empty_cache_slot pager id ≠ Res.assertFail)) := by
  rw [Res.bind_eq_ok] at hrun
  obtain ⟨P0, hnew, hops⟩ := hrun
  have hr := Paging.pager_ops_rule ops (Paging.pager_new_rule hnew) (by omega) hops
  refine ⟨Paging.lru_rule_count hr, fun slot hs => (hr.2.1 slot).mp hs, ?_⟩
  intro v hv
  obtain ⟨page, hget, hrc⟩ := (hr.2.1 v).mp (List.mem_of_getLast?_eq_some hv)
  exact ⟨⟨page, hget, hrc⟩, fun hfull id =>
    Paging.get_empty_cache_slot_no_assert id hfull hv hget hrc⟩

/-- C24, an instance: the state of a new database file after `pager_alloc_page` and
`pager_unref_page`. -/
theorem C24_lru_rule_witness :
    ((Paging.pager_new 0 0 [] 0 >>= Paging.pager_ops [.alloc_page, .unref_page 0])
        = Res.ok Paging.one_page_pager
      ∧ ([Paging.Pager_Op.alloc_page, .unref_page 0]).length < 2 ^ 32)
    ∧ Paging.referenced_slots Paging.one_page_pager + Paging.one_page_pager.lru.length
        = Paging.one_page_pager.pages.length
    ∧ ∀ slot ∈ Paging.one_page_pager.lru,
        ∃ page, Paging.one_page_pager.pages.get? slot = some page ∧ page.ref_count = 0 :=
  have hrun : (Paging.pager_new 0 0 [] 0 >>= Paging.pager_ops [.alloc_page, .unref_page 0])
      = Res.ok Paging.one_page_pager :=
    Res.eq_ok_getD (Paging.run_on_new_pager [.alloc_page, .unref_page 0])
      ⟨0, 0, 0, 0, 0, 0, [], [], [], 0, []⟩ (by decide)
  have hlen : ([Paging.Pager_Op.alloc_page, .unref_page 0]).length < 2 ^ 32 := by decide
  have h := C24_lru_rule_holds_below_2_pow_32_operations 0 0 0 [] [.alloc_page, .unref_page 0] Paging.one_page_pager hrun hlen
  ⟨⟨hrun, hlen⟩, h.1, h.2.1⟩

/-- C25: `pager_is_page_mutable` never returns false, whatever the flags of the page are: it
computes `flags | F_PAGE_HAS_MUTABLE_REF`. On a new database file, after `pager_alloc_page` and
`pager_unref_page`, the page that `pager_get_page` returns for id 1 has the flag clear and
`pager_is_page_mutable` answers true. -/
theorem C25_is_page_mutable_is_always_true :
    (∀ (pager : Paging.Pager) (ref : Nat), Paging.pager_is_page_mutable pager ref ≠ Res.ok false)
      ∧ (do let pager ← Paging.run_on_new_pager [.alloc_page, .unref_page 0]
            Paging.get_page_is_mutable pager 1) = Res.ok (some (false, true)) := by
  refine ⟨?_, by decide⟩
  intro pager ref
  unfold Paging.pager_is_page_mutable Paging.Pager.page
  cases pager.pages.get? ref with
  | none => simp [Bind.bind, Res.bind]
  | some p =>
    simp only [Bind.bind, Res.bind, pure, ne_eq, Res.ok.injEq]
    unfold setFlag hasFlag Paging.F_PAGE_HAS_MUTABLE_REF
    split <;> simp_all
    omega

/-- C26: the 64 bytes that `header_write_to_disk` writes hold the title in bytes 0-18, the page
size as little-endian u16 in bytes 19-20 and the free-list head as little-endian u32 in bytes
21-24, and `header_read_from_disk` recovers both values; bytes 25-63 are the bytes the array on
the stack held before, which the function never writes: with a stack of bytes 255 the header of
a new database file ends in 39 bytes 255. -/
theorem C26_header_keeps_the_stack_bytes_after_the_fields :
    (∀ page_size free_page stack : Nat,
        rd (Paging.header_bytes page_size free_page stack) 0 19
            = bytesToNat Paging.FILE_HEADER_TITLE
          ∧ rd (Paging.header_bytes page_size free_page stack) 19 2 = page_size % 2 ^ 16
          ∧ rd (Paging.header_bytes page_size free_page stack) 21 4 = free_page % 2 ^ 32
          ∧ rd (Paging.header_bytes page_size free_page stack) 25 39 = rd stack 25 39)
      ∧ (∀ (pager : Paging.Pager) (stack : Nat),
          (Paging.header_read_from_disk (Paging.header_write_to_disk pager stack)).toOption.map
              (fun P => (P.page_size, P.free_page))
            = some (pager.page_size % 2 ^ 16, pager.free_page % 2 ^ 32))
      ∧ rd (Paging.header_bytes 8192 0 (256 ^ 64 - 1)) 25 39 = 256 ^ 39 - 1
      ∧ (Paging.pager_new 0 0 [] (256 ^ 64 - 1)).toOption.map
          (fun P => (P.file_size, rd P.file 19 2, rd P.file 21 4, rd P.file 25 39))
        = some (64, 8192, 0, 256 ^ 39 - 1) := by
  refine ⟨header_bytes_fields, ?_, ?_, ?_⟩
  · intro pager stack
    have h := header_bytes_fields pager.page_size pager.free_page stack
    have hsz : 0 + Paging.FILE_HEADER_SIZE
        ≤ (Paging.header_write_to_disk pager stack).file_size := by
      simp [Paging.header_write_to_disk, Paging.fs_write_to_file]
    simp only [Paging.header_read_from_disk, Paging.fs_read_from_file, hsz, if_true, pure,
      Res.ok_bind, Res.toOption, Option.map_some']
    simp only [Paging.header_write_to_disk, Paging.fs_write_to_file, Paging.PSIZE, rd_wr_same,
      Paging.FILE_HEADER_SIZE, rd_mod _ 64 19 2 (by norm_num), rd_mod _ 64 21 4 (by norm_num),
      h.2.1, h.2.2.1]
  · decide
  · decide

/-- C27 (the claim without a bound): an integer key with a value whose length field is
4294967284 has `key_size + max(val_size, 4) + 2 = 4294967298`, far above 4090, but the sum is
stored in a `u32`, where it is 2: `check_cell_size` passes, and `bcursor_insert` goes on to copy
the value over the end of the page. -/
theorem C27_cell_size_wraps_in_32_bits :
    sizeof_ukey .int (.int 1) + max (sizeof_val 4294967284) 4 + 2 = 4294967298
      ∧ (bengine_new PAGE_SIZE).page_size / 2 = 4090
      ∧ passes_check_cell_size 4294967284 = true
      ∧ build 64 [(1, 4294967284)] = Res.fault := by
  refine ⟨by decide, by decide, by decide, by decide!⟩

/-- C27, amended: when `key_size + max(val_size, 4) + 2` is below 2^32 (and the page size is a
`u16` of at least 12), `check_cell_size` passes exactly when that sum is strictly less than
(full page size - 12) / 2, and when it is not, `bcursor_insert` ends in the failed `ASSERT` for
every engine state, cursor and amount of fuel: the check is its first step, no node is touched
before it. -/
theorem C27_cell_size_check_below_the_u32_range (fuel : Nat) (E : BEngine) (tree : BTree) (C : BCursor) (key : UKey) (val : Val)
    (hsize : sizeof_ukey tree.type key + max (sizeof_val val) 4 + 2 < 2 ^ 32)
    (hmin : 12 ≤ E.full_page_size) (hmax : E.full_page_size < 65536) :
    (check_cell_size E (sizeof_ukey tree.type key) (sizeof_val val) = Res.ok ()
        ↔ sizeof_ukey tree.type key + max (sizeof_val val) 4 + 2 < (E.full_page_size - 12) / 2)
      ∧ (¬ sizeof_ukey tree.type key + max (sizeof_val val) 4 + 2 < (E.full_page_size - 12) / 2
          → bcursor_insert fuel E tree C key val = Res.assertFail) := by
  have hiff := check_cell_size_eq_ok E _ _ hsize
  rw [page_size_eq E hmin hmax] at hiff
  refine ⟨hiff, ?_⟩
  intro h
  have hf := check_cell_size_assertFail E _ _ (fun hok => h (hiff.mp hok))
  unfold bcursor_insert
  simp only [hf]
  rfl

/-- C27, an instance: on the default page size (8180 / 2 = 4090) an integer key with a value of
4079 bytes (sum 4089) passes, with a value of 4080 bytes (sum 4090) `bcursor_insert` fails. -/
theorem C27_cell_size_check_witness :
    (sizeof_ukey (BTree.mk .int 1).type (.int 1) + max (sizeof_val (mk_val 4075 0)) 4 + 2 < 2 ^ 32
        ∧ 12 ≤ (bengine_new PAGE_SIZE).full_page_size
        ∧ (bengine_new PAGE_SIZE).full_page_size < 65536)
      ∧ (check_cell_size (bengine_new PAGE_SIZE) (sizeof_ukey (BTree.mk .int 1).type (.int 1))
            (sizeof_val (mk_val 4075 0)) = Res.ok ()
          ↔ sizeof_ukey (BTree.mk .int 1).type (.int 1) + max (sizeof_val (mk_val 4075 0)) 4 + 2
              < ((bengine_new PAGE_SIZE).full_page_size - 12) / 2)
      ∧ (¬ sizeof_ukey (BTree.mk .int 1).type (.int 1) + max (sizeof_val (mk_val 4076 0)) 4 + 2
              < ((bengine_new PAGE_SIZE).full_page_size - 12) / 2
          → bcursor_insert 64 (bengine_new PAGE_SIZE) (BTree.mk .int 1) bcursor_new (.int 1) (mk_val 4076 0)
              = Res.assertFail) :=
  ⟨⟨by decide!, by decide!, by decide!⟩,
    (C27_cell_size_check_below_the_u32_range 64 (bengine_new PAGE_SIZE) (BTree.mk .int 1) bcursor_new (.int 1) (mk_val 4075 0)
      (by decide!) (by decide!) (by decide!)).1,
    (C27_cell_size_check_below_the_u32_range 64 (bengine_new PAGE_SIZE) (BTree.mk .int 1) bcursor_new (.int 1) (mk_val 4076 0)
      (by decide!) (by decide!) (by decide!)).2⟩

/-- C29 (fails on the code): seven inserts of text keys of 3000 bytes in ascending order,
each returning normally, build a tree on which no cursor is open (no page has a reference, the
free list is empty) and whose root (page 1) has the children 6 and 7; page 6 is an inner node
without cells, left by the split of the inner root (`split_node` moved one cell to the new left
node and deleted it again after taking its child as `rightmost_child`, page 2). `btree_delete`
pushes the root and page 6; its third call of `cursor_goto_next_node` fails
`ASSERT(cursor_idx(cursor) < node->cell_count)` on page 6, so `btree_delete` frees no page. -/
theorem C29_btree_delete_fails_on_an_inner_node_without_cells :
    (do let (E, tree) ← run_on_new_tree 64 .str seven_text_keys
        let root ← E.node tree.root
        let children ← node_children E root
        let n ← E.node 6
        let children6 ← node_children E n
        pure (tree.root, children, node_is_inner n, n.cell_count, children6))
      = Res.ok (1, [6, 7], true, 0, [2])
    ∧ (do let (E, _) ← run_on_new_tree 64 .str seven_text_keys
          pure (referenced_pages E, free_list E E.page_count E.free_page))
      = Res.ok ([], [])
    ∧ (do let (E, tree) ← run_on_new_tree 64 .str seven_text_keys
          let (E1, C1, _) ← cursor_goto_next_node E tree ⟨F_CURSOR_DELETE_NODE_ON_EXIT, []⟩
          let (_, C2, _) ← cursor_goto_next_node E1 tree C1
          pure C2.path) = Res.ok [(6, 0), (1, 0)]
    ∧ (do let (E, tree) ← run_on_new_tree 64 .str seven_text_keys
          let (E1, C1, _) ← cursor_goto_next_node E tree ⟨F_CURSOR_DELETE_NODE_ON_EXIT, []⟩
          let (E2, C2, _) ← cursor_goto_next_node E1 tree C1
          cursor_goto_next_node E2 tree C2) = Res.assertFail
    ∧ (do let (E, tree) ← run_on_new_tree 64 .str seven_text_keys
          btree_delete 64 E tree) = Res.assertFail := by
  refine ⟨by decide!, by decide!, by decide!, by decide!, by decide!⟩

/-- C30 (fails on the code): on the new table `t (id INT PRIMARY KEY, name TEXT)` the
statements `INSERT INTO t VALUES (1, "")` and `INSERT INTO t VALUES (2, "...")` with a text of
4028 bytes store their rows (cells of 30 and 4058 bytes in the root leaf). The third statement,
`INSERT INTO t VALUES (3, "...")` with a text of 4057 bytes, reports no error in its loop, gives
no column null, and its cell passes `check_cell_size`; the root leaf cannot fit it, and
`split_node` computes the split point 2, the number of cells of the leaf (30 + 4058 is below
half of the usable page size, 4090), so `ASSERT(n_cells_to_move < right->cell_count)` fails:
`PLAN_INSERT` does not return and the row is not inserted. -/
theorem C30_insert_of_a_row_without_null_fails_in_split_node :
    (do let (E, table) ← new_table cols_id_name 0
        let E1 ← run_inserts 64 table 0 [id_text_row 1 0, id_text_row 2 4028] E
        let (_, out) ← plan_scan 64 E1 table
        pure out)
      = Res.ok [[⟨false, .integer 1⟩, ⟨false, .string []⟩],
          [⟨false, .integer 2⟩, ⟨false, .string (List.replicate 4028 97)⟩]]
    ∧ (do let (E, table) ← new_table cols_id_name 0
          let E1 ← run_inserts 64 table 0 [id_text_row 1 0, id_text_row 2 4028] E
          let (row, _, err) ← plan_insert_values table 0 (id_text_row 3 4057) [] none
          let bytes ← serialize_row table.cols row
          let (E2, C2, _) ← bcursor_goto_ukey E1 table.tree bcursor_new (.int 3)
          let point ← split_node_point E2 table.tree C2
          pure (err, row.map Db_Value.is_null,
            (check_cell_size E1 8 (sizeof_val (row_val bytes 0))).isOk, E1.page_size / 2, point))
      = Res.ok (false, [false, false], true, 4090, (2, 2))
    ∧ (do let (E, table) ← new_table cols_id_name 0
          let E1 ← run_inserts 64 table 0 [id_text_row 1 0, id_text_row 2 4028] E
          plan_insert 64 E1 table (id_text_row 3 4057) 0) = Res.assertFail := by
  refine ⟨by decide!, by decide!, by decide!⟩

/-- C31 (fails on the code): on the table with the rows (1, 10), (2, 20), (3, 30), a
`PLAN_SCAN` and a `PLAN_FILTER` over it that are run to the end and closed leave no page with
a reference or the mutable flag. A `PLAN_LIMIT` with limit 1 over the scan returns the first
row and then `NULL`; `close` on it does not reach the scan, because `PLAN_LIMIT` is declared
without the base `PLAN_OP1`, and the root page (page 1) keeps its reference and the mutable
flag. The same holds for `PLAN_LIMIT` over the scan of an empty table, and `PLAN_DELETE` and
`PLAN_UPDATE` on an empty table return before `bcursor_close`, so the root page stays
referenced there too. -/
theorem C31_close_does_not_reach_the_scan_under_a_limit :
    (do let (E, table) ← table_of_three_rows
        let r ← run_to_the_end_and_close (plan_scan_input 64) plan_scan_close
          (fun P => P.engine) 64 (plan_scan_new E table)
        pure (r.1.map (row_int 0), r.2)) = Res.ok ([1, 2, 3], [])
    ∧ (do let (E, table) ← table_of_three_rows
          let r ← run_to_the_end_and_close (plan_filter 64 (plan_scan_input 64))
            (plan_filter_close plan_scan_close) (fun P => P.op.engine) 64
            ⟨id_equals 2, plan_scan_new E table⟩
          pure (r.1.map (row_int 0), r.2)) = Res.ok ([2], [])
    ∧ plan_has_bases .PLAN_LIMIT PLAN_OP1 = false
    ∧ (do let (E, table) ← table_of_three_rows
          let r ← run_to_the_end_and_close (plan_limit (plan_scan_input 64))
            (plan_limit_close plan_scan_close) (fun P => P.op.engine) 64
            (plan_limit_new 0 1 (plan_scan_new E table))
          pure (r.1.map (row_int 0), r.2)) = Res.ok ([1], [(1, 1, true)])
    ∧ (do let (E, table) ← new_table cols_id_k 0
          let r ← run_to_the_end_and_close (plan_limit (plan_scan_input 64))
            (plan_limit_close plan_scan_close) (fun P => P.op.engine) 64
            (plan_limit_new 0 1 (plan_scan_new E table))
          pure (r.1.map (row_int 0), r.2)) = Res.ok ([], [(1, 1, true)])
    ∧ (do let (E, table) ← new_table cols_id_k 0
          let r ← plan_delete 64 E table (id_equals 2)
          pure (referenced_pages r.engine)) = Res.ok [(1, 1, true)]
    ∧ (do let (E, table) ← new_table cols_id_k 0
          let r ← plan_update 64 E table (id_equals 2) [1] [.PLAN_LITERAL_INT 5] 0
          pure (referenced_pages r.engine)) = Res.ok [(1, 1, true)] := by
  refine ⟨by decide!, by decide!, by decide!, by decide!, by decide!, by decide!, by decide!⟩

/-- C32 (fails on the code): in the tree that holds the keys 14 and 15 with cells of 16 and
4072 bytes, the cursor that `bcursor_goto_ukey(2)` leaves is on the root leaf, which cannot fit
a cell of 4087 bytes, a size that passes `check_cell_size`. The root has no sibling, so
`node_ensure_cell_space` calls `split_node`, whose loop adds 16 and 4072 and stays below half
of the usable page size, 4090: the split point is 2, the number of cells of the node, and the
assertion `n_cells_to_move < right->cell_count` fails. -/
theorem C32_split_point_is_the_cell_count :
    (do let (E, tree, C) ← cursor_for_key_2
        let id ← cursor_node_deref C
        let n ← E.node id
        let point ← split_node_point E tree C
        pure (C.path, node_can_fit_cell n 4087, (check_cell_size E 8 4079).isOk,
          E.page_size / 2, point))
      = Res.ok ([(1, 0)], false, true, 4090, (2, 2))
    ∧ (do let (E, tree, C) ← cursor_for_key_2
          split_node 63 E tree C) = Res.assertFail
    ∧ (do let (E, tree, C) ← cursor_for_key_2
          node_ensure_cell_space 64 E tree C 4087) = Res.assertFail := by
  refine ⟨by decide!, by decide!, by decide!⟩

/-- C33 (fails on the code): in the tree built by inserting 18, 33 and 16, which scans as 16,
18, 33, the cursor that `bcursor_goto_ukey(23)` leaves is on slot 2 of the root leaf, which
cannot fit a cell of 1095 bytes, a size that passes `check_cell_size`;
`node_ensure_cell_space` for that size does not return: it ends in a failed `ASSERT`
(`split_node` moves the first cell to a new left leaf and leaves the cursor in the right one
with the index 0 in the new root, the slot of the left leaf; the right leaf still cannot fit
the cell, and in the next round `cursor_try_get_right_sibling` asks `node_from_page_id` for
the child behind slot 1, the page the cursor itself holds). -/
theorem C33_ensure_cell_space_fails_in_its_second_round :
    (do let (E, _, C) ← cursor_for_key_23
        let id ← cursor_node_deref C
        let n ← E.node id
        pure (C.path, node_is_leaf n, node_can_fit_cell n 1095,
          (check_cell_size E 8 1087).isOk))
      = Res.ok ([(1, 2)], true, false, true)
    ∧ (do let (E, tree, C) ← cursor_for_key_23
          let all ← scan 64 E tree C
          pure (all.map Prod.fst)) = Res.ok [int_key 16, int_key 18, int_key 33]
    ∧ (do let (E, tree, C) ← cursor_for_key_23
          node_ensure_cell_space 64 E tree C 1095) = Res.assertFail := by
  refine ⟨by decide!, by decide!, by decide!⟩

/-- C34 (fails on the code): two sibling leaves under the root, the left one (page 2) with the
key 50 and `cell_area` 4092 below `cell_area_logical` 7992, the right one (page 3) with the
keys 200, 300 and 400, the separator being 100. The first two cells of the right leaf take
2000 + 2076 bytes and two slots, which fits the logical free space 7978 of the left leaf, and
0 < 2 < 3. `node_rotate_cells_left` with n = 2 returns, but the left leaf then holds the keys
50, 200 and 16 and the separator is 16: the slot of the second moved cell was written over the
first two bytes of that cell, so the key 300 is gone from the in-order sequence. -/
theorem C34_rotate_left_into_a_fragmented_leaf_alters_a_key :
    (do let (E, _, _, left, right) ← siblings_for_rotation
        let l ← node_space E left
        let r ← node_space E right
        pure (l, r)) = Res.ok ((1, 4092, 7992, 7978), (3, 3816, 3816, 3798))
    ∧ (do let (E, tree, C, left, right) ← siblings_for_rotation
          leaves_in_order E tree C left right)
        = Res.ok ([(int_key 50, val_bytes (mk_val 188 0))], int_key 100,
            [(int_key 200, val_bytes (mk_val 1988 0)), (int_key 300, val_bytes (mk_val 2064 0)),
             (int_key 400, val_bytes (mk_val 288 0))])
    ∧ (do let (E, tree, C, left, right) ← siblings_for_rotation
          let (E1, C1) ← node_rotate_cells_left 64 E tree C left right 2
          leaves_in_order E1 tree C1 left right)
        = Res.ok ([(int_key 50, val_bytes (mk_val 188 0)),
             (int_key 200, val_bytes (mk_val 1988 0)), (int_key 16, val_bytes (mk_val 2064 0))],
            int_key 16, [(int_key 400, val_bytes (mk_val 288 0))]) := by
  refine ⟨by decide!, by decide!, by decide!⟩

/-- C35 (fails on the code): the left leaf (page 2) has one cell, `cell_area` 4092,
`cell_area_logical` 7992 and logical free space 7978; the right leaf (page 3) starts with cells
of 2000 and 2076 bytes (2080 in the second tree). `node_move_cells_left` with n = 2 writes the
slot of the second cell over its first two bytes, because the free space it tests does not
count the slot of the first moved cell: the left leaf ends with the keys 50, 200 and 16, not
300. With the cell of 2080 bytes `node_alloc_cell` defragments the left leaf in the middle of
the move; `node_defragment` visits `cell_count` cells, which does not count the moved cell, and
its `ASSERT(offset == node->cell_area_logical)` fails. -/
theorem C35_move_cells_left_alters_a_cell_or_fails :
    (do let (E, tree) ← fragmented_left_leaf 2064
        let l ← node_space E 2
        let before_left ← leaf_entries E tree 2
        let before_right ← leaf_entries E tree 3
        pure (l, before_left, before_right))
      = Res.ok ((1, 4092, 7992, 7978), [(int_key 50, val_bytes (mk_val 188 0))],
          [(int_key 200, val_bytes (mk_val 1988 0)), (int_key 300, val_bytes (mk_val 2064 0)),
           (int_key 400, val_bytes (mk_val 288 0))])
    ∧ (do let (E, tree) ← fragmented_left_leaf 2064
          let E1 ← node_move_cells_left E tree 2 3 2
          let after_left ← leaf_entries E1 tree 2
          let after_right ← leaf_entries E1 tree 3
          pure (after_left, after_right))
        = Res.ok ([(int_key 50, val_bytes (mk_val 188 0)),
             (int_key 200, val_bytes (mk_val 1988 0)), (int_key 16, val_bytes (mk_val 2064 0))],
            [(int_key 400, val_bytes (mk_val 288 0))])
    ∧ (do let (E, tree) ← fragmented_left_leaf 2068
          let l ← node_space E 2
          let before_right ← leaf_entries E tree 3
          pure (l, before_right))
        = Res.ok ((1, 4092, 7992, 7978),
            [(int_key 200, val_bytes (mk_val 1988 0)), (int_key 300, val_bytes (mk_val 2068 0)),
             (int_key 400, val_bytes (mk_val 288 0))])
    ∧ (do let (E, tree) ← fragmented_left_leaf 2068
          node_move_cells_left E tree 2 3 2) = Res.assertFail := by
  refine ⟨by decide!, by decide!, by decide!, by decide!⟩

/-- C36 (fails on the code): two root leaves of integer keys in one file. The left one
holds one cell of 3012 bytes; the right one held three cells of 2700 bytes
and lost them again, so it has no cells, `cell_area` 2792, `cell_area_logical` 8192 and logical
free space 8180. `node_move_cells_right` with n = 1 does not prepend the cell: `node_alloc_cell`
calls `node_defragment`, which returns at once on a node without cells, and the cell is then
allocated at 2792 - 3012 in `u16`, outside the page. -/
theorem C36_move_cells_right_into_an_emptied_node_leaves_the_page :
    (do let (E, left, right) ← leaf_and_emptied_leaf
        let l ← node_space E left.root
        let r ← node_space E right.root
        pure (l, r)) = Res.ok ((1, 5180, 5180, 5166), (0, 2792, 8192, 8180))
    ∧ (do let (E, left, _) ← leaf_and_emptied_leaf
          leaf_entries E left left.root) = Res.ok [(int_key 1, val_bytes (mk_val 3000 0))]
    ∧ (do let (E, left, right) ← leaf_and_emptied_leaf
          node_move_cells_right E left left.root right.root 1) = Res.fault := by
  refine ⟨by decide!, by decide!, by decide!⟩

/-- C37 (fails on the code): the root leaf that held the keys 1, 2, 3 with cells of 2700 bytes
and lost them again has no cells, `cell_area` 2792 and `cell_area_logical` 8192.
`node_defragment` returns on its first line and leaves the engine as it was: `cell_area` is
still 2792, not `cell_area_logical`. -/
theorem C37_defragment_leaves_an_emptied_node_as_it_is :
    (do let (E, tree) ← run_on_new_tree 64 .int
          [.insert (.int 1) (mk_val 2688 0), .insert (.int 2) (mk_val 2688 0),
           .insert (.int 3) (mk_val 2688 0), .remove (.int 1), .remove (.int 2),
           .remove (.int 3)]
        let before ← node_space E tree.root
        let E1 ← node_defragment E tree tree.root
        let after ← node_space E1 tree.root
        pure (before, after, decide (E1 = E)))
      = Res.ok ((0, 2792, 8192, 8180), (0, 2792, 8192, 8180), true) := by
  decide!

/-- C38 (fails on the code): for every row that `serialize_row` serialises, into `bytes`, the
length field in the first four bytes is the number of bytes allocated and written, the four
bytes of the field included, and `sizeof_val` of the buffer is four more than that (in 32
bits): the size the engine copies is never the size of the serialised row. -/
theorem C38_sizeof_val_is_four_more_than_the_serialized_row (cols : List Type_Column)
    (row : List Db_Value) (bytes : List Nat) (junk : Nat)
    (h : serialize_row cols row = Res.ok bytes) :
    rd (row_val bytes junk) 0 4 = bytes.length
      ∧ sizeof_val (row_val bytes junk) = u32 (bytes.length + 4)
      ∧ sizeof_val (row_val bytes junk) ≠ bytes.length := by
  unfold serialize_row at h
  simp only [Res.bind_eq_ok, Res.pure_eq_ok] at h
  obtain ⟨L, hl, _, _, body, hb, u, hin, rfl⟩ := h
  have hle : (natToBytes 4 L ++ body).length ≤ L := by
    unfold inBounds at hin
    split at hin
    · rename_i hc; simpa using hc
    · simp at hin
  obtain ⟨hc, hL⟩ := serialize_row_length_congr cols row 0 4 L body hl hb
  replace hL := hL (by norm_num)
  simp only [List.length_append, natToBytes_length] at hle ⊢
  have hlen : 4 + body.length = L := by omega
  have hrd : rd (row_val (natToBytes 4 L ++ body) junk) 0 4 = L := by
    unfold row_val rd
    rw [bytesToNat_natToBytes_append]
    simp only [List.length_append, natToBytes_length, pow_zero, Nat.div_one]
    rw [pow_add, Nat.mul_assoc, Nat.add_assoc, ← Nat.mul_add, Nat.add_mul_mod_self_left,
      Nat.mod_mod]
    exact Nat.mod_eq_of_lt (by norm_num at hL ⊢; exact hL)
  refine ⟨by rw [hrd, hlen], ?_, ?_⟩
  · unfold sizeof_val; rw [hrd, ← hlen]; congr 1; omega
  · unfold sizeof_val; rw [hrd, ← hlen]; unfold u32; omega

/-- C38, an instance: the row (1) of a table with one `INT` column is serialised into 13
bytes with the length field 13, and `sizeof_val` of the buffer is 17. -/
theorem C38_sizeof_val_witness :
    serialize_row [⟨true, .TYPE_INT⟩] [⟨false, .integer 1⟩]
        = Res.ok [13, 0, 0, 0, 0, 1, 0, 0, 0, 0, 0, 0, 0]
      ∧ rd (row_val [13, 0, 0, 0, 0, 1, 0, 0, 0, 0, 0, 0, 0] 3735928559) 0 4
          = ([13, 0, 0, 0, 0, 1, 0, 0, 0, 0, 0, 0, 0] : List Nat).length
      ∧ sizeof_val (row_val [13, 0, 0, 0, 0, 1, 0, 0, 0, 0, 0, 0, 0] 3735928559)
          = u32 (([13, 0, 0, 0, 0, 1, 0, 0, 0, 0, 0, 0, 0] : List Nat).length + 4)
      ∧ sizeof_val (row_val [13, 0, 0, 0, 0, 1, 0, 0, 0, 0, 0, 0, 0] 3735928559)
          ≠ ([13, 0, 0, 0, 0, 1, 0, 0, 0, 0, 0, 0, 0] : List Nat).length :=
  ⟨by decide, C38_sizeof_val_is_four_more_than_the_serialized_row [⟨true, .TYPE_INT⟩]
    [⟨false, .integer 1⟩] _ 3735928559 (by decide)⟩

/-- C39 (fails on the code): on a new database file, `pager_alloc_page` (page 1),
`pager_delete_page` on it and `pager_alloc_page` again, which takes page 1 from the free list.
After the second call the head in the file header and the head in memory are both 1; after the
third call the head in memory is 0 and bytes 21-24 of the file still hold 1, because
`pager_alloc_page` does not call `header_write_to_disk`. After `pager_unref_page` the file
satisfies the checks of `pager_new`, which reads the head 1 from it, and `pager_alloc_page` of
the reopened pager returns page 1, the page that is allocated. -/
theorem C39_alloc_page_leaves_the_old_head_in_the_file_header :
    (Paging.run_on_new_pager [.alloc_page, .delete_page 0 0]).toOption.map
        (fun P => (P.free_page, rd P.file 21 4)) = some (1, 1)
    ∧ (Paging.run_on_new_pager [.alloc_page, .delete_page 0 0, .alloc_page]).toOption.map
        (fun P => (P.free_page, rd P.file 21 4, Paging.slots P))
          = some (0, 1, [(1, true, 0), (1, true, 1)])
    ∧ ((do
          let P ← Paging.run_on_new_pager
            [.alloc_page, .delete_page 0 0, .alloc_page, .unref_page 1]
          let Q ← Paging.pager_new P.file P.file_size [] 0
          let (slot, Q1) ← Paging.pager_alloc_page Q
          let page ← Q1.page slot
          pure (P.free_page, Q.free_page, page.id)) : Res (Nat × Nat × Nat))
        = Res.ok (0, 1, 1) := by
  refine ⟨by decide!, by decide!, by decide!⟩

/-- C40 (fails on the code): `page_id_to_file_offset` is the product of the page id and the page
size reduced modulo 2^32. With the page size 8192 of a new database file the page ids 524288 and
524289 get the file offsets 0 and 8192, the offsets of the file header (page 0) and of page 1,
not 4294967296 and 4294975488. -/
theorem C40_file_offset_wraps_modulo_2_pow_32 :
    (∀ (pager : Paging.Pager) (id : Nat),
        Paging.page_id_to_file_offset pager id = (id * Paging.PSIZE pager) % 2 ^ 32)
      ∧ Paging.PSIZE Paging.allocated_page_pager = 8192
      ∧ Paging.page_id_to_file_offset Paging.allocated_page_pager 524288 = 0
      ∧ Paging.page_id_to_file_offset Paging.allocated_page_pager 524289
          = Paging.page_id_to_file_offset Paging.allocated_page_pager 1
      ∧ Paging.page_id_to_file_offset Paging.allocated_page_pager 524289 ≠ 524289 * 8192 := by
  refine ⟨fun pager id => ?_, by decide, by decide, by decide, by decide⟩
  simp [Paging.page_id_to_file_offset, u32]

end Deeb
